import Mathlib

/-!
# Mount orchestrator of the elemental toolkit (`pkg/action/mount.go`)

A shallow embedding of `RunMount`, `MountVolumes`, `MountEphemeral`,
`MountPersistent`, `MountBindPath`, `MountOverlayPath`, `WriteFstab`,
`InitialFstabData`, `fstab`, `findmnt` and `overlayLine`.

Modelling conventions.

* A Go `string` is a list of characters (`Str`).  All string functions used by
  the source cut at ASCII separators, so the byte view and the character view
  give the same results on valid UTF-8 text.
* The injected capabilities (`cfg.Fs`, `cfg.Mounter`, `cfg.Runner`,
  `utils.SyncData`) are an environment `Env` of functions that see the whole
  history of earlier calls and decide whether the next call fails.  Every
  function of the source threads that history (`Trace`) explicitly: it takes
  the history, appends one `Event` per capability call, and returns the new
  history together with its Go result.
* `cfg.Logger` only writes log lines; it is left out.
* A Go `error` is `Option GoError`, `none` being `nil`.
* The package `constants` is not part of the sources at hand; its values are
  the parameter `Constants`.
-/

namespace Elemental

/-- Go strings, as lists of characters. -/
abbrev Str := List Char

/-! ## Go standard library: `unicode`, `strings`, `bufio`, `filepath`, `regexp` -/

namespace unicode

/-- Go `unicode.IsSpace`: the Latin-1 spaces and the code points with the
Unicode White_Space property. -/
def IsSpace (c : Char) : Bool :=
  let n := c.toNat
  n = 0x09 || n = 0x0A || n = 0x0B || n = 0x0C || n = 0x0D || n = 0x20 ||
  n = 0x85 || n = 0xA0 || n = 0x1680 || (0x2000 ≤ n && n ≤ 0x200A) ||
  n = 0x2028 || n = 0x2029 || n = 0x202F || n = 0x205F || n = 0x3000

end unicode

namespace strings

/-- Go `strings.HasPrefix`. -/
def HasPrefix (s pre : Str) : Bool := pre.isPrefixOf s

/-- Go `strings.TrimPrefix`: `s` without the leading `pre`, or `s` itself when
`s` does not start with `pre`. -/
def TrimPrefix (s pre : Str) : Str :=
  if HasPrefix s pre then s.drop pre.length else s

/-- Go `strings.ReplaceAll s old new` for a one-character `old` and `new` (the
source only calls it with `"/"` and `"-"`). -/
def ReplaceAll (s : Str) (old new : Char) : Str :=
  s.map fun c => if c = old then new else c

/-- Go `strings.Join`. -/
def Join (elems : List Str) (sep : Str) : Str := sep.intercalate elems

/-- Go `strings.Split s sep` for a one-character separator (the source only
calls it with `","`). -/
def Split (s : Str) (sep : Char) : List Str := s.splitOn sep

/-- Go `strings.TrimSpace`. -/
def TrimSpace (s : Str) : Str :=
  ((s.dropWhile unicode.IsSpace).reverse.dropWhile unicode.IsSpace).reverse

/-- Go `strings.Fields`: the maximal runs of non-space characters. -/
def Fields (s : Str) : List Str :=
  (s.splitOnP unicode.IsSpace).filter fun f => !f.isEmpty

end strings

namespace bufio

/-- The `dropCR` helper of `bufio.ScanLines`. -/
def dropCR (data : Str) : Str :=
  match data.reverse with
  | '\r' :: rest => rest.reverse
  | _ => data

/-- The tokens a `bufio.Scanner` with the default split function `ScanLines`
yields on the input `s`: the text between newlines, without a trailing
carriage return; a final empty line is not a token.  (Lines are taken to fit
the scanner's buffer of `bufio.MaxScanTokenSize` bytes.) -/
def ScanLines (s : Str) : List Str :=
  let segs := s.splitOn '\n'
  let segs := if segs.getLast? = some [] then segs.dropLast else segs
  segs.map dropCR

end bufio

namespace filepath

/-- One step of `filepath.Clean` on Unix: `out` is the stack of elements kept
so far (last kept element first), `elem` the next `/`-separated element. -/
def Clean.step (rooted : Bool) (out : List Str) (elem : Str) : List Str :=
  if elem = [] ∨ elem = ['.'] then out
  else if elem = ['.', '.'] then
    match out with
    | [] => if rooted then [] else [elem]
    | top :: rest => if top = ['.', '.'] then elem :: out else rest
  else elem :: out

/-- Go `filepath.Clean` on Unix: drops empty and `.` elements, resolves each
`..` against the element before it, drops `..` at the root, keeps leading `..`
of a relative path, and returns `.` for an empty result. -/
def Clean (path : Str) : Str :=
  if path = [] then ['.']
  else
    let rooted : Bool := path.head? = some '/'
    let out := ((path.splitOn '/').foldl (Clean.step rooted) []).reverse
    if rooted then '/' :: ['/'].intercalate out
    else if out = [] then ['.'] else ['/'].intercalate out

/-- Go `filepath.Join` on Unix: leading empty elements are skipped, the rest is
joined with `/` and cleaned; the result is empty when every element is. -/
def Join (elem : List Str) : Str :=
  match elem.dropWhile (fun e => e.isEmpty) with
  | [] => []
  | es => Clean (['/'].intercalate es)

end filepath

namespace regexp

/-- Whether `.*\]` matches at the head of the text: a closing bracket before
the end of the line. -/
def closes : Str → Bool
  | [] => false
  | c :: cs => if c = ']' then true else if c = '\n' then false else closes cs

/-- Whether `\[.*\]` matches at the head of the text: an opening bracket, then
a closing bracket later on the same line. -/
def bracketed : Str → Bool
  | '[' :: rest => closes rest
  | _ => false

/-- The text matched by the greedy `.+` of the pattern `(/.+)\[.*\]`, tried
at the head of the text: the longest non-empty run of non-newline characters
after which `\[.*\]` matches. -/
def dotPlus : Str → Option Str
  | [] => none
  | c :: cs =>
    if c = '\n' then none
    else
      match dotPlus cs with
      | some m => some (c :: m)
      | none => if bracketed cs then some [c] else none

/-- The first submatch of ``regexp.MustCompile(`(/.+)\[.*\]`).FindStringSubmatch``:
the group `(/.+)` of the leftmost match, `none` when the pattern does not match
(`MatchString` is false). -/
def FindStringSubmatch1 : Str → Option Str
  | [] => none
  | c :: cs =>
    if c = '/' then
      match dotPlus cs with
      | some m => some ('/' :: m)
      | none => FindStringSubmatch1 cs
    else FindStringSubmatch1 cs

end regexp

/-! ## Data model (`pkg/types/v1`, as used by `mount.go`) -/

/-- Go `v1.VolumeMount`. -/
structure VolumeMount where
  Mountpoint : Str
  Device : Str
  Options : List Str
  Persistent : Bool
  deriving DecidableEq, Repr

/-- Go `v1.EphemeralMounts`. -/
structure EphemeralMounts where
  Type_ : Str
  Device : Str
  Size : Str
  Paths : List Str
  deriving DecidableEq, Repr

/-- Go `v1.PersistentMounts`. -/
structure PersistentMounts where
  Mode : Str
  Paths : List Str
  deriving DecidableEq, Repr

/-- Go `v1.MountSpec`. -/
structure MountSpec where
  WriteFstab : Bool
  Ephemeral : EphemeralMounts
  Persistent : PersistentMounts
  Volumes : List VolumeMount
  Sysroot : Str
  deriving DecidableEq, Repr

/-- The values of package `constants` that `mount.go` reads. -/
structure Constants where
  OverlayDir : Str
  PersistentDir : Str
  PersistentStateDir : Str
  RunElementalDir : Str
  RunningStateDir : Str
  Tmpfs : Str
  Block : Str
  Autofs : Str
  OverlayMode : Str
  BindMode : Str

/-- A Go error: a plain error with its message, or a `*multierror.Error` with
the messages of the errors it wraps. -/
inductive GoError where
  | plain (msg : Str)
  | multi (msgs : List Str)
  deriving DecidableEq, Repr

deriving instance DecidableEq for Except

/-- Go `multierror.Append(errs, err)`: `err` is added to the wrapped errors (a
multierror `err` is flattened). -/
def multierror.Append (errs : Option GoError) (err : GoError) : Option GoError :=
  let old : List Str :=
    match errs with
    | none => []
    | some (.plain m) => [m]
    | some (.multi ms) => ms
  let new : List Str :=
    match err with
    | .plain m => [m]
    | .multi ms => ms
  some (.multi (old ++ new))

/-! ## Capabilities and call history -/

/-- A call to one of the injected capabilities. -/
inductive Call where
  | MkdirAll (path : Str)
  | Mount (source target fstype : Str) (options : List Str)
  | SyncData (source target : Str)
  | WriteFile (path data : Str)
  | Run (command : Str) (args : List Str)
  deriving DecidableEq, Repr

/-- A call together with its outcome (`ok = true`: it returned a nil error). -/
structure Event where
  call : Call
  ok : Bool
  deriving DecidableEq, Repr

/-- The history of capability calls, oldest first. -/
abbrev Trace := List Event

/-- The environment: for each capability, the error it returns (`none` for
success) given the history so far and the arguments; `Run` returns the output
of the command or its error. -/
structure Env where
  MkdirAll : Trace → Str → Option Str
  Mount : Trace → Str → Str → Str → List Str → Option Str
  SyncData : Trace → Str → Str → Option Str
  WriteFile : Trace → Str → Str → Option Str
  Run : Trace → Str → List Str → Except Str Str

/-- Go `utils.MkdirAll(cfg.Fs, path, constants.DirPerm)`. -/
def utils.MkdirAll (env : Env) (path : Str) (t : Trace) : Trace × Option GoError :=
  match env.MkdirAll t path with
  | none => (t ++ [⟨.MkdirAll path, true⟩], none)
  | some e => (t ++ [⟨.MkdirAll path, false⟩], some (.plain e))

/-- Go `cfg.Mounter.Mount(source, target, fstype, options)`. -/
def Mounter.Mount (env : Env) (source target fstype : Str) (options : List Str)
    (t : Trace) : Trace × Option GoError :=
  match env.Mount t source target fstype options with
  | none => (t ++ [⟨.Mount source target fstype options, true⟩], none)
  | some e => (t ++ [⟨.Mount source target fstype options, false⟩], some (.plain e))

/-- Go `utils.SyncData(cfg.Logger, cfg.Runner, cfg.Fs, source, target)`. -/
def utils.SyncData (env : Env) (source target : Str) (t : Trace) : Trace × Option GoError :=
  match env.SyncData t source target with
  | none => (t ++ [⟨.SyncData source target, true⟩], none)
  | some e => (t ++ [⟨.SyncData source target, false⟩], some (.plain e))

/-- Go `cfg.Config.Fs.WriteFile(path, data, 0644)`. -/
def Fs.WriteFile (env : Env) (path data : Str) (t : Trace) : Trace × Option GoError :=
  match env.WriteFile t path data with
  | none => (t ++ [⟨.WriteFile path data, true⟩], none)
  | some e => (t ++ [⟨.WriteFile path data, false⟩], some (.plain e))

/-- Go `runner.Run(command, args...)`. -/
def Runner.Run (env : Env) (command : Str) (args : List Str) (t : Trace) :
    Trace × Except GoError Str :=
  match env.Run t command args with
  | .ok out => (t ++ [⟨.Run command args, true⟩], .ok out)
  | .error e => (t ++ [⟨.Run command args, false⟩], .error (.plain e))

/-! ## `mount.go` -/

def overlaySuffix : Str := ".overlay".toList
def labelPref : Str := "LABEL=".toList
def partLabelPref : Str := "PARTLABEL=".toList
def uuidPref : Str := "UUID=".toList
def devPref : Str := "/dev/".toList
def diskBy : Str := "/dev/disk/by-".toList
def diskByLabel : Str := diskBy ++ "label".toList
def diskByPartLabel : Str := diskBy ++ "partlabel".toList
def diskByUUID : Str := diskBy ++ "uuid".toList
def runPath : Str := "/run".toList

/-- The `switch` of `MountVolumes` that resolves `vol.Device` to the mount
source `dev`; `none` is the `default` branch (unknown device reference). -/
def MountVolumes.dev (device : Str) : Option Str :=
  if strings.HasPrefix device labelPref then
    some (filepath.Join [diskByLabel, strings.TrimPrefix device labelPref])
  else if strings.HasPrefix device partLabelPref then
    some (filepath.Join [diskByPartLabel, strings.TrimPrefix device partLabelPref])
  else if strings.HasPrefix device uuidPref then
    some (filepath.Join [diskByUUID, strings.TrimPrefix device uuidPref])
  else if strings.HasPrefix device devPref then
    some device
  else none

/-- The `mountpoint` that `MountVolumes` computes for a volume. -/
def MountVolumes.mountpoint (sysroot : Str) (vol : VolumeMount) : Str :=
  if !strings.HasPrefix vol.Mountpoint runPath then
    filepath.Join [sysroot, vol.Mountpoint]
  else vol.Mountpoint

/-- The body of the loop of `MountVolumes` for one volume: `errs` is the error
accumulated so far. -/
def MountVolumes.body (env : Env) (sysroot : Str) (vol : VolumeMount)
    (st : Trace × Option GoError) : Trace × Option GoError :=
  match MountVolumes.dev vol.Device with
  | none =>
    (st.1, multierror.Append st.2
      (.plain ("Unkown device reference: ".toList ++ vol.Device)))
  | some dev =>
    let mountpoint := MountVolumes.mountpoint sysroot vol
    match utils.MkdirAll env mountpoint st.1 with
    | (t, some err) => (t, multierror.Append st.2 err)
    | (t, none) =>
      match Mounter.Mount env dev mountpoint "auto".toList vol.Options t with
      | (t, some err) => (t, multierror.Append st.2 err)
      | (t, none) => (t, st.2)

/-- The loop of `MountVolumes`, from a given history and accumulated error. -/
def MountVolumes.loop (env : Env) (sysroot : Str) :
    List VolumeMount → Trace × Option GoError → Trace × Option GoError
  | [], st => st
  | vol :: rest, st => MountVolumes.loop env sysroot rest (MountVolumes.body env sysroot vol st)

/-- Go `MountVolumes`. -/
def MountVolumes (env : Env) (sysroot : Str) (volumes : List VolumeMount) (t : Trace) :
    Trace × Option GoError :=
  MountVolumes.loop env sysroot volumes (t, none)

/-- Go `fstab`: one line of the fstab file. -/
def fstab (device path fstype : Str) (flags : List Str) : Str :=
  let flags := if flags.length = 0 then ["defaults".toList] else flags
  device ++ "\t".toList ++ path ++ "\t".toList ++ fstype ++ "\t".toList ++
    strings.Join flags ",".toList ++ "\t0\t0\n".toList

/-- Go `overlayLine`. -/
def overlayLine (path upperPath requriedMount : Str) : Str :=
  let trimmed := strings.TrimPrefix path "/".toList
  let pathName := strings.ReplaceAll trimmed '/' '-' ++ overlaySuffix
  let upper := upperPath ++ "/".toList ++ pathName ++ "/upper".toList
  let work := upperPath ++ "/".toList ++ pathName ++ "/work".toList
  let options := ["defaults".toList]
  let options := options ++ ["lowerdir=".toList ++ path]
  let options := options ++ ["upperdir=".toList ++ upper]
  let options := options ++ ["workdir=".toList ++ work]
  let options := options ++ ["x-systemd.requires-mounts-for=".toList ++ requriedMount]
  fstab "overlay".toList path "overlay".toList options

/-- Go `MountBindPath`. -/
def MountBindPath (env : Env) (sysroot overlayDir path : Str) (t : Trace) :
    Trace × Option GoError :=
  let base := filepath.Join [sysroot, path]
  match utils.MkdirAll env base t with
  | (t, some err) => (t, some err)
  | (t, none) =>
    let trimmed := strings.TrimPrefix path "/".toList
    let pathName := strings.ReplaceAll trimmed '/' '-' ++ ".bind".toList
    let stateDir := overlayDir ++ "/".toList ++ pathName
    match utils.MkdirAll env stateDir t with
    | (t, some err) => (t, some err)
    | (t, none) =>
      match utils.SyncData env base stateDir t with
      | (t, some err) => (t, some err)
      | (t, none) =>
        Mounter.Mount env stateDir base "none".toList ["defaults".toList, "bind".toList] t

/-- Go `MountOverlayPath`. -/
def MountOverlayPath (env : Env) (sysroot overlayDir path : Str) (t : Trace) :
    Trace × Option GoError :=
  let lower := filepath.Join [sysroot, path]
  match utils.MkdirAll env lower t with
  | (t, some err) => (t, some err)
  | (t, none) =>
    let trimmed := strings.TrimPrefix path "/".toList
    let pathName := strings.ReplaceAll trimmed '/' '-' ++ overlaySuffix
    let upper := overlayDir ++ "/".toList ++ pathName ++ "/upper".toList
    match utils.MkdirAll env upper t with
    | (t, some err) => (t, some err)
    | (t, none) =>
      let work := overlayDir ++ "/".toList ++ pathName ++ "/work".toList
      match utils.MkdirAll env work t with
      | (t, some err) => (t, some err)
      | (t, none) =>
        let options := ["defaults".toList]
        let options := options ++ ["lowerdir=".toList ++ lower]
        let options := options ++ ["upperdir=".toList ++ upper]
        let options := options ++ ["workdir=".toList ++ work]
        Mounter.Mount env "overlay".toList lower "overlay".toList options t

/-- Go `MountFunc`: the type shared by `MountBindPath` and `MountOverlayPath`. -/
abbrev MountFunc := Env → Str → Str → Str → Trace → Trace × Option GoError

/-- A loop over paths that returns at the first failing `mountFunc`: the shape
of the path loops of `MountEphemeral` and `MountPersistent`. -/
def mountPaths (mountFunc : MountFunc) (env : Env) (sysroot target : Str) :
    List Str → Trace → Trace × Option GoError
  | [], t => (t, none)
  | path :: rest, t =>
    match mountFunc env sysroot target path t with
    | (t, some err) => (t, some err)
    | (t, none) => mountPaths mountFunc env sysroot target rest t

/-- Go `MountEphemeral`. -/
def MountEphemeral (k : Constants) (env : Env) (sysroot : Str) (overlay : EphemeralMounts)
    (t : Trace) : Trace × Option GoError :=
  match utils.MkdirAll env k.OverlayDir t with
  | (t, some err) => (t, some err)
  | (t, none) =>
    let sel : Option (Str × Str × List Str) :=
      if overlay.Type_ = k.Tmpfs then
        some (k.Tmpfs, k.Tmpfs, ["defaults".toList, "size=".toList ++ overlay.Size])
      else if overlay.Type_ = k.Block then
        some (overlay.Device, k.Autofs, ["defaults".toList])
      else none
    match sel with
    | none =>
      (t, some (.plain ("unknown overlay type '".toList ++ overlay.Type_ ++ "'".toList)))
    | some (overlaySource, overlayFS, overlayOpts) =>
      match Mounter.Mount env overlaySource k.OverlayDir overlayFS overlayOpts t with
      | (t, some err) => (t, some err)
      | (t, none) => mountPaths MountOverlayPath env sysroot k.OverlayDir overlay.Paths t

/-- Go `MountPersistent`. -/
def MountPersistent (k : Constants) (env : Env) (sysroot : Str)
    (persistent : PersistentMounts) (volumes : List VolumeMount) (t : Trace) :
    Trace × Option GoError :=
  let mountFunc : MountFunc :=
    if persistent.Mode = "bind".toList then MountBindPath else MountOverlayPath
  match volumes.find? (fun v => v.Persistent) with
  | none => (t, none)
  | some vol =>
    mountPaths mountFunc env sysroot
      (filepath.Join [vol.Mountpoint, k.PersistentStateDir]) persistent.Paths t

/-- The volume loop of `WriteFstab`: one line per volume is appended to `data`,
and `persistentVol` ends as the last volume marked persistent. -/
def WriteFstab.volumes :
    List VolumeMount → Str × Option VolumeMount → Str × Option VolumeMount
  | [], st => st
  | vol :: rest, st =>
    WriteFstab.volumes rest
      (st.1 ++ fstab vol.Device vol.Mountpoint "auto".toList vol.Options,
       if vol.Persistent then some vol else st.2)

/-- The loop of `WriteFstab` over the ephemeral paths. -/
def WriteFstab.ephemeral (k : Constants) : List Str → Str → Str
  | [], data => data
  | rw :: rest, data =>
    WriteFstab.ephemeral k rest (data ++ overlayLine rw k.OverlayDir k.OverlayDir)

/-- The loop of `WriteFstab` over the persistent paths, given the persistent
volume: the state is `data` and the accumulated error `errs`. -/
def WriteFstab.persistent (k : Constants) (spec : MountSpec) (persistentVol : VolumeMount) :
    List Str → Str × Option GoError → Str × Option GoError
  | [], st => st
  | path :: rest, st =>
    if spec.Persistent.Mode = k.OverlayMode then
      WriteFstab.persistent k spec persistentVol rest
        (st.1 ++ overlayLine path
          (filepath.Join [persistentVol.Mountpoint, k.PersistentStateDir]) k.PersistentDir,
         st.2)
    else if spec.Persistent.Mode = k.BindMode then
      let trimmed := strings.TrimPrefix path "/".toList
      let pathName := strings.ReplaceAll trimmed '/' '-' ++ ".bind".toList
      let stateDir := filepath.Join [persistentVol.Mountpoint, k.PersistentStateDir, pathName]
      WriteFstab.persistent k spec persistentVol rest
        (st.1 ++ fstab stateDir path "none".toList ["defaults".toList, "bind".toList], st.2)
    else
      WriteFstab.persistent k spec persistentVol rest
        (st.1, multierror.Append st.2
          (.plain ("Unknown persistent mode '".toList ++ spec.Persistent.Mode ++ "'".toList)))

/-- The text `data` and the accumulated error `errs` that `WriteFstab` holds
when it reaches its final `WriteFile` (for `spec.WriteFstab = true`). -/
def WriteFstab.build (k : Constants) (spec : MountSpec) (data : Str) : Str × Option GoError :=
  let data := data ++ fstab "tmpfs".toList k.OverlayDir "tmpfs".toList
    ["defaults".toList, "size=".toList ++ spec.Ephemeral.Size]
  let vols := WriteFstab.volumes spec.Volumes (data, none)
  let data := WriteFstab.ephemeral k spec.Ephemeral.Paths vols.1
  match vols.2 with
  | none => (data, none)
  | some persistentVol =>
    WriteFstab.persistent k spec persistentVol spec.Persistent.Paths (data, none)

/-- Go `WriteFstab`.  The accumulated `errs` is not part of the result: the
function returns what `WriteFile` returns. -/
def WriteFstab (k : Constants) (env : Env) (spec : MountSpec) (data : Str) (t : Trace) :
    Trace × Option GoError :=
  if !spec.WriteFstab then (t, none)
  else
    Fs.WriteFile env (filepath.Join [spec.Sysroot, "/etc/fstab".toList])
      (WriteFstab.build k spec data).1 t

/-- The body of the scanner loop of `findmnt`: the mount recorded for one line
of output, `none` when the line is skipped. -/
def findmnt.line (text : Str) : Option VolumeMount :=
  match strings.Fields text with
  | [f0, f1, f2, f3] =>
    let f0 :=
      if f2 = "btrfs".toList then
        match regexp.FindStringSubmatch1 f0 with
        | some m => m
        | none => f0
      else f0
    some { Device := f0, Mountpoint := f1, Options := strings.Split f3 ',', Persistent := false }
  | _ => none

/-- Go `findmnt`. -/
def findmnt (env : Env) (mountpoint : Str) (t : Trace) :
    Trace × Except GoError (List VolumeMount) :=
  match Runner.Run env "findmnt".toList
      ["-Rrfno".toList, "SOURCE,TARGET,FSTYPE,OPTIONS".toList, mountpoint] t with
  | (t, .error err) => (t, .error err)
  | (t, .ok output) =>
    (t, .ok ((bufio.ScanLines (strings.TrimSpace output)).filterMap findmnt.line))

/-- The body of the loop of `InitialFstabData`: the text added for one mount. -/
def InitialFstabData.line (k : Constants) (sysroot : Str) (mnt : VolumeMount) : Str :=
  if mnt.Mountpoint = sysroot then
    fstab mnt.Device "/".toList "auto".toList mnt.Options
  else if strings.HasPrefix mnt.Mountpoint sysroot then
    fstab mnt.Device (strings.TrimPrefix mnt.Mountpoint sysroot) "auto".toList mnt.Options
  else if strings.HasPrefix mnt.Mountpoint k.RunElementalDir then
    fstab mnt.Device mnt.Mountpoint "auto".toList mnt.Options
  else if mnt.Mountpoint = k.RunningStateDir then
    fstab mnt.Device mnt.Mountpoint "auto".toList mnt.Options
  else []

/-- The loop of `InitialFstabData`. -/
def InitialFstabData.loop (k : Constants) (sysroot : Str) : List VolumeMount → Str → Str
  | [], data => data
  | mnt :: rest, data =>
    InitialFstabData.loop k sysroot rest (data ++ InitialFstabData.line k sysroot mnt)

/-- Go `InitialFstabData`. -/
def InitialFstabData (k : Constants) (env : Env) (sysroot : Str) (t : Trace) :
    Trace × Except GoError Str :=
  match findmnt env "/".toList t with
  | (t, .error err) => (t, .error err)
  | (t, .ok mounts) => (t, .ok (InitialFstabData.loop k sysroot mounts []))

/-- Go `RunMount`. -/
def RunMount (k : Constants) (env : Env) (spec : MountSpec) (t : Trace) :
    Trace × Option GoError :=
  let initial : Trace × Except GoError Str :=
    if spec.WriteFstab then InitialFstabData k env spec.Sysroot t else (t, .ok [])
  match initial with
  | (t, .error err) => (t, some err)
  | (t, .ok fstabData) =>
    match MountVolumes env spec.Sysroot spec.Volumes t with
    | (t, some err) => (t, some err)
    | (t, none) =>
      match MountEphemeral k env spec.Sysroot spec.Ephemeral t with
      | (t, some err) => (t, some err)
      | (t, none) =>
        match MountPersistent k env spec.Sysroot spec.Persistent spec.Volumes t with
        | (t, some err) => (t, some err)
        | (t, none) => WriteFstab k env spec fstabData t

/-- Modelled from the spec: the values of package `constants`, which is not
among the sources.  The overlay dir `/run/elemental/overlay`, the directory
`/run/elemental`, the ephemeral types `tmpfs` and `block`, the block filesystem
`autofs` and the persistent modes `overlay` and `bind` are the values the
specification names; the persistent dir, the persistent state dir and the
running-state dir are not named there and stand as sample values.  Only the
evaluations at concrete inputs use this value: the general theorems hold for
every `Constants`. -/
def elementalConstants : Constants where
  OverlayDir := "/run/elemental/overlay".toList
  PersistentDir := "/run/elemental/persistent".toList
  PersistentStateDir := ".state".toList
  RunElementalDir := "/run/elemental".toList
  RunningStateDir := "/run/initramfs/elemental-state".toList
  Tmpfs := "tmpfs".toList
  Block := "block".toList
  Autofs := "autofs".toList
  OverlayMode := "overlay".toList
  BindMode := "bind".toList

/-! ## Definitions used to state the properties -/

/-- A path element that `filepath.Clean` keeps as it is. -/
def plainElem (e : Str) : Prop := e ≠ [] ∧ e ≠ ['.'] ∧ e ≠ ['.', '.']

/-- The messages of the errors a Go error value stands for: none for `nil`, one
for a plain error, the wrapped ones for a multierror. -/
def GoError.msgs : Option GoError → List Str
  | none => []
  | some (.plain m) => [m]
  | some (.multi ms) => ms

/-- What `MountVolumes` may do for one volume: the capability calls it makes
(with their outcome) and the error messages it adds to the aggregated error. -/
inductive VolumeAttempt (sysroot : Str) (vol : VolumeMount) : List Event → List Str → Prop
  | unknown (h : MountVolumes.dev vol.Device = none) :
      VolumeAttempt sysroot vol [] ["Unkown device reference: ".toList ++ vol.Device]
  | mkdirFailed (dev msg : Str) (h : MountVolumes.dev vol.Device = some dev) :
      VolumeAttempt sysroot vol
        [⟨.MkdirAll (MountVolumes.mountpoint sysroot vol), false⟩] [msg]
  | mountFailed (dev msg : Str) (h : MountVolumes.dev vol.Device = some dev) :
      VolumeAttempt sysroot vol
        [⟨.MkdirAll (MountVolumes.mountpoint sysroot vol), true⟩,
         ⟨.Mount dev (MountVolumes.mountpoint sysroot vol) "auto".toList vol.Options, false⟩]
        [msg]
  | mounted (dev : Str) (h : MountVolumes.dev vol.Device = some dev) :
      VolumeAttempt sysroot vol
        [⟨.MkdirAll (MountVolumes.mountpoint sysroot vol), true⟩,
         ⟨.Mount dev (MountVolumes.mountpoint sysroot vol) "auto".toList vol.Options, true⟩]
        []

/-- An environment in which every capability call succeeds and `findmnt`
prints `output`. -/
def Env.succeed (output : Str) : Env where
  MkdirAll := fun _ _ => none
  Mount := fun _ _ _ _ _ => none
  SyncData := fun _ _ _ => none
  WriteFile := fun _ _ _ => none
  Run := fun _ _ _ => .ok output

instance plainElem.decidable (e : Str) : Decidable (plainElem e) := by
  unfold plainElem
  infer_instance

/-- The mangle of the specification: strip the leading `/` of the path, then
replace every remaining `/` by `-`. -/
def mangle (path : Str) : Str :=
  match path with
  | '/' :: rest => rest.map fun c => if c = '/' then '-' else c
  | _ => path.map fun c => if c = '/' then '-' else c

/-- The mount calls among the events of a history, in order. -/
def mountCalls (t : Trace) : List Call :=
  (t.map fun e => e.call).filter fun c =>
    match c with
    | .Mount _ _ _ _ => true
    | _ => false

/-- Whether the history holds a successful mount onto `target`. -/
def mountedAt (t : Trace) (target : Str) : Prop :=
  ∃ (source fstype : Str) (options : List Str),
    (⟨.Mount source target fstype options, true⟩ : Event) ∈ t

/-- The overlay mount of the specification for the path `path`: source and
type `overlay`, target `<sysroot>/path`, options `defaults`, `lowerdir=`,
`upperdir=` and `workdir=` with the workspace `<overlayDir>/<mangle>.overlay`. -/
def overlayMount (sysroot overlayDir path : Str) : Call :=
  .Mount "overlay".toList (filepath.Join [sysroot, path]) "overlay".toList
    ["defaults".toList,
     "lowerdir=".toList ++ filepath.Join [sysroot, path],
     "upperdir=".toList ++ (overlayDir ++ "/".toList ++ mangle path ++ ".overlay/upper".toList),
     "workdir=".toList ++ (overlayDir ++ "/".toList ++ mangle path ++ ".overlay/work".toList)]

/-- The bind mount of the specification for the path `path`: the state
directory `<stateRoot>/<mangle>.bind` onto `<sysroot>/path`, type `none`,
options `defaults,bind`. -/
def bindMount (sysroot stateRoot path : Str) : Call :=
  .Mount (stateRoot ++ "/".toList ++ mangle path ++ ".bind".toList)
    (filepath.Join [sysroot, path]) "none".toList ["defaults".toList, "bind".toList]

/-- What mounting one overlay path may do: the calls made, with their
outcome, and the result.  Each directory is created before the next step and
the first failure ends the attempt. -/
inductive OverlayAttempt (sysroot overlayDir path : Str) : List Event → Option GoError → Prop
  | lowerFailed (m : Str) :
      OverlayAttempt sysroot overlayDir path
        [⟨.MkdirAll (filepath.Join [sysroot, path]), false⟩] (some (.plain m))
  | upperFailed (m : Str) :
      OverlayAttempt sysroot overlayDir path
        [⟨.MkdirAll (filepath.Join [sysroot, path]), true⟩,
         ⟨.MkdirAll
            (overlayDir ++ "/".toList ++ mangle path ++ ".overlay/upper".toList), false⟩]
        (some (.plain m))
  | workFailed (m : Str) :
      OverlayAttempt sysroot overlayDir path
        [⟨.MkdirAll (filepath.Join [sysroot, path]), true⟩,
         ⟨.MkdirAll
            (overlayDir ++ "/".toList ++ mangle path ++ ".overlay/upper".toList), true⟩,
         ⟨.MkdirAll
            (overlayDir ++ "/".toList ++ mangle path ++ ".overlay/work".toList), false⟩]
        (some (.plain m))
  | mountFailed (m : Str) :
      OverlayAttempt sysroot overlayDir path
        [⟨.MkdirAll (filepath.Join [sysroot, path]), true⟩,
         ⟨.MkdirAll
            (overlayDir ++ "/".toList ++ mangle path ++ ".overlay/upper".toList), true⟩,
         ⟨.MkdirAll
            (overlayDir ++ "/".toList ++ mangle path ++ ".overlay/work".toList), true⟩,
         ⟨overlayMount sysroot overlayDir path, false⟩]
        (some (.plain m))
  | mounted :
      OverlayAttempt sysroot overlayDir path
        [⟨.MkdirAll (filepath.Join [sysroot, path]), true⟩,
         ⟨.MkdirAll
            (overlayDir ++ "/".toList ++ mangle path ++ ".overlay/upper".toList), true⟩,
         ⟨.MkdirAll
            (overlayDir ++ "/".toList ++ mangle path ++ ".overlay/work".toList), true⟩,
         ⟨overlayMount sysroot overlayDir path, true⟩]
        none

/-- What mounting one bind path may do: the calls made, with their outcome,
and the result.  The state directory is seeded from the path before the bind
mount and the first failure ends the attempt. -/
inductive BindAttempt (sysroot stateRoot path : Str) : List Event → Option GoError → Prop
  | baseFailed (m : Str) :
      BindAttempt sysroot stateRoot path
        [⟨.MkdirAll (filepath.Join [sysroot, path]), false⟩] (some (.plain m))
  | stateFailed (m : Str) :
      BindAttempt sysroot stateRoot path
        [⟨.MkdirAll (filepath.Join [sysroot, path]), true⟩,
         ⟨.MkdirAll (stateRoot ++ "/".toList ++ mangle path ++ ".bind".toList), false⟩]
        (some (.plain m))
  | syncFailed (m : Str) :
      BindAttempt sysroot stateRoot path
        [⟨.MkdirAll (filepath.Join [sysroot, path]), true⟩,
         ⟨.MkdirAll (stateRoot ++ "/".toList ++ mangle path ++ ".bind".toList), true⟩,
         ⟨.SyncData (filepath.Join [sysroot, path])
            (stateRoot ++ "/".toList ++ mangle path ++ ".bind".toList), false⟩]
        (some (.plain m))
  | mountFailed (m : Str) :
      BindAttempt sysroot stateRoot path
        [⟨.MkdirAll (filepath.Join [sysroot, path]), true⟩,
         ⟨.MkdirAll (stateRoot ++ "/".toList ++ mangle path ++ ".bind".toList), true⟩,
         ⟨.SyncData (filepath.Join [sysroot, path])
            (stateRoot ++ "/".toList ++ mangle path ++ ".bind".toList), true⟩,
         ⟨bindMount sysroot stateRoot path, false⟩]
        (some (.plain m))
  | mounted :
      BindAttempt sysroot stateRoot path
        [⟨.MkdirAll (filepath.Join [sysroot, path]), true⟩,
         ⟨.MkdirAll (stateRoot ++ "/".toList ++ mangle path ++ ".bind".toList), true⟩,
         ⟨.SyncData (filepath.Join [sysroot, path])
            (stateRoot ++ "/".toList ++ mangle path ++ ".bind".toList), true⟩,
         ⟨bindMount sysroot stateRoot path, true⟩]
        none

/-- A fail-fast run over a list of paths: the attempts are made in order, each
after the earlier ones succeeded, and the first failing attempt ends the run
with its error; `Q path events result` describes one attempt. -/
inductive PathsRun (Q : Str → List Event → Option GoError → Prop) :
    List Str → List Event → Option GoError → Prop
  | done : PathsRun Q [] [] none
  | failed (path : Str) (rest : List Str) (es : List Event) (err : GoError)
      (h : Q path es (some err)) : PathsRun Q (path :: rest) es (some err)
  | next (path : Str) (rest : List Str) (es es' : List Event) (r : Option GoError)
      (h : Q path es none) (hrest : PathsRun Q rest es' r) :
      PathsRun Q (path :: rest) (es ++ es') r

/-- A persistent volume mounted at `/run/elemental/persistent`. -/
def samplePersistentVolume : VolumeMount where
  Mountpoint := "/run/elemental/persistent".toList
  Device := "LABEL=COS_PERSISTENT".toList
  Options := []
  Persistent := true

/-- One entry of an fstab file: the four fields a line carries before the
dump and pass numbers. -/
structure FstabEntry where
  source : Str
  target : Str
  fstype : Str
  options : Str
  deriving DecidableEq, Repr

/-- The line of an entry, in the format of the specification:
`SOURCE\tTARGET\tFSTYPE\tOPTIONS\t0\t0` followed by a newline. -/
def FstabEntry.line (e : FstabEntry) : Str :=
  e.source ++ "\t".toList ++ e.target ++ "\t".toList ++ e.fstype ++ "\t".toList ++
    e.options ++ "\t0\t0\n".toList

/-- The options field of the specification: the comma-joined option list,
`defaults` when the list is empty. -/
def optionsField (options : List Str) : Str :=
  if options = [] then "defaults".toList else ",".toList.intercalate options

/-- The entry of the overlay workspace: `tmpfs` on the overlay dir with
`defaults,size=<size>`. -/
def tmpfsEntry (k : Constants) (spec : MountSpec) : FstabEntry where
  source := "tmpfs".toList
  target := k.OverlayDir
  fstype := "tmpfs".toList
  options := "defaults,size=".toList ++ spec.Ephemeral.Size

/-- The entry of a volume: its own device, mountpoint, type `auto` and
options. -/
def volumeEntry (vol : VolumeMount) : FstabEntry where
  source := vol.Device
  target := vol.Mountpoint
  fstype := "auto".toList
  options := optionsField vol.Options

/-- The overlay entry of a path: source and type `overlay`, the path as target
and as lower directory, upper and work directory in the workspace
`<upperRoot>/<mangle>.overlay`, and the systemd dependency on `required`. -/
def overlayEntry (upperRoot required path : Str) : FstabEntry where
  source := "overlay".toList
  target := path
  fstype := "overlay".toList
  options := "defaults,lowerdir=".toList ++ path ++
    ",upperdir=".toList ++ upperRoot ++ "/".toList ++ mangle path ++ ".overlay/upper".toList ++
    ",workdir=".toList ++ upperRoot ++ "/".toList ++ mangle path ++ ".overlay/work".toList ++
    ",x-systemd.requires-mounts-for=".toList ++ required

/-- The bind entry of a path: the state directory `<mangle>.bind` under the
persistent volume's state dir as source, the path as target, type `none`,
options `defaults,bind`. -/
def bindEntry (k : Constants) (persistentVol : VolumeMount) (path : Str) : FstabEntry where
  source := filepath.Join
    [persistentVol.Mountpoint, k.PersistentStateDir, mangle path ++ ".bind".toList]
  target := path
  fstype := "none".toList
  options := "defaults,bind".toList

/-- The entries of the persistent paths: none when no volume is marked
persistent; otherwise, with the last volume marked persistent, one overlay
entry per path in overlay mode, one bind entry per path in bind mode, and none
in any other mode. -/
def persistentEntries (k : Constants) (spec : MountSpec) : List FstabEntry :=
  match (spec.Volumes.filter fun v => v.Persistent).getLast? with
  | none => []
  | some persistentVol =>
    if spec.Persistent.Mode = k.OverlayMode then
      spec.Persistent.Paths.map
        (overlayEntry (filepath.Join [persistentVol.Mountpoint, k.PersistentStateDir])
          k.PersistentDir)
    else if spec.Persistent.Mode = k.BindMode then
      spec.Persistent.Paths.map (bindEntry k persistentVol)
    else []

/-- The entries that follow the initial block: the workspace, the volumes in
input order, the ephemeral paths in order, the persistent paths in order. -/
def fstabEntries (k : Constants) (spec : MountSpec) : List FstabEntry :=
  tmpfsEntry k spec :: (spec.Volumes.map volumeEntry ++
    (spec.Ephemeral.Paths.map (overlayEntry k.OverlayDir k.OverlayDir) ++
      persistentEntries k spec))

/-- The text of a list of entries: their lines, one after the other. -/
def fstabText (entries : List FstabEntry) : Str :=
  (entries.map FstabEntry.line).flatten

/-- The device Go `findmnt` records for the source and the type of a line
(the `btrfs` branch of its loop): for the type `btrfs` the first group of the
pattern ``(/.+)\[.*\]`` when the pattern matches the source, and in every
other case the source itself. -/
def recordedSource (source fstype : Str) : Str :=
  if fstype = "btrfs".toList then (regexp.FindStringSubmatch1 source).getD source else source

/-- The text `InitialFstabData` appends for one line of `findmnt` output, by
the fields of the line, as the code computes it: the tests on the target are
the tests of the code (`==` and `strings.HasPrefix`), in the order of the
code, the device is `recordedSource`, the type is the `auto` the code passes,
and the target is `/`, the target without
its first `len(sysroot)` characters, or the target itself; nothing for a line
that does not have four fields. -/
def initialLine (k : Constants) (sysroot : Str) (fields : List Str) : Str :=
  match fields with
  | [source, target, fstype, options] =>
    if target = sysroot then
      FstabEntry.line ⟨recordedSource source fstype, "/".toList, "auto".toList, options⟩
    else if strings.HasPrefix target sysroot = true then
      FstabEntry.line
        ⟨recordedSource source fstype, target.drop sysroot.length, "auto".toList, options⟩
    else if strings.HasPrefix target k.RunElementalDir = true ∨ target = k.RunningStateDir then
      FstabEntry.line ⟨recordedSource source fstype, target, "auto".toList, options⟩
    else []
  | _ => []

/-- The minimal specification of the fstab scenario: fstab requested, a tmpfs
workspace of size `30%`, no volumes and no paths. -/
def minimalSpec : MountSpec where
  WriteFstab := true
  Ephemeral := { Type_ := "tmpfs".toList, Device := [], Size := "30%".toList, Paths := [] }
  Persistent := { Mode := [], Paths := [] }
  Volumes := []
  Sysroot := "/sysroot".toList

/-- A specification with a persistent volume under `/run`, a volume below
sysroot, one ephemeral path and one persistent path in bind mode. -/
def sampleSpec : MountSpec where
  WriteFstab := true
  Ephemeral := { Type_ := "tmpfs".toList, Device := [], Size := "25%".toList,
                 Paths := ["/var/log".toList] }
  Persistent := { Mode := "bind".toList, Paths := ["/etc/ssh".toList] }
  Volumes := [samplePersistentVolume,
    { Mountpoint := "/oem".toList, Device := "LABEL=COS_OEM".toList,
      Options := ["ro".toList, "noatime".toList], Persistent := false }]
  Sysroot := "/sysroot".toList

/-- The lines of a text: the pieces between newlines, without the empty piece
after a final newline. -/
def fstabLines (text : Str) : List Str :=
  let segs := text.splitOn '\n'
  if segs.getLast? = some [] then segs.dropLast else segs

/-- A text parsed line by line: the tab-separated fields of each line. -/
def parseFstab (text : Str) : List (List Str) :=
  (fstabLines text).map fun line => line.splitOn '\t'

/-- The fields of the line of an entry. -/
def FstabEntry.fields (e : FstabEntry) : List Str :=
  [e.source, e.target, e.fstype, e.options, "0".toList, "0".toList]

/-- An entry none of whose fields holds a tab or a newline. -/
def FstabEntry.clean (e : FstabEntry) : Prop :=
  ∀ f ∈ [e.source, e.target, e.fstype, e.options], '\t' ∉ f ∧ '\n' ∉ f

/-- The specification `sampleSpec` with the ephemeral path `/var/log`
configured twice. -/
def duplicatePathSpec : MountSpec :=
  { sampleSpec with
    Ephemeral := { sampleSpec.Ephemeral with Paths := ["/var/log".toList, "/var/log".toList] } }

/-- A specification whose persistent volume is mounted at `/usr/local`, with
one persistent path and the persistent mode `mode`. -/
def persistentAtUsrLocal (mode : Str) : MountSpec where
  WriteFstab := true
  Ephemeral := { Type_ := "tmpfs".toList, Device := [], Size := "25%".toList, Paths := [] }
  Persistent := { Mode := mode, Paths := ["/etc".toList] }
  Volumes := [{ Mountpoint := "/usr/local".toList, Device := "LABEL=COS_PERSISTENT".toList,
                Options := [], Persistent := true }]
  Sysroot := "/sysroot".toList

/-- An environment in which every call succeeds except the mounts onto
`target`, which fail with `mount failed`; `findmnt` prints nothing. -/
def Env.failMountAt (target : Str) : Env where
  MkdirAll := fun _ _ => none
  Mount := fun _ _ tgt _ _ => if tgt = target then some "mount failed".toList else none
  SyncData := fun _ _ _ => none
  WriteFile := fun _ _ _ => none
  Run := fun _ _ _ => .ok []

/-! ## Go standard library, continued -/

/-- Go `strings.TrimSuffix`. -/
def strings.TrimSuffix (s suffix : Str) : Str :=
  if suffix.isSuffixOf s then s.take (s.length - suffix.length) else s

/-- Go `filepath.Ext` on Unix: the suffix of the last element of the path that
starts at its last dot, empty when that element has no dot. -/
def filepath.Ext (path : Str) : Str :=
  let last := (path.reverse.takeWhile fun c => c ≠ '/').reverse
  if '.' ∈ last then '.' :: (last.reverse.takeWhile fun c => c ≠ '.').reverse else []

/-- Go `filepath.Dir` on Unix: the path up to and including its last
separator, cleaned. -/
def filepath.Dir (path : Str) : Str :=
  filepath.Clean (path.reverse.dropWhile fun c => c ≠ '/').reverse

/-- Whether ``regexp.MustCompile("ext[2-4]").MatchString`` holds: the text
contains `ext2`, `ext3` or `ext4`. -/
def regexp.MatchExt24 : Str → Bool
  | [] => false
  | c :: cs =>
    (match c :: cs with
      | 'e' :: 'x' :: 't' :: d :: _ => d = '2' || d = '3' || d = '4'
      | _ => false) || regexp.MatchExt24 cs

/-! ## `pkg/elemental/elemental.go`: data, capabilities and call history -/

namespace elemental

/-- Go `v1.Partition`, the fields `elemental.go` reads or writes when mounting. -/
structure Partition where
  Name : Str
  FilesystemLabel : Str
  FS : Str
  MountPoint : Str
  Path : Str
  deriving DecidableEq, Repr

/-- Modelled from the spec: `v1.ImageSource`, which is not among the sources, is
the tagged variant `{docker(ref), directory(path), file(path), empty}` of the
data model. -/
inductive ImageSource where
  | docker (ref : Str)
  | directory (path : Str)
  | file (path : Str)
  | empty
  deriving DecidableEq, Repr

/-- Modelled from the spec: `ImageSource.Value`, the reference or path the
variant owns. -/
def ImageSource.Value : ImageSource → Str
  | .docker ref => ref
  | .directory path => path
  | .file path => path
  | .empty => []

/-- Modelled from the spec: `ImageSource.IsImage`, the docker variant. -/
def ImageSource.IsImage : ImageSource → Bool
  | .docker _ => true
  | _ => false

/-- Modelled from the spec: `ImageSource.IsDir`, the directory variant. -/
def ImageSource.IsDir : ImageSource → Bool
  | .directory _ => true
  | _ => false

/-- Modelled from the spec: `ImageSource.IsFile`, the file variant. -/
def ImageSource.IsFile : ImageSource → Bool
  | .file _ => true
  | _ => false

/-- Go `v1.Image`; `Size` is a Go `uint`. -/
structure Image where
  File : Str
  Label : Str
  FS : Str
  Size : Nat
  MountPoint : Str
  Source : ImageSource
  LoopDevice : Str
  deriving DecidableEq, Repr

/-- The settings of `v1.Config` that `elemental.go` reads, besides the injected
capabilities; `Debug` is `v1.IsDebugLevel(c.Logger)`. -/
structure Config where
  Cosign : Bool
  CosignPubKey : Str
  Platform : Str
  LocalImage : Bool
  SquashFsCompressionConfig : List Str
  Debug : Bool

/-- The values of package `constants` (`cnst`) that `elemental.go` reads;
`DefaultSquashfsOptions` is what `cnst.GetDefaultSquashfsOptions()` returns. -/
structure Cnst where
  ImgOverhead : Nat
  SquashFs : Str
  WorkingImgDir : Str
  ImgSrcDir : Str
  DefaultSquashfsOptions : List Str

/-- A call to one of the injected capabilities (`c.Fs`, `c.Mounter`,
`c.Runner`, `c.ImageExtractor`) or to a helper of `utils` and `partitioner`
that wraps them. -/
inductive Call where
  | MkdirAll (path : Str)
  | RemoveAll (path : Str)
  | DirSizeMB (path : Str)
  | CreateRAWFile (file : Str) (size : Nat)
  | CreateDirStructure (root : Str)
  | Mount (source target fstype : Str) (options : List Str)
  | Unmount (target : Str)
  | IsLikelyNotMountPoint (file : Str)
  | Run (command : Str) (args : List Str)
  | GetDeviceByLabel (label : Str) (attempts : Nat)
  | SyncData (source target : Str) (excludes : List Str)
  | CreateSquashFS (source target : Str) (options : List Str)
  | CosignVerify (ref publicKey : Str) (debug : Bool)
  | MkfsApply (dev fs label : Str) (extraOpts : List Str)
  | ExtractImage (ref target platform : Str) (loc : Bool)
  deriving DecidableEq, Repr

/-- What a call returns: its error (`none` for nil), and, for the calls that
return a value, the text (`Run`, `GetDeviceByLabel`), the number (`DirSizeMB`)
or the flag (`IsLikelyNotMountPoint`). -/
structure Response where
  err : Option Str
  out : Str
  num : Nat
  flag : Bool
  deriving DecidableEq, Repr

/-- A call together with what it returned. -/
structure Event where
  call : Call
  resp : Response
  deriving DecidableEq, Repr

/-- The history of calls, oldest first. -/
abbrev Trace := List Event

/-- The environment: what each call returns, given the history so far. -/
abbrev Env := Trace → Call → Response

/-- One call: the environment answers and the history grows by the call. -/
def perform (env : Env) (call : Call) (t : Trace) : Trace × Response :=
  (t ++ [⟨call, env t call⟩], env t call)

/-- A call of which only the error is used. -/
def performErr (env : Env) (call : Call) (t : Trace) : Trace × Option GoError :=
  ((perform env call t).1, (perform env call t).2.err.map GoError.plain)

/-- Go `utils.MkdirAll(c.Fs, path, cnst.DirPerm)`. -/
def utils.MkdirAll (env : Env) (path : Str) (t : Trace) : Trace × Option GoError :=
  performErr env (.MkdirAll path) t

/-- Go `c.Fs.RemoveAll(path)`. -/
def Fs.RemoveAll (env : Env) (path : Str) (t : Trace) : Trace × Option GoError :=
  performErr env (.RemoveAll path) t

/-- Go `c.Mounter.Mount(source, target, fstype, options)`. -/
def Mounter.Mount (env : Env) (source target fstype : Str) (options : List Str)
    (t : Trace) : Trace × Option GoError :=
  performErr env (.Mount source target fstype options) t

/-- Go `c.Mounter.Unmount(target)`. -/
def Mounter.Unmount (env : Env) (target : Str) (t : Trace) : Trace × Option GoError :=
  performErr env (.Unmount target) t

/-- Go `c.Mounter.IsLikelyNotMountPoint(file)`: the flag and the error. -/
def Mounter.IsLikelyNotMountPoint (env : Env) (file : Str) (t : Trace) :
    Trace × Bool × Option GoError :=
  ((perform env (.IsLikelyNotMountPoint file) t).1,
   (perform env (.IsLikelyNotMountPoint file) t).2.flag,
   (perform env (.IsLikelyNotMountPoint file) t).2.err.map GoError.plain)

/-- Go `c.Runner.Run(command, args...)`: the output and the error. -/
def Runner.Run (env : Env) (command : Str) (args : List Str) (t : Trace) :
    Trace × Str × Option GoError :=
  ((perform env (.Run command args) t).1,
   (perform env (.Run command args) t).2.out,
   (perform env (.Run command args) t).2.err.map GoError.plain)

/-- Go `utils.GetDeviceByLabel(c.Runner, label, attempts)`: the device and the
error. -/
def utils.GetDeviceByLabel (env : Env) (label : Str) (attempts : Nat) (t : Trace) :
    Trace × Str × Option GoError :=
  ((perform env (.GetDeviceByLabel label attempts) t).1,
   (perform env (.GetDeviceByLabel label attempts) t).2.out,
   (perform env (.GetDeviceByLabel label attempts) t).2.err.map GoError.plain)

/-- Go `utils.SyncData(c.Logger, c.Runner, c.Fs, source, target, excludes...)`. -/
def utils.SyncData (env : Env) (source target : Str) (excludes : List Str) (t : Trace) :
    Trace × Option GoError :=
  performErr env (.SyncData source target excludes) t

/-- Go `utils.DirSizeMB(c.Fs, path)`: the size and the error. -/
def utils.DirSizeMB (env : Env) (path : Str) (t : Trace) : Trace × Nat × Option GoError :=
  ((perform env (.DirSizeMB path) t).1,
   (perform env (.DirSizeMB path) t).2.num,
   (perform env (.DirSizeMB path) t).2.err.map GoError.plain)

end elemental

namespace elemental

/-- Go `IsMounted` on a non-nil partition: the flag and the error. -/
def IsMounted (env : Env) (part : Partition) (t : Trace) : Trace × Bool × Option GoError :=
  if part.MountPoint = [] then (t, false, none)
  else
    match Mounter.IsLikelyNotMountPoint env part.MountPoint t with
    | (t, _, some err) => (t, false, some err)
    | (t, notMnt, none) => (t, !notMnt, none)

/-- Go `MountPartition`: the partition is passed by pointer, so the result
carries the partition as the call leaves it. -/
def MountPartition (env : Env) (part : Partition) (opts : List Str) (t : Trace) :
    Trace × Partition × Option GoError :=
  match utils.MkdirAll env part.MountPoint t with
  | (t, some err) => (t, part, some err)
  | (t, none) =>
    let found : Trace × Partition × Option GoError :=
      if part.Path = [] then
        match utils.GetDeviceByLabel env part.FilesystemLabel 10 t with
        | (t, _, some err) => (t, part, some err)
        | (t, device, none) => (t, { part with Path := device }, none)
      else (t, part, none)
    match found with
    | (t, part, some err) => (t, part, some err)
    | (t, part, none) =>
      match Mounter.Mount env part.Path part.MountPoint "auto".toList opts t with
      | (t, some err) => (t, part, some err)
      | (t, none) => (t, part, none)

/-- Go `UnmountPartition`. -/
def UnmountPartition (env : Env) (part : Partition) (t : Trace) : Trace × Option GoError :=
  match IsMounted env part t with
  | (t, false, _) => (t, none)
  | (t, true, _) => Mounter.Unmount env part.MountPoint t

/-- The closure `MountRWPartition` returns: called later, it acts on the
partition as it is then. -/
abbrev Umount := Partition → Trace → Trace × Partition × Option GoError

/-- Go `MountRWPartition`: the partition as the call leaves it, and the error
or, when the error is nil, the closure. -/
def MountRWPartition (env : Env) (part : Partition) (t : Trace) :
    Trace × Partition × Except GoError Umount :=
  match IsMounted env part t with
  | (t, true, _) =>
    match MountPartition env part ["remount".toList, "rw".toList] t with
    | (t, part, some err) => (t, part, .error err)
    | (t, part, none) =>
      (t, part, .ok fun part t => MountPartition env part ["remount".toList, "ro".toList] t)
  | (t, false, _) =>
    match MountPartition env part ["rw".toList] t with
    | (t, part, some err) => (t, part, .error err)
    | (t, part, none) =>
      (t, part, .ok fun part t =>
        ((UnmountPartition env part t).1, part, (UnmountPartition env part t).2))

/-- Go `MountFileSystemImage`: the image is passed by pointer, so the result
carries the image as the call leaves it. -/
def MountFileSystemImage (env : Env) (img : Image) (opts : List Str) (t : Trace) :
    Trace × Image × Option GoError :=
  match utils.MkdirAll env img.MountPoint t with
  | (t, some err) => (t, img, some err)
  | (t, none) =>
    match Runner.Run env "losetup".toList ["--show".toList, "-f".toList, img.File] t with
    | (t, _, some err) => (t, img, some err)
    | (t, out, none) =>
      match Mounter.Mount env (strings.TrimSpace out) img.MountPoint "auto".toList opts t with
      | (t, some err) =>
        ((Runner.Run env "losetup".toList ["-d".toList, strings.TrimSpace out] t).1, img,
          some err)
      | (t, none) => (t, { img with LoopDevice := strings.TrimSpace out }, none)

/-- Go `UnmountFileSystemImage`. -/
def UnmountFileSystemImage (env : Env) (img : Image) (t : Trace) :
    Trace × Image × Option GoError :=
  match Mounter.IsLikelyNotMountPoint env img.MountPoint t with
  | (t, true, _) => (t, img, none)
  | (t, false, _) =>
    match Mounter.Unmount env img.MountPoint t with
    | (t, some err) => (t, img, some err)
    | (t, none) =>
      ((Runner.Run env "losetup".toList ["-d".toList, img.LoopDevice] t).1,
        { img with LoopDevice := [] },
        (Runner.Run env "losetup".toList ["-d".toList, img.LoopDevice] t).2.2)

end elemental

namespace elemental

/-- Go `utils.CreateRAWFile(c.Fs, file, size)`. -/
def utils.CreateRAWFile (env : Env) (file : Str) (size : Nat) (t : Trace) :
    Trace × Option GoError :=
  performErr env (.CreateRAWFile file size) t

/-- Go `utils.CreateDirStructure(c.Fs, root)`. -/
def utils.CreateDirStructure (env : Env) (root : Str) (t : Trace) : Trace × Option GoError :=
  performErr env (.CreateDirStructure root) t

/-- Go `utils.CreateSquashFS(c.Runner, c.Logger, source, target, options)`. -/
def utils.CreateSquashFS (env : Env) (source target : Str) (options : List Str) (t : Trace) :
    Trace × Option GoError :=
  performErr env (.CreateSquashFS source target options) t

/-- Go `utils.CosignVerify(c.Fs, c.Runner, ref, publicKey, debug)`, of which the
caller uses the error only. -/
def utils.CosignVerify (env : Env) (ref publicKey : Str) (debug : Bool) (t : Trace) :
    Trace × Option GoError :=
  performErr env (.CosignVerify ref publicKey debug) t

/-- Go `c.ImageExtractor.ExtractImage(ref, target, platform, local)`. -/
def ImageExtractor.ExtractImage (env : Env) (ref target platform : Str) (loc : Bool)
    (t : Trace) : Trace × Option GoError :=
  performErr env (.ExtractImage ref target platform loc) t

/-- Go ``partitioner.NewMkfsCall(dev, fs, label, c.Runner, extraOpts...).Apply()``,
of which the caller uses the error only. -/
def partitioner.MkfsApply (env : Env) (dev fs label : Str) (extraOpts : List Str)
    (t : Trace) : Trace × Option GoError :=
  performErr env (.MkfsApply dev fs label extraOpts) t

/-- The sizing step of `CreateFileSystemImage`: an image of size 0 with a
root tree given gets the size of that tree plus the overhead; the sum is a Go
`uint`. -/
def CreateFileSystemImage.size (env : Env) (cnst : Cnst) (img : Image) (rootDir : Str)
    (t : Trace) : Trace × Image × Option GoError :=
  if img.Size = 0 ∧ rootDir ≠ [] then
    match utils.DirSizeMB env rootDir t with
    | (t, _, some err) => (t, img, some err)
    | (t, size, none) => (t, { img with Size := (size + cnst.ImgOverhead) % 2 ^ 64 }, none)
  else (t, img, none)

/-- The last step of `CreateFileSystemImage`: the raw file is created and
formatted. -/
def CreateFileSystemImage.format (env : Env) (img : Image) (rootDir : Str) (preload : Bool)
    (t : Trace) : Trace × Image × Option GoError :=
  match utils.CreateRAWFile env img.File img.Size t with
  | (t, some err) => (t, img, some err)
  | (t, none) =>
    let isExt := regexp.MatchExt24 img.FS
    let extraOpts : List Str :=
      if preload && isExt then ["-d".toList, rootDir] else []
    if preload && !isExt then
      (t, img, some (.plain ("unexpected filesystem: ".toList ++ img.FS)))
    else
      match partitioner.MkfsApply env img.File img.FS img.Label extraOpts t with
      | (t, some err) => ((Fs.RemoveAll env img.File t).1, img, some err)
      | (t, none) => (t, img, none)

/-- Go `CreateFileSystemImage`: the directory of the file is created, then the
image is sized, then the file is created and formatted. -/
def CreateFileSystemImage (env : Env) (cnst : Cnst) (img : Image) (rootDir : Str)
    (preload : Bool) (t : Trace) : Trace × Image × Option GoError :=
  match utils.MkdirAll env (filepath.Dir img.File) t with
  | (t, some err) => (t, img, some err)
  | (t, none) =>
    match CreateFileSystemImage.size env cnst img rootDir t with
    | (t, img, some err) => (t, img, some err)
    | (t, img, none) => CreateFileSystemImage.format env img rootDir preload t

/-- The exclusions `DumpSource` passes to `utils.SyncData`. -/
def DumpSource.excludes : List Str :=
  ["/mnt".toList, "/proc".toList, "/sys".toList, "/dev".toList, "/tmp".toList,
   "/host".toList, "/run".toList]

/-- Go `DumpSource`; the `info` result is never assigned, so only the error is
kept. The deferred `UnmountFileSystemImage` of the file source runs on both
returns that follow it, its result dropped. -/
def DumpSource (env : Env) (c : Config) (cnst : Cnst) (target : Str) (imgSrc : ImageSource)
    (t : Trace) : Trace × Option GoError :=
  match utils.MkdirAll env target t with
  | (t, some err) => (t, some err)
  | (t, none) =>
    if imgSrc.IsImage then
      let verified : Trace × Option GoError :=
        if c.Cosign then
          utils.CosignVerify env imgSrc.Value c.CosignPubKey c.Debug t
        else (t, none)
      match verified with
      | (t, some err) => (t, some err)
      | (t, none) =>
        match ImageExtractor.ExtractImage env imgSrc.Value target c.Platform c.LocalImage t with
        | (t, some err) => (t, some err)
        | (t, none) => (t, none)
    else if imgSrc.IsDir then
      match utils.SyncData env imgSrc.Value target DumpSource.excludes t with
      | (t, some err) => (t, some err)
      | (t, none) => (t, none)
    else if imgSrc.IsFile then
      match utils.MkdirAll env cnst.ImgSrcDir t with
      | (t, some err) => (t, some err)
      | (t, none) =>
        match MountFileSystemImage env
            { File := imgSrc.Value, Label := [], FS := [], Size := 0,
              MountPoint := cnst.ImgSrcDir, Source := .empty, LoopDevice := [] }
            ["auto".toList, "ro".toList] t with
        | (t, _, some err) => (t, some err)
        | (t, img, none) =>
          match utils.SyncData env cnst.ImgSrcDir target DumpSource.excludes t with
          | (t, some err) => ((UnmountFileSystemImage env img t).1, some err)
          | (t, none) => ((UnmountFileSystemImage env img t).1, none)
    else (t, some (.plain "unknown image source type".toList))

/-- A tree cleaner, the closure `DeployImgTree` returns. -/
abbrev Cleaner := Trace → Trace × Option GoError

/-- The cleaner closure of `DeployImgTree`: the result of `Unmount` is
dropped. -/
def DeployImgTree.cleaner (env : Env) (root tmp : Str) : Cleaner := fun t =>
  match Fs.RemoveAll env root (Mounter.Unmount env root t).1 with
  | (t, some err) => (t, some err)
  | (t, none) => Fs.RemoveAll env tmp t

/-- Go `DeployImgTree`: the error, or the cleaner when the error is nil; `info`
is whatever `DumpSource` returned, which is always nil. -/
def DeployImgTree (env : Env) (c : Config) (cnst : Cnst) (img : Image) (root : Str)
    (t : Trace) : Trace × Except GoError Cleaner :=
  let tmp := strings.TrimSuffix img.File (filepath.Ext img.File) ++ ".imgTree".toList
  match utils.MkdirAll env tmp t with
  | (t, some err) => (t, .error err)
  | (t, none) =>
    match utils.MkdirAll env root t with
    | (t, some err) => ((Fs.RemoveAll env tmp t).1, .error err)
    | (t, none) =>
      match Mounter.Mount env tmp root "bind".toList ["bind".toList] t with
      | (t, some err) =>
        ((Fs.RemoveAll env root (Fs.RemoveAll env tmp t).1).1, .error err)
      | (t, none) =>
        match DumpSource env c cnst root img.Source t with
        | (t, some err) => ((DeployImgTree.cleaner env root tmp t).1, .error err)
        | (t, none) =>
          match utils.CreateDirStructure env root t with
          | (t, some err) => ((DeployImgTree.cleaner env root tmp t).1, .error err)
          | (t, none) => (t, .ok (DeployImgTree.cleaner env root tmp))

/-- The deferred loop of `CreateImageFromTree` over its cleaners: every cleaner
is called, and its error is kept only while `err` is still nil. -/
def CreateImageFromTree.cleanup : List Cleaner → Trace × Option GoError →
    Trace × Option GoError
  | [], r => r
  | cleaner :: cleaners, (t, err) =>
    match cleaner t, err with
    | (t, some cErr), none => CreateImageFromTree.cleanup cleaners (t, some cErr)
    | (t, _), err => CreateImageFromTree.cleanup cleaners (t, err)

/-- The body of `CreateImageFromTree` up to its return statement: the image,
the value of `err` at the return, and whether the deferred
`UnmountFileSystemImage` has been registered. -/
def CreateImageFromTree.body (env : Env) (c : Config) (cnst : Cnst) (img : Image)
    (rootDir : Str) (preload : Bool) (t : Trace) : Trace × Image × Option GoError × Bool :=
  if img.FS = cnst.SquashFs then
    match utils.MkdirAll env (filepath.Dir img.File) t with
    | (t, some err) => (t, img, some err, false)
    | (t, none) =>
      match utils.CreateSquashFS env rootDir img.File
          (cnst.DefaultSquashfsOptions ++ c.SquashFsCompressionConfig) t with
      | (t, some err) => (t, img, some err, false)
      | (t, none) => (t, img, none, false)
  else
    match CreateFileSystemImage env cnst img rootDir preload t with
    | (t, img, some err) => (t, img, some err, false)
    | (t, img, none) =>
      if !preload then
        match MountFileSystemImage env img ["rw".toList] t with
        | (t, img, some err) => (t, img, some err, false)
        | (t, img, none) =>
          match utils.SyncData env rootDir img.MountPoint [] t with
          | (t, some err) => (t, img, some err, true)
          | (t, none) => (t, img, none, true)
      else (t, img, none, false)

/-- The deferred `UnmountFileSystemImage` of `CreateImageFromTree`, which runs
first of the two deferred functions when it has been registered: its error is
kept only when `err` is nil. -/
def CreateImageFromTree.unmount (env : Env) :
    Trace × Image × Option GoError × Bool → Trace × Image × Option GoError
  | (t, img, err, false) => (t, img, err)
  | (t, img, err, true) =>
    match UnmountFileSystemImage env img t, err with
    | (t, img, some mErr), none => (t, img, some mErr)
    | (t, img, _), err => (t, img, err)

/-- Go `CreateImageFromTree`: the body, then the deferred functions in the
reverse order of their registration. -/
def CreateImageFromTree (env : Env) (c : Config) (cnst : Cnst) (img : Image) (rootDir : Str)
    (preload : Bool) (cleaners : List Cleaner) (t : Trace) :
    Trace × Image × Option GoError :=
  match CreateImageFromTree.unmount env
      (CreateImageFromTree.body env c cnst img rootDir preload t) with
  | (t, img, err) =>
    ((CreateImageFromTree.cleanup cleaners (t, err)).1, img,
      (CreateImageFromTree.cleanup cleaners (t, err)).2)

/-- Go `DeployImage`: the image as the call leaves it and the error; `info` is
always nil. -/
def DeployImage (env : Env) (c : Config) (cnst : Cnst) (img : Image) (t : Trace) :
    Trace × Image × Option GoError :=
  match DeployImgTree env c cnst img cnst.WorkingImgDir t with
  | (t, .error err) => (t, img, some err)
  | (t, .ok cleaner) =>
    match CreateImageFromTree env c cnst img cnst.WorkingImgDir false [cleaner] t with
    | (t, img, some err) => (t, img, some err)
    | (t, img, none) => (t, img, none)

end elemental

namespace elemental

/-- The loop of `UnmountPartitions` over the partitions: the state is the
history, `errMsg` and `failure`. -/
def UnmountPartitions.loop (env : Env) : List Partition → Trace × Str × Bool →
    Trace × Str × Bool
  | [], st => st
  | part :: parts, (t, errMsg, failure) =>
    if part.MountPoint ≠ [] then
      match UnmountPartition env part t with
      | (t, some _) =>
        UnmountPartitions.loop env parts
          (t, errMsg ++ ("Failed to unmount ".toList ++ part.MountPoint ++ "\n".toList), true)
      | (t, none) => UnmountPartitions.loop env parts (t, errMsg, failure)
    else UnmountPartitions.loop env parts (t, errMsg, failure)

/-- Go `UnmountPartitions`. -/
def UnmountPartitions (env : Env) (parts : List Partition) (t : Trace) :
    Trace × Option GoError :=
  match UnmountPartitions.loop env parts (t, [], false) with
  | (t, errMsg, true) => (t, some (.plain errMsg))
  | (t, _, false) => (t, none)

/-- The loop of `MountPartitions`: `done` holds the partitions already visited,
as the loop left them, and the second list the ones still to visit. The list
holds pointers, so the `UnmountPartitions` of the failure path sees the
partitions as the mounts left them (the pointers are taken to be distinct). -/
def MountPartitions.loop (env : Env) : List Partition → List Partition → Trace →
    Trace × List Partition × Option GoError
  | done, [], t => (t, done, none)
  | done, part :: parts, t =>
    if part.MountPoint ≠ [] then
      match MountPartition env part ["rw".toList] t with
      | (t, part, some err) =>
        ((UnmountPartitions env (done ++ part :: parts) t).1, done ++ part :: parts, some err)
      | (t, part, none) => MountPartitions.loop env (done ++ [part]) parts t
    else MountPartitions.loop env (done ++ [part]) parts t

/-- Go `MountPartitions`: the partitions as the call leaves them and the
error. -/
def MountPartitions (env : Env) (parts : List Partition) (t : Trace) :
    Trace × List Partition × Option GoError :=
  MountPartitions.loop env [] parts t

end elemental

/-! ## The loop-device snapshotter (`pkg/snapshotter`) -/

namespace snapshotter

/-- Modelled from the spec: the `Snapshot` of `pkg/types/v1`, whose declaration
is not among the sources: the id, the in-progress mark and the path of the
backing image file.  The staging tree (`work_dir`) and its mount are outside
this model. -/
structure Snapshot where
  ID : Nat
  InProgress : Bool
  Path : Str
  deriving DecidableEq, Repr

/-- Modelled from the spec: the state of the loop-device snapshotter of
`pkg/snapshotter/loopdevice.go`, which is not among the sources (only its
tests are): the root, the bound `max_snaps`, the ids of the numbered
subdirectories of `<root>/.snapshots` in ascending order, and the id the
`active` symlink points to, when the link exists. -/
structure LoopDevice where
  rootDir : Str
  maxSnaps : Nat
  ids : List Nat
  active : Option Nat
  deriving DecidableEq, Repr

/-- Modelled from the spec: `get_snapshots` of the missing `loopdevice.go`, the
sorted list of the ids. -/
def GetSnapshots (l : LoopDevice) : List Nat := l.ids

/-- Modelled from the spec: the id allocation of the missing `loopdevice.go`:
`max(existing ids) + 1`, or `1` when there is none. -/
def nextID (ids : List Nat) : Nat :=
  if ids = [] then 1 else ids.foldr max 0 + 1

/-- Modelled from the spec: active detection of the missing `loopdevice.go`:
the `active` link is broken when it exists and the snapshot it points to does
not. -/
def activeBroken (l : LoopDevice) : Bool :=
  match l.active with
  | none => false
  | some a => !l.ids.contains a

/-- Modelled from the spec: `start_transaction` of the missing
`loopdevice.go`.  A broken `active` link is a fatal error; otherwise the new
id is allocated, the directory `<root>/.snapshots/<id>/` is created, and the
snapshot returned is in progress with the path
`<root>/.snapshots/<id>/snapshot.img`. -/
def StartTransaction (l : LoopDevice) : Except GoError (LoopDevice × Snapshot) :=
  if activeBroken l then .error (.plain "active snapshot link is broken".toList)
  else
    let id := nextID l.ids
    .ok ({ l with ids := l.ids ++ [id] },
      { ID := id, InProgress := true,
        Path := l.rootDir ++ "/.snapshots/".toList ++ (Nat.repr id).toList ++
          "/snapshot.img".toList })

/-- Modelled from the spec: retention of the missing `loopdevice.go`: the ids
are walked in ascending order and each one is deleted until the total count
has dropped to `max_snaps` or the candidate is the currently-active id. -/
def retention (maxSnaps : Nat) (active : Option Nat) : List Nat → List Nat
  | [] => []
  | id :: rest =>
    if (id :: rest).length ≤ maxSnaps then id :: rest
    else if active = some id then id :: rest
    else retention maxSnaps active rest

/-- Modelled from the spec: `close_transaction` of the missing
`loopdevice.go`.  A snapshot that is not in progress is dropped: its directory
is removed and nothing else changes (after such a close the tests list the
ids without it).  Otherwise the close commits: the `active` link is rewritten
to the new id and retention runs, the currently-active id being the one
detected before the link was rewritten (the running generation). -/
def CloseTransaction (l : LoopDevice) (snap : Snapshot) : LoopDevice :=
  if !snap.InProgress then { l with ids := l.ids.filter fun id => id ≠ snap.ID }
  else { l with active := some snap.ID, ids := retention l.maxSnaps l.active l.ids }

end snapshotter

/-! ## Definitions used to state the properties of `elemental.go` -/

namespace elemental

/-- An entry of the mount table (`mount.MountPoint` of the mounter; `Type_` is
its field `Type`). -/
structure MountPoint where
  Device : Str
  Path : Str
  Type_ : Str
  Opts : List Str
  deriving DecidableEq, Repr

/-- The effect of one call on the mount table. A successful `Mount` adds an
entry, except that with `merge` a mount whose options contain `remount` adds
none (the kernel updates the entry in place; without `merge` the table is the
one of the mounter that the tests of the repository use, which appends every
mount); a successful `Unmount` removes the entries of its target. -/
def mountStep (merge : Bool) (tbl : List MountPoint) (ev : Event) : List MountPoint :=
  match ev.call, ev.resp.err with
  | .Mount source target fstype options, none =>
    if merge = true ∧ "remount".toList ∈ options then tbl
    else tbl ++ [⟨source, target, fstype, options⟩]
  | .Unmount target, none => tbl.filter fun m => decide (m.Path ≠ target)
  | _, _ => tbl

/-- The mount table that a history of calls leaves, starting from an empty
one. -/
def mountTable (merge : Bool) (t : Trace) : List MountPoint :=
  t.foldl (mountStep merge) []

/-- The effect of one call on the loop devices that are set up: a successful
`losetup --show -f <file>` sets up the device it prints, a successful
`losetup -d <loop>` detaches that device. -/
def loopStep (loops : List Str) (ev : Event) : List Str :=
  match ev.call, ev.resp.err with
  | .Run command [a, b, _], none =>
    if command = "losetup".toList ∧ a = "--show".toList ∧ b = "-f".toList then
      loops ++ [strings.TrimSpace ev.resp.out]
    else loops
  | .Run command [a, loop], none =>
    if command = "losetup".toList ∧ a = "-d".toList then
      loops.filter fun l => decide (l ≠ loop)
    else loops
  | _, _ => loops

/-- The loop devices that a history of calls leaves set up. -/
def openLoops (t : Trace) : List Str :=
  t.foldl loopStep []

/-- Whether a call releases a resource: an `Unmount` or a `losetup -d`. -/
def Call.isRelease : Call → Bool
  | .Unmount _ => true
  | .Run command [a, _] => command = "losetup".toList && a = "-d".toList
  | _ => false

/-- Every unmount and every `losetup -d` among the events succeeded. -/
def releasesOk (es : List Event) : Prop :=
  ∀ ev ∈ es, ev.call.isRelease = true → ev.resp.err = none

/-- The events leave no mount and no loop device behind, whatever the table
and the devices before them. -/
def Balanced (merge : Bool) (es : List Event) : Prop :=
  ∀ (tbl : List MountPoint) (loops : List Str),
    (es.foldl (mountStep merge) tbl).Sublist tbl ∧ (es.foldl loopStep loops).Sublist loops

/-- The mounter answers `IsLikelyNotMountPoint` from the mount table: a path is
reported as not a mountpoint exactly when the table has no entry for it. -/
def Env.consistent (merge : Bool) (env : Env) : Prop :=
  ∀ (t : Trace) (file : Str),
    (env t (.IsLikelyNotMountPoint file)).flag = true ↔
      ∀ m ∈ mountTable merge t, m.Path ≠ file

/-- An environment for the examples: the calls that `failing` selects fail with
`failed`, every other call succeeds; `losetup` prints `/dev/loop0` and a new
line, a label resolves to `/dev/sda1`, directories hold 32 MiB, and
`IsLikelyNotMountPoint` is answered from the mount table. -/
def Env.fake (merge : Bool) (failing : Call → Bool) : Env := fun t call =>
  { err := if failing call then some "failed".toList else none
    out :=
      match call with
      | .Run _ _ => "/dev/loop0\n".toList
      | .GetDeviceByLabel _ _ => "/dev/sda1".toList
      | _ => []
    num := 32
    flag :=
      match call with
      | .IsLikelyNotMountPoint file =>
        (mountTable merge t).all fun m => decide (m.Path ≠ file)
      | _ => false }

/-- No call fails. -/
def noFailure : Call → Bool := fun _ => false

/-- Every `Unmount` fails, nothing else does. -/
def unmountFails : Call → Bool
  | .Unmount _ => true
  | _ => false

/-- Every `Mount` fails, nothing else does. -/
def mountFails : Call → Bool
  | .Mount _ _ _ _ => true
  | _ => false

/-- The error a Go function returned besides its closure, `none` for nil. -/
def errorOf {α : Type} : Except GoError α → Option GoError
  | .error err => some err
  | .ok _ => none

/-- How a call of `IsMounted` can go: the events it adds and its flag. -/
inductive MountedCheck (part : Partition) : List Event → Bool → Prop
  | unset : part.MountPoint = [] → MountedCheck part [] false
  | asked (r : Response) : part.MountPoint ≠ [] →
      MountedCheck part [⟨.IsLikelyNotMountPoint part.MountPoint, r⟩]
        (decide (r.err = none) && !r.flag)

/-- How a call of `MountPartition` can go: the events it adds, the partition it
leaves and its error. The mount is the last event, made from the path of the
partition, or from the device its label resolves to when the path is empty,
onto the mountpoint with type `auto` and the given options. -/
inductive PartitionMounting (part : Partition) (opts : List Str) :
    List Event → Partition → Option GoError → Prop
  | mkdir (r : Response) (msg : Str) : r.err = some msg →
      PartitionMounting part opts [⟨.MkdirAll part.MountPoint, r⟩] part (some (.plain msg))
  | label (r1 r2 : Response) (msg : Str) : part.Path = [] → r1.err = none →
      r2.err = some msg →
      PartitionMounting part opts
        [⟨.MkdirAll part.MountPoint, r1⟩, ⟨.GetDeviceByLabel part.FilesystemLabel 10, r2⟩]
        part (some (.plain msg))
  | resolved (r1 r2 r3 : Response) : part.Path = [] → r1.err = none → r2.err = none →
      PartitionMounting part opts
        [⟨.MkdirAll part.MountPoint, r1⟩, ⟨.GetDeviceByLabel part.FilesystemLabel 10, r2⟩,
         ⟨.Mount r2.out part.MountPoint "auto".toList opts, r3⟩]
        { part with Path := r2.out } (r3.err.map GoError.plain)
  | known (r1 r3 : Response) : part.Path ≠ [] → r1.err = none →
      PartitionMounting part opts
        [⟨.MkdirAll part.MountPoint, r1⟩,
         ⟨.Mount part.Path part.MountPoint "auto".toList opts, r3⟩]
        part (r3.err.map GoError.plain)

/-- How a call of `UnmountPartition` can go: the events it adds and its
error. -/
inductive PartitionUnmounting (part : Partition) : List Event → Option GoError → Prop
  | skipped (es : List Event) : MountedCheck part es false →
      PartitionUnmounting part es none
  | unmount (es : List Event) (r : Response) : MountedCheck part es true →
      PartitionUnmounting part (es ++ [⟨.Unmount part.MountPoint, r⟩])
        (r.err.map GoError.plain)

/-- How a call of `MountFileSystemImage` can go: the events it adds, the image
it leaves and its error. -/
inductive ImageMounting (img : Image) (opts : List Str) :
    List Event → Image → Option GoError → Prop
  | mkdir (r : Response) (msg : Str) : r.err = some msg →
      ImageMounting img opts [⟨.MkdirAll img.MountPoint, r⟩] img (some (.plain msg))
  | losetup (r1 r2 : Response) (msg : Str) : r1.err = none → r2.err = some msg →
      ImageMounting img opts
        [⟨.MkdirAll img.MountPoint, r1⟩,
         ⟨.Run "losetup".toList ["--show".toList, "-f".toList, img.File], r2⟩]
        img (some (.plain msg))
  | mount (r1 r2 r3 r4 : Response) (msg : Str) : r1.err = none → r2.err = none →
      r3.err = some msg →
      ImageMounting img opts
        [⟨.MkdirAll img.MountPoint, r1⟩,
         ⟨.Run "losetup".toList ["--show".toList, "-f".toList, img.File], r2⟩,
         ⟨.Mount (strings.TrimSpace r2.out) img.MountPoint "auto".toList opts, r3⟩,
         ⟨.Run "losetup".toList ["-d".toList, strings.TrimSpace r2.out], r4⟩]
        img (some (.plain msg))
  | mounted (r1 r2 r3 : Response) : r1.err = none → r2.err = none → r3.err = none →
      ImageMounting img opts
        [⟨.MkdirAll img.MountPoint, r1⟩,
         ⟨.Run "losetup".toList ["--show".toList, "-f".toList, img.File], r2⟩,
         ⟨.Mount (strings.TrimSpace r2.out) img.MountPoint "auto".toList opts, r3⟩]
        { img with LoopDevice := strings.TrimSpace r2.out } none

/-- How a call of `UnmountFileSystemImage` can go: the events it adds, the
image it leaves and its error. -/
inductive ImageUnmounting (img : Image) : List Event → Image → Option GoError → Prop
  | notMounted (r : Response) : r.flag = true →
      ImageUnmounting img [⟨.IsLikelyNotMountPoint img.MountPoint, r⟩] img none
  | busy (r1 r2 : Response) (msg : Str) : r1.flag = false → r2.err = some msg →
      ImageUnmounting img
        [⟨.IsLikelyNotMountPoint img.MountPoint, r1⟩, ⟨.Unmount img.MountPoint, r2⟩]
        img (some (.plain msg))
  | unmounted (r1 r2 r3 : Response) : r1.flag = false → r2.err = none →
      ImageUnmounting img
        [⟨.IsLikelyNotMountPoint img.MountPoint, r1⟩, ⟨.Unmount img.MountPoint, r2⟩,
         ⟨.Run "losetup".toList ["-d".toList, img.LoopDevice], r3⟩]
        { img with LoopDevice := [] } (r3.err.map GoError.plain)

/-- The histories after `MountRWPartition` and after calling the closure it
returned straight away; `none` when `MountRWPartition` failed. -/
def mountThenRelease (env : Env) (part : Partition) (t : Trace) : Option (Trace × Trace) :=
  match MountRWPartition env part t with
  | (t1, part1, .ok umount) => some (t1, (umount part1 t1).1)
  | (_, _, .error _) => none

/-- Calling every cleaner once, in order: the history and the errors they
returned. -/
def invokeAll : List Cleaner → Trace → Trace × List (Option GoError)
  | [], t => (t, [])
  | cleaner :: cleaners, t =>
    ((invokeAll cleaners (cleaner t).1).1, (cleaner t).2 :: (invokeAll cleaners (cleaner t).1).2)

/-- The first error of a list of results, `none` when all are nil. -/
def firstError : List (Option GoError) → Option GoError
  | [] => none
  | some err :: _ => some err
  | none :: errs => firstError errs

/-- A partition for the examples, with a known device path. -/
def samplePartition : Partition :=
  { Name := "state".toList, FilesystemLabel := "COS_STATE".toList, FS := "ext4".toList,
    MountPoint := "/run/cos/state".toList, Path := "/dev/sda2".toList }

/-- Sample values for the constants `elemental.go` reads. -/
def sampleCnst : Cnst :=
  { ImgOverhead := 256, SquashFs := "squashfs".toList,
    WorkingImgDir := "/run/work".toList, ImgSrcDir := "/run/src".toList,
    DefaultSquashfsOptions := ["-b".toList, "1024k".toList] }

/-- A configuration for the examples. -/
def sampleConfig : Config :=
  { Cosign := false, CosignPubKey := [], Platform := "linux/amd64".toList,
    LocalImage := false, SquashFsCompressionConfig := [], Debug := false }

/-- An image for the examples, filled from a directory. -/
def sampleImage (fs : Str) : Image :=
  { File := "/s/a.img".toList, Label := "COS_ACTIVE".toList, FS := fs, Size := 32,
    MountPoint := "/run/img".toList, Source := .directory "/tree".toList, LoopDevice := [] }

end elemental

namespace elemental

/-- A cleaner for the examples: it records that it removed `path` and returns
`err`. -/
def sampleCleaner (path : Str) (err : Option Str) : Cleaner := fun t =>
  (t ++ [⟨.RemoveAll path, ⟨err, [], 0, false⟩⟩], err.map GoError.plain)

/-- Only `CreateSquashFS` fails. -/
def squashFails : Call → Bool
  | .CreateSquashFS _ _ _ => true
  | _ => false

end elemental

namespace elemental

/-- Whether a call leaves the mount table and the loop devices alone: it is
neither a mount, nor an unmount, nor a command. -/
def Call.isInert : Call → Bool
  | .Mount _ _ _ _ => false
  | .Unmount _ => false
  | .Run _ _ => false
  | _ => true

/-- The events change neither the mount table nor the loop devices. -/
def Neutral (merge : Bool) (es : List Event) : Prop :=
  ∀ (tbl : List MountPoint) (loops : List Str),
    es.foldl (mountStep merge) tbl = tbl ∧ es.foldl loopStep loops = loops

end elemental

namespace elemental

/-- The line `UnmountPartitions` adds to its message for a partition whose
unmount failed. -/
def unmountFailure (part : Partition) : Str :=
  "Failed to unmount ".toList ++ part.MountPoint ++ "\n".toList

/-- What `UnmountPartitions` does for one partition: the events it adds and the
text it adds to the message. A partition without mountpoint is passed over;
otherwise `UnmountPartition` runs, and the failure line is added when it
returns an error. -/
inductive UnmountAttempt (part : Partition) : List Event → Str → Prop
  | passed : part.MountPoint = [] → UnmountAttempt part [] []
  | released (es : List Event) : part.MountPoint ≠ [] →
      PartitionUnmounting part es none → UnmountAttempt part es []
  | failed (es : List Event) (err : GoError) : part.MountPoint ≠ [] →
      PartitionUnmounting part es (some err) → UnmountAttempt part es (unmountFailure part)

/-- What `MountPartitions` does for one partition when nothing fails: the
events it adds and the partition it leaves. A partition without mountpoint is
passed over; otherwise `MountPartition` runs with the option `rw`. -/
inductive MountAttempt (part : Partition) : List Event → Partition → Prop
  | passed : part.MountPoint = [] → MountAttempt part [] part
  | mounted (es : List Event) (part1 : Partition) : part.MountPoint ≠ [] →
      PartitionMounting part ["rw".toList] es part1 none → MountAttempt part es part1

/-- The events of a list of attempts, in order. -/
def attemptEvents {α : Type} (atts : List (List Event × α)) : List Event :=
  (atts.map fun a => a.1).flatten

/-- A partition list for the examples: the sample partition, a partition
without mountpoint and a partition at `/oem`. -/
def sampleParts : List Partition :=
  [samplePartition,
   { Name := "efi".toList, FilesystemLabel := "COS_GRUB".toList, FS := "vfat".toList,
     MountPoint := [], Path := "/dev/sda1".toList },
   { Name := "oem".toList, FilesystemLabel := "COS_OEM".toList, FS := "ext4".toList,
     MountPoint := "/oem".toList, Path := "/dev/sda3".toList }]

/-- The mounts onto `/oem` fail and so do the unmounts, nothing else does. -/
def oemMountFails : Call → Bool
  | .Mount _ target _ _ => target = "/oem".toList
  | .Unmount _ => true
  | _ => false

end elemental

namespace elemental

/-- How the sizing step of `CreateFileSystemImage` can go: the events it adds,
the image it leaves and its error. -/
inductive ImageSizing (cnst : Cnst) (img : Image) (rootDir : Str) :
    List Event → Image → Option GoError → Prop
  | kept : ¬ (img.Size = 0 ∧ rootDir ≠ []) → ImageSizing cnst img rootDir [] img none
  | failed (r : Response) (msg : Str) : img.Size = 0 → rootDir ≠ [] → r.err = some msg →
      ImageSizing cnst img rootDir [⟨.DirSizeMB rootDir, r⟩] img (some (.plain msg))
  | sized (r : Response) : img.Size = 0 → rootDir ≠ [] → r.err = none →
      ImageSizing cnst img rootDir [⟨.DirSizeMB rootDir, r⟩]
        { img with Size := (r.num + cnst.ImgOverhead) % 2 ^ 64 } none

/-- How the last step of `CreateFileSystemImage` can go: the events it adds
and its error. -/
inductive ImageFormatting (img : Image) (rootDir : Str) (preload : Bool) :
    List Event → Option GoError → Prop
  | rawFailed (r : Response) (msg : Str) : r.err = some msg →
      ImageFormatting img rootDir preload [⟨.CreateRAWFile img.File img.Size, r⟩]
        (some (.plain msg))
  | unsupported (r : Response) : r.err = none → preload = true →
      regexp.MatchExt24 img.FS = false →
      ImageFormatting img rootDir preload [⟨.CreateRAWFile img.File img.Size, r⟩]
        (some (.plain ("unexpected filesystem: ".toList ++ img.FS)))
  | mkfsFailed (r1 r2 r3 : Response) (msg : Str) : r1.err = none →
      (preload = true → regexp.MatchExt24 img.FS = true) → r2.err = some msg →
      ImageFormatting img rootDir preload
        [⟨.CreateRAWFile img.File img.Size, r1⟩,
         ⟨.MkfsApply img.File img.FS img.Label
            (if preload = true then ["-d".toList, rootDir] else []), r2⟩,
         ⟨.RemoveAll img.File, r3⟩]
        (some (.plain msg))
  | formatted (r1 r2 : Response) : r1.err = none →
      (preload = true → regexp.MatchExt24 img.FS = true) → r2.err = none →
      ImageFormatting img rootDir preload
        [⟨.CreateRAWFile img.File img.Size, r1⟩,
         ⟨.MkfsApply img.File img.FS img.Label
            (if preload = true then ["-d".toList, rootDir] else []), r2⟩]
        none

/-- How a call of `CreateFileSystemImage` can go: the events it adds, the image
it leaves and its error. -/
inductive ImageCreating (cnst : Cnst) (img : Image) (rootDir : Str) (preload : Bool) :
    List Event → Image → Option GoError → Prop
  | mkdir (r : Response) (msg : Str) : r.err = some msg →
      ImageCreating cnst img rootDir preload [⟨.MkdirAll (filepath.Dir img.File), r⟩] img
        (some (.plain msg))
  | unsized (r : Response) (es : List Event) (err : GoError) : r.err = none →
      ImageSizing cnst img rootDir es img (some err) →
      ImageCreating cnst img rootDir preload
        (⟨.MkdirAll (filepath.Dir img.File), r⟩ :: es) img (some err)
  | sized (r : Response) (es1 es2 : List Event) (img1 : Image) (err : Option GoError) :
      r.err = none → ImageSizing cnst img rootDir es1 img1 none →
      ImageFormatting img1 rootDir preload es2 err →
      ImageCreating cnst img rootDir preload
        (⟨.MkdirAll (filepath.Dir img.File), r⟩ :: (es1 ++ es2)) img1 err

/-- Only `MkfsApply` fails. -/
def mkfsFails : Call → Bool
  | .MkfsApply _ _ _ _ => true
  | _ => false

end elemental

namespace elemental

/-- The image `DumpSource` mounts for a file source. -/
def DumpSource.image (cnst : Cnst) (imgSrc : ImageSource) : Image :=
  { File := imgSrc.Value, Label := [], FS := [], Size := 0, MountPoint := cnst.ImgSrcDir,
    Source := .empty, LoopDevice := [] }

/-- How a call of `DumpSource` can go, by the type of the source: the events
it adds and its error. Every path starts with the creation of the target
directory. -/
inductive SourceDumping (c : Config) (cnst : Cnst) (target : Str) :
    ImageSource → List Event → Option GoError → Prop
  | mkdir (imgSrc : ImageSource) (r : Response) (msg : Str) : r.err = some msg →
      SourceDumping c cnst target imgSrc [⟨.MkdirAll target, r⟩] (some (.plain msg))
  | unverified (ref : Str) (r1 r2 : Response) (msg : Str) : r1.err = none →
      c.Cosign = true → r2.err = some msg →
      SourceDumping c cnst target (.docker ref)
        [⟨.MkdirAll target, r1⟩, ⟨.CosignVerify ref c.CosignPubKey c.Debug, r2⟩]
        (some (.plain msg))
  | verified (ref : Str) (r1 r2 r3 : Response) : r1.err = none → c.Cosign = true →
      r2.err = none →
      SourceDumping c cnst target (.docker ref)
        [⟨.MkdirAll target, r1⟩, ⟨.CosignVerify ref c.CosignPubKey c.Debug, r2⟩,
         ⟨.ExtractImage ref target c.Platform c.LocalImage, r3⟩]
        (r3.err.map GoError.plain)
  | extracted (ref : Str) (r1 r3 : Response) : r1.err = none → c.Cosign = false →
      SourceDumping c cnst target (.docker ref)
        [⟨.MkdirAll target, r1⟩, ⟨.ExtractImage ref target c.Platform c.LocalImage, r3⟩]
        (r3.err.map GoError.plain)
  | synced (path : Str) (r1 r2 : Response) : r1.err = none →
      SourceDumping c cnst target (.directory path)
        [⟨.MkdirAll target, r1⟩, ⟨.SyncData path target DumpSource.excludes, r2⟩]
        (r2.err.map GoError.plain)
  | staging (path : Str) (r1 r2 : Response) (msg : Str) : r1.err = none →
      r2.err = some msg →
      SourceDumping c cnst target (.file path)
        [⟨.MkdirAll target, r1⟩, ⟨.MkdirAll cnst.ImgSrcDir, r2⟩] (some (.plain msg))
  | mountFailed (path : Str) (r1 r2 : Response) (es : List Event) (img1 : Image)
      (err : GoError) : r1.err = none → r2.err = none →
      ImageMounting (DumpSource.image cnst (.file path)) ["auto".toList, "ro".toList] es img1
        (some err) →
      SourceDumping c cnst target (.file path)
        ([⟨.MkdirAll target, r1⟩, ⟨.MkdirAll cnst.ImgSrcDir, r2⟩] ++ es) (some err)
  | copied (path : Str) (r1 r2 r3 : Response) (es1 es2 : List Event) (img1 img2 : Image)
      (err : Option GoError) : r1.err = none → r2.err = none →
      ImageMounting (DumpSource.image cnst (.file path)) ["auto".toList, "ro".toList] es1 img1
        none →
      ImageUnmounting img1 es2 img2 err →
      SourceDumping c cnst target (.file path)
        ([⟨.MkdirAll target, r1⟩, ⟨.MkdirAll cnst.ImgSrcDir, r2⟩] ++ es1 ++
          [⟨.SyncData cnst.ImgSrcDir target DumpSource.excludes, r3⟩] ++ es2)
        (r3.err.map GoError.plain)
  | unknown (r1 : Response) : r1.err = none →
      SourceDumping c cnst target .empty [⟨.MkdirAll target, r1⟩]
        (some (.plain "unknown image source type".toList))

end elemental

/-- A specification with a block workspace on `/dev/vda3`: fstab requested, no
volumes and no paths. -/
def blockSpec : MountSpec where
  WriteFstab := true
  Ephemeral := { Type_ := "block".toList, Device := "/dev/vda3".toList, Size := "25%".toList,
                 Paths := [] }
  Persistent := { Mode := [], Paths := [] }
  Volumes := []
  Sysroot := "/sysroot".toList

namespace snapshotter

/-- The state of the test suite `using loopdevice on sixth snapshot`: root
`/some/root`, `max_snaps` 4, the snapshots 1 to 5, and `active` the active
snapshot. -/
def sixth (active : Nat) : LoopDevice where
  rootDir := "/some/root".toList
  maxSnaps := 4
  ids := [1, 2, 3, 4, 5]
  active := some active

/-- An operation on the snapshotter. -/
inductive Op where
  | start
  | close (snap : Snapshot)
  deriving DecidableEq, Repr

/-- A snapshotter together with its past: `seen` lists every id that has
existed so far, the initial ones first, then the allocated ones in order. -/
structure Run where
  l : LoopDevice
  seen : List Nat
  deriving DecidableEq, Repr

/-- One operation of a run: a successful `start_transaction` records the new
id, a failed one changes nothing, a `close_transaction` changes the
snapshotter. -/
def Run.step (r : Run) : Op → Run
  | .start =>
    match StartTransaction r.l with
    | .error _ => r
    | .ok (l, snap) => { l := l, seen := r.seen ++ [snap.ID] }
  | .close snap => { r with l := CloseTransaction r.l snap }

/-- The run of a sequence of operations from the snapshotter `l`. -/
def run (l : LoopDevice) (ops : List Op) : Run :=
  ops.foldl Run.step { l := l, seen := l.ids }

/-- A committing close: the closed snapshot is in progress. -/
def Op.commits : Op → Prop
  | .start => True
  | .close snap => snap.InProgress = true

instance Op.commits.decidable (op : Op) : Decidable op.commits := by
  cases op <;> unfold Op.commits <;> infer_instance

end snapshotter

namespace snapshotter

/-- What a run keeps true when every close commits: the ids seen are
ascending, the current ids are among them in order, every id seen is at most
some current id when there is one, and when there is none either nothing was
ever seen or the `active` link is broken. -/
def Run.Inv (r : Run) : Prop :=
  List.Pairwise (fun a b => a < b) r.seen ∧ List.Sublist r.l.ids r.seen ∧
  (r.l.ids ≠ [] → ∀ x ∈ r.seen, ∃ y ∈ r.l.ids, x ≤ y) ∧
  (r.l.ids = [] → r.seen = [] ∨ activeBroken r.l = true)

end snapshotter

/-! ## Lemmas on the library functions -/

theorem splitOnP_no_sep {α : Type} (p : α → Bool) (xs : List α) :
    ∀ l ∈ xs.splitOnP p, ∀ x ∈ l, p x = false := by
  induction xs with
  | nil => simp
  | cons a as ih =>
    rw [List.splitOnP_cons]
    by_cases h : p a = true
    · simp only [h, if_true]
      intro l hl
      rcases List.mem_cons.1 hl with rfl | hl
      · simp
      · exact ih l hl
    · simp only [h, if_false]
      have hne := List.splitOnP_ne_nil p as
      cases hs : List.splitOnP p as with
      | nil => exact absurd hs hne
      | cons hd tl =>
        rw [hs] at ih
        simp only [List.modifyHead_cons]
        intro l hl
        rcases List.mem_cons.1 hl with rfl | hl
        · intro x hx
          rcases List.mem_cons.1 hx with rfl | hx
          · simpa using h
          · exact ih hd (List.mem_cons_self _ _) x hx
        · exact ih l (List.mem_cons_of_mem _ hl)

theorem splitOn_no_sep (c : Char) (xs : Str) : ∀ l ∈ xs.splitOn c, c ∉ l := by
  intro l hl hc
  have := splitOnP_no_sep (fun x => x == c) xs l hl c hc
  simp at this

theorem Clean_step_plain (rooted : Bool) (out : List Str) (e : Str) (he : plainElem e) :
    filepath.Clean.step rooted out e = e :: out := by
  obtain ⟨h1, h2, h3⟩ := he
  simp [filepath.Clean.step, h1, h2, h3]

theorem Clean_foldl_plain (rooted : Bool) (es : List Str) (out : List Str)
    (hes : ∀ e ∈ es, plainElem e) :
    es.foldl (filepath.Clean.step rooted) out = es.reverse ++ out := by
  induction es generalizing out with
  | nil => simp
  | cons e es ih =>
    simp only [List.foldl_cons, List.reverse_cons, List.append_assoc, List.singleton_append]
    rw [Clean_step_plain rooted out e (hes e (List.mem_cons_self _ _))]
    exact ih _ (fun x hx => hes x (List.mem_cons_of_mem _ hx))

/-- `filepath.Clean` leaves a rooted path with plain elements as it is. -/
theorem Clean_rooted_plain (es : List Str) (hne : es ≠ [])
    (hes : ∀ e ∈ es, plainElem e ∧ '/' ∉ e) :
    filepath.Clean ('/' :: ['/'].intercalate es) = '/' :: ['/'].intercalate es := by
  have hsplit : ('/' :: ['/'].intercalate es).splitOn '/' = [] :: es := by
    have hsep : ∀ l ∈ ([] : Str) :: es, '/' ∉ l := by
      intro l hl
      rcases List.mem_cons.1 hl with rfl | hl
      · simp
      · exact (hes l hl).2
    have h : (['/'].intercalate (([] : Str) :: es)).splitOn '/' = ([] : Str) :: es :=
      List.splitOn_intercalate (([] : Str) :: es) '/' hsep (by simp)
    cases es with
    | nil => exact absurd rfl hne
    | cons a as =>
      simpa [List.intercalate, List.intersperse] using h
  unfold filepath.Clean
  simp only [List.cons_ne_nil, if_false, List.head?_cons, decide_True, if_true, hsplit,
    List.foldl_cons]
  have h0 : filepath.Clean.step true [] [] = [] := by simp [filepath.Clean.step]
  rw [h0, Clean_foldl_plain true es [] (fun e he => (hes e he).1)]
  simp

theorem msgs_Append_plain (errs : Option GoError) (m : Str) :
    GoError.msgs (multierror.Append errs (.plain m)) = GoError.msgs errs ++ [m] := by
  rcases errs with _ | (_ | _) <;> simp [multierror.Append, GoError.msgs]

theorem Append_ne_none (errs : Option GoError) (e : GoError) :
    multierror.Append errs e ≠ none := by
  simp [multierror.Append]

theorem MkdirAll_cases (env : Env) (path : Str) (t : Trace) :
    (env.MkdirAll t path = none ∧
      utils.MkdirAll env path t = (t ++ [⟨.MkdirAll path, true⟩], none)) ∨
    (∃ m, env.MkdirAll t path = some m ∧
      utils.MkdirAll env path t = (t ++ [⟨.MkdirAll path, false⟩], some (.plain m))) := by
  unfold utils.MkdirAll
  cases h : env.MkdirAll t path <;> simp

theorem Mount_cases (env : Env) (source target fstype : Str) (options : List Str) (t : Trace) :
    (env.Mount t source target fstype options = none ∧
      Mounter.Mount env source target fstype options t =
        (t ++ [⟨.Mount source target fstype options, true⟩], none)) ∨
    (∃ m, env.Mount t source target fstype options = some m ∧
      Mounter.Mount env source target fstype options t =
        (t ++ [⟨.Mount source target fstype options, false⟩], some (.plain m))) := by
  unfold Mounter.Mount
  cases h : env.Mount t source target fstype options <;> simp

theorem SyncData_cases (env : Env) (source target : Str) (t : Trace) :
    (env.SyncData t source target = none ∧
      utils.SyncData env source target t = (t ++ [⟨.SyncData source target, true⟩], none)) ∨
    (∃ m, env.SyncData t source target = some m ∧
      utils.SyncData env source target t =
        (t ++ [⟨.SyncData source target, false⟩], some (.plain m))) := by
  unfold utils.SyncData
  cases h : env.SyncData t source target <;> simp

/-- The loop body of `MountVolumes` makes one `VolumeAttempt`. -/
theorem MountVolumes_body_attempt (env : Env) (sysroot : Str) (vol : VolumeMount)
    (st : Trace × Option GoError) :
    ∃ a ms, VolumeAttempt sysroot vol a ms ∧
      (MountVolumes.body env sysroot vol st).1 = st.1 ++ a ∧
      GoError.msgs (MountVolumes.body env sysroot vol st).2 = GoError.msgs st.2 ++ ms ∧
      ((MountVolumes.body env sysroot vol st).2 = none ↔ st.2 = none ∧ ms = []) := by
  unfold MountVolumes.body
  cases hd : MountVolumes.dev vol.Device with
  | none =>
    refine ⟨[], _, VolumeAttempt.unknown hd, by simp, msgs_Append_plain _ _, ?_⟩
    simp [Append_ne_none]
  | some dev =>
    simp only
    rcases MkdirAll_cases env (MountVolumes.mountpoint sysroot vol) st.1 with
      ⟨_, h⟩ | ⟨m, _, h⟩
    · rw [h]
      simp only
      rcases Mount_cases env dev (MountVolumes.mountpoint sysroot vol) "auto".toList
        vol.Options (st.1 ++ [⟨.MkdirAll (MountVolumes.mountpoint sysroot vol), true⟩]) with
        ⟨_, h2⟩ | ⟨m2, _, h2⟩
      · rw [h2]
        exact ⟨_, [], VolumeAttempt.mounted dev hd, by simp, by simp, by simp⟩
      · rw [h2]
        refine ⟨_, [m2], VolumeAttempt.mountFailed dev m2 hd, by simp,
          msgs_Append_plain _ _, ?_⟩
        simp [Append_ne_none]
    · rw [h]
      refine ⟨_, [m], VolumeAttempt.mkdirFailed dev m hd, by simp, msgs_Append_plain _ _, ?_⟩
      simp [Append_ne_none]

/-- The loop of `MountVolumes` makes one `VolumeAttempt` per volume, in order. -/
theorem MountVolumes_loop_attempts (env : Env) (sysroot : Str) (vols : List VolumeMount)
    (st : Trace × Option GoError) :
    ∃ atts : List (List Event × List Str),
      List.Forall₂ (fun vol a => VolumeAttempt sysroot vol a.1 a.2) vols atts ∧
      (MountVolumes.loop env sysroot vols st).1 = st.1 ++ (atts.map Prod.fst).flatten ∧
      GoError.msgs (MountVolumes.loop env sysroot vols st).2 =
        GoError.msgs st.2 ++ (atts.map Prod.snd).flatten ∧
      ((MountVolumes.loop env sysroot vols st).2 = none ↔
        st.2 = none ∧ ∀ a ∈ atts, a.2 = []) := by
  induction vols generalizing st with
  | nil => exact ⟨[], List.Forall₂.nil, by simp [MountVolumes.loop], by simp [MountVolumes.loop],
      by simp [MountVolumes.loop]⟩
  | cons vol rest ih =>
    obtain ⟨a, ms, hatt, h1, h2, h3⟩ := MountVolumes_body_attempt env sysroot vol st
    obtain ⟨atts, hall, g1, g2, g3⟩ := ih (MountVolumes.body env sysroot vol st)
    refine ⟨(a, ms) :: atts, List.Forall₂.cons hatt hall, ?_, ?_, ?_⟩
    · simp [MountVolumes.loop, g1, h1]
    · simp [MountVolumes.loop, g2, h2]
    · simp only [MountVolumes.loop, g3, h3, List.mem_cons, forall_eq_or_imp]
      tauto

theorem HasPrefix_append (pre x : Str) : strings.HasPrefix (pre ++ x) pre = true := by
  simp [strings.HasPrefix, List.isPrefixOf_iff_prefix]

theorem TrimPrefix_append (pre x : Str) : strings.TrimPrefix (pre ++ x) pre = x := by
  simp [strings.TrimPrefix, HasPrefix_append]

theorem intercalate_append (sep : Str) (l₁ l₂ : List Str) (h₁ : l₁ ≠ []) (h₂ : l₂ ≠ []) :
    sep.intercalate (l₁ ++ l₂) = sep.intercalate l₁ ++ sep ++ sep.intercalate l₂ := by
  induction l₁ with
  | nil => exact absurd rfl h₁
  | cons a as ih =>
    cases as with
    | nil =>
      cases l₂ with
      | nil => exact absurd rfl h₂
      | cons b bs => simp [List.intercalate, List.intersperse]
    | cons a2 as2 =>
      have := ih (by simp)
      simp only [List.intercalate, List.cons_append, List.intersperse_cons_cons,
        List.flatten_cons, List.append_assoc] at this ⊢
      rw [this]

/-- Joining a rooted directory of plain elements with a relative path of plain
elements is concatenation with one separator. -/
theorem Join_plain (dir : List Str) (x : Str) (hdir : ∀ e ∈ dir, plainElem e ∧ '/' ∉ e)
    (hne : dir ≠ []) (hx : ∀ e ∈ x.splitOn '/', plainElem e) :
    filepath.Join ['/' :: ['/'].intercalate dir, x] = '/' :: ['/'].intercalate dir ++ '/' :: x := by
  have hxs : ['/'].intercalate (x.splitOn '/') = x := List.intercalate_splitOn x '/'
  have hxne : x.splitOn '/' ≠ [] := List.splitOnP_ne_nil _ _
  have hcat : '/' :: ['/'].intercalate dir ++ '/' :: x =
      '/' :: ['/'].intercalate (dir ++ x.splitOn '/') := by
    rw [intercalate_append _ _ _ hne hxne, hxs]
    simp
  have hjoin : filepath.Join ['/' :: ['/'].intercalate dir, x] =
      filepath.Clean ('/' :: ['/'].intercalate dir ++ '/' :: x) := by
    simp [filepath.Join, List.dropWhile, List.intercalate, List.intersperse]
  rw [hjoin, hcat]
  apply Clean_rooted_plain
  · simp [hne]
  · intro e he
    rcases List.mem_append.1 he with h | h
    · exact hdir e h
    · exact ⟨hx e h, splitOn_no_sep '/' x e h⟩

theorem forall₂_of_mem_right {α β : Type} {R : α → β → Prop} {l₁ : List α} {l₂ : List β}
    (h : List.Forall₂ R l₁ l₂) : ∀ b ∈ l₂, ∃ a ∈ l₁, R a b := by
  induction h with
  | nil => simp
  | cons hab _ ih =>
    intro b hb
    rcases List.mem_cons.1 hb with rfl | hb
    · exact ⟨_, List.mem_cons_self _ _, hab⟩
    · obtain ⟨a, ha, hr⟩ := ih b hb
      exact ⟨a, List.mem_cons_of_mem _ ha, hr⟩

theorem forall₂_of_mem_left {α β : Type} {R : α → β → Prop} {l₁ : List α} {l₂ : List β}
    (h : List.Forall₂ R l₁ l₂) : ∀ a ∈ l₁, ∃ b ∈ l₂, R a b := by
  induction h with
  | nil => simp
  | cons hab _ ih =>
    intro a ha
    rcases List.mem_cons.1 ha with rfl | ha
    · exact ⟨_, List.mem_cons_self _ _, hab⟩
    · obtain ⟨b, hb, hr⟩ := ih a ha
      exact ⟨b, List.mem_cons_of_mem _ hb, hr⟩

theorem diskByLabel_eq :
    diskByLabel = '/' :: ['/'].intercalate ["dev".toList, "disk".toList, "by-label".toList] := by
  decide

theorem diskByPartLabel_eq :
    diskByPartLabel =
      '/' :: ['/'].intercalate ["dev".toList, "disk".toList, "by-partlabel".toList] := by
  decide

theorem diskByUUID_eq :
    diskByUUID = '/' :: ['/'].intercalate ["dev".toList, "disk".toList, "by-uuid".toList] := by
  decide

theorem Join_diskBy (name x : Str) (hname : plainElem name ∧ '/' ∉ name)
    (hx : ∀ e ∈ x.splitOn '/', plainElem e) :
    filepath.Join ['/' :: ['/'].intercalate ["dev".toList, "disk".toList, name], x] =
      '/' :: ['/'].intercalate ["dev".toList, "disk".toList, name] ++ '/' :: x := by
  apply Join_plain _ _ _ (by simp) hx
  intro e he
  simp only [List.mem_cons, List.mem_singleton, List.not_mem_nil, or_false] at he
  rcases he with rfl | rfl | rfl
  · exact ⟨by unfold plainElem; decide, by decide⟩
  · exact ⟨by unfold plainElem; decide, by decide⟩
  · exact hname

/-- Every mount call of `MountVolumes` belongs to one of the volumes: its
source is the resolved device of that volume, its target the volume's
mountpoint, its type `auto` and its options the volume's. -/
theorem MountVolumes_mount_calls (env : Env) (sysroot : Str) (volumes : List VolumeMount)
    (t : Trace) (e : Event) (he : e ∈ (MountVolumes env sysroot volumes t).1.drop t.length)
    (source target fstype : Str) (options : List Str)
    (hc : e.call = .Mount source target fstype options) :
    ∃ vol ∈ volumes, MountVolumes.dev vol.Device = some source ∧
      target = MountVolumes.mountpoint sysroot vol ∧ fstype = "auto".toList ∧
      options = vol.Options := by
  obtain ⟨atts, hall, h1, -, -⟩ := MountVolumes_loop_attempts env sysroot volumes (t, none)
  unfold MountVolumes at he
  rw [h1] at he
  simp only [List.drop_left] at he
  obtain ⟨l, hl, hel⟩ := List.mem_flatten.1 he
  obtain ⟨a, ha, rfl⟩ := List.mem_map.1 hl
  obtain ⟨vol, hvol, hatt⟩ := forall₂_of_mem_right hall a ha
  refine ⟨vol, hvol, ?_⟩
  obtain ⟨a1, a2⟩ := a
  simp only at hatt hel
  cases hatt with
  | unknown h => simp at hel
  | mkdirFailed dev msg h =>
    simp only [List.mem_singleton] at hel
    subst hel
    simp at hc
  | mountFailed dev msg h =>
    simp only [List.mem_cons, List.mem_singleton, List.not_mem_nil, or_false] at hel
    rcases hel with rfl | rfl
    · simp at hc
    · simp only [Call.Mount.injEq] at hc
      obtain ⟨rfl, rfl, rfl, rfl⟩ := hc
      exact ⟨h, rfl, rfl, rfl⟩
  | mounted dev h =>
    simp only [List.mem_cons, List.mem_singleton, List.not_mem_nil, or_false] at hel
    rcases hel with rfl | rfl
    · simp at hc
    · simp only [Call.Mount.injEq] at hc
      obtain ⟨rfl, rfl, rfl, rfl⟩ := hc
      exact ⟨h, rfl, rfl, rfl⟩

theorem MountVolumes_dev_devPref (device : Str)
    (h : strings.HasPrefix device "/dev/".toList = true) :
    MountVolumes.dev device = some device := by
  obtain ⟨r, rfl⟩ := List.isPrefixOf_iff_prefix.1 h
  have h1 : strings.HasPrefix ("/dev/".toList ++ r) labelPref = false := rfl
  have h2 : strings.HasPrefix ("/dev/".toList ++ r) partLabelPref = false := rfl
  have h3 : strings.HasPrefix ("/dev/".toList ++ r) uuidPref = false := rfl
  have h4 : strings.HasPrefix ("/dev/".toList ++ r) devPref = true := h
  unfold MountVolumes.dev
  rw [h1, h2, h3, h4]
  simp

/-- C5 (amended): for every `X` that is a clean relative path (its
`/`-separated elements are non-empty and none of them is `.` or `..`),
`MountVolumes` resolves the device `LABEL=X` to `/dev/disk/by-label/X`,
`PARTLABEL=X` to `/dev/disk/by-partlabel/X` and `UUID=X` to
`/dev/disk/by-uuid/X`; a device that begins with `/dev/` is resolved to itself;
and the source of every mount call `MountVolumes` makes is the resolved device
of one of its volumes. -/
theorem MountVolumes_device_resolution (X : Str) (hX : ∀ e ∈ X.splitOn '/', plainElem e) :
    MountVolumes.dev ("LABEL=".toList ++ X) = some ("/dev/disk/by-label/".toList ++ X) ∧
    MountVolumes.dev ("PARTLABEL=".toList ++ X) =
      some ("/dev/disk/by-partlabel/".toList ++ X) ∧
    MountVolumes.dev ("UUID=".toList ++ X) = some ("/dev/disk/by-uuid/".toList ++ X) ∧
    (∀ device : Str, strings.HasPrefix device "/dev/".toList = true →
      MountVolumes.dev device = some device) ∧
    (∀ (env : Env) (sysroot : Str) (volumes : List VolumeMount) (t : Trace),
      ∀ e ∈ (MountVolumes env sysroot volumes t).1.drop t.length,
      ∀ (source target fstype : Str) (options : List Str),
        e.call = .Mount source target fstype options →
        ∃ vol ∈ volumes, MountVolumes.dev vol.Device = some source) := by
  refine ⟨?_, ?_, ?_, MountVolumes_dev_devPref, ?_⟩
  · have h1 : strings.HasPrefix ("LABEL=".toList ++ X) labelPref = true :=
      HasPrefix_append _ _
    have h2 : strings.TrimPrefix ("LABEL=".toList ++ X) labelPref = X :=
      TrimPrefix_append _ _
    simp only [MountVolumes.dev, h1, h2, if_true, diskByLabel_eq]
    rw [Join_diskBy _ _ ⟨by unfold plainElem; decide, by decide⟩ hX]
    rfl
  · have h0 : strings.HasPrefix ("PARTLABEL=".toList ++ X) labelPref = false := rfl
    have h1 : strings.HasPrefix ("PARTLABEL=".toList ++ X) partLabelPref = true :=
      HasPrefix_append _ _
    have h2 : strings.TrimPrefix ("PARTLABEL=".toList ++ X) partLabelPref = X :=
      TrimPrefix_append _ _
    simp only [MountVolumes.dev, h0, h1, h2, if_true, diskByPartLabel_eq]
    rw [Join_diskBy _ _ ⟨by unfold plainElem; decide, by decide⟩ hX]
    rfl
  · have h0 : strings.HasPrefix ("UUID=".toList ++ X) labelPref = false := rfl
    have h0' : strings.HasPrefix ("UUID=".toList ++ X) partLabelPref = false := rfl
    have h1 : strings.HasPrefix ("UUID=".toList ++ X) uuidPref = true :=
      HasPrefix_append _ _
    have h2 : strings.TrimPrefix ("UUID=".toList ++ X) uuidPref = X :=
      TrimPrefix_append _ _
    simp only [MountVolumes.dev, h0, h0', h1, h2, if_true, diskByUUID_eq]
    rw [Join_diskBy _ _ ⟨by unfold plainElem; decide, by decide⟩ hX]
    rfl
  · intro env sysroot volumes t e he source target fstype options hc
    obtain ⟨vol, hvol, h, -⟩ :=
      MountVolumes_mount_calls env sysroot volumes t e he source target fstype options hc
    exact ⟨vol, hvol, h⟩

/-- Witness of C5: the label `COS_STATE`. -/
theorem MountVolumes_device_resolution_witness :
    (∀ e ∈ "COS_STATE".toList.splitOn '/', plainElem e) ∧
    MountVolumes.dev ("LABEL=".toList ++ "COS_STATE".toList) =
      some ("/dev/disk/by-label/".toList ++ "COS_STATE".toList) :=
  ⟨by decide, (MountVolumes_device_resolution "COS_STATE".toList (by decide)).1⟩

/-- C5 as stated fails: the device `LABEL=..` is mounted from `/dev/disk`, not
from `/dev/disk/by-label/..`, and the device `LABEL=` from `/dev/disk/by-label`
without the final separator. -/
theorem MountVolumes_device_resolution_unclean :
    (MountVolumes (Env.succeed []) "/sysroot".toList
        [{ Mountpoint := "/oem".toList, Device := "LABEL=..".toList, Options := [],
           Persistent := false }] []).1 =
      [⟨.MkdirAll "/sysroot/oem".toList, true⟩,
       ⟨.Mount "/dev/disk".toList "/sysroot/oem".toList "auto".toList [], true⟩] ∧
    MountVolumes.dev ("LABEL=".toList ++ "..".toList) ≠
      some ("/dev/disk/by-label/".toList ++ "..".toList) ∧
    MountVolumes.dev ("LABEL=".toList ++ []) = some "/dev/disk/by-label".toList ∧
    MountVolumes.dev ("LABEL=".toList ++ []) ≠ some ("/dev/disk/by-label/".toList ++ []) := by
  decide

theorem MountVolumes_dev_eq_none (device : Str) :
    MountVolumes.dev device = none ↔
      strings.HasPrefix device "LABEL=".toList = false ∧
      strings.HasPrefix device "PARTLABEL=".toList = false ∧
      strings.HasPrefix device "UUID=".toList = false ∧
      strings.HasPrefix device "/dev/".toList = false := by
  unfold MountVolumes.dev
  change (if strings.HasPrefix device "LABEL=".toList = true then _
    else if strings.HasPrefix device "PARTLABEL=".toList = true then _
    else if strings.HasPrefix device "UUID=".toList = true then _
    else if strings.HasPrefix device "/dev/".toList = true then _ else none) = none ↔ _
  cases strings.HasPrefix device "LABEL=".toList <;>
  cases strings.HasPrefix device "PARTLABEL=".toList <;>
  cases strings.HasPrefix device "UUID=".toList <;>
  cases strings.HasPrefix device "/dev/".toList <;> simp

/-- C6: `MountVolumes` makes one attempt per volume, in input order, whatever
happened to the earlier volumes: the calls it makes are the concatenation of
the per-volume attempts and the messages of the aggregated error are the
concatenation of the per-volume messages.  An attempt is either nothing but
the message `Unkown device reference: <device>` (the device begins with none
of `LABEL=`, `PARTLABEL=`, `UUID=`, `/dev/`), or a failed mountpoint creation
with one message, or a creation followed by a failed mount with one message,
or a creation followed by a successful mount with no message.  The returned
error is nil exactly when no attempt left a message. -/
theorem MountVolumes_attempts_every_volume (env : Env) (sysroot : Str)
    (volumes : List VolumeMount) (t : Trace) :
    (∃ atts : List (List Event × List Str),
      List.Forall₂ (fun vol a => VolumeAttempt sysroot vol a.1 a.2) volumes atts ∧
      (MountVolumes env sysroot volumes t).1 = t ++ (atts.map Prod.fst).flatten ∧
      GoError.msgs (MountVolumes env sysroot volumes t).2 = (atts.map Prod.snd).flatten ∧
      ((MountVolumes env sysroot volumes t).2 = none ↔ ∀ a ∈ atts, a.2 = [])) ∧
    (∀ vol ∈ volumes, MountVolumes.dev vol.Device = none →
      ("Unkown device reference: ".toList ++ vol.Device) ∈
        GoError.msgs (MountVolumes env sysroot volumes t).2) ∧
    (∀ device : Str, MountVolumes.dev device = none ↔
      strings.HasPrefix device "LABEL=".toList = false ∧
      strings.HasPrefix device "PARTLABEL=".toList = false ∧
      strings.HasPrefix device "UUID=".toList = false ∧
      strings.HasPrefix device "/dev/".toList = false) := by
  obtain ⟨atts, hall, h1, h2, h3⟩ := MountVolumes_loop_attempts env sysroot volumes (t, none)
  have h2' : GoError.msgs (MountVolumes env sysroot volumes t).2 =
      (atts.map Prod.snd).flatten := by
    simpa [MountVolumes, GoError.msgs] using h2
  refine ⟨⟨atts, hall, h1, h2', ?_⟩, ?_, MountVolumes_dev_eq_none⟩
  · simpa [MountVolumes] using h3
  · intro vol hvol hnone
    obtain ⟨a, ha, hatt⟩ := forall₂_of_mem_left hall vol hvol
    rw [h2']
    obtain ⟨a1, a2⟩ := a
    simp only at hatt
    refine List.mem_flatten.2 ⟨a2, List.mem_map.2 ⟨(a1, a2), ha, rfl⟩, ?_⟩
    cases hatt with
    | unknown h => simp
    | mkdirFailed dev msg h => rw [hnone] at h; cases h
    | mountFailed dev msg h => rw [hnone] at h; cases h
    | mounted dev h => rw [hnone] at h; cases h

theorem MountVolumes_loop_append (env : Env) (sysroot : Str) (pre post : List VolumeMount)
    (st : Trace × Option GoError) :
    MountVolumes.loop env sysroot (pre ++ post) st =
      MountVolumes.loop env sysroot post (MountVolumes.loop env sysroot pre st) := by
  induction pre generalizing st with
  | nil => rfl
  | cons v vs ih => simp [MountVolumes.loop, ih]

/-- C7: for a volume with a recognised device reference (resolved to `dev`),
`MountVolumes` creates the target directory right after the calls made for the
earlier volumes, where the target is the volume's mountpoint unchanged when it
starts with `/run` and the mountpoint joined under sysroot otherwise; when the
creation succeeds the next call mounts `dev` onto that target with filesystem
type `auto` and the volume's option list unchanged; and every mount call of
`MountVolumes` passes the type `auto`. -/
theorem MountVolumes_target_type_options (env : Env) (sysroot : Str)
    (pre post : List VolumeMount) (vol : VolumeMount) (t : Trace) (dev : Str)
    (hdev : MountVolumes.dev vol.Device = some dev) :
    (∃ (ok : Bool) (after : Trace),
      (MountVolumes env sysroot (pre ++ vol :: post) t).1 =
        (MountVolumes env sysroot pre t).1 ++
          ⟨.MkdirAll (if strings.HasPrefix vol.Mountpoint "/run".toList = true
              then vol.Mountpoint else filepath.Join [sysroot, vol.Mountpoint]), ok⟩ :: after ∧
      (ok = true ↔ env.MkdirAll (MountVolumes env sysroot pre t).1
        (if strings.HasPrefix vol.Mountpoint "/run".toList = true
          then vol.Mountpoint else filepath.Join [sysroot, vol.Mountpoint]) = none) ∧
      (ok = true → ∃ (ok' : Bool) (rest : Trace), after =
        ⟨.Mount dev (if strings.HasPrefix vol.Mountpoint "/run".toList = true
            then vol.Mountpoint else filepath.Join [sysroot, vol.Mountpoint])
          "auto".toList vol.Options, ok'⟩ :: rest)) ∧
    (∀ e ∈ (MountVolumes env sysroot (pre ++ vol :: post) t).1.drop t.length,
      ∀ (source target fstype : Str) (options : List Str),
        e.call = .Mount source target fstype options → fstype = "auto".toList) := by
  have hmp : MountVolumes.mountpoint sysroot vol =
      (if strings.HasPrefix vol.Mountpoint "/run".toList = true
        then vol.Mountpoint else filepath.Join [sysroot, vol.Mountpoint]) := by
    unfold MountVolumes.mountpoint
    change (if (!strings.HasPrefix vol.Mountpoint "/run".toList) = true then _ else _) = _
    cases strings.HasPrefix vol.Mountpoint "/run".toList <;> simp
  refine ⟨?_, ?_⟩
  · rw [← hmp]
    unfold MountVolumes
    rw [MountVolumes_loop_append]
    simp only [MountVolumes.loop]
    set st := MountVolumes.loop env sysroot pre (t, none) with hst
    obtain ⟨atts, -, g1, -, -⟩ :=
      MountVolumes_loop_attempts env sysroot post (MountVolumes.body env sysroot vol st)
    rw [g1]
    unfold MountVolumes.body
    rw [hdev]
    simp only
    rcases MkdirAll_cases env (MountVolumes.mountpoint sysroot vol) st.1 with
      ⟨he, h⟩ | ⟨m, he, h⟩
    · rw [h]
      simp only
      rcases Mount_cases env dev (MountVolumes.mountpoint sysroot vol) "auto".toList
        vol.Options (st.1 ++ [⟨.MkdirAll (MountVolumes.mountpoint sysroot vol), true⟩]) with
        ⟨_, h2⟩ | ⟨m2, _, h2⟩
      · rw [h2]
        exact ⟨true, _, by simp; rfl, by simp [he], fun _ => ⟨true, _, rfl⟩⟩
      · rw [h2]
        exact ⟨true, _, by simp; rfl, by simp [he], fun _ => ⟨false, _, rfl⟩⟩
    · rw [h]
      exact ⟨false, _, by simp; rfl, by simp [he], by simp⟩
  · intro e he source target fstype options hc
    obtain ⟨_, _, _, _, h, _⟩ :=
      MountVolumes_mount_calls env sysroot _ t e he source target fstype options hc
    exact h

/-- Witness of C7: the volume `LABEL=COS_OEM` at `/oem` under `/sysroot`. -/
theorem MountVolumes_target_type_options_witness :
    MountVolumes.dev "LABEL=COS_OEM".toList = some "/dev/disk/by-label/COS_OEM".toList ∧
    (MountVolumes (Env.succeed []) "/sysroot".toList
        ([] ++ [{ Mountpoint := "/oem".toList, Device := "LABEL=COS_OEM".toList,
                  Options := ["ro".toList], Persistent := false }]) []).1 =
      [⟨.MkdirAll "/sysroot/oem".toList, true⟩,
       ⟨.Mount "/dev/disk/by-label/COS_OEM".toList "/sysroot/oem".toList "auto".toList
          ["ro".toList], true⟩] ∧
    (∀ e ∈ (MountVolumes (Env.succeed []) "/sysroot".toList
        ([] ++ [{ Mountpoint := "/oem".toList, Device := "LABEL=COS_OEM".toList,
                  Options := ["ro".toList], Persistent := false }]) []).1.drop
          ([] : Trace).length,
      ∀ (source target fstype : Str) (options : List Str),
        e.call = .Mount source target fstype options → fstype = "auto".toList) :=
  ⟨by decide, by decide,
    (MountVolumes_target_type_options (Env.succeed []) "/sysroot".toList [] []
      { Mountpoint := "/oem".toList, Device := "LABEL=COS_OEM".toList,
        Options := ["ro".toList], Persistent := false } []
      "/dev/disk/by-label/COS_OEM".toList (by decide)).2⟩

theorem ReplaceAll_TrimPrefix_eq_mangle (path : Str) :
    strings.ReplaceAll (strings.TrimPrefix path "/".toList) '/' '-' = mangle path := by
  unfold strings.ReplaceAll strings.TrimPrefix strings.HasPrefix mangle
  cases path with
  | nil => rfl
  | cons c cs =>
    by_cases h : c = '/'
    · subst h
      have h1 : List.isPrefixOf "/".toList ('/' :: cs) = true := by
        show List.isPrefixOf ['/'] ('/' :: cs) = true
        simp [List.isPrefixOf]
      rw [h1]
      rfl
    · have h1 : List.isPrefixOf "/".toList (c :: cs) = false := by
        show List.isPrefixOf ['/'] (c :: cs) = false
        simp [List.isPrefixOf, h, Ne.symm h]
      rw [h1]
      simp only [Bool.false_eq_true, if_false]
      split
      · rename_i heq
        simp only [List.cons.injEq] at heq
        exact absurd heq.1 h
      · rfl

theorem MountOverlayPath_attempt (env : Env) (sysroot overlayDir path : Str) (t : Trace) :
    ∃ es, (MountOverlayPath env sysroot overlayDir path t).1 = t ++ es ∧
      OverlayAttempt sysroot overlayDir path es
        (MountOverlayPath env sysroot overlayDir path t).2 := by
  unfold MountOverlayPath
  simp only [ReplaceAll_TrimPrefix_eq_mangle]
  have hup : overlayDir ++ "/".toList ++ (mangle path ++ overlaySuffix) ++ "/upper".toList =
      overlayDir ++ "/".toList ++ mangle path ++ ".overlay/upper".toList := by
    simp [overlaySuffix]
  have hwk : overlayDir ++ "/".toList ++ (mangle path ++ overlaySuffix) ++ "/work".toList =
      overlayDir ++ "/".toList ++ mangle path ++ ".overlay/work".toList := by
    simp [overlaySuffix]
  rw [hup, hwk]
  rcases MkdirAll_cases env (filepath.Join [sysroot, path]) t with ⟨_, h⟩ | ⟨m, _, h⟩
  · rw [h]
    simp only
    rcases MkdirAll_cases env
      (overlayDir ++ "/".toList ++ mangle path ++ ".overlay/upper".toList)
      (t ++ [⟨.MkdirAll (filepath.Join [sysroot, path]), true⟩]) with ⟨_, h2⟩ | ⟨m2, _, h2⟩
    · rw [h2]
      simp only
      rcases MkdirAll_cases env
        (overlayDir ++ "/".toList ++ mangle path ++ ".overlay/work".toList)
        (t ++ [⟨.MkdirAll (filepath.Join [sysroot, path]), true⟩] ++
          [⟨.MkdirAll (overlayDir ++ "/".toList ++ mangle path ++ ".overlay/upper".toList),
            true⟩]) with ⟨_, h3⟩ | ⟨m3, _, h3⟩
      · rw [h3]
        simp only
        rcases Mount_cases env "overlay".toList (filepath.Join [sysroot, path])
          "overlay".toList
          (["defaults".toList] ++ ["lowerdir=".toList ++ filepath.Join [sysroot, path]] ++
            ["upperdir=".toList ++
              (overlayDir ++ "/".toList ++ mangle path ++ ".overlay/upper".toList)] ++
            ["workdir=".toList ++
              (overlayDir ++ "/".toList ++ mangle path ++ ".overlay/work".toList)])
          (t ++ [⟨.MkdirAll (filepath.Join [sysroot, path]), true⟩] ++
            [⟨.MkdirAll (overlayDir ++ "/".toList ++ mangle path ++ ".overlay/upper".toList),
              true⟩] ++
            [⟨.MkdirAll (overlayDir ++ "/".toList ++ mangle path ++ ".overlay/work".toList),
              true⟩]) with ⟨_, h4⟩ | ⟨m4, _, h4⟩
        · rw [h4]
          exact ⟨_, by simp [overlayMount], OverlayAttempt.mounted⟩
        · rw [h4]
          exact ⟨_, by simp [overlayMount], OverlayAttempt.mountFailed m4⟩
      · rw [h3]
        exact ⟨_, by simp [overlayMount], OverlayAttempt.workFailed m3⟩
    · rw [h2]
      exact ⟨_, by simp [overlayMount], OverlayAttempt.upperFailed m2⟩
  · rw [h]
    exact ⟨_, rfl, OverlayAttempt.lowerFailed m⟩

theorem MountBindPath_attempt (env : Env) (sysroot overlayDir path : Str) (t : Trace) :
    ∃ es, (MountBindPath env sysroot overlayDir path t).1 = t ++ es ∧
      BindAttempt sysroot overlayDir path es
        (MountBindPath env sysroot overlayDir path t).2 := by
  unfold MountBindPath
  simp only [ReplaceAll_TrimPrefix_eq_mangle]
  have hst : overlayDir ++ "/".toList ++ (mangle path ++ ".bind".toList) =
      overlayDir ++ "/".toList ++ mangle path ++ ".bind".toList := by
    simp
  rw [hst]
  rcases MkdirAll_cases env (filepath.Join [sysroot, path]) t with ⟨_, h⟩ | ⟨m, _, h⟩
  · rw [h]
    simp only
    rcases MkdirAll_cases env (overlayDir ++ "/".toList ++ mangle path ++ ".bind".toList)
      (t ++ [⟨.MkdirAll (filepath.Join [sysroot, path]), true⟩]) with ⟨_, h2⟩ | ⟨m2, _, h2⟩
    · rw [h2]
      simp only
      rcases SyncData_cases env (filepath.Join [sysroot, path])
        (overlayDir ++ "/".toList ++ mangle path ++ ".bind".toList)
        (t ++ [⟨.MkdirAll (filepath.Join [sysroot, path]), true⟩] ++
          [⟨.MkdirAll (overlayDir ++ "/".toList ++ mangle path ++ ".bind".toList), true⟩]) with
        ⟨_, h3⟩ | ⟨m3, _, h3⟩
      · rw [h3]
        simp only
        rcases Mount_cases env (overlayDir ++ "/".toList ++ mangle path ++ ".bind".toList)
          (filepath.Join [sysroot, path]) "none".toList ["defaults".toList, "bind".toList]
          (t ++ [⟨.MkdirAll (filepath.Join [sysroot, path]), true⟩] ++
            [⟨.MkdirAll (overlayDir ++ "/".toList ++ mangle path ++ ".bind".toList), true⟩] ++
            [⟨.SyncData (filepath.Join [sysroot, path])
              (overlayDir ++ "/".toList ++ mangle path ++ ".bind".toList), true⟩]) with
          ⟨_, h4⟩ | ⟨m4, _, h4⟩
        · rw [h4]
          exact ⟨_, by simp [bindMount], BindAttempt.mounted⟩
        · rw [h4]
          exact ⟨_, by simp [bindMount], BindAttempt.mountFailed m4⟩
      · rw [h3]
        exact ⟨_, by simp, BindAttempt.syncFailed m3⟩
    · rw [h2]
      exact ⟨_, by simp, BindAttempt.stateFailed m2⟩
  · rw [h]
    exact ⟨_, rfl, BindAttempt.baseFailed m⟩

/-- The path loop is a fail-fast run of the attempts of its mount function. -/
theorem mountPaths_run (mountFunc : MountFunc) (env : Env) (sysroot target : Str)
    (Q : Str → List Event → Option GoError → Prop)
    (hQ : ∀ path t, ∃ es, (mountFunc env sysroot target path t).1 = t ++ es ∧
      Q path es (mountFunc env sysroot target path t).2)
    (paths : List Str) (t : Trace) :
    ∃ es, (mountPaths mountFunc env sysroot target paths t).1 = t ++ es ∧
      PathsRun Q paths es (mountPaths mountFunc env sysroot target paths t).2 := by
  induction paths generalizing t with
  | nil => exact ⟨[], by simp [mountPaths], PathsRun.done⟩
  | cons path rest ih =>
    obtain ⟨es, h1, h2⟩ := hQ path t
    unfold mountPaths
    cases hr : mountFunc env sysroot target path t with
    | mk t1 r =>
      rw [hr] at h1 h2
      simp only at h1 h2
      cases r with
      | some err =>
        exact ⟨es, h1, PathsRun.failed path rest es err h2⟩
      | none =>
        obtain ⟨es', g1, g2⟩ := ih t1
        refine ⟨es ++ es', ?_, PathsRun.next path rest es es' _ h2 g2⟩
        simp only
        rw [g1, h1, List.append_assoc]

theorem mountCalls_append (a b : Trace) : mountCalls (a ++ b) = mountCalls a ++ mountCalls b := by
  simp [mountCalls]

theorem OverlayAttempt_mountCalls {sysroot overlayDir path : Str} {es : List Event}
    {r : Option GoError} (h : OverlayAttempt sysroot overlayDir path es r) :
    (r = none → mountCalls es = [overlayMount sysroot overlayDir path] ∧
      ∀ e ∈ es, e.ok = true) ∧
    (r ≠ none → mountCalls es = [] ∨ mountCalls es = [overlayMount sysroot overlayDir path]) := by
  cases h <;> simp [mountCalls, overlayMount]

theorem PathsRun_overlay_mountCalls {sysroot overlayDir : Str} {paths : List Str}
    {es : List Event} {r : Option GoError}
    (h : PathsRun (OverlayAttempt sysroot overlayDir) paths es r) :
    ∃ n, n ≤ paths.length ∧
      mountCalls es = (paths.take n).map (overlayMount sysroot overlayDir) ∧
      (r = none → n = paths.length ∧ ∀ e ∈ es, e.ok = true) := by
  induction h with
  | done => exact ⟨0, by simp, by simp [mountCalls], by simp⟩
  | failed path rest es err h =>
    rcases (OverlayAttempt_mountCalls h).2 (by simp) with h0 | h1
    · exact ⟨0, by simp, by simp [h0], by simp⟩
    · exact ⟨1, by simp, by simp [h1], by simp⟩
  | next path rest es es' r h _ ih =>
    obtain ⟨n, hn, hc, hr⟩ := ih
    obtain ⟨h1, h2⟩ := (OverlayAttempt_mountCalls h).1 rfl
    refine ⟨n + 1, by simp [hn], by simp [mountCalls_append, h1, hc], ?_⟩
    intro hnone
    obtain ⟨hl, hok⟩ := hr hnone
    refine ⟨by simp [hl], ?_⟩
    intro e he
    rcases List.mem_append.1 he with he | he
    · exact h2 e he
    · exact hok e he

/-- The runs of `MountEphemeral`: the overlay directory is created, the
workspace is mounted on it, then the paths are mounted fail-fast. -/
theorem MountEphemeral_run (k : Constants) (env : Env) (sysroot : Str)
    (overlay : EphemeralMounts) (t : Trace) :
    ∃ es, (MountEphemeral k env sysroot overlay t).1 = t ++ es ∧
      ((∃ m, es = [⟨.MkdirAll k.OverlayDir, false⟩] ∧
          (MountEphemeral k env sysroot overlay t).2 = some (.plain m)) ∨
       (∃ m, es = [⟨.MkdirAll k.OverlayDir, true⟩] ∧
          (MountEphemeral k env sysroot overlay t).2 = some (.plain m)) ∨
       (∃ source fstype options m,
          es = [⟨.MkdirAll k.OverlayDir, true⟩,
                ⟨.Mount source k.OverlayDir fstype options, false⟩] ∧
          (MountEphemeral k env sysroot overlay t).2 = some (.plain m)) ∨
       (∃ source fstype options es',
          es = ⟨.MkdirAll k.OverlayDir, true⟩ ::
                ⟨.Mount source k.OverlayDir fstype options, true⟩ :: es' ∧
          PathsRun (OverlayAttempt sysroot k.OverlayDir) overlay.Paths es'
            (MountEphemeral k env sysroot overlay t).2)) := by
  unfold MountEphemeral
  rcases MkdirAll_cases env k.OverlayDir t with ⟨_, h⟩ | ⟨m, _, h⟩
  · rw [h]
    simp only
    generalize hsel : (if overlay.Type_ = k.Tmpfs then
        some (k.Tmpfs, k.Tmpfs, ["defaults".toList, "size=".toList ++ overlay.Size])
      else if overlay.Type_ = k.Block then
        some (overlay.Device, k.Autofs, ["defaults".toList])
      else none) = sel
    rcases sel with _ | ⟨source, fstype, options⟩
    · exact ⟨_, rfl, Or.inr (Or.inl ⟨_, rfl, rfl⟩)⟩
    · simp only
      rcases Mount_cases env source k.OverlayDir fstype options
        (t ++ [⟨.MkdirAll k.OverlayDir, true⟩]) with ⟨_, h2⟩ | ⟨m2, _, h2⟩
      · rw [h2]
        simp only
        obtain ⟨es', g1, g2⟩ := mountPaths_run MountOverlayPath env sysroot k.OverlayDir
          (OverlayAttempt sysroot k.OverlayDir)
          (fun path t => MountOverlayPath_attempt env sysroot k.OverlayDir path t)
          overlay.Paths (t ++ [⟨.MkdirAll k.OverlayDir, true⟩] ++
            [⟨.Mount source k.OverlayDir fstype options, true⟩])
        refine ⟨_, ?_, Or.inr (Or.inr (Or.inr ⟨source, fstype, options, es', rfl, g2⟩))⟩
        rw [g1]
        simp
      · rw [h2]
        exact ⟨_, by simp, Or.inr (Or.inr (Or.inl ⟨source, fstype, options, m2, rfl, rfl⟩))⟩
  · rw [h]
    exact ⟨_, rfl, Or.inl ⟨m, rfl, rfl⟩⟩

/-- C8: the mount calls of `MountEphemeral` are the workspace mount at the
overlay dir followed by one overlay mount per ephemeral path, in order, up to
the first failure: for the path `P` the source and type are `overlay`, the
target is `<sysroot>/P` and the options are `defaults`, `lowerdir=<sysroot>/P`,
`upperdir=<overlay_dir>/<mangle(P)>.overlay/upper` and
`workdir=<overlay_dir>/<mangle(P)>.overlay/work`.  When
`MountEphemeral` succeeds every path has its mount and every call succeeded.
With sysroot `/sysroot` and path `/var/log` the upper directory is
`/run/elemental/overlay/var-log.overlay/upper`. -/
theorem MountEphemeral_overlay_mounts (k : Constants) (env : Env) (sysroot : Str)
    (overlay : EphemeralMounts) (t : Trace) :
    (∃ (n : Nat) (ws : List Call), n ≤ overlay.Paths.length ∧
      mountCalls ((MountEphemeral k env sysroot overlay t).1.drop t.length) =
        ws ++ (overlay.Paths.take n).map (fun P =>
          Call.Mount "overlay".toList (filepath.Join [sysroot, P]) "overlay".toList
            ["defaults".toList,
             "lowerdir=".toList ++ filepath.Join [sysroot, P],
             "upperdir=".toList ++
               (k.OverlayDir ++ "/".toList ++ mangle P ++ ".overlay/upper".toList),
             "workdir=".toList ++
               (k.OverlayDir ++ "/".toList ++ mangle P ++ ".overlay/work".toList)]) ∧
      ((ws = [] ∧ n = 0) ∨
        ∃ source fstype options, ws = [.Mount source k.OverlayDir fstype options])) ∧
    ((MountEphemeral k env sysroot overlay t).2 = none →
      (∃ source fstype options,
        mountCalls ((MountEphemeral k env sysroot overlay t).1.drop t.length) =
          .Mount source k.OverlayDir fstype options ::
            overlay.Paths.map (fun P =>
              Call.Mount "overlay".toList (filepath.Join [sysroot, P]) "overlay".toList
                ["defaults".toList,
                 "lowerdir=".toList ++ filepath.Join [sysroot, P],
                 "upperdir=".toList ++
                   (k.OverlayDir ++ "/".toList ++ mangle P ++ ".overlay/upper".toList),
                 "workdir=".toList ++
                   (k.OverlayDir ++ "/".toList ++ mangle P ++ ".overlay/work".toList)])) ∧
      ∀ e ∈ (MountEphemeral k env sysroot overlay t).1.drop t.length, e.ok = true) ∧
    mountCalls (MountEphemeral elementalConstants (Env.succeed []) "/sysroot".toList
        { Type_ := "tmpfs".toList, Device := [], Size := "2G".toList,
          Paths := ["/var/log".toList] } []).1 =
      [.Mount "tmpfs".toList "/run/elemental/overlay".toList "tmpfs".toList
          ["defaults".toList, "size=2G".toList],
       .Mount "overlay".toList "/sysroot/var/log".toList "overlay".toList
          ["defaults".toList, "lowerdir=/sysroot/var/log".toList,
           "upperdir=/run/elemental/overlay/var-log.overlay/upper".toList,
           "workdir=/run/elemental/overlay/var-log.overlay/work".toList]] := by
  obtain ⟨es, h1, hcases⟩ := MountEphemeral_run k env sysroot overlay t
  have hdrop : (MountEphemeral k env sysroot overlay t).1.drop t.length = es := by
    rw [h1]; simp
  rw [hdrop]
  refine ⟨?_, ?_, by decide⟩
  · rcases hcases with ⟨m, rfl, _⟩ | ⟨m, rfl, _⟩ | ⟨s, f, o, m, rfl, _⟩ | ⟨s, f, o, es', rfl, hrun⟩
    · exact ⟨0, [], by simp, by simp [mountCalls], Or.inl ⟨rfl, rfl⟩⟩
    · exact ⟨0, [], by simp, by simp [mountCalls], Or.inl ⟨rfl, rfl⟩⟩
    · exact ⟨0, [.Mount s k.OverlayDir f o], by simp, by simp [mountCalls],
        Or.inr ⟨s, f, o, rfl⟩⟩
    · obtain ⟨n, hn, hc, -⟩ := PathsRun_overlay_mountCalls hrun
      refine ⟨n, [.Mount s k.OverlayDir f o], hn, ?_, Or.inr ⟨s, f, o, rfl⟩⟩
      have : mountCalls (⟨.MkdirAll k.OverlayDir, true⟩ ::
          ⟨.Mount s k.OverlayDir f o, true⟩ :: es') =
          .Mount s k.OverlayDir f o :: mountCalls es' := by
        simp [mountCalls]
      rw [this, hc]
      rfl
  · intro hnone
    rcases hcases with ⟨m, _, h⟩ | ⟨m, _, h⟩ | ⟨s, f, o, m, _, h⟩ | ⟨s, f, o, es', rfl, hrun⟩
    · rw [h] at hnone; cases hnone
    · rw [h] at hnone; cases hnone
    · rw [h] at hnone; cases hnone
    · obtain ⟨n, hn, hc, hall⟩ := PathsRun_overlay_mountCalls hrun
      obtain ⟨hlen, hok⟩ := hall hnone
      refine ⟨⟨s, f, o, ?_⟩, ?_⟩
      · have : mountCalls (⟨.MkdirAll k.OverlayDir, true⟩ ::
            ⟨.Mount s k.OverlayDir f o, true⟩ :: es') =
            .Mount s k.OverlayDir f o :: mountCalls es' := by
          simp [mountCalls]
        rw [this, hc, hlen, List.take_length]
        rfl
      · intro e he
        rcases List.mem_cons.1 he with rfl | he
        · rfl
        rcases List.mem_cons.1 he with rfl | he
        · rfl
        · exact hok e he

/-- A failing copy ends `MountBindPath`: no mount is made and the error of the
copy is returned. -/
theorem MountBindPath_sync_failed (env : Env) (sysroot overlayDir path : Str) (t : Trace)
    (m : Str)
    (h1 : env.MkdirAll t (filepath.Join [sysroot, path]) = none)
    (h2 : env.MkdirAll (t ++ [⟨.MkdirAll (filepath.Join [sysroot, path]), true⟩])
      (overlayDir ++ "/".toList ++ mangle path ++ ".bind".toList) = none)
    (h3 : env.SyncData
      (t ++ [⟨.MkdirAll (filepath.Join [sysroot, path]), true⟩,
        ⟨.MkdirAll (overlayDir ++ "/".toList ++ mangle path ++ ".bind".toList), true⟩])
      (filepath.Join [sysroot, path])
      (overlayDir ++ "/".toList ++ mangle path ++ ".bind".toList) = some m) :
    MountBindPath env sysroot overlayDir path t =
      (t ++ [⟨.MkdirAll (filepath.Join [sysroot, path]), true⟩,
        ⟨.MkdirAll (overlayDir ++ "/".toList ++ mangle path ++ ".bind".toList), true⟩,
        ⟨.SyncData (filepath.Join [sysroot, path])
          (overlayDir ++ "/".toList ++ mangle path ++ ".bind".toList), false⟩],
       some (.plain m)) := by
  unfold MountBindPath
  simp only [ReplaceAll_TrimPrefix_eq_mangle]
  have hst : overlayDir ++ "/".toList ++ (mangle path ++ ".bind".toList) =
      overlayDir ++ "/".toList ++ mangle path ++ ".bind".toList := by
    simp
  rw [hst]
  rcases MkdirAll_cases env (filepath.Join [sysroot, path]) t with ⟨_, h⟩ | ⟨m', hm, _⟩
  swap
  · rw [h1] at hm; cases hm
  rw [h]
  simp only
  rcases MkdirAll_cases env (overlayDir ++ "/".toList ++ mangle path ++ ".bind".toList)
    (t ++ [⟨.MkdirAll (filepath.Join [sysroot, path]), true⟩]) with ⟨_, h'⟩ | ⟨m', hm, _⟩
  swap
  · rw [h2] at hm; cases hm
  rw [h']
  simp only
  have h3' : env.SyncData
      (t ++ [⟨.MkdirAll (filepath.Join [sysroot, path]), true⟩] ++
        [⟨.MkdirAll (overlayDir ++ "/".toList ++ mangle path ++ ".bind".toList), true⟩])
      (filepath.Join [sysroot, path])
      (overlayDir ++ "/".toList ++ mangle path ++ ".bind".toList) = some m := by
    rw [← h3]; simp
  rcases SyncData_cases env (filepath.Join [sysroot, path])
    (overlayDir ++ "/".toList ++ mangle path ++ ".bind".toList)
    (t ++ [⟨.MkdirAll (filepath.Join [sysroot, path]), true⟩] ++
      [⟨.MkdirAll (overlayDir ++ "/".toList ++ mangle path ++ ".bind".toList), true⟩]) with
    ⟨hn, _⟩ | ⟨m', hm, h''⟩
  · rw [h3'] at hn; cases hn
  rw [h'']
  rw [h3'] at hm
  cases hm
  simp

/-- C9: in bind mode, with `V` the persistent volume, `MountPersistent` runs
over the persistent paths fail-fast, and for each path `P` the attempt is a
`BindAttempt`: it creates `<sysroot>/P`, then the state directory
`<V.mountpoint>/<persistent_state_dir>/<mangle(P)>.bind`, then copies
`<sysroot>/P` into the state directory, and only after these three succeeded
mounts the state directory onto `<sysroot>/P` with type `none` and options
`defaults,bind`.  When the two directories are created and the copy fails, the
attempt ends with the failed copy, no mount is made and the copy's error is
returned. -/
theorem MountPersistent_bind_mode (k : Constants) (env : Env) (sysroot : Str)
    (persistent : PersistentMounts) (volumes : List VolumeMount) (V : VolumeMount)
    (t : Trace) (hmode : persistent.Mode = "bind".toList)
    (hV : volumes.find? (fun v => v.Persistent) = some V) :
    (∃ es, (MountPersistent k env sysroot persistent volumes t).1 = t ++ es ∧
      PathsRun (BindAttempt sysroot (filepath.Join [V.Mountpoint, k.PersistentStateDir]))
        persistent.Paths es (MountPersistent k env sysroot persistent volumes t).2) ∧
    (∀ (P : Str) (t' : Trace) (m : Str),
      env.MkdirAll t' (filepath.Join [sysroot, P]) = none →
      env.MkdirAll (t' ++ [⟨.MkdirAll (filepath.Join [sysroot, P]), true⟩])
        (filepath.Join [V.Mountpoint, k.PersistentStateDir] ++ "/".toList ++ mangle P ++
          ".bind".toList) = none →
      env.SyncData
        (t' ++ [⟨.MkdirAll (filepath.Join [sysroot, P]), true⟩,
          ⟨.MkdirAll (filepath.Join [V.Mountpoint, k.PersistentStateDir] ++ "/".toList ++
            mangle P ++ ".bind".toList), true⟩])
        (filepath.Join [sysroot, P])
        (filepath.Join [V.Mountpoint, k.PersistentStateDir] ++ "/".toList ++ mangle P ++
          ".bind".toList) = some m →
      MountPersistent k env sysroot { persistent with Paths := [P] } volumes t' =
        (t' ++ [⟨.MkdirAll (filepath.Join [sysroot, P]), true⟩,
          ⟨.MkdirAll (filepath.Join [V.Mountpoint, k.PersistentStateDir] ++ "/".toList ++
            mangle P ++ ".bind".toList), true⟩,
          ⟨.SyncData (filepath.Join [sysroot, P])
            (filepath.Join [V.Mountpoint, k.PersistentStateDir] ++ "/".toList ++
              mangle P ++ ".bind".toList), false⟩],
         some (.plain m))) := by
  refine ⟨?_, ?_⟩
  · unfold MountPersistent
    rw [hV]
    simp only [hmode, if_true]
    exact mountPaths_run MountBindPath env sysroot _ _
      (fun path t => MountBindPath_attempt env sysroot _ path t) persistent.Paths t
  · intro P t' m h1 h2 h3
    unfold MountPersistent
    rw [hV]
    simp only [hmode, if_true, mountPaths]
    rw [MountBindPath_sync_failed env sysroot _ P t' m h1 h2 h3]

/-- Witness of C9: bind mode, the path `/etc/ssh`, the persistent volume at
`/run/elemental/persistent`, sysroot `/sysroot`, every call succeeding. -/
theorem MountPersistent_bind_mode_witness :
    (MountPersistent elementalConstants (Env.succeed []) "/sysroot".toList
        { Mode := "bind".toList, Paths := ["/etc/ssh".toList] }
        [samplePersistentVolume] []) =
      ([⟨.MkdirAll "/sysroot/etc/ssh".toList, true⟩,
        ⟨.MkdirAll "/run/elemental/persistent/.state/etc-ssh.bind".toList, true⟩,
        ⟨.SyncData "/sysroot/etc/ssh".toList
          "/run/elemental/persistent/.state/etc-ssh.bind".toList, true⟩,
        ⟨.Mount "/run/elemental/persistent/.state/etc-ssh.bind".toList
          "/sysroot/etc/ssh".toList "none".toList ["defaults".toList, "bind".toList], true⟩],
       none) ∧
    ∃ es, (MountPersistent elementalConstants (Env.succeed []) "/sysroot".toList
        { Mode := "bind".toList, Paths := ["/etc/ssh".toList] }
        [samplePersistentVolume] []).1 = [] ++ es ∧
      PathsRun (BindAttempt "/sysroot".toList
          (filepath.Join [samplePersistentVolume.Mountpoint,
            elementalConstants.PersistentStateDir]))
        ["/etc/ssh".toList] es
        (MountPersistent elementalConstants (Env.succeed []) "/sysroot".toList
          { Mode := "bind".toList, Paths := ["/etc/ssh".toList] }
          [samplePersistentVolume] []).2 :=
  ⟨by decide,
    (MountPersistent_bind_mode elementalConstants (Env.succeed []) "/sysroot".toList
      { Mode := "bind".toList, Paths := ["/etc/ssh".toList] }
      [samplePersistentVolume] samplePersistentVolume [] (by decide) (by decide)).1⟩

theorem fstab_eq_line (device path fstype : Str) (flags : List Str) :
    fstab device path fstype flags =
      FstabEntry.line ⟨device, path, fstype, optionsField flags⟩ := by
  unfold fstab FstabEntry.line optionsField strings.Join
  cases flags with
  | nil => simp [List.intercalate, List.intersperse]
  | cons a as => simp

theorem overlayLine_eq_line (path upperPath requriedMount : Str) :
    overlayLine path upperPath requriedMount =
      (overlayEntry upperPath requriedMount path).line := by
  unfold overlayLine
  simp only [ReplaceAll_TrimPrefix_eq_mangle, fstab_eq_line]
  unfold overlayEntry optionsField
  simp [List.intercalate, List.intersperse, overlaySuffix]

theorem WriteFstab_volumes_eq (vols : List VolumeMount) (st : Str × Option VolumeMount) :
    WriteFstab.volumes vols st =
      (st.1 ++ fstabText (vols.map volumeEntry),
       match (vols.filter fun v => v.Persistent).getLast? with
       | some v => some v
       | none => st.2) := by
  induction vols generalizing st with
  | nil => simp [WriteFstab.volumes, fstabText]
  | cons v vs ih =>
    rw [WriteFstab.volumes, ih, fstab_eq_line]
    refine Prod.ext ?_ ?_
    · simp [fstabText, volumeEntry]
    · simp only [List.filter_cons]
      by_cases hv : v.Persistent = true
      · simp only [hv, if_true]
        cases hl : (vs.filter fun v => v.Persistent) with
        | nil => simp
        | cons a as =>
          simp only [List.getLast?_cons_cons]
          cases hg : (a :: as).getLast? with
          | none => simp at hg
          | some x => rfl
      · simp [hv]

theorem WriteFstab_ephemeral_eq (k : Constants) (paths : List Str) (data : Str) :
    WriteFstab.ephemeral k paths data =
      data ++ fstabText (paths.map (overlayEntry k.OverlayDir k.OverlayDir)) := by
  induction paths generalizing data with
  | nil => simp [WriteFstab.ephemeral, fstabText]
  | cons p ps ih =>
    rw [WriteFstab.ephemeral, ih, overlayLine_eq_line]
    simp [fstabText]

theorem WriteFstab_persistent_eq (k : Constants) (spec : MountSpec) (pv : VolumeMount)
    (paths : List Str) (st : Str × Option GoError) :
    (WriteFstab.persistent k spec pv paths st).1 =
      st.1 ++ fstabText
        (if spec.Persistent.Mode = k.OverlayMode then
          paths.map (overlayEntry (filepath.Join [pv.Mountpoint, k.PersistentStateDir])
            k.PersistentDir)
        else if spec.Persistent.Mode = k.BindMode then paths.map (bindEntry k pv)
        else []) := by
  induction paths generalizing st with
  | nil => simp [WriteFstab.persistent, fstabText]
  | cons p ps ih =>
    rw [WriteFstab.persistent]
    by_cases h1 : spec.Persistent.Mode = k.OverlayMode
    · simp only [if_pos h1] at ih ⊢
      rw [ih, overlayLine_eq_line]
      simp [fstabText]
    · by_cases h2 : spec.Persistent.Mode = k.BindMode
      · simp only [if_neg h1, if_pos h2] at ih ⊢
        rw [ih, fstab_eq_line, ReplaceAll_TrimPrefix_eq_mangle]
        simp [fstabText, bindEntry, optionsField, List.intercalate, List.intersperse]
      · simp only [if_neg h1, if_neg h2] at ih ⊢
        rw [ih]

/-- The text `WriteFstab` builds: the given data followed by the lines of
`fstabEntries`. -/
theorem WriteFstab_build_eq (k : Constants) (spec : MountSpec) (data : Str) :
    (WriteFstab.build k spec data).1 = data ++ fstabText (fstabEntries k spec) := by
  unfold WriteFstab.build
  simp only [WriteFstab_volumes_eq, WriteFstab_ephemeral_eq, fstab_eq_line]
  unfold fstabEntries persistentEntries
  cases hl : (spec.Volumes.filter fun v => v.Persistent).getLast? with
  | none =>
    simp [fstabText, tmpfsEntry, optionsField, List.intercalate, List.intersperse]
  | some pv =>
    simp only [WriteFstab_persistent_eq]
    simp [fstabText, tmpfsEntry, optionsField, List.intercalate, List.intersperse]

theorem WriteFile_cases (env : Env) (path data : Str) (t : Trace) :
    ∃ ok : Bool, (Fs.WriteFile env path data t).1 = t ++ [⟨.WriteFile path data, ok⟩] ∧
      (ok = true ↔ (Fs.WriteFile env path data t).2 = none) := by
  unfold Fs.WriteFile
  cases h : env.WriteFile t path data with
  | none => exact ⟨true, rfl, by simp⟩
  | some e => exact ⟨false, rfl, by simp⟩

/-- With `write_fstab` true, `WriteFstab` makes one call: it writes the given
data followed by the lines of `fstabEntries`, and returns what the write
returns. -/
theorem WriteFstab_build_write (k : Constants) (env : Env) (spec : MountSpec)
    (data : Str) (t : Trace) (h : spec.WriteFstab = true) :
    ∃ ok : Bool,
      (WriteFstab k env spec data t).1 =
        t ++ [⟨.WriteFile (filepath.Join [spec.Sysroot, "/etc/fstab".toList])
          (data ++ fstabText (fstabEntries k spec)), ok⟩] ∧
      (ok = true ↔ (WriteFstab k env spec data t).2 = none) := by
  unfold WriteFstab
  simp only [h, Bool.not_true, Bool.false_eq_true, if_false, WriteFstab_build_eq]
  exact WriteFile_cases env _ _ t

/-- C2 (amended): when `write_fstab` is false `WriteFstab` writes nothing and
returns nil.  When it is true `WriteFstab` makes exactly one call, writing to
`<sysroot>/etc/fstab` the concatenation, in this order, of the initial block
it was given, the line of the overlay workspace, one line per volume in input
order (device, mountpoint, `auto`, comma-joined options or `defaults`), one
overlay line per ephemeral path in order, and the lines of the persistent
paths: one per path in order when a volume is marked persistent and the mode
is overlay or bind, none when no volume is marked persistent or the mode is
neither.  Every line has the form `SOURCE\tTARGET\tFSTYPE\tOPTIONS\t0\t0`
followed by a newline; the result is what the write returns. -/
theorem WriteFstab_writes_entries (k : Constants) (env : Env) (spec : MountSpec)
    (data : Str) (t : Trace) :
    (spec.WriteFstab = false → WriteFstab k env spec data t = (t, none)) ∧
    (spec.WriteFstab = true →
      ∃ ok : Bool,
        (WriteFstab k env spec data t).1 =
          t ++ [⟨.WriteFile (filepath.Join [spec.Sysroot, "/etc/fstab".toList])
            (data ++ fstabText (fstabEntries k spec)), ok⟩] ∧
        (ok = true ↔ (WriteFstab k env spec data t).2 = none)) := by
  refine ⟨?_, ?_⟩
  · intro h
    simp [WriteFstab, h]
  · intro h
    exact WriteFstab_build_write k env spec data t h

/-- C2 as stated fails: with a persistent path configured and no volume marked
persistent, the written file has no line for that path. -/
theorem WriteFstab_skips_persistent_without_volume :
    WriteFstab elementalConstants (Env.succeed [])
        { WriteFstab := true,
          Ephemeral := { Type_ := "tmpfs".toList, Device := [], Size := "30%".toList,
                         Paths := [] },
          Persistent := { Mode := "overlay".toList, Paths := ["/etc".toList] },
          Volumes := [],
          Sysroot := "/sysroot".toList }
        "/dev/loop0\t/\tauto\tro\t0\t0\n".toList [] =
      ([⟨.WriteFile "/sysroot/etc/fstab".toList
          ("/dev/loop0\t/\tauto\tro\t0\t0\n".toList ++
            "tmpfs\t/run/elemental/overlay\ttmpfs\tdefaults,size=30%\t0\t0\n".toList),
          true⟩], none) := by
  decide

theorem fstab_Split (device path fstype options : Str) :
    fstab device path fstype (strings.Split options ',') =
      FstabEntry.line ⟨device, path, fstype, options⟩ := by
  rw [fstab_eq_line]
  have hne : strings.Split options ',' ≠ [] := List.splitOnP_ne_nil _ _
  have hrt : ",".toList.intercalate (strings.Split options ',') = options :=
    List.intercalate_splitOn options ','
  unfold optionsField
  rw [if_neg hne, hrt]

theorem InitialFstabData_loop_eq (k : Constants) (sysroot : Str) (mounts : List VolumeMount)
    (data : Str) :
    InitialFstabData.loop k sysroot mounts data =
      data ++ (mounts.map (InitialFstabData.line k sysroot)).flatten := by
  induction mounts generalizing data with
  | nil => simp [InitialFstabData.loop]
  | cons m ms ih => simp [InitialFstabData.loop, ih]

theorem InitialFstabData_line_eq (k : Constants) (sysroot : Str) (text : Str) :
    ((findmnt.line text).map (InitialFstabData.line k sysroot)).getD [] =
      initialLine k sysroot (strings.Fields text) := by
  unfold findmnt.line
  rcases strings.Fields text with _ | ⟨a, _ | ⟨b, _ | ⟨c, _ | ⟨d, _ | ⟨e, r⟩⟩⟩⟩⟩
  · rfl
  · rfl
  · rfl
  · rfl
  · simp only [Option.map_some', Option.getD_some, InitialFstabData.line, initialLine,
      fstab_Split, strings.TrimPrefix]
    have hsrc : (if c = "btrfs".toList then
        match regexp.FindStringSubmatch1 a with
        | some m => m
        | none => a
      else a) = recordedSource a c := by
      unfold recordedSource
      cases regexp.FindStringSubmatch1 a <;> rfl
    rw [hsrc]
    by_cases h1 : b = sysroot
    · simp only [if_pos h1]
    · by_cases h2 : strings.HasPrefix b sysroot = true
      · simp only [if_neg h1, if_pos h2]
      · by_cases h3 : strings.HasPrefix b k.RunElementalDir = true
        · simp only [if_neg h1, if_neg h2, if_pos h3, if_pos (Or.inl h3 :
            strings.HasPrefix b k.RunElementalDir = true ∨ b = k.RunningStateDir)]
        · by_cases h4 : b = k.RunningStateDir
          · simp only [if_neg h1, if_neg h2, if_neg h3, if_pos h4, if_pos (Or.inr h4 :
              strings.HasPrefix b k.RunElementalDir = true ∨ b = k.RunningStateDir)]
          · simp only [if_neg h1, if_neg h2, if_neg h3, if_neg h4, if_neg (not_or.2 ⟨h3, h4⟩ :
              ¬(strings.HasPrefix b k.RunElementalDir = true ∨ b = k.RunningStateDir))]
  · rfl

theorem flatten_map_filterMap {α β : Type} (g : α → Option β) (f : β → Str) (l : List α) :
    ((l.filterMap g).map f).flatten = (l.map fun x => ((g x).map f).getD []).flatten := by
  induction l with
  | nil => rfl
  | cons x xs ih =>
    cases h : g x with
    | none => simp [List.filterMap_cons, h, ih]
    | some y => simp [List.filterMap_cons, h, ih]

/-- C4, the code at the scenario of the claim: with `findmnt` reporting the
single root filesystem `/dev/loop0` of type `ext2` with options `ro,relatime`
at the sysroot, the initial line written by `RunMount` carries the type `auto`,
not the reported `ext2`: the content of `<sysroot>/etc/fstab` differs from the
one the claim and the test `Writes a simple fstab` expect. -/
theorem RunMount_minimal_fstab_type_auto :
    RunMount elementalConstants (Env.succeed "/dev/loop0 /sysroot ext2 ro,relatime".toList)
        minimalSpec [] =
      ([⟨.Run "findmnt".toList
          ["-Rrfno".toList, "SOURCE,TARGET,FSTYPE,OPTIONS".toList, "/".toList], true⟩,
        ⟨.MkdirAll "/run/elemental/overlay".toList, true⟩,
        ⟨.Mount "tmpfs".toList "/run/elemental/overlay".toList "tmpfs".toList
          ["defaults".toList, "size=30%".toList], true⟩,
        ⟨.WriteFile "/sysroot/etc/fstab".toList
          "/dev/loop0\t/\tauto\tro,relatime\t0\t0\ntmpfs\t/run/elemental/overlay\ttmpfs\tdefaults,size=30%\t0\t0\n".toList,
          true⟩],
       none) ∧
    "/dev/loop0\t/\tauto\tro,relatime\t0\t0\ntmpfs\t/run/elemental/overlay\ttmpfs\tdefaults,size=30%\t0\t0\n".toList ≠
      "/dev/loop0\t/\text2\tro,relatime\t0\t0\ntmpfs\t/run/elemental/overlay\ttmpfs\tdefaults,size=30%\t0\t0\n".toList := by
  decide

theorem PathsRun_success_mem {Q : Str → List Event → Option GoError → Prop}
    {paths : List Str} {es : List Event} {r : Option GoError}
    (h : PathsRun Q paths es r) (hr : r = none) :
    ∀ P ∈ paths, ∃ esP, Q P esP none ∧ ∀ e ∈ esP, e ∈ es := by
  induction h with
  | done => simp
  | failed path rest es err h => cases hr
  | next path rest es es' r h _ ih =>
    intro P hP
    rcases List.mem_cons.1 hP with rfl | hP
    · exact ⟨es, h, fun e he => List.mem_append_left _ he⟩
    · obtain ⟨esP, hq, hsub⟩ := ih hr P hP
      exact ⟨esP, hq, fun e he => List.mem_append_right _ (hsub e he)⟩

theorem mountedAt_mono {t t' : Trace} {target : Str} (h : mountedAt t target)
    (hsub : ∀ e ∈ t, e ∈ t') : mountedAt t' target := by
  obtain ⟨s, f, o, hm⟩ := h
  exact ⟨s, f, o, hsub _ hm⟩

theorem OverlayAttempt_mountedAt {sysroot overlayDir path : Str} {es : List Event}
    (h : OverlayAttempt sysroot overlayDir path es none) :
    mountedAt es (filepath.Join [sysroot, path]) := by
  cases h
  unfold overlayMount
  exact ⟨_, _, _, List.mem_cons_of_mem _ (List.mem_cons_of_mem _
    (List.mem_cons_of_mem _ (List.mem_singleton.2 rfl)))⟩

theorem BindAttempt_mountedAt {sysroot stateRoot path : Str} {es : List Event}
    (h : BindAttempt sysroot stateRoot path es none) :
    mountedAt es (filepath.Join [sysroot, path]) := by
  cases h
  unfold bindMount
  exact ⟨_, _, _, List.mem_cons_of_mem _ (List.mem_cons_of_mem _
    (List.mem_cons_of_mem _ (List.mem_singleton.2 rfl)))⟩

/-- A successful `MountVolumes` mounted every volume at its mountpoint. -/
theorem MountVolumes_success_mounted (env : Env) (sysroot : Str) (volumes : List VolumeMount)
    (t : Trace) (h : (MountVolumes env sysroot volumes t).2 = none) :
    ∃ es, (MountVolumes env sysroot volumes t).1 = t ++ es ∧
      ∀ vol ∈ volumes, mountedAt es (MountVolumes.mountpoint sysroot vol) := by
  obtain ⟨atts, hall, h1, -, h3⟩ := MountVolumes_loop_attempts env sysroot volumes (t, none)
  refine ⟨_, h1, ?_⟩
  have hnil : ∀ a ∈ atts, a.2 = [] := (h3.1 h).2
  intro vol hvol
  obtain ⟨a, ha, hatt⟩ := forall₂_of_mem_left hall vol hvol
  have ha2 := hnil a ha
  obtain ⟨a1, a2⟩ := a
  simp only at hatt ha2
  subst ha2
  have hsub : ∀ e ∈ a1, e ∈ (List.map Prod.fst atts).flatten := fun e he =>
    List.mem_flatten.2 ⟨a1, List.mem_map.2 ⟨(a1, []), ha, rfl⟩, he⟩
  cases hatt with
  | mounted dev hd =>
    exact ⟨dev, _, _, hsub _ (List.mem_cons_of_mem _ (List.mem_singleton.2 rfl))⟩

/-- A successful `MountEphemeral` mounted the workspace and every path. -/
theorem MountEphemeral_success_mounted (k : Constants) (env : Env) (sysroot : Str)
    (overlay : EphemeralMounts) (t : Trace)
    (h : (MountEphemeral k env sysroot overlay t).2 = none) :
    ∃ es, (MountEphemeral k env sysroot overlay t).1 = t ++ es ∧
      mountedAt es k.OverlayDir ∧
      ∀ P ∈ overlay.Paths, mountedAt es (filepath.Join [sysroot, P]) := by
  obtain ⟨es, h1, hcases⟩ := MountEphemeral_run k env sysroot overlay t
  refine ⟨es, h1, ?_⟩
  rcases hcases with ⟨m, _, h'⟩ | ⟨m, _, h'⟩ | ⟨s, f, o, m, _, h'⟩ | ⟨s, f, o, es', rfl, hrun⟩
  · rw [h'] at h; cases h
  · rw [h'] at h; cases h
  · rw [h'] at h; cases h
  · refine ⟨⟨s, f, o, List.mem_cons_of_mem _ (List.mem_cons_self _ _)⟩, ?_⟩
    intro P hP
    obtain ⟨esP, hq, hsub⟩ := PathsRun_success_mem hrun h P hP
    exact mountedAt_mono (OverlayAttempt_mountedAt hq)
      (fun e he => List.mem_cons_of_mem _ (List.mem_cons_of_mem _ (hsub e he)))

theorem find?_eq_none_iff_getLast? (vols : List VolumeMount) :
    vols.find? (fun v => v.Persistent) = none ↔
      (vols.filter fun v => v.Persistent).getLast? = none := by
  rw [List.find?_eq_none, List.getLast?_eq_none_iff, List.filter_eq_nil_iff]

/-- A successful `MountPersistent` mounted every persistent path when a volume
is marked persistent. -/
theorem MountPersistent_success_mounted (k : Constants) (env : Env) (sysroot : Str)
    (persistent : PersistentMounts) (volumes : List VolumeMount) (t : Trace)
    (h : (MountPersistent k env sysroot persistent volumes t).2 = none) :
    ∃ es, (MountPersistent k env sysroot persistent volumes t).1 = t ++ es ∧
      ((volumes.filter fun v => v.Persistent).getLast? ≠ none →
        ∀ P ∈ persistent.Paths, mountedAt es (filepath.Join [sysroot, P])) := by
  unfold MountPersistent at h ⊢
  cases hf : volumes.find? (fun v => v.Persistent) with
  | none =>
    refine ⟨[], by simp, ?_⟩
    intro hne
    exact absurd ((find?_eq_none_iff_getLast? volumes).1 hf) hne
  | some vol =>
    rw [hf] at h
    simp only at h ⊢
    by_cases hm : persistent.Mode = "bind".toList
    · simp only [if_pos hm] at h ⊢
      obtain ⟨es, g1, g2⟩ := mountPaths_run MountBindPath env sysroot
        (filepath.Join [vol.Mountpoint, k.PersistentStateDir]) _
        (fun path t => MountBindPath_attempt env sysroot _ path t) persistent.Paths t
      refine ⟨es, g1, fun _ P hP => ?_⟩
      obtain ⟨esP, hq, hsub⟩ := PathsRun_success_mem g2 h P hP
      exact mountedAt_mono (BindAttempt_mountedAt hq) hsub
    · simp only [if_neg hm] at h ⊢
      obtain ⟨es, g1, g2⟩ := mountPaths_run MountOverlayPath env sysroot
        (filepath.Join [vol.Mountpoint, k.PersistentStateDir]) _
        (fun path t => MountOverlayPath_attempt env sysroot _ path t) persistent.Paths t
      refine ⟨es, g1, fun _ P hP => ?_⟩
      obtain ⟨esP, hq, hsub⟩ := PathsRun_success_mem g2 h P hP
      exact mountedAt_mono (OverlayAttempt_mountedAt hq) hsub

theorem persistentEntries_target (k : Constants) (spec : MountSpec) :
    ∀ e ∈ persistentEntries k spec,
      (spec.Volumes.filter fun v => v.Persistent).getLast? ≠ none ∧
      e.target ∈ spec.Persistent.Paths := by
  intro e he
  unfold persistentEntries at he
  cases hl : (spec.Volumes.filter fun v => v.Persistent).getLast? with
  | none => rw [hl] at he; simp at he
  | some pv =>
    rw [hl] at he
    simp only at he
    refine ⟨by simp, ?_⟩
    by_cases h1 : spec.Persistent.Mode = k.OverlayMode
    · simp only [if_pos h1, List.mem_map] at he
      obtain ⟨P, hP, rfl⟩ := he
      exact hP
    · by_cases h2 : spec.Persistent.Mode = k.BindMode
      · simp only [if_neg h1, if_pos h2, List.mem_map] at he
        obtain ⟨P, hP, rfl⟩ := he
        exact hP
      · simp [if_neg h1, if_neg h2] at he

theorem InitialFstabData_trace (k : Constants) (env : Env) (sysroot : Str) (t : Trace) :
    ∃ es, (InitialFstabData k env sysroot t).1 = t ++ es := by
  unfold InitialFstabData findmnt Runner.Run
  cases env.Run t "findmnt".toList
    ["-Rrfno".toList, "SOURCE,TARGET,FSTYPE,OPTIONS".toList, "/".toList] with
  | error e => exact ⟨_, rfl⟩
  | ok out => exact ⟨_, rfl⟩

theorem MountVolumes_mountpoint_eq (sysroot : Str) (vol : VolumeMount) :
    MountVolumes.mountpoint sysroot vol =
      (if strings.HasPrefix vol.Mountpoint "/run".toList = true
        then vol.Mountpoint else filepath.Join [sysroot, vol.Mountpoint]) := by
  unfold MountVolumes.mountpoint
  change (if (!strings.HasPrefix vol.Mountpoint "/run".toList) = true then _ else _) = _
  cases strings.HasPrefix vol.Mountpoint "/run".toList <;> simp

/-- The stages of a successful `RunMount` with `write_fstab` true: the initial
block is computed, then the volumes, the ephemeral paths and the persistent
paths are mounted without error, each stage starting from the history left by
the one before, and the result is the result of `WriteFstab`. -/
theorem RunMount_success_stages (k : Constants) (env : Env) (spec : MountSpec)
    (t : Trace) (hw : spec.WriteFstab = true) (hok : (RunMount k env spec t).2 = none) :
    ∃ (initial : Str) (e0 e1 e2 e3 : List Event),
      InitialFstabData k env spec.Sysroot t = (t ++ e0, .ok initial) ∧
      MountVolumes env spec.Sysroot spec.Volumes (t ++ e0) = (t ++ e0 ++ e1, none) ∧
      MountEphemeral k env spec.Sysroot spec.Ephemeral (t ++ e0 ++ e1) =
        (t ++ e0 ++ e1 ++ e2, none) ∧
      MountPersistent k env spec.Sysroot spec.Persistent spec.Volumes (t ++ e0 ++ e1 ++ e2) =
        (t ++ e0 ++ e1 ++ e2 ++ e3, none) ∧
      RunMount k env spec t = WriteFstab k env spec initial (t ++ e0 ++ e1 ++ e2 ++ e3) := by
  unfold RunMount at hok ⊢
  simp only [hw, if_true] at hok ⊢
  obtain ⟨e0, hI⟩ := InitialFstabData_trace k env spec.Sysroot t
  cases hIr : InitialFstabData k env spec.Sysroot t with
  | mk t1 r1 =>
  rw [hIr] at hok hI
  simp only at hI
  subst hI
  cases r1 with
  | error err => simp at hok
  | ok initial =>
  simp only at hok ⊢
  cases hV : MountVolumes env spec.Sysroot spec.Volumes (t ++ e0) with
  | mk t2 r2 =>
  rw [hV] at hok
  cases r2 with
  | some err => simp at hok
  | none =>
  simp only at hok ⊢
  obtain ⟨e1, hV1, -⟩ := MountVolumes_success_mounted env spec.Sysroot spec.Volumes (t ++ e0)
    (by rw [hV])
  rw [hV] at hV1
  simp only at hV1
  subst hV1
  cases hE : MountEphemeral k env spec.Sysroot spec.Ephemeral (t ++ e0 ++ e1) with
  | mk t3 r3 =>
  rw [hE] at hok
  cases r3 with
  | some err => simp at hok
  | none =>
  simp only at hok ⊢
  obtain ⟨e2, hE1, -, -⟩ := MountEphemeral_success_mounted k env spec.Sysroot
    spec.Ephemeral (t ++ e0 ++ e1) (by rw [hE])
  rw [hE] at hE1
  simp only at hE1
  subst hE1
  cases hP : MountPersistent k env spec.Sysroot spec.Persistent spec.Volumes
      (t ++ e0 ++ e1 ++ e2) with
  | mk t4 r4 =>
  rw [hP] at hok
  cases r4 with
  | some err => simp at hok
  | none =>
  simp only at hok ⊢
  obtain ⟨e3, hP1, -⟩ := MountPersistent_success_mounted k env spec.Sysroot
    spec.Persistent spec.Volumes (t ++ e0 ++ e1 ++ e2) (by rw [hP])
  rw [hP] at hP1
  simp only at hP1
  subst hP1
  exact ⟨initial, e0, e1, e2, e3, rfl, hV, hE, hP, rfl⟩

/-- C1: after `RunMount` returns success with `write_fstab` true, the file
written to `<sysroot>/etc/fstab` is the initial block followed by the lines of
the workspace entry, the volume entries, the ephemeral-path entries and the
persistent-path entries, and every one of these lines has a successful mount
call of this run at the matching target: the overlay dir itself for the
workspace line; for a volume line the target itself when it starts with
`/run` and the target joined under sysroot otherwise; for an ephemeral-path
line and for a persistent-path line the target joined under sysroot. -/
theorem RunMount_fstab_lines_mounted (k : Constants) (env : Env) (spec : MountSpec)
    (t : Trace) (hw : spec.WriteFstab = true) (hok : (RunMount k env spec t).2 = none) :
    ∃ (initial : Str) (es : List Event),
      (RunMount k env spec t).1 = t ++ es ∧
      (InitialFstabData k env spec.Sysroot t).2 = .ok initial ∧
      (⟨.WriteFile (filepath.Join [spec.Sysroot, "/etc/fstab".toList])
          (initial ++ fstabText (tmpfsEntry k spec :: (spec.Volumes.map volumeEntry ++
            (spec.Ephemeral.Paths.map (overlayEntry k.OverlayDir k.OverlayDir) ++
              persistentEntries k spec)))), true⟩ : Event) ∈ es ∧
      mountedAt es (tmpfsEntry k spec).target ∧
      (∀ vol ∈ spec.Volumes,
        mountedAt es
          (if strings.HasPrefix (volumeEntry vol).target "/run".toList = true
            then (volumeEntry vol).target
            else filepath.Join [spec.Sysroot, (volumeEntry vol).target])) ∧
      (∀ P ∈ spec.Ephemeral.Paths,
        mountedAt es
          (filepath.Join [spec.Sysroot, (overlayEntry k.OverlayDir k.OverlayDir P).target])) ∧
      (∀ e ∈ persistentEntries k spec,
        mountedAt es (filepath.Join [spec.Sysroot, e.target])) := by
  obtain ⟨initial, e0, e1, e2, e3, hI, hV, hE, hP, hR⟩ :=
    RunMount_success_stages k env spec t hw hok
  rw [hR] at hok ⊢
  obtain ⟨e1', hV1, hVm⟩ := MountVolumes_success_mounted env spec.Sysroot spec.Volumes
    (t ++ e0) (by rw [hV])
  rw [hV] at hV1
  obtain rfl : e1 = e1' := List.append_cancel_left hV1
  obtain ⟨e2', hE1, hEw, hEp⟩ := MountEphemeral_success_mounted k env spec.Sysroot
    spec.Ephemeral (t ++ e0 ++ e1) (by rw [hE])
  rw [hE] at hE1
  obtain rfl : e2 = e2' := List.append_cancel_left hE1
  obtain ⟨e3', hP1, hPm⟩ := MountPersistent_success_mounted k env spec.Sysroot
    spec.Persistent spec.Volumes (t ++ e0 ++ e1 ++ e2) (by rw [hP])
  rw [hP] at hP1
  obtain rfl : e3 = e3' := List.append_cancel_left hP1
  obtain ⟨ok, hW1, hW2⟩ := (WriteFstab_build_write k env spec initial
    (t ++ e0 ++ e1 ++ e2 ++ e3)) hw
  have hokt : ok = true := hW2.2 hok
  subst hokt
  refine ⟨initial, e0 ++ e1 ++ e2 ++ e3 ++
    [⟨.WriteFile (filepath.Join [spec.Sysroot, "/etc/fstab".toList])
      (initial ++ fstabText (fstabEntries k spec)), true⟩], ?_, by rw [hI], ?_, ?_, ?_, ?_, ?_⟩
  · rw [hW1]
    simp only [List.append_assoc]
  · exact List.mem_append_right _ (List.mem_singleton.2 rfl)
  · exact mountedAt_mono hEw (fun e he => by simp [he])
  · intro vol hvol
    have := hVm vol hvol
    rw [MountVolumes_mountpoint_eq] at this
    exact mountedAt_mono this (fun e he => by simp [he])
  · intro P hP'
    exact mountedAt_mono (hEp P hP') (fun e he => by simp [he])
  · intro e he
    obtain ⟨hne, hmem⟩ := persistentEntries_target k spec e he
    exact mountedAt_mono (hPm hne _ hmem) (fun e he => by simp [he])

/-- Witness of C1: `sampleSpec` in an environment where every call succeeds
and `findmnt` reports the root filesystem at `/sysroot`. -/
theorem RunMount_fstab_lines_mounted_witness :
    sampleSpec.WriteFstab = true ∧
    (RunMount elementalConstants (Env.succeed "/dev/loop0 /sysroot ext2 ro".toList)
      sampleSpec []).2 = none ∧
    ∃ es : List Event,
      (RunMount elementalConstants (Env.succeed "/dev/loop0 /sysroot ext2 ro".toList)
        sampleSpec []).1 = [] ++ es ∧
      mountedAt es (tmpfsEntry elementalConstants sampleSpec).target ∧
      (∀ e ∈ persistentEntries elementalConstants sampleSpec,
        mountedAt es (filepath.Join [sampleSpec.Sysroot, e.target])) :=
  ⟨by decide, by decide,
    (RunMount_fstab_lines_mounted elementalConstants
      (Env.succeed "/dev/loop0 /sysroot ext2 ro".toList) sampleSpec [] (by decide)
      (by decide)).elim
      fun _ h => h.elim fun es h => ⟨es, h.1, h.2.2.2.1, h.2.2.2.2.2.2⟩⟩

theorem splitOn_first (c : Char) (xs rest : Str) (h : c ∉ xs) :
    (xs ++ c :: rest).splitOn c = xs :: rest.splitOn c := by
  have := List.splitOnP_first (fun x => x == c) xs
    (fun x hx hp => h (by rw [beq_iff_eq] at hp; exact hp ▸ hx)) c (by simp) rest
  exact this

theorem splitOn_eq_single (c : Char) (xs : Str) (h : c ∉ xs) : xs.splitOn c = [xs] := by
  have := List.splitOnP_eq_single (fun x => x == c) xs
    (fun x hx hp => h (by rw [beq_iff_eq] at hp; exact hp ▸ hx))
  exact this

/-- The line of an entry without its newline. -/
theorem FstabEntry_line_body (e : FstabEntry) :
    e.line = (e.source ++ '\t' :: (e.target ++ '\t' :: (e.fstype ++ '\t' :: (e.options ++
      '\t' :: ('0' :: '\t' :: ['0']))))) ++ '\n' :: [] := by
  simp [FstabEntry.line]

theorem FstabEntry_body_no_newline (e : FstabEntry) (h : e.clean) :
    '\n' ∉ (e.source ++ '\t' :: (e.target ++ '\t' :: (e.fstype ++ '\t' :: (e.options ++
      '\t' :: ('0' :: '\t' :: ['0']))))) := by
  have h1 := (h e.source (by simp)).2
  have h2 := (h e.target (by simp)).2
  have h3 := (h e.fstype (by simp)).2
  have h4 := (h e.options (by simp)).2
  simp only [List.mem_append, List.mem_cons, List.not_mem_nil, not_or]
  refine ⟨h1, by decide, h2, by decide, h3, by decide, h4, ?_⟩
  decide

theorem FstabEntry_body_fields (e : FstabEntry) (h : e.clean) :
    (e.source ++ '\t' :: (e.target ++ '\t' :: (e.fstype ++ '\t' :: (e.options ++
      '\t' :: ('0' :: '\t' :: ['0']))))).splitOn '\t' = e.fields := by
  have h1 := (h e.source (by simp)).1
  have h2 := (h e.target (by simp)).1
  have h3 := (h e.fstype (by simp)).1
  have h4 := (h e.options (by simp)).1
  rw [splitOn_first _ _ _ h1, splitOn_first _ _ _ h2, splitOn_first _ _ _ h3,
    splitOn_first _ _ _ h4]
  have h5 : ('0' :: '\t' :: ['0']).splitOn '\t' = [['0'], ['0']] := by decide
  rw [h5]
  rfl

theorem splitOn_fstabText (entries : List FstabEntry) (h : ∀ e ∈ entries, e.clean) :
    (fstabText entries).splitOn '\n' =
      entries.map (fun e => e.source ++ '\t' :: (e.target ++ '\t' :: (e.fstype ++ '\t' ::
        (e.options ++ '\t' :: ('0' :: '\t' :: ['0']))))) ++ [[]] := by
  induction entries with
  | nil => rfl
  | cons e es ih =>
    have hcons : fstabText (e :: es) = e.line ++ fstabText es := by simp [fstabText]
    rw [hcons, FstabEntry_line_body, List.append_assoc, List.cons_append, List.nil_append,
      splitOn_first _ _ _ (FstabEntry_body_no_newline e (h e (List.mem_cons_self _ _))),
      ih (fun x hx => h x (List.mem_cons_of_mem _ hx))]
    rfl

/-- The lines of the text of clean entries are the lines of the entries. -/
theorem fstabLines_fstabText (entries : List FstabEntry) (h : ∀ e ∈ entries, e.clean) :
    fstabLines (fstabText entries) =
      entries.map (fun e => e.source ++ '\t' :: (e.target ++ '\t' :: (e.fstype ++ '\t' ::
        (e.options ++ '\t' :: ('0' :: '\t' :: ['0']))))) := by
  unfold fstabLines
  simp only [splitOn_fstabText entries h]
  simp

/-- Parsing the text of clean entries line by line gives the entries back. -/
theorem parseFstab_fstabText (entries : List FstabEntry) (h : ∀ e ∈ entries, e.clean) :
    parseFstab (fstabText entries) = entries.map FstabEntry.fields := by
  unfold parseFstab
  rw [fstabLines_fstabText entries h, List.map_map]
  apply List.map_congr_left
  intro e he
  exact FstabEntry_body_fields e (h e he)

theorem persistentEntries_targets (k : Constants) (spec : MountSpec) :
    (persistentEntries k spec).map FstabEntry.target =
      if spec.Volumes.any (fun v => v.Persistent) = true ∧
          (spec.Persistent.Mode = k.OverlayMode ∨ spec.Persistent.Mode = k.BindMode)
      then spec.Persistent.Paths else [] := by
  unfold persistentEntries
  cases hl : (spec.Volumes.filter fun v => v.Persistent).getLast? with
  | none =>
    have hnil : spec.Volumes.filter (fun v => v.Persistent) = [] :=
      List.getLast?_eq_none_iff.1 hl
    have hany : spec.Volumes.any (fun v => v.Persistent) = false := by
      rw [List.any_eq_false]
      intro v hv hp
      have : v ∈ spec.Volumes.filter (fun v => v.Persistent) := List.mem_filter.2 ⟨hv, hp⟩
      rw [hnil] at this
      exact absurd this (List.not_mem_nil _)
    simp [hany]
  | some pv =>
    have hmem : pv ∈ spec.Volumes.filter (fun v => v.Persistent) :=
      List.mem_of_getLast?_eq_some hl
    have hany : spec.Volumes.any (fun v => v.Persistent) = true :=
      List.any_eq_true.2 ⟨pv, (List.mem_filter.1 hmem).1, (List.mem_filter.1 hmem).2⟩
    simp only [hany, true_and]
    by_cases h1 : spec.Persistent.Mode = k.OverlayMode
    · rw [if_pos h1, if_pos (Or.inl h1)]
      simp [overlayEntry, Function.comp_def]
    · by_cases h2 : spec.Persistent.Mode = k.BindMode
      · rw [if_neg h1, if_pos h2, if_pos (Or.inr h2)]
        simp [bindEntry, Function.comp_def]
      · rw [if_neg h1, if_neg h2, if_neg (not_or.2 ⟨h1, h2⟩)]
        rfl

theorem fstabEntries_targets (k : Constants) (spec : MountSpec) :
    (fstabEntries k spec).map FstabEntry.target =
      k.OverlayDir :: ((spec.Volumes.map fun v => v.Mountpoint) ++
        (spec.Ephemeral.Paths ++ (persistentEntries k spec).map FstabEntry.target)) := by
  simp [fstabEntries, tmpfsEntry, volumeEntry, overlayEntry, Function.comp_def]

/-- C3 (amended): for every MountSpec accepted by `RunMount` with
`write_fstab` true whose entries hold no tab and no newline in any field, the
emitted fstab is the initial block followed by a text that, parsed line by
line, gives exactly one workspace entry, one entry per volume, one entry per
ephemeral path and the persistent entries, in this order; the persistent
entries are one per persistent path when a volume is marked persistent and the
mode is overlay or bind, and none otherwise; and when the overlay dir, the
volume mountpoints, the ephemeral paths and the targets of the persistent
entries are pairwise distinct, the parsed targets are pairwise distinct and no
line occurs twice. -/
theorem RunMount_fstab_parses_to_entries (k : Constants) (env : Env) (spec : MountSpec)
    (t : Trace) (hw : spec.WriteFstab = true) (hok : (RunMount k env spec t).2 = none)
    (hclean : ∀ e ∈ fstabEntries k spec, e.clean) :
    ∃ (initial body : Str),
      (InitialFstabData k env spec.Sysroot t).2 = .ok initial ∧
      (⟨.WriteFile (filepath.Join [spec.Sysroot, "/etc/fstab".toList]) (initial ++ body),
          true⟩ : Event) ∈ (RunMount k env spec t).1.drop t.length ∧
      parseFstab body =
        (tmpfsEntry k spec :: (spec.Volumes.map volumeEntry ++
          (spec.Ephemeral.Paths.map (overlayEntry k.OverlayDir k.OverlayDir) ++
            persistentEntries k spec))).map FstabEntry.fields ∧
      (persistentEntries k spec).map FstabEntry.target =
        (if spec.Volumes.any (fun v => v.Persistent) = true ∧
            (spec.Persistent.Mode = k.OverlayMode ∨ spec.Persistent.Mode = k.BindMode)
          then spec.Persistent.Paths else []) ∧
      ((k.OverlayDir :: ((spec.Volumes.map fun v => v.Mountpoint) ++
          (spec.Ephemeral.Paths ++ (persistentEntries k spec).map FstabEntry.target))).Nodup →
        ((parseFstab body).map fun fields => fields.getD 1 []).Nodup ∧
        (fstabLines body).Nodup) := by
  obtain ⟨initial, e0, e1, e2, e3, hI, -, -, -, hR⟩ :=
    RunMount_success_stages k env spec t hw hok
  rw [hR] at hok ⊢
  obtain ⟨ok, hW1, hW2⟩ := WriteFstab_build_write k env spec initial
    (t ++ e0 ++ e1 ++ e2 ++ e3) hw
  have hokt : ok = true := hW2.2 hok
  subst hokt
  have hparse := parseFstab_fstabText (fstabEntries k spec) hclean
  have htargets : (parseFstab (fstabText (fstabEntries k spec))).map
      (fun fields => fields.getD 1 []) = (fstabEntries k spec).map FstabEntry.target := by
    rw [hparse, List.map_map]
    apply List.map_congr_left
    intro e _
    rfl
  refine ⟨initial, fstabText (fstabEntries k spec), by rw [hI], ?_, hparse,
    persistentEntries_targets k spec, ?_⟩
  · rw [hW1]
    simp only [List.append_assoc, List.drop_left]
    exact List.mem_append_right _ (List.mem_append_right _ (List.mem_append_right _
      (List.mem_append_right _ (List.mem_singleton.2 rfl))))
  · intro hnodup
    rw [← fstabEntries_targets] at hnodup
    have h1 : ((parseFstab (fstabText (fstabEntries k spec))).map
        (fun fields => fields.getD 1 [])).Nodup := by
      rw [htargets]
      exact hnodup
    refine ⟨h1, ?_⟩
    have h2 : (parseFstab (fstabText (fstabEntries k spec))).Nodup := List.Nodup.of_map _ h1
    unfold parseFstab at h2
    exact List.Nodup.of_map _ h2

set_option maxRecDepth 100000 in
/-- Witness of C3: `sampleSpec` in an environment where every call succeeds. -/
theorem RunMount_fstab_parses_to_entries_witness :
    sampleSpec.WriteFstab = true ∧
    (RunMount elementalConstants (Env.succeed "/dev/loop0 /sysroot ext2 ro".toList)
      sampleSpec []).2 = none ∧
    (∀ e ∈ fstabEntries elementalConstants sampleSpec, e.clean) ∧
    ∃ body : Str,
      parseFstab body = (fstabEntries elementalConstants sampleSpec).map FstabEntry.fields ∧
      parseFstab body =
        [["tmpfs".toList, "/run/elemental/overlay".toList, "tmpfs".toList,
            "defaults,size=25%".toList, "0".toList, "0".toList],
         ["LABEL=COS_PERSISTENT".toList, "/run/elemental/persistent".toList, "auto".toList,
            "defaults".toList, "0".toList, "0".toList],
         ["LABEL=COS_OEM".toList, "/oem".toList, "auto".toList, "ro,noatime".toList,
            "0".toList, "0".toList],
         ["overlay".toList, "/var/log".toList, "overlay".toList,
            "defaults,lowerdir=/var/log,upperdir=/run/elemental/overlay/var-log.overlay/upper,workdir=/run/elemental/overlay/var-log.overlay/work,x-systemd.requires-mounts-for=/run/elemental/overlay".toList,
            "0".toList, "0".toList],
         ["/run/elemental/persistent/.state/etc-ssh.bind".toList, "/etc/ssh".toList,
            "none".toList, "defaults,bind".toList, "0".toList, "0".toList]] :=
  ⟨by decide, by decide, by unfold FstabEntry.clean; decide,
    (RunMount_fstab_parses_to_entries elementalConstants
      (Env.succeed "/dev/loop0 /sysroot ext2 ro".toList) sampleSpec [] (by decide) (by decide)
      (by unfold FstabEntry.clean; decide)).elim
      fun _ h => h.elim fun body h => ⟨body, h.2.2.1, h.2.2.1.trans (by decide)⟩⟩

set_option maxRecDepth 100000 in
/-- C3 as stated fails: `RunMount` accepts a specification that names the
ephemeral path `/var/log` twice, and the emitted fstab then holds the same
overlay line twice, so lines and targets are not unique. -/
theorem RunMount_fstab_duplicate_lines :
    (RunMount elementalConstants (Env.succeed []) duplicatePathSpec []).2 = none ∧
    (⟨.WriteFile "/sysroot/etc/fstab".toList
        (fstabText (fstabEntries elementalConstants duplicatePathSpec)), true⟩ : Event) ∈
      (RunMount elementalConstants (Env.succeed []) duplicatePathSpec []).1 ∧
    ¬ (fstabLines (fstabText (fstabEntries elementalConstants duplicatePathSpec))).Nodup ∧
    ¬ ((parseFstab (fstabText (fstabEntries elementalConstants duplicatePathSpec))).map
        fun fields => fields.getD 1 []).Nodup ∧
    ((parseFstab (fstabText (fstabEntries elementalConstants duplicatePathSpec))).map
        fun fields => fields.getD 1 []) =
      ["/run/elemental/overlay".toList, "/run/elemental/persistent".toList, "/oem".toList,
       "/var/log".toList, "/var/log".toList, "/etc/ssh".toList] := by
  decide

theorem closes_append_bracket (sub rest : Str) (hnl : '\n' ∉ sub) :
    regexp.closes (sub ++ ']' :: rest) = true := by
  induction sub with
  | nil => simp [regexp.closes]
  | cons c cs ih =>
    have hc : c ≠ '\n' := fun h => hnl (h ▸ List.mem_cons_self _ _)
    have hcs : '\n' ∉ cs := fun h => hnl (List.mem_cons_of_mem _ h)
    by_cases h : c = ']'
    · simp [regexp.closes, h]
    · simp [regexp.closes, h, hc, ih hcs]

theorem bracketed_of_not_head (c : Char) (cs : Str) (h : c ≠ '[') :
    regexp.bracketed (c :: cs) = false := by
  unfold regexp.bracketed
  split
  · rename_i heq
    simp only [List.cons.injEq] at heq
    exact absurd heq.1 h
  · rfl

/-- The greedy `.+` finds nothing when no opening bracket follows the first
character. -/
theorem dotPlus_eq_none (s : Str) (h : '[' ∉ s.tail) : regexp.dotPlus s = none := by
  induction s with
  | nil => rfl
  | cons c cs ih =>
    simp only [List.tail_cons] at h
    unfold regexp.dotPlus
    by_cases hc : c = '\n'
    · simp [hc]
    · simp only [hc, if_false]
      have hcs : regexp.dotPlus cs = none := by
        apply ih
        cases cs with
        | nil => simp
        | cons d ds => exact fun hm => h (List.mem_cons_of_mem _ hm)
      rw [hcs]
      cases cs with
      | nil => simp [regexp.bracketed]
      | cons d ds =>
        have hd : d ≠ '[' := fun hd => h (hd ▸ List.mem_cons_self _ _)
        simp [bracketed_of_not_head d ds hd]

/-- The pattern does not match a text without an opening bracket. -/
theorem FindStringSubmatch1_eq_none (s : Str) (h : '[' ∉ s) :
    regexp.FindStringSubmatch1 s = none := by
  induction s with
  | nil => rfl
  | cons c cs ih =>
    have hcs : '[' ∉ cs := fun hm => h (List.mem_cons_of_mem _ hm)
    unfold regexp.FindStringSubmatch1
    have hd : regexp.dotPlus cs = none := by
      apply dotPlus_eq_none
      cases cs with
      | nil => simp
      | cons d ds => exact fun hm => hcs (List.mem_cons_of_mem _ hm)
    by_cases hc : c = '/'
    · simp [hc, hd, ih hcs]
    · simp [hc, ih hcs]

/-- The greedy `.+` takes the whole text before a final bracket group. -/
theorem dotPlus_bracket_suffix (q sub : Str) (hq : q ≠ []) (hqn : '\n' ∉ q)
    (hsn : '\n' ∉ sub) (hsb : '[' ∉ sub) :
    regexp.dotPlus (q ++ '[' :: (sub ++ [']'])) = some q := by
  induction q with
  | nil => exact absurd rfl hq
  | cons c cs ih =>
    have hc : c ≠ '\n' := fun h => hqn (h ▸ List.mem_cons_self _ _)
    have hcs : '\n' ∉ cs := fun h => hqn (List.mem_cons_of_mem _ h)
    rw [List.cons_append]
    unfold regexp.dotPlus
    simp only [hc, if_false]
    cases cs with
    | nil =>
      have hnone : regexp.dotPlus ([] ++ '[' :: (sub ++ [']'])) = none := by
        apply dotPlus_eq_none
        simp only [List.nil_append, List.tail_cons, List.mem_append, List.mem_singleton, not_or]
        exact ⟨hsb, by decide⟩
      rw [hnone]
      have hb : regexp.bracketed ([] ++ '[' :: (sub ++ [']'])) = true := by
        simp only [List.nil_append, regexp.bracketed]
        exact closes_append_bracket sub [] hsn
      rw [hb]
      rfl
    | cons d ds =>
      rw [ih (by simp) hcs]

theorem Fields_no_space (text : Str) :
    ∀ f ∈ strings.Fields text, ∀ c ∈ f, unicode.IsSpace c = false := by
  intro f hf
  unfold strings.Fields at hf
  exact splitOnP_no_sep unicode.IsSpace text f (List.mem_filter.1 hf).1

theorem findmnt_line_of_fields (text f0 f1 f2 f3 : Str)
    (hf : strings.Fields text = [f0, f1, f2, f3]) :
    findmnt.line text =
      some { Device := recordedSource f0 f2, Mountpoint := f1,
             Options := strings.Split f3 ',', Persistent := false } := by
  unfold findmnt.line
  rw [hf]
  simp only [recordedSource]
  by_cases hb : f2 = "btrfs".toList
  · simp only [if_pos hb]
    cases regexp.FindStringSubmatch1 f0 <;> rfl
  · simp only [if_neg hb]

theorem findmnt_line_of_length_ne (text : Str) (h : (strings.Fields text).length ≠ 4) :
    findmnt.line text = none := by
  unfold findmnt.line
  generalize strings.Fields text = fs at h ⊢
  rcases fs with _ | ⟨a, _ | ⟨b, _ | ⟨c, _ | ⟨d, _ | ⟨e, r⟩⟩⟩⟩⟩
  · rfl
  · rfl
  · rfl
  · rfl
  · simp at h
  · rfl

/-- Where `findmnt` records what C11 says.  For a line of output with the four fields
SOURCE, TARGET, FSTYPE and OPTIONS, the recorded mount has the TARGET as
mountpoint and the comma-separated OPTIONS as options, and its device is: the
SOURCE unchanged when FSTYPE is not `btrfs`; the SOURCE unchanged when FSTYPE
is `btrfs` and the SOURCE holds no opening bracket; `/dev/xxx` when FSTYPE is
`btrfs` and the SOURCE is `/dev/xxx[sub]` with no further opening bracket
inside `sub`.  A line that does not have exactly four fields is ignored, and
`findmnt` records the lines of the output in order. -/
theorem findmnt_btrfs_source (text source target fstype options : Str)
    (hf : strings.Fields text = [source, target, fstype, options]) :
    (∃ device, findmnt.line text =
      some { Device := device, Mountpoint := target,
             Options := strings.Split options ',', Persistent := false } ∧
      (fstype ≠ "btrfs".toList → device = source) ∧
      (fstype = "btrfs".toList → '[' ∉ source → device = source) ∧
      (fstype = "btrfs".toList → ∀ xxx sub : Str,
        source = "/dev/".toList ++ xxx ++ '[' :: (sub ++ [']']) → '[' ∉ sub →
        device = "/dev/".toList ++ xxx)) ∧
    (∀ other : Str, (strings.Fields other).length ≠ 4 → findmnt.line other = none) ∧
    (∀ (env : Env) (mountpoint : Str) (t : Trace) (output : Str),
      env.Run t "findmnt".toList
        ["-Rrfno".toList, "SOURCE,TARGET,FSTYPE,OPTIONS".toList, mountpoint] = .ok output →
      (findmnt env mountpoint t).2 =
        .ok ((bufio.ScanLines (strings.TrimSpace output)).filterMap findmnt.line)) := by
  refine ⟨⟨recordedSource source fstype,
    findmnt_line_of_fields text source target fstype options hf, ?_, ?_, ?_⟩,
    findmnt_line_of_length_ne, ?_⟩
  · intro h
    unfold recordedSource
    rw [if_neg h]
  · intro h hb
    unfold recordedSource
    rw [if_pos h, FindStringSubmatch1_eq_none source hb]
    rfl
  · intro h xxx sub hsrc hsub
    have hmem : source ∈ strings.Fields text := by rw [hf]; simp
    have hnl : '\n' ∉ source := by
      intro hin
      have := Fields_no_space text source hmem '\n' hin
      exact absurd this (by decide)
    have hq : '\n' ∉ "dev/".toList ++ xxx := by
      intro hin
      apply hnl
      rw [hsrc]
      have : '\n' ∈ '/' :: ("dev/".toList ++ xxx) := List.mem_cons_of_mem _ hin
      exact List.mem_append_left _ this
    have hs : '\n' ∉ sub := by
      intro hin
      apply hnl
      rw [hsrc]
      exact List.mem_append_right _ (List.mem_cons_of_mem _ (List.mem_append_left _ hin))
    have hd := dotPlus_bracket_suffix ("dev/".toList ++ xxx) sub (by simp) hq hs hsub
    have hsrc' : source = '/' :: (("dev/".toList ++ xxx) ++ '[' :: (sub ++ [']'])) := by
      rw [hsrc]; rfl
    have hfind : regexp.FindStringSubmatch1 source = some ("/dev/".toList ++ xxx) := by
      rw [hsrc']
      unfold regexp.FindStringSubmatch1
      simp only [if_true, hd]
      rfl
    unfold recordedSource
    rw [if_pos h, hfind]
    rfl
  · intro env mountpoint t output hrun
    unfold findmnt Runner.Run
    rw [hrun]

/-- The device recorded for a btrfs line with a subvolume suffix. -/
theorem findmnt_btrfs_source_example :
    strings.Fields "/dev/sda2[/@/.snapshots/1/snapshot] /sysroot btrfs ro,relatime".toList =
      ["/dev/sda2[/@/.snapshots/1/snapshot]".toList, "/sysroot".toList, "btrfs".toList,
       "ro,relatime".toList] ∧
    findmnt.line "/dev/sda2[/@/.snapshots/1/snapshot] /sysroot btrfs ro,relatime".toList =
      some { Device := "/dev/sda2".toList, Mountpoint := "/sysroot".toList,
             Options := ["ro".toList, "relatime".toList], Persistent := false } ∧
    (∀ other : Str, (strings.Fields other).length ≠ 4 → findmnt.line other = none) :=
  ⟨by decide, by decide,
    (findmnt_btrfs_source
      "/dev/sda2[/@/.snapshots/1/snapshot] /sysroot btrfs ro,relatime".toList
      "/dev/sda2[/@/.snapshots/1/snapshot]".toList "/sysroot".toList "btrfs".toList
      "ro,relatime".toList (by decide)).2.1⟩

/-- C11, the code at two btrfs lines: for the SOURCE `/dev/sda2[/@/a[b]`, of
the form `/dev/xxx[/sub]`, the recorded device is `/dev/sda2[/@/a`, not
`/dev/sda2` (the greedy `.+` of the pattern runs to the last opening bracket);
and the SOURCE `/dev/sda2[1]p3`, which has no bracketed suffix, is not recorded
unchanged (the pattern is not anchored at the end). -/
theorem findmnt_btrfs_source_brackets :
    findmnt.line "/dev/sda2[/@/a[b] /sysroot btrfs ro".toList =
      some { Device := "/dev/sda2[/@/a".toList, Mountpoint := "/sysroot".toList,
             Options := ["ro".toList], Persistent := false } ∧
    "/dev/sda2[/@/a".toList ≠ "/dev/sda2".toList ∧
    findmnt.line "/dev/sda2[1]p3 /sysroot btrfs ro".toList =
      some { Device := "/dev/sda2".toList, Mountpoint := "/sysroot".toList,
             Options := ["ro".toList], Persistent := false } ∧
    "/dev/sda2".toList ≠ "/dev/sda2[1]p3".toList := by
  decide

set_option maxRecDepth 100000 in
/-- C12, the code at a persistent volume mounted at `/usr/local` in overlay
mode: the overlay line of the persistent path `/etc` keeps its upper and work
directory under `/usr/local`, the mountpoint of the persistent volume, and yet
ends its options with `x-systemd.requires-mounts-for=` followed by the constant
persistent dir, not by `/usr/local`.  For every value of the constants and
every mountpoint, the dependency written is the constant `PersistentDir`. -/
theorem WriteFstab_persistent_requires_constant :
    (WriteFstab elementalConstants (Env.succeed []) (persistentAtUsrLocal "overlay".toList)
        [] []) =
      ([⟨.WriteFile "/sysroot/etc/fstab".toList
          ("tmpfs\t/run/elemental/overlay\ttmpfs\tdefaults,size=25%\t0\t0\n".toList ++
           "LABEL=COS_PERSISTENT\t/usr/local\tauto\tdefaults\t0\t0\n".toList ++
           "overlay\t/etc\toverlay\tdefaults,lowerdir=/etc,upperdir=/usr/local/.state/etc.overlay/upper,workdir=/usr/local/.state/etc.overlay/work,x-systemd.requires-mounts-for=/run/elemental/persistent\t0\t0\n".toList),
          true⟩], none) ∧
    (∀ (k : Constants) (mountpoint device path data : Str),
      (WriteFstab.persistent k
          { WriteFstab := true,
            Ephemeral := { Type_ := k.Tmpfs, Device := [], Size := [], Paths := [] },
            Persistent := { Mode := k.OverlayMode, Paths := [path] },
            Volumes := [{ Mountpoint := mountpoint, Device := device, Options := [],
                          Persistent := true }],
            Sysroot := [] }
          { Mountpoint := mountpoint, Device := device, Options := [], Persistent := true }
          [path] (data, none)).1 =
        data ++ "overlay\t".toList ++ path ++ "\toverlay\tdefaults,lowerdir=".toList ++ path ++
          ",upperdir=".toList ++ filepath.Join [mountpoint, k.PersistentStateDir] ++
          "/".toList ++ mangle path ++ ".overlay/upper,workdir=".toList ++
          filepath.Join [mountpoint, k.PersistentStateDir] ++ "/".toList ++ mangle path ++
          ".overlay/work,x-systemd.requires-mounts-for=".toList ++ k.PersistentDir ++
          "\t0\t0\n".toList) := by
  refine ⟨by decide, ?_⟩
  intro k mountpoint device path data
  rw [WriteFstab_persistent_eq]
  simp [fstabText, overlayEntry, FstabEntry.line]

set_option maxRecDepth 100000 in
/-- C13, the code at a persistent volume with the unknown persistent mode
`foo`: `WriteFstab` writes every other line and no line for the persistent
path, the loop accumulates the error `Unknown persistent mode 'foo'`, and the
result is nil all the same, because the function returns what the write
returns. -/
theorem WriteFstab_unknown_mode_returns_nil :
    (WriteFstab elementalConstants (Env.succeed []) (persistentAtUsrLocal "foo".toList)
        [] []) =
      ([⟨.WriteFile "/sysroot/etc/fstab".toList
          ("tmpfs\t/run/elemental/overlay\ttmpfs\tdefaults,size=25%\t0\t0\n".toList ++
           "LABEL=COS_PERSISTENT\t/usr/local\tauto\tdefaults\t0\t0\n".toList),
          true⟩], none) ∧
    (WriteFstab.build elementalConstants (persistentAtUsrLocal "foo".toList) []).2 =
      some (.multi ["Unknown persistent mode 'foo'".toList]) := by
  decide

/-- The events of a volume attempt are the creation and the mount of that
volume. -/
theorem MountVolumes_events (env : Env) (sysroot : Str) (volumes : List VolumeMount)
    (t : Trace) :
    ∃ es, (MountVolumes env sysroot volumes t).1 = t ++ es ∧
      ∀ e ∈ es, ∃ vol ∈ volumes,
        e.call = .MkdirAll (MountVolumes.mountpoint sysroot vol) ∨
        ∃ dev, e.call = .Mount dev (MountVolumes.mountpoint sysroot vol) "auto".toList
          vol.Options := by
  obtain ⟨atts, hall, h1, -, -⟩ := MountVolumes_loop_attempts env sysroot volumes (t, none)
  refine ⟨_, h1, ?_⟩
  intro e he
  obtain ⟨l, hl, hel⟩ := List.mem_flatten.1 he
  obtain ⟨a, ha, rfl⟩ := List.mem_map.1 hl
  obtain ⟨vol, hvol, hatt⟩ := forall₂_of_mem_right hall a ha
  refine ⟨vol, hvol, ?_⟩
  obtain ⟨a1, a2⟩ := a
  simp only at hatt hel
  cases hatt with
  | unknown h => simp at hel
  | mkdirFailed dev msg h =>
    simp only [List.mem_singleton] at hel
    subst hel
    exact Or.inl rfl
  | mountFailed dev msg h =>
    simp only [List.mem_cons, List.mem_singleton, List.not_mem_nil, or_false] at hel
    rcases hel with rfl | rfl
    · exact Or.inl rfl
    · exact Or.inr ⟨dev, rfl⟩
  | mounted dev h =>
    simp only [List.mem_cons, List.mem_singleton, List.not_mem_nil, or_false] at hel
    rcases hel with rfl | rfl
    · exact Or.inl rfl
    · exact Or.inr ⟨dev, rfl⟩

/-- The runs of `MountPersistent`: nothing without a persistent volume,
otherwise a fail-fast run over the persistent paths, of bind attempts in bind
mode and of overlay attempts in any other mode. -/
theorem MountPersistent_run (k : Constants) (env : Env) (sysroot : Str)
    (persistent : PersistentMounts) (volumes : List VolumeMount) (t : Trace) :
    ∃ es, (MountPersistent k env sysroot persistent volumes t).1 = t ++ es ∧
      ((volumes.find? (fun v => v.Persistent) = none ∧ es = [] ∧
          (MountPersistent k env sysroot persistent volumes t).2 = none) ∨
       (∃ vol, volumes.find? (fun v => v.Persistent) = some vol ∧
          persistent.Mode = "bind".toList ∧
          PathsRun (BindAttempt sysroot (filepath.Join [vol.Mountpoint, k.PersistentStateDir]))
            persistent.Paths es (MountPersistent k env sysroot persistent volumes t).2) ∨
       (∃ vol, volumes.find? (fun v => v.Persistent) = some vol ∧
          persistent.Mode ≠ "bind".toList ∧
          PathsRun
            (OverlayAttempt sysroot (filepath.Join [vol.Mountpoint, k.PersistentStateDir]))
            persistent.Paths es (MountPersistent k env sysroot persistent volumes t).2)) := by
  unfold MountPersistent
  cases hf : volumes.find? (fun v => v.Persistent) with
  | none => exact ⟨[], by simp, Or.inl ⟨rfl, rfl, rfl⟩⟩
  | some vol =>
    simp only
    by_cases hm : persistent.Mode = "bind".toList
    · simp only [if_pos hm]
      obtain ⟨es, g1, g2⟩ := mountPaths_run MountBindPath env sysroot
        (filepath.Join [vol.Mountpoint, k.PersistentStateDir]) _
        (fun path t => MountBindPath_attempt env sysroot _ path t) persistent.Paths t
      exact ⟨es, g1, Or.inr (Or.inl ⟨vol, rfl, hm, g2⟩)⟩
    · simp only [if_neg hm]
      obtain ⟨es, g1, g2⟩ := mountPaths_run MountOverlayPath env sysroot
        (filepath.Join [vol.Mountpoint, k.PersistentStateDir]) _
        (fun path t => MountOverlayPath_attempt env sysroot _ path t) persistent.Paths t
      exact ⟨es, g1, Or.inr (Or.inr ⟨vol, rfl, hm, g2⟩)⟩

/-- C14: `RunMount` runs its stages in the order volumes, ephemeral
workspace and paths, persistent paths, fstab, each from the history left by
the stage before, and the first stage that returns an error ends the run with
that error and with the history of that stage: nothing of a later stage is
called.  When `MountVolumes` returns an error the calls made after the initial
block are only the creations and mounts of volumes.  The ephemeral stage
creates the overlay dir, mounts the workspace and then runs over the paths
fail-fast, and the persistent stage runs over its paths fail-fast (`PathsRun`:
the first failing attempt ends the run with its error, after the complete
attempts of the earlier paths).  The history is only ever extended, and no
call of the run unmounts anything. -/
theorem RunMount_stages_fail_fast (k : Constants) (env : Env) (spec : MountSpec) (t : Trace)
    (t0 : Trace) (data : Str)
    (h0 : (if spec.WriteFstab = true then InitialFstabData k env spec.Sysroot t
      else (t, .ok [])) = (t0, .ok data)) :
    (∀ t1 err, MountVolumes env spec.Sysroot spec.Volumes t0 = (t1, some err) →
      RunMount k env spec t = (t1, some err) ∧
      ∃ es, t1 = t0 ++ es ∧ ∀ e ∈ es, ∃ vol ∈ spec.Volumes,
        e.call = .MkdirAll (MountVolumes.mountpoint spec.Sysroot vol) ∨
        ∃ dev, e.call = .Mount dev (MountVolumes.mountpoint spec.Sysroot vol) "auto".toList
          vol.Options) ∧
    (∀ t1, MountVolumes env spec.Sysroot spec.Volumes t0 = (t1, none) →
      (∀ t2 err, MountEphemeral k env spec.Sysroot spec.Ephemeral t1 = (t2, some err) →
        RunMount k env spec t = (t2, some err)) ∧
      (∀ t2, MountEphemeral k env spec.Sysroot spec.Ephemeral t1 = (t2, none) →
        (∀ t3 err,
          MountPersistent k env spec.Sysroot spec.Persistent spec.Volumes t2 =
            (t3, some err) →
          RunMount k env spec t = (t3, some err)) ∧
        (∀ t3,
          MountPersistent k env spec.Sysroot spec.Persistent spec.Volumes t2 = (t3, none) →
          RunMount k env spec t = WriteFstab k env spec data t3))) ∧
    (∀ t1 : Trace, ∃ es, (MountEphemeral k env spec.Sysroot spec.Ephemeral t1).1 = t1 ++ es ∧
      ((∃ m, es = [⟨.MkdirAll k.OverlayDir, false⟩] ∧
          (MountEphemeral k env spec.Sysroot spec.Ephemeral t1).2 = some (.plain m)) ∨
       (∃ m, es = [⟨.MkdirAll k.OverlayDir, true⟩] ∧
          (MountEphemeral k env spec.Sysroot spec.Ephemeral t1).2 = some (.plain m)) ∨
       (∃ source fstype options m,
          es = [⟨.MkdirAll k.OverlayDir, true⟩,
                ⟨.Mount source k.OverlayDir fstype options, false⟩] ∧
          (MountEphemeral k env spec.Sysroot spec.Ephemeral t1).2 = some (.plain m)) ∨
       (∃ source fstype options es',
          es = ⟨.MkdirAll k.OverlayDir, true⟩ ::
                ⟨.Mount source k.OverlayDir fstype options, true⟩ :: es' ∧
          PathsRun (OverlayAttempt spec.Sysroot k.OverlayDir) spec.Ephemeral.Paths es'
            (MountEphemeral k env spec.Sysroot spec.Ephemeral t1).2))) ∧
    (∀ t2 : Trace, ∃ es,
      (MountPersistent k env spec.Sysroot spec.Persistent spec.Volumes t2).1 = t2 ++ es ∧
      ((spec.Volumes.find? (fun v => v.Persistent) = none ∧ es = [] ∧
          (MountPersistent k env spec.Sysroot spec.Persistent spec.Volumes t2).2 = none) ∨
       (∃ vol, spec.Volumes.find? (fun v => v.Persistent) = some vol ∧
          spec.Persistent.Mode = "bind".toList ∧
          PathsRun
            (BindAttempt spec.Sysroot (filepath.Join [vol.Mountpoint, k.PersistentStateDir]))
            spec.Persistent.Paths es
            (MountPersistent k env spec.Sysroot spec.Persistent spec.Volumes t2).2) ∨
       (∃ vol, spec.Volumes.find? (fun v => v.Persistent) = some vol ∧
          spec.Persistent.Mode ≠ "bind".toList ∧
          PathsRun
            (OverlayAttempt spec.Sysroot
              (filepath.Join [vol.Mountpoint, k.PersistentStateDir]))
            spec.Persistent.Paths es
            (MountPersistent k env spec.Sysroot spec.Persistent spec.Volumes t2).2))) := by
  have hR : RunMount k env spec t =
      (match MountVolumes env spec.Sysroot spec.Volumes t0 with
        | (t, some err) => (t, some err)
        | (t, none) =>
          match MountEphemeral k env spec.Sysroot spec.Ephemeral t with
          | (t, some err) => (t, some err)
          | (t, none) =>
            match MountPersistent k env spec.Sysroot spec.Persistent spec.Volumes t with
            | (t, some err) => (t, some err)
            | (t, none) => WriteFstab k env spec data t) := by
    unfold RunMount
    simp only [h0]
    try rfl
  refine ⟨?_, ?_, fun t1 => MountEphemeral_run k env spec.Sysroot spec.Ephemeral t1,
    fun t2 => MountPersistent_run k env spec.Sysroot spec.Persistent spec.Volumes t2⟩
  · intro t1 err hV
    refine ⟨by rw [hR, hV], ?_⟩
    obtain ⟨es, h1, h2⟩ := MountVolumes_events env spec.Sysroot spec.Volumes t0
    rw [hV] at h1
    exact ⟨es, h1, h2⟩
  · intro t1 hV
    refine ⟨?_, ?_⟩
    · intro t2 err hE
      rw [hR, hV]
      simp only [hE]
    · intro t2 hE
      refine ⟨?_, ?_⟩
      · intro t3 err hP
        rw [hR, hV]
        simp only [hE, hP]
      · intro t3 hP
        rw [hR, hV]
        simp only [hE, hP]

set_option maxRecDepth 100000 in
/-- Witness of C14: `sampleSpec` when the mount of the volume at
`/sysroot/oem` fails: the run ends with the aggregated error of `MountVolumes`
and makes no later call. -/
theorem RunMount_stages_fail_fast_witness :
    (if sampleSpec.WriteFstab = true then
        InitialFstabData elementalConstants (Env.failMountAt "/sysroot/oem".toList)
          sampleSpec.Sysroot []
      else ([], .ok [])) =
      ([⟨.Run "findmnt".toList
          ["-Rrfno".toList, "SOURCE,TARGET,FSTYPE,OPTIONS".toList, "/".toList], true⟩],
       .ok []) ∧
    RunMount elementalConstants (Env.failMountAt "/sysroot/oem".toList) sampleSpec [] =
      ([⟨.Run "findmnt".toList
          ["-Rrfno".toList, "SOURCE,TARGET,FSTYPE,OPTIONS".toList, "/".toList], true⟩,
        ⟨.MkdirAll "/run/elemental/persistent".toList, true⟩,
        ⟨.Mount "/dev/disk/by-label/COS_PERSISTENT".toList "/run/elemental/persistent".toList
          "auto".toList [], true⟩,
        ⟨.MkdirAll "/sysroot/oem".toList, true⟩,
        ⟨.Mount "/dev/disk/by-label/COS_OEM".toList "/sysroot/oem".toList "auto".toList
          ["ro".toList, "noatime".toList], false⟩],
       some (.multi ["mount failed".toList])) :=
  ⟨by decide,
    ((RunMount_stages_fail_fast elementalConstants (Env.failMountAt "/sysroot/oem".toList)
      sampleSpec []
      [⟨.Run "findmnt".toList
          ["-Rrfno".toList, "SOURCE,TARGET,FSTYPE,OPTIONS".toList, "/".toList], true⟩]
      [] (by decide)).1 _ (.multi ["mount failed".toList]) (by decide)).1⟩

namespace elemental

theorem perform_ex (env : Env) (call : Call) (t : Trace) :
    ∃ r, perform env call t = (t ++ [⟨call, r⟩], r) := ⟨_, rfl⟩

theorem map_plain_eq_none (o : Option Str) : o.map GoError.plain = none ↔ o = none := by
  cases o <;> simp

theorem MountFileSystemImage_run (env : Env) (img : Image) (opts : List Str) (t : Trace) :
    ∃ es img1 err, MountFileSystemImage env img opts t = (t ++ es, img1, err) ∧
      ImageMounting img opts es img1 err := by
  unfold MountFileSystemImage
  simp only [utils.MkdirAll, Runner.Run, Mounter.Mount, performErr]
  obtain ⟨r1, hr1⟩ := perform_ex env (.MkdirAll img.MountPoint) t
  simp only [hr1]
  rcases h1 : r1.err with _ | msg
  · obtain ⟨r2, hr2⟩ := perform_ex env
      (.Run "losetup".toList ["--show".toList, "-f".toList, img.File])
      (t ++ [⟨.MkdirAll img.MountPoint, r1⟩])
    simp only [hr2, Option.map]
    rcases h2 : r2.err with _ | msg
    · obtain ⟨r3, hr3⟩ := perform_ex env
        (.Mount (strings.TrimSpace r2.out) img.MountPoint "auto".toList opts)
        (t ++ [⟨.MkdirAll img.MountPoint, r1⟩] ++
          [⟨.Run "losetup".toList ["--show".toList, "-f".toList, img.File], r2⟩])
      simp only [hr3]
      rcases h3 : r3.err with _ | msg
      · exact ⟨_, _, _, by simp only [List.append_assoc]; rfl, .mounted _ _ _ h1 h2 h3⟩
      · obtain ⟨r4, hr4⟩ := perform_ex env
          (.Run "losetup".toList ["-d".toList, strings.TrimSpace r2.out])
          (t ++ [⟨.MkdirAll img.MountPoint, r1⟩] ++
            [⟨.Run "losetup".toList ["--show".toList, "-f".toList, img.File], r2⟩] ++
            [⟨.Mount (strings.TrimSpace r2.out) img.MountPoint "auto".toList opts, r3⟩])
        simp only [hr4]
        exact ⟨_, _, _, by simp only [List.append_assoc]; rfl, .mount _ _ _ r4 msg h1 h2 h3⟩
    · exact ⟨_, _, _, by simp only [List.append_assoc]; rfl, .losetup _ _ msg h1 h2⟩
  · exact ⟨_, _, _, rfl, .mkdir _ msg h1⟩

theorem UnmountFileSystemImage_run (env : Env) (img : Image) (t : Trace) :
    ∃ es img1 err, UnmountFileSystemImage env img t = (t ++ es, img1, err) ∧
      ImageUnmounting img es img1 err ∧
      es.head? = some ⟨.IsLikelyNotMountPoint img.MountPoint,
        env t (.IsLikelyNotMountPoint img.MountPoint)⟩ := by
  unfold UnmountFileSystemImage
  simp only [Mounter.IsLikelyNotMountPoint, Runner.Run, Mounter.Unmount, performErr]
  have hr1 : perform env (.IsLikelyNotMountPoint img.MountPoint) t =
      (t ++ [⟨.IsLikelyNotMountPoint img.MountPoint,
        env t (.IsLikelyNotMountPoint img.MountPoint)⟩],
        env t (.IsLikelyNotMountPoint img.MountPoint)) := rfl
  simp only [hr1]
  generalize env t (.IsLikelyNotMountPoint img.MountPoint) = r1
  rcases h1 : r1.flag with _ | _
  · obtain ⟨r2, hr2⟩ := perform_ex env (.Unmount img.MountPoint)
      (t ++ [⟨.IsLikelyNotMountPoint img.MountPoint, r1⟩])
    simp only [hr2]
    rcases h2 : r2.err with _ | msg
    · obtain ⟨r3, hr3⟩ := perform_ex env (.Run "losetup".toList ["-d".toList, img.LoopDevice])
        (t ++ [⟨.IsLikelyNotMountPoint img.MountPoint, r1⟩] ++
          [⟨.Unmount img.MountPoint, r2⟩])
      simp only [hr3, Option.map]
      exact ⟨_, _, _, by simp only [List.append_assoc]; rfl, .unmounted _ _ _ h1 h2, rfl⟩
    · exact ⟨_, _, _, by simp only [List.append_assoc]; rfl, .busy _ _ msg h1 h2, rfl⟩
  · exact ⟨_, _, _, rfl, .notMounted _ h1, rfl⟩

theorem mountTable_append (merge : Bool) (t es : Trace) :
    mountTable merge (t ++ es) = es.foldl (mountStep merge) (mountTable merge t) := by
  simp [mountTable, List.foldl_append]

theorem openLoops_append (t es : Trace) :
    openLoops (t ++ es) = es.foldl loopStep (openLoops t) := by
  simp [openLoops, List.foldl_append]

theorem mountStep_mount_ok (merge : Bool) (tbl : List MountPoint) (source target fstype : Str)
    (options : List Str) (r : Response) (h : r.err = none)
    (hopts : "remount".toList ∉ options) :
    mountStep merge tbl ⟨.Mount source target fstype options, r⟩ =
      tbl ++ [⟨source, target, fstype, options⟩] := by
  unfold mountStep
  simp only [h]
  rw [if_neg fun hh => hopts hh.2]

theorem mountStep_unmount_ok (merge : Bool) (tbl : List MountPoint) (target : Str)
    (r : Response) (h : r.err = none) :
    mountStep merge tbl ⟨.Unmount target, r⟩ = tbl.filter fun m => decide (m.Path ≠ target) := by
  simp [mountStep, h]

theorem mountStep_failed (merge : Bool) (tbl : List MountPoint) (ev : Event) (msg : Str)
    (h : ev.resp.err = some msg) : mountStep merge tbl ev = tbl := by
  unfold mountStep
  split <;> simp_all

theorem mountStep_other (merge : Bool) (tbl : List MountPoint) (ev : Event)
    (h1 : ∀ source target fstype options, ev.call ≠ .Mount source target fstype options)
    (h2 : ∀ target, ev.call ≠ .Unmount target) : mountStep merge tbl ev = tbl := by
  unfold mountStep
  split
  · exact absurd (by assumption) (h1 _ _ _ _)
  · exact absurd (by assumption) (h2 _)
  · rfl

theorem loopStep_failed (loops : List Str) (ev : Event) (msg : Str)
    (h : ev.resp.err = some msg) : loopStep loops ev = loops := by
  unfold loopStep
  split <;> simp_all

theorem loopStep_other (loops : List Str) (ev : Event)
    (h : ∀ command args, ev.call ≠ .Run command args) : loopStep loops ev = loops := by
  unfold loopStep
  split
  · exact absurd (by assumption) (h _ _)
  · exact absurd (by assumption) (h _ _)
  · rfl

theorem loopStep_setup (loops : List Str) (file : Str) (r : Response) (h : r.err = none) :
    loopStep loops ⟨.Run "losetup".toList ["--show".toList, "-f".toList, file], r⟩ =
      loops ++ [strings.TrimSpace r.out] := by
  simp [loopStep, h]

theorem loopStep_detach (loops : List Str) (loop : Str) (r : Response) (h : r.err = none) :
    loopStep loops ⟨.Run "losetup".toList ["-d".toList, loop], r⟩ =
      loops.filter fun l => decide (l ≠ loop) := by
  simp [loopStep, h]

end elemental

namespace elemental

theorem ImageMounting_failed (merge : Bool) (img img1 : Image) (opts : List Str)
    (es : List Event) (err : GoError) (h : ImageMounting img opts es img1 (some err))
    (tbl : List MountPoint) :
    img1 = img ∧ es.foldl (mountStep merge) tbl = tbl := by
  cases h with
  | mkdir r msg h1 =>
    exact ⟨rfl, by simp [mountStep]⟩
  | losetup r1 r2 msg h1 h2 =>
    exact ⟨rfl, by simp [mountStep]⟩
  | mount r1 r2 r3 r4 msg h1 h2 h3 =>
    exact ⟨rfl, by simp [mountStep, h3]⟩

/-- C17: `MountFileSystemImage` creates the mountpoint, runs
`losetup --show -f <file>` and mounts the whitespace-trimmed output of that
command onto `img.MountPoint` with type `auto` and the given options. On
success that trimmed output is the new `img.LoopDevice`. When `losetup` fails
no mount is attempted; when the mount fails `losetup -d <loop>` is run after it
and the error returned is the one of the mount. On every failure the image,
`img.LoopDevice` included, is left as it was and the mount table is unchanged. -/
theorem MountFileSystemImage_outcomes (merge : Bool) (env : Env) (img : Image)
    (opts : List Str) (t : Trace) :
    (∃ es, (MountFileSystemImage env img opts t).1 = t ++ es ∧
      ImageMounting img opts es (MountFileSystemImage env img opts t).2.1
        (MountFileSystemImage env img opts t).2.2) ∧
    ((MountFileSystemImage env img opts t).2.2 ≠ none →
      (MountFileSystemImage env img opts t).2.1 = img ∧
      mountTable merge (MountFileSystemImage env img opts t).1 = mountTable merge t) := by
  obtain ⟨es, img1, err, h, hrel⟩ := MountFileSystemImage_run env img opts t
  rw [h]
  refine ⟨⟨es, rfl, hrel⟩, fun he => ?_⟩
  cases err with
  | none => exact absurd rfl he
  | some err =>
    have := ImageMounting_failed merge img img1 opts es err hrel (mountTable merge t)
    exact ⟨this.1, by rw [mountTable_append]; exact this.2⟩

set_option maxRecDepth 100000 in
/-- C17, at a concrete input: with a mounter whose mounts fail, the loop device
that was set up for the image is detached and the image is left as it was. -/
theorem MountFileSystemImage_outcomes_witness :
    MountFileSystemImage (Env.fake false mountFails) (sampleImage "ext4".toList)
        ["rw".toList] [] =
      ([⟨.MkdirAll "/run/img".toList, ⟨none, [], 32, false⟩⟩,
        ⟨.Run "losetup".toList ["--show".toList, "-f".toList, "/s/a.img".toList],
          ⟨none, "/dev/loop0\n".toList, 32, false⟩⟩,
        ⟨.Mount "/dev/loop0".toList "/run/img".toList "auto".toList ["rw".toList],
          ⟨some "failed".toList, [], 32, false⟩⟩,
        ⟨.Run "losetup".toList ["-d".toList, "/dev/loop0".toList],
          ⟨none, "/dev/loop0\n".toList, 32, false⟩⟩],
       sampleImage "ext4".toList, some (.plain "failed".toList)) ∧
    ((MountFileSystemImage (Env.fake false mountFails) (sampleImage "ext4".toList)
        ["rw".toList] []).2.1 = sampleImage "ext4".toList ∧
      mountTable false (MountFileSystemImage (Env.fake false mountFails)
        (sampleImage "ext4".toList) ["rw".toList] []).1 = mountTable false []) :=
  ⟨by decide,
    (MountFileSystemImage_outcomes false (Env.fake false mountFails)
      (sampleImage "ext4".toList) ["rw".toList] []).2 (by decide)⟩

end elemental

namespace elemental

theorem ImageMounting_mounted (merge : Bool) (img img1 : Image) (opts : List Str)
    (es : List Event) (h : ImageMounting img opts es img1 none)
    (hopts : "remount".toList ∉ opts) (tbl : List MountPoint) (loops : List Str) :
    ∃ loop, img1 = { img with LoopDevice := loop } ∧
      es.foldl (mountStep merge) tbl = tbl ++ [⟨loop, img.MountPoint, "auto".toList, opts⟩] ∧
      es.foldl loopStep loops = loops ++ [loop] := by
  cases h with
  | mounted r1 r2 r3 h1 h2 h3 =>
    refine ⟨_, rfl, ?_, ?_⟩
    · simp only [List.foldl_cons, List.foldl_nil]
      rw [mountStep_mount_ok _ _ _ _ _ _ _ h3 hopts, mountStep_other, mountStep_other] <;>
        intros <;> simp
    · simp only [List.foldl_cons, List.foldl_nil]
      rw [loopStep_other, loopStep_setup _ _ _ h2, loopStep_other] <;>
        intros <;> simp

theorem ImageUnmounting_seen (merge : Bool) (env : Env) (hc : Env.consistent merge env)
    (img img1 : Image) (t : Trace) (es : List Event) (err : Option GoError)
    (hrel : ImageUnmounting img es img1 err)
    (hhead : es.head? = some ⟨.IsLikelyNotMountPoint img.MountPoint,
      env t (.IsLikelyNotMountPoint img.MountPoint)⟩)
    (hin : ∃ m ∈ mountTable merge t, m.Path = img.MountPoint) :
    ∃ r1 r2 rest, es = ⟨.IsLikelyNotMountPoint img.MountPoint, r1⟩ ::
        ⟨.Unmount img.MountPoint, r2⟩ :: rest ∧
      (r2.err = none → img1 = { img with LoopDevice := [] } ∧
        ∃ r3, rest = [⟨.Run "losetup".toList ["-d".toList, img.LoopDevice], r3⟩] ∧
          err = r3.err.map GoError.plain) ∧
      (∀ msg, r2.err = some msg → img1 = img ∧ rest = [] ∧ err = some (.plain msg)) := by
  have hf : (env t (.IsLikelyNotMountPoint img.MountPoint)).flag = false := by
    cases hb : (env t (.IsLikelyNotMountPoint img.MountPoint)).flag with
    | false => rfl
    | true =>
      obtain ⟨m, hm, hp⟩ := hin
      exact absurd hp ((hc t img.MountPoint).1 hb m hm)
  cases hrel with
  | notMounted r h1 =>
    simp only [List.head?_cons, Option.some.injEq, Event.mk.injEq, true_and] at hhead
    rw [hhead, hf] at h1
    exact absurd h1 (by decide)
  | busy r1 r2 msg h1 h2 =>
    refine ⟨r1, r2, [], rfl, fun h => ?_, fun msg1 h => ?_⟩
    · rw [h2] at h
      exact absurd h (by simp)
    · rw [h2] at h
      cases h
      exact ⟨rfl, rfl, rfl⟩
  | unmounted r1 r2 r3 h1 h2 =>
    refine ⟨r1, r2, _, rfl, fun _ => ⟨rfl, r3, rfl, rfl⟩, fun msg1 h => ?_⟩
    rw [h2] at h
    exact absurd h (by simp)

/-- C18: when `MountFileSystemImage` has succeeded, with options that do not
ask for a remount and a mounter that answers from the mount table, a call of
`UnmountFileSystemImage` that follows it unmounts the mountpoint; when that
unmount succeeds it runs ``losetup -d`` on the loop device of the image and
leaves `img.LoopDevice` empty, returning the result of that command, so
`img.LoopDevice` is empty whenever it returns nil. In general
`UnmountFileSystemImage` goes one of three ways: the mountpoint is not
mounted, nothing else is called, the image is unchanged and nil is returned; the
unmount fails, and its error is returned with the image unchanged; the unmount
succeeds, ``losetup -d <loop>`` is run and `img.LoopDevice` is cleared. -/
theorem MountFileSystemImage_then_Unmount (merge : Bool) (env : Env) (img : Image)
    (opts : List Str) (t : Trace) (hc : Env.consistent merge env)
    (hopts : "remount".toList ∉ opts)
    (hm : (MountFileSystemImage env img opts t).2.2 = none) :
    (∃ r1 r2 rest,
      (UnmountFileSystemImage env (MountFileSystemImage env img opts t).2.1
        (MountFileSystemImage env img opts t).1).1 =
        (MountFileSystemImage env img opts t).1 ++
          ⟨.IsLikelyNotMountPoint img.MountPoint, r1⟩ ::
            ⟨.Unmount img.MountPoint, r2⟩ :: rest ∧
      (r2.err = none →
        (UnmountFileSystemImage env (MountFileSystemImage env img opts t).2.1
          (MountFileSystemImage env img opts t).1).2.1 = { img with LoopDevice := [] } ∧
        ∃ r3, rest = [⟨.Run "losetup".toList
            ["-d".toList, (MountFileSystemImage env img opts t).2.1.LoopDevice], r3⟩] ∧
          (UnmountFileSystemImage env (MountFileSystemImage env img opts t).2.1
            (MountFileSystemImage env img opts t).1).2.2 = r3.err.map GoError.plain)) ∧
    ((UnmountFileSystemImage env (MountFileSystemImage env img opts t).2.1
        (MountFileSystemImage env img opts t).1).2.2 = none →
      (UnmountFileSystemImage env (MountFileSystemImage env img opts t).2.1
        (MountFileSystemImage env img opts t).1).2.1 = { img with LoopDevice := [] }) ∧
    (∀ (image : Image) (t0 : Trace), ∃ es,
      (UnmountFileSystemImage env image t0).1 = t0 ++ es ∧
      ImageUnmounting image es (UnmountFileSystemImage env image t0).2.1
        (UnmountFileSystemImage env image t0).2.2) := by
  obtain ⟨es, img1, err, h, hrel⟩ := MountFileSystemImage_run env img opts t
  rw [h] at hm ⊢
  simp only at hm
  subst hm
  obtain ⟨loop, hi, htbl, -⟩ :=
    ImageMounting_mounted merge img img1 opts es hrel hopts (mountTable merge t) []
  have hmp : img1.MountPoint = img.MountPoint := by rw [hi]
  obtain ⟨es2, img2, err2, h2, hrel2, hhead⟩ := UnmountFileSystemImage_run env img1 (t ++ es)
  have hin : ∃ m ∈ mountTable merge (t ++ es), m.Path = img1.MountPoint := by
    rw [mountTable_append, htbl]
    exact ⟨_, List.mem_append_right _ (List.mem_singleton.2 rfl), hmp.symm⟩
  obtain ⟨r1, r2, rest, hes, hok, hfail⟩ :=
    ImageUnmounting_seen merge env hc img1 img2 (t ++ es) es2 err2 hrel2 hhead hin
  have hclear : ({ img1 with LoopDevice := [] } : Image) = { img with LoopDevice := [] } := by
    rw [hi]
  rw [h2]
  refine ⟨⟨r1, r2, rest, by rw [hes, hmp], fun hr => ?_⟩, fun he => ?_, fun image t0 => ?_⟩
  · obtain ⟨hi2, r3, hr3, he3⟩ := hok hr
    exact ⟨hi2.trans hclear, r3, hr3, he3⟩
  · simp only at he
    cases hr : r2.err with
    | none => exact (hok hr).1.trans hclear
    | some msg =>
      rw [(hfail msg hr).2.2] at he
      exact absurd he (by simp)
  · obtain ⟨es3, img3, err3, h3, hrel3, -⟩ := UnmountFileSystemImage_run env image t0
    rw [h3]
    exact ⟨es3, rfl, hrel3⟩

end elemental

namespace elemental

theorem fake_consistent (merge : Bool) (failing : Call → Bool) :
    Env.consistent merge (Env.fake merge failing) := by
  intro t file
  simp [Env.fake, List.all_eq_true]

set_option maxRecDepth 100000 in
/-- C18, at a concrete input: mounting the sample image and unmounting it again
with a mounter that never fails leaves `LoopDevice` empty. -/
theorem MountFileSystemImage_then_Unmount_witness :
    Env.consistent false (Env.fake false noFailure) ∧
    "remount".toList ∉ ["rw".toList] ∧
    (MountFileSystemImage (Env.fake false noFailure) (sampleImage "ext4".toList)
      ["rw".toList] []).2.1.LoopDevice = "/dev/loop0".toList ∧
    (MountFileSystemImage (Env.fake false noFailure) (sampleImage "ext4".toList)
      ["rw".toList] []).2.2 = none ∧
    (UnmountFileSystemImage (Env.fake false noFailure)
      (MountFileSystemImage (Env.fake false noFailure) (sampleImage "ext4".toList)
        ["rw".toList] []).2.1
      (MountFileSystemImage (Env.fake false noFailure) (sampleImage "ext4".toList)
        ["rw".toList] []).1).2.1 = { sampleImage "ext4".toList with LoopDevice := [] } :=
  ⟨fake_consistent false noFailure, by decide, by decide, by decide,
    (MountFileSystemImage_then_Unmount false (Env.fake false noFailure)
      (sampleImage "ext4".toList) ["rw".toList] [] (fake_consistent false noFailure)
      (by decide) (by decide)).2.1 (by decide)⟩

end elemental

namespace elemental

theorem IsMounted_run (env : Env) (part : Partition) (t : Trace) :
    ∃ es mnt err, IsMounted env part t = (t ++ es, mnt, err) ∧ MountedCheck part es mnt ∧
      (part.MountPoint ≠ [] → es = [⟨.IsLikelyNotMountPoint part.MountPoint,
        env t (.IsLikelyNotMountPoint part.MountPoint)⟩]) := by
  unfold IsMounted
  by_cases hmp : part.MountPoint = []
  · rw [if_pos hmp]
    exact ⟨[], false, none, by simp, .unset hmp, fun h => absurd hmp h⟩
  · rw [if_neg hmp]
    simp only [Mounter.IsLikelyNotMountPoint]
    have hr1 : perform env (.IsLikelyNotMountPoint part.MountPoint) t =
        (t ++ [⟨.IsLikelyNotMountPoint part.MountPoint,
          env t (.IsLikelyNotMountPoint part.MountPoint)⟩],
          env t (.IsLikelyNotMountPoint part.MountPoint)) := rfl
    simp only [hr1]
    generalize env t (.IsLikelyNotMountPoint part.MountPoint) = r
    have key := MountedCheck.asked r hmp
    rcases h : r.err with _ | msg
    · simp only [h, decide_True, Bool.true_and] at key
      exact ⟨_, _, _, rfl, key, fun _ => rfl⟩
    · simp only [h, Option.map, reduceCtorEq, decide_False, Bool.false_and] at key
      exact ⟨_, _, _, rfl, key, fun _ => rfl⟩

theorem MountPartition_run (env : Env) (part : Partition) (opts : List Str) (t : Trace) :
    ∃ es part1 err, MountPartition env part opts t = (t ++ es, part1, err) ∧
      PartitionMounting part opts es part1 err := by
  unfold MountPartition
  simp only [utils.MkdirAll, utils.GetDeviceByLabel, Mounter.Mount, performErr]
  obtain ⟨r1, hr1⟩ := perform_ex env (.MkdirAll part.MountPoint) t
  simp only [hr1]
  rcases h1 : r1.err with _ | msg
  · simp only [Option.map]
    by_cases hp : part.Path = []
    · rw [if_pos hp]
      obtain ⟨r2, hr2⟩ := perform_ex env (.GetDeviceByLabel part.FilesystemLabel 10)
        (t ++ [⟨.MkdirAll part.MountPoint, r1⟩])
      simp only [hr2]
      rcases h2 : r2.err with _ | msg
      · obtain ⟨r3, hr3⟩ := perform_ex env
          (.Mount r2.out part.MountPoint "auto".toList opts)
          (t ++ [⟨.MkdirAll part.MountPoint, r1⟩] ++
            [⟨.GetDeviceByLabel part.FilesystemLabel 10, r2⟩])
        simp only [hr3]
        have key := @PartitionMounting.resolved part opts r1 r2 r3 hp h1 h2
        rcases h3 : r3.err with _ | msg
        · rw [h3] at key
          exact ⟨_, _, _, by simp only [List.append_assoc]; rfl, key⟩
        · rw [h3] at key
          exact ⟨_, _, _, by simp only [List.append_assoc]; rfl, key⟩
      · exact ⟨_, _, _, by simp only [List.append_assoc]; rfl, .label _ _ msg hp h1 h2⟩
    · rw [if_neg hp]
      obtain ⟨r3, hr3⟩ := perform_ex env
        (.Mount part.Path part.MountPoint "auto".toList opts)
        (t ++ [⟨.MkdirAll part.MountPoint, r1⟩])
      simp only [hr3]
      have key := @PartitionMounting.known part opts r1 r3 hp h1
      rcases h3 : r3.err with _ | msg
      · rw [h3] at key
        exact ⟨_, _, _, by simp only [List.append_assoc]; rfl, key⟩
      · rw [h3] at key
        exact ⟨_, _, _, by simp only [List.append_assoc]; rfl, key⟩
  · exact ⟨_, _, _, rfl, .mkdir _ msg h1⟩

theorem UnmountPartition_run (env : Env) (part : Partition) (t : Trace) :
    ∃ es err, UnmountPartition env part t = (t ++ es, err) ∧
      PartitionUnmounting part es err ∧
      (part.MountPoint ≠ [] → es.head? = some ⟨.IsLikelyNotMountPoint part.MountPoint,
        env t (.IsLikelyNotMountPoint part.MountPoint)⟩) := by
  unfold UnmountPartition
  obtain ⟨es, mnt, err, h, hrel, hev⟩ := IsMounted_run env part t
  rw [h]
  cases mnt with
  | false =>
    exact ⟨es, none, rfl, .skipped es hrel, fun hmp => by rw [hev hmp]; rfl⟩
  | true =>
    simp only [Mounter.Unmount, performErr]
    obtain ⟨r, hr⟩ := perform_ex env (.Unmount part.MountPoint) (t ++ es)
    simp only [hr]
    exact ⟨_, _, by simp only [List.append_assoc], .unmount es r hrel,
      fun hmp => by rw [hev hmp]; rfl⟩

end elemental

namespace elemental

theorem MountRWPartition_run (env : Env) (part : Partition) (t : Trace) :
    ∃ es1 mnt es2 part1 res,
      MountRWPartition env part t = (t ++ es1 ++ es2, part1, res) ∧
      MountedCheck part es1 mnt ∧
      (part.MountPoint ≠ [] → es1 = [⟨.IsLikelyNotMountPoint part.MountPoint,
        env t (.IsLikelyNotMountPoint part.MountPoint)⟩]) ∧
      PartitionMounting part
        (if mnt = true then ["remount".toList, "rw".toList] else ["rw".toList])
        es2 part1 (errorOf res) ∧
      (∀ umount, res = .ok umount → umount =
        if mnt = true then
          fun part t => MountPartition env part ["remount".toList, "ro".toList] t
        else fun part t =>
          ((UnmountPartition env part t).1, part, (UnmountPartition env part t).2)) := by
  unfold MountRWPartition
  obtain ⟨es1, mnt, e, h, hrel, hev⟩ := IsMounted_run env part t
  rw [h]
  cases mnt with
  | true =>
    obtain ⟨es2, part1, err, h2, hrel2⟩ :=
      MountPartition_run env part ["remount".toList, "rw".toList] (t ++ es1)
    simp only [h2]
    cases err with
    | none =>
      exact ⟨es1, true, es2, part1, _, rfl, hrel, hev, hrel2, fun u hu => by
        cases hu; rfl⟩
    | some err =>
      exact ⟨es1, true, es2, part1, _, rfl, hrel, hev, hrel2, fun u hu => by cases hu⟩
  | false =>
    obtain ⟨es2, part1, err, h2, hrel2⟩ :=
      MountPartition_run env part ["rw".toList] (t ++ es1)
    simp only [h2]
    cases err with
    | none =>
      exact ⟨es1, false, es2, part1, _, rfl, hrel, hev, hrel2, fun u hu => by
        cases hu; rfl⟩
    | some err =>
      exact ⟨es1, false, es2, part1, _, rfl, hrel, hev, hrel2, fun u hu => by cases hu⟩

theorem MountedCheck_table (merge : Bool) (part : Partition) (es : List Event) (mnt : Bool)
    (h : MountedCheck part es mnt) (tbl : List MountPoint) :
    es.foldl (mountStep merge) tbl = tbl := by
  cases h with
  | unset _ => rfl
  | asked r _ => simp [mountStep]

theorem PartitionMounting_failed (merge : Bool) (part part1 : Partition) (opts : List Str)
    (es : List Event) (err : GoError) (h : PartitionMounting part opts es part1 (some err))
    (tbl : List MountPoint) : es.foldl (mountStep merge) tbl = tbl := by
  generalize he : some err = e at h
  cases h with
  | mkdir r msg h1 => simp [mountStep]
  | label r1 r2 msg hp h1 h2 => simp [mountStep]
  | resolved r1 r2 r3 hp h1 h2 =>
    rcases h3 : r3.err with _ | msg
    · rw [h3] at he
      cases he
    · simp only [List.foldl_cons, List.foldl_nil]
      rw [mountStep_failed _ _ _ msg h3, mountStep_other, mountStep_other] <;>
        intros <;> simp
  | known r1 r3 hp h1 =>
    rcases h3 : r3.err with _ | msg
    · rw [h3] at he
      cases he
    · simp only [List.foldl_cons, List.foldl_nil]
      rw [mountStep_failed _ _ _ msg h3, mountStep_other] <;> intros <;> simp

/-- C20: `MountRWPartition` first asks whether the partition is mounted (a
partition with an empty mountpoint counts as not mounted, without asking).
When it is, `MountPartition` is run with the options `remount`, `rw`, otherwise
with the single option `rw`; the mount call is the last event of that run. When
that run succeeds the result carries a closure and no error: in the first case
the closure runs `MountPartition` with the options `remount`, `ro`, in the
second it runs `UnmountPartition`, which unmounts the mountpoint when it is
seen mounted. When that run fails the result carries its error and no closure,
and the mount table is the one from before the call. -/
theorem MountRWPartition_cases (merge : Bool) (env : Env) (part : Partition) (t : Trace) :
    ∃ es1 mnt es2 part1 res,
      MountRWPartition env part t = (t ++ es1 ++ es2, part1, res) ∧
      MountedCheck part es1 mnt ∧
      PartitionMounting part
        (if mnt = true then ["remount".toList, "rw".toList] else ["rw".toList])
        es2 part1 (errorOf res) ∧
      (∀ umount, res = .ok umount → ∀ (p : Partition) (t1 : Trace),
        if mnt = true then
          ∃ es p1 err, umount p t1 = (t1 ++ es, p1, err) ∧
            PartitionMounting p ["remount".toList, "ro".toList] es p1 err
        else
          ∃ es err, umount p t1 = (t1 ++ es, p, err) ∧ PartitionUnmounting p es err) ∧
      (∀ err, res = .error err →
        mountTable merge (t ++ es1 ++ es2) = mountTable merge t) := by
  obtain ⟨es1, mnt, es2, part1, res, h, hrel1, -, hrel2, hu⟩ := MountRWPartition_run env part t
  refine ⟨es1, mnt, es2, part1, res, h, hrel1, hrel2, fun umount hres p t1 => ?_,
    fun err hres => ?_⟩
  · rw [hu umount hres]
    cases mnt with
    | true =>
      simp only [if_true]
      exact MountPartition_run env p _ t1
    | false =>
      simp only [Bool.false_eq_true, if_false]
      obtain ⟨es, err, h3, hrel3, -⟩ := UnmountPartition_run env p t1
      rw [h3]
      exact ⟨es, err, rfl, hrel3⟩
  · subst hres
    rw [mountTable_append, mountTable_append,
      PartitionMounting_failed merge part part1 _ es2 err hrel2,
      MountedCheck_table merge part es1 mnt hrel1]

end elemental

namespace elemental

theorem PartitionMounting_ok (merge : Bool) (part part1 : Partition) (opts : List Str)
    (es : List Event) (h : PartitionMounting part opts es part1 none)
    (tbl : List MountPoint) :
    part1.MountPoint = part.MountPoint ∧
    es.foldl (mountStep merge) tbl =
      if merge = true ∧ "remount".toList ∈ opts then tbl
      else tbl ++ [⟨part1.Path, part.MountPoint, "auto".toList, opts⟩] := by
  generalize he : (none : Option GoError) = e at h
  cases h with
  | mkdir r msg h1 => cases he
  | label r1 r2 msg hp h1 h2 => cases he
  | resolved r1 r2 r3 hp h1 h2 =>
    have h3 : r3.err = none := by
      cases h : r3.err with
      | none => rfl
      | some msg => rw [h] at he; cases he
    refine ⟨rfl, ?_⟩
    simp only [List.foldl_cons, List.foldl_nil]
    rw [mountStep_other merge tbl, mountStep_other merge tbl] <;> try (intros; simp)
    simp only [mountStep, h3]
    rfl
  | known r1 r3 hp h1 =>
    have h3 : r3.err = none := by
      cases h : r3.err with
      | none => rfl
      | some msg => rw [h] at he; cases he
    refine ⟨rfl, ?_⟩
    simp only [List.foldl_cons, List.foldl_nil]
    rw [mountStep_other merge tbl] <;> try (intros; simp)
    simp only [mountStep, h3]
    rfl

theorem MountedCheck_asked (part : Partition) (r : Response) (mnt : Bool)
    (h : MountedCheck part [⟨.IsLikelyNotMountPoint part.MountPoint, r⟩] mnt) :
    mnt = (decide (r.err = none) && !r.flag) := by
  generalize he : [(⟨.IsLikelyNotMountPoint part.MountPoint, r⟩ : Event)] = es at h
  cases h with
  | unset _ => cases he
  | asked r1 _ =>
    simp only [List.cons.injEq, Event.mk.injEq, true_and, and_true] at he
    rw [he]

theorem mounted_iff (merge : Bool) (env : Env) (hc : Env.consistent merge env) (mp : Str)
    (t : Trace) (herr : (env t (.IsLikelyNotMountPoint mp)).err = none) :
    (decide ((env t (.IsLikelyNotMountPoint mp)).err = none) &&
      !(env t (.IsLikelyNotMountPoint mp)).flag) = true ↔
      ∃ m ∈ mountTable merge t, m.Path = mp := by
  have := hc t mp
  rw [herr]
  simp only [decide_True, Bool.true_and, Bool.not_eq_true']
  constructor
  · intro hf
    by_contra hne
    push_neg at hne
    rw [this.2 hne] at hf
    cases hf
  · rintro ⟨m, hm, hp⟩
    cases hb : (env t (.IsLikelyNotMountPoint mp)).flag with
    | false => rfl
    | true => exact absurd hp (this.1 hb m hm)

end elemental

namespace elemental

theorem check_table (merge : Bool) (tbl : List MountPoint) (file : Str) (r : Response) :
    [(⟨.IsLikelyNotMountPoint file, r⟩ : Event)].foldl (mountStep merge) tbl = tbl := by
  simp [mountStep]

theorem MountedCheck_cases (part : Partition) (es : List Event) (mnt : Bool)
    (h : MountedCheck part es mnt) :
    (part.MountPoint = [] ∧ es = [] ∧ mnt = false) ∨
    ∃ r, part.MountPoint ≠ [] ∧ es = [⟨.IsLikelyNotMountPoint part.MountPoint, r⟩] ∧
      mnt = (decide (r.err = none) && !r.flag) := by
  cases h with
  | unset h0 => exact .inl ⟨h0, rfl, rfl⟩
  | asked r h0 => exact .inr ⟨r, h0, rfl, rfl⟩

/-- C19: take a mounter that answers from the mount table and without error,
a partition with a non-empty mountpoint, a successful `MountRWPartition` and a
release closure that, called straight after, returns nil. When the partition
was not mounted beforehand the mount table has as many entries after the
release as before `MountRWPartition`. When it was mounted beforehand the same
holds if a remount adds no entry to the table (`merge`); with a table that
records every successful mount as a new entry, as the mounter of the
repository's tests does, the count is two higher. -/
theorem MountRWPartition_release_count (merge : Bool) (env : Env)
    (part part1 part2 : Partition) (t t1 t2 : Trace) (umount : Umount)
    (hc : Env.consistent merge env)
    (hq : ∀ t0, (env t0 (.IsLikelyNotMountPoint part.MountPoint)).err = none)
    (hmp : part.MountPoint ≠ [])
    (h1 : MountRWPartition env part t = (t1, part1, .ok umount))
    (h2 : umount part1 t1 = (t2, part2, none)) :
    (mountTable merge t2).length =
      (mountTable merge t).length +
        if (∃ m ∈ mountTable merge t, m.Path = part.MountPoint) ∧ merge = false then 2
        else 0 := by
  obtain ⟨es1, mnt, es2, p1, res, h, hrel1, hev, hrel2, hu⟩ := MountRWPartition_run env part t
  rw [h1] at h
  simp only [Prod.mk.injEq] at h
  obtain ⟨ht1, hp1, hres⟩ := h
  subst hp1 hres ht1
  have hu1 := hu umount rfl
  have hes1 := hev hmp
  subst hes1
  have hmnt := MountedCheck_asked part _ mnt hrel1
  have hiff := mounted_iff merge env hc part.MountPoint t (hq t)
  simp only [errorOf] at hrel2
  cases mnt with
  | true =>
    have hin := hiff.1 hmnt.symm
    obtain ⟨hmp1, htbl⟩ := PartitionMounting_ok merge part part1 _ es2 hrel2
      (mountTable merge t)
    rw [hu1] at h2
    simp only [if_true] at h2
    obtain ⟨es3, p3, err3, h3, hrel3⟩ := MountPartition_run env part1
      ["remount".toList, "ro".toList]
      (t ++ [⟨.IsLikelyNotMountPoint part.MountPoint,
        env t (.IsLikelyNotMountPoint part.MountPoint)⟩] ++ es2)
    rw [h3] at h2
    simp only [Prod.mk.injEq] at h2
    obtain ⟨ht2, hp3, herr3⟩ := h2
    subst hp3 herr3 ht2
    obtain ⟨-, htbl3⟩ := PartitionMounting_ok merge part1 p3 _ es3 hrel3
      (es2.foldl (mountStep merge) (mountTable merge t))
    rw [mountTable_append, mountTable_append, mountTable_append, check_table, htbl3, htbl]
    cases merge with
    | true =>
      have hr1 : "remount".toList ∈ ["remount".toList, "rw".toList] := by decide
      have hr2 : "remount".toList ∈ ["remount".toList, "ro".toList] := by decide
      simp only [if_true, true_and, if_pos hr1, if_pos hr2, and_false, if_false,
        reduceCtorEq, Nat.add_zero]
    | false =>
      simp only [Bool.false_eq_true, false_and, if_false, List.length_append,
        List.length_singleton, and_true, if_pos hin]
  | false =>
    have hnot : ¬ ∃ m ∈ mountTable merge t, m.Path = part.MountPoint := by
      intro hin
      have := hiff.2 hin
      rw [← hmnt] at this
      cases this
    obtain ⟨hmp1, htbl⟩ := PartitionMounting_ok merge part part1 _ es2 hrel2
      (mountTable merge t)
    have hrw : ¬ (merge = true ∧ "remount".toList ∈ ["rw".toList]) := by
      intro hh
      exact absurd hh.2 (by decide)
    simp only [Bool.false_eq_true, if_false] at htbl
    rw [if_neg hrw] at htbl
    rw [hu1] at h2
    simp only [Bool.false_eq_true, if_false, Prod.mk.injEq] at h2
    obtain ⟨ht2, -, herr⟩ := h2
    obtain ⟨es3, err3, h3, hrel3, hhead⟩ := UnmountPartition_run env part1
      (t ++ [⟨.IsLikelyNotMountPoint part.MountPoint,
        env t (.IsLikelyNotMountPoint part.MountPoint)⟩] ++ es2)
    rw [h3] at ht2 herr
    simp only at ht2 herr
    subst ht2
    have hmp3 : part1.MountPoint ≠ [] := by rw [hmp1]; exact hmp
    have hhead := hhead hmp3
    have htable : mountTable merge
        (t ++ [⟨.IsLikelyNotMountPoint part.MountPoint,
          env t (.IsLikelyNotMountPoint part.MountPoint)⟩] ++ es2) =
        mountTable merge t ++ [⟨part1.Path, part.MountPoint, "auto".toList, ["rw".toList]⟩] := by
      rw [mountTable_append, mountTable_append, check_table, htbl]
    have hseen := (mounted_iff merge env hc part1.MountPoint
      (t ++ [⟨.IsLikelyNotMountPoint part.MountPoint,
        env t (.IsLikelyNotMountPoint part.MountPoint)⟩] ++ es2)
      (by rw [hmp1]; exact hq _)).2
      ⟨_, by rw [htable]; exact List.mem_append_right _ (List.mem_singleton.2 rfl), hmp1.symm⟩
    rw [if_neg fun hh => hnot hh.1, Nat.add_zero]
    cases hrel3 with
    | skipped _ hchk =>
      rcases MountedCheck_cases part1 es3 false hchk with ⟨h0, -, -⟩ | ⟨r, -, hes, hfalse⟩
      · exact absurd h0 hmp3
      · subst hes
        simp only [List.head?_cons, Option.some.injEq, Event.mk.injEq, true_and] at hhead
        subst hhead
        rw [hseen] at hfalse
        cases hfalse
    | unmount es r hchk =>
      have hr : r.err = none := (map_plain_eq_none _).1 herr
      rw [← List.append_assoc, mountTable_append _ _ [_]]
      have hes : mountTable merge (t ++ [⟨.IsLikelyNotMountPoint part.MountPoint,
          env t (.IsLikelyNotMountPoint part.MountPoint)⟩] ++ es2 ++ es) =
          mountTable merge t ++
            [⟨part1.Path, part.MountPoint, "auto".toList, ["rw".toList]⟩] := by
        rw [mountTable_append _ _ es, MountedCheck_table merge part1 es true hchk, htable]
      rw [hes]
      simp only [List.foldl_cons, List.foldl_nil]
      rw [mountStep_unmount_ok _ _ _ _ hr, List.filter_append, hmp1]
      have hkeep : (mountTable merge t).filter (fun m => decide (m.Path ≠ part.MountPoint)) =
          mountTable merge t := by
        rw [List.filter_eq_self]
        intro m hm
        exact decide_eq_true fun hp => hnot ⟨m, hm, hp⟩
      rw [hkeep]
      simp

end elemental

namespace elemental

set_option maxRecDepth 100000 in
/-- C19 does not hold with the mount table of the repository's tests, which
records every successful mount as a new entry: for a partition that is already
mounted the table has one entry before `MountRWPartition`, two after it and
three after the release closure has remounted the partition read-only. -/
theorem MountRWPartition_release_count_remount :
    (mountTable false
      (MountPartition (Env.fake false noFailure) samplePartition [] []).1).length = 1 ∧
    (mountThenRelease (Env.fake false noFailure) samplePartition
      (MountPartition (Env.fake false noFailure) samplePartition [] []).1).map
        (fun p => ((mountTable false p.1).map fun m => m.Opts,
          (mountTable false p.2).map fun m => m.Opts)) =
      some ([[], ["remount".toList, "rw".toList]],
        [[], ["remount".toList, "rw".toList], ["remount".toList, "ro".toList]]) := by
  decide

set_option maxRecDepth 100000 in
/-- C19, at a concrete input: the sample partition, not mounted beforehand, is
mounted by `MountRWPartition` and unmounted by the closure, which leaves the
empty table empty. -/
theorem MountRWPartition_release_count_witness :
    MountRWPartition (Env.fake false noFailure) samplePartition [] =
      ([⟨.IsLikelyNotMountPoint "/run/cos/state".toList, ⟨none, [], 32, true⟩⟩,
        ⟨.MkdirAll "/run/cos/state".toList, ⟨none, [], 32, false⟩⟩,
        ⟨.Mount "/dev/sda2".toList "/run/cos/state".toList "auto".toList ["rw".toList],
          ⟨none, [], 32, false⟩⟩],
       samplePartition,
       .ok fun part t => ((UnmountPartition (Env.fake false noFailure) part t).1, part,
        (UnmountPartition (Env.fake false noFailure) part t).2)) ∧
    (mountTable false
      [⟨.IsLikelyNotMountPoint "/run/cos/state".toList, ⟨none, [], 32, true⟩⟩,
        ⟨.MkdirAll "/run/cos/state".toList, ⟨none, [], 32, false⟩⟩,
        ⟨.Mount "/dev/sda2".toList "/run/cos/state".toList "auto".toList ["rw".toList],
          ⟨none, [], 32, false⟩⟩,
        ⟨.IsLikelyNotMountPoint "/run/cos/state".toList, ⟨none, [], 32, false⟩⟩,
        ⟨.Unmount "/run/cos/state".toList, ⟨none, [], 32, false⟩⟩]).length =
      (mountTable false []).length +
        if (∃ m ∈ mountTable false [], m.Path = samplePartition.MountPoint) ∧ false = false
        then 2 else 0 :=
  ⟨rfl,
    MountRWPartition_release_count false (Env.fake false noFailure) samplePartition
      samplePartition samplePartition [] _ _ _ (fake_consistent false noFailure)
      (fun _ => rfl) (by decide) rfl rfl⟩

end elemental

namespace elemental

theorem cleanup_eq_invokeAll (cleaners : List Cleaner) (t : Trace) (err : Option GoError) :
    CreateImageFromTree.cleanup cleaners (t, err) =
      ((invokeAll cleaners t).1, firstError (err :: (invokeAll cleaners t).2)) := by
  induction cleaners generalizing t err with
  | nil => cases err <;> rfl
  | cons cleaner cleaners ih =>
    unfold CreateImageFromTree.cleanup
    rcases hc : cleaner t with ⟨t1, cErr⟩
    cases err with
    | none =>
      cases cErr with
      | none => simp only [ih, invokeAll, hc, firstError]
      | some e => simp only [ih, invokeAll, hc, firstError]
    | some e =>
      cases cErr with
      | none => simp only [ih, invokeAll, hc, firstError]
      | some e1 => simp only [ih, invokeAll, hc, firstError]

theorem firstError_eq_none (errs : List (Option GoError)) :
    firstError errs = none ↔ ∀ e ∈ errs, e = none := by
  induction errs with
  | nil => simp [firstError]
  | cons e errs ih =>
    cases e with
    | none => simp [firstError, ih]
    | some e => simp [firstError]

theorem invokeAll_length (cleaners : List Cleaner) (t : Trace) :
    (invokeAll cleaners t).2.length = cleaners.length := by
  induction cleaners generalizing t with
  | nil => rfl
  | cons cleaner cleaners ih => simp [invokeAll, ih]

/-- C15: `CreateImageFromTree` with cleaners is the same call without cleaners
(the operation, its deferred unmount included) followed by one call of every
cleaner, in argument order and whatever the operation and the earlier cleaners
returned. The error returned is the first error among the one of the operation
and those of the cleaners, in that order, so it is nil exactly when the
operation and every cleaner returned nil. -/
theorem CreateImageFromTree_cleaners (env : Env) (c : Config) (cnst : Cnst) (img : Image)
    (rootDir : Str) (preload : Bool) (cleaners : List Cleaner) (t : Trace) :
    CreateImageFromTree env c cnst img rootDir preload cleaners t =
      ((invokeAll cleaners (CreateImageFromTree env c cnst img rootDir preload [] t).1).1,
       (CreateImageFromTree env c cnst img rootDir preload [] t).2.1,
       firstError ((CreateImageFromTree env c cnst img rootDir preload [] t).2.2 ::
         (invokeAll cleaners
           (CreateImageFromTree env c cnst img rootDir preload [] t).1).2)) ∧
    (invokeAll cleaners
      (CreateImageFromTree env c cnst img rootDir preload [] t).1).2.length =
        cleaners.length ∧
    ((CreateImageFromTree env c cnst img rootDir preload cleaners t).2.2 = none ↔
      (CreateImageFromTree env c cnst img rootDir preload [] t).2.2 = none ∧
      ∀ e ∈ (invokeAll cleaners
        (CreateImageFromTree env c cnst img rootDir preload [] t).1).2, e = none) := by
  have key : CreateImageFromTree env c cnst img rootDir preload cleaners t =
      ((invokeAll cleaners (CreateImageFromTree env c cnst img rootDir preload [] t).1).1,
       (CreateImageFromTree env c cnst img rootDir preload [] t).2.1,
       firstError ((CreateImageFromTree env c cnst img rootDir preload [] t).2.2 ::
         (invokeAll cleaners
           (CreateImageFromTree env c cnst img rootDir preload [] t).1).2)) := by
    unfold CreateImageFromTree
    rcases CreateImageFromTree.unmount env
      (CreateImageFromTree.body env c cnst img rootDir preload t) with ⟨t1, img1, err⟩
    simp only [cleanup_eq_invokeAll, invokeAll]
    cases err <;> rfl
  refine ⟨key, invokeAll_length _ _, ?_⟩
  rw [key]
  simp only [firstError_eq_none, List.mem_cons, forall_eq_or_imp]

end elemental

namespace elemental

set_option maxRecDepth 100000 in
/-- C15, at concrete inputs: three cleaners of which the first and the last
fail are each called once, in order, after a squashfs image has been created;
the error is the one of the first cleaner when the operation succeeds and the
one of the operation when it fails. -/
theorem CreateImageFromTree_cleaners_witness :
    CreateImageFromTree (Env.fake false noFailure) sampleConfig sampleCnst
        (sampleImage "squashfs".toList) "/tree".toList false
        [sampleCleaner "/a".toList (some "first".toList), sampleCleaner "/b".toList none,
         sampleCleaner "/c".toList (some "third".toList)] [] =
      ([⟨.MkdirAll "/s".toList, ⟨none, [], 32, false⟩⟩,
        ⟨.CreateSquashFS "/tree".toList "/s/a.img".toList ["-b".toList, "1024k".toList],
          ⟨none, [], 32, false⟩⟩,
        ⟨.RemoveAll "/a".toList, ⟨some "first".toList, [], 0, false⟩⟩,
        ⟨.RemoveAll "/b".toList, ⟨none, [], 0, false⟩⟩,
        ⟨.RemoveAll "/c".toList, ⟨some "third".toList, [], 0, false⟩⟩],
       sampleImage "squashfs".toList, some (.plain "first".toList)) ∧
    CreateImageFromTree (Env.fake false squashFails) sampleConfig sampleCnst
        (sampleImage "squashfs".toList) "/tree".toList false
        [sampleCleaner "/a".toList (some "first".toList), sampleCleaner "/b".toList none,
         sampleCleaner "/c".toList (some "third".toList)] [] =
      ([⟨.MkdirAll "/s".toList, ⟨none, [], 32, false⟩⟩,
        ⟨.CreateSquashFS "/tree".toList "/s/a.img".toList ["-b".toList, "1024k".toList],
          ⟨some "failed".toList, [], 32, false⟩⟩,
        ⟨.RemoveAll "/a".toList, ⟨some "first".toList, [], 0, false⟩⟩,
        ⟨.RemoveAll "/b".toList, ⟨none, [], 0, false⟩⟩,
        ⟨.RemoveAll "/c".toList, ⟨some "third".toList, [], 0, false⟩⟩],
       sampleImage "squashfs".toList, some (.plain "failed".toList)) :=
  ⟨(CreateImageFromTree_cleaners (Env.fake false noFailure) sampleConfig sampleCnst
      (sampleImage "squashfs".toList) "/tree".toList false _ []).1.trans (by decide),
   (CreateImageFromTree_cleaners (Env.fake false squashFails) sampleConfig sampleCnst
      (sampleImage "squashfs".toList) "/tree".toList false _ []).1.trans (by decide)⟩

end elemental

namespace elemental

theorem Neutral_nil (merge : Bool) : Neutral merge [] := fun _ _ => ⟨rfl, rfl⟩

theorem Neutral_append (merge : Bool) (es1 es2 : List Event) (h1 : Neutral merge es1)
    (h2 : Neutral merge es2) : Neutral merge (es1 ++ es2) := by
  intro tbl loops
  rw [List.foldl_append, List.foldl_append, (h1 tbl loops).1, (h1 tbl loops).2]
  exact h2 tbl loops

theorem Neutral_inert (merge : Bool) (es : List Event)
    (h : ∀ ev ∈ es, ev.call.isInert = true) : Neutral merge es := by
  induction es with
  | nil => exact Neutral_nil merge
  | cons ev es ih =>
    intro tbl loops
    have hev := h ev (List.mem_cons_self _ _)
    have hrest := ih fun e he => h e (List.mem_cons_of_mem _ he)
    simp only [List.foldl_cons]
    rw [mountStep_other, loopStep_other]
    · exact hrest tbl loops
    · intro command args hc
      rw [hc] at hev
      cases hev
    · intro source target fstype options hc
      rw [hc] at hev
      cases hev
    · intro target hc
      rw [hc] at hev
      cases hev

theorem Neutral_Balanced (merge : Bool) (es : List Event) (h : Neutral merge es) :
    Balanced merge es := by
  intro tbl loops
  rw [(h tbl loops).1, (h tbl loops).2]
  exact ⟨List.Sublist.refl _, List.Sublist.refl _⟩

theorem Balanced_append (merge : Bool) (es1 es2 : List Event) (h1 : Balanced merge es1)
    (h2 : Balanced merge es2) : Balanced merge (es1 ++ es2) := by
  intro tbl loops
  rw [List.foldl_append, List.foldl_append]
  exact ⟨((h2 _ loops).1).trans (h1 tbl loops).1, ((h2 tbl _).2).trans (h1 tbl loops).2⟩

theorem releasesOk_append (es1 es2 : List Event) :
    releasesOk (es1 ++ es2) ↔ releasesOk es1 ∧ releasesOk es2 := by
  simp only [releasesOk, List.mem_append]
  constructor
  · intro h
    exact ⟨fun ev he => h ev (.inl he), fun ev he => h ev (.inr he)⟩
  · rintro ⟨h1, h2⟩ ev (he | he)
    · exact h1 ev he
    · exact h2 ev he

theorem filter_ne_sublist {α : Type} [DecidableEq α] (l : List α) (a : α) :
    ((l ++ [a]).filter fun x => decide (x ≠ a)).Sublist l := by
  rw [List.filter_append]
  simp only [ne_eq, not_true_eq_false, decide_False, Bool.false_eq_true, not_false_eq_true,
    List.filter_cons_of_neg, List.filter_nil, List.append_nil]
  exact List.filter_sublist l

theorem performErr_ex (env : Env) (call : Call) (t : Trace) :
    ∃ r, performErr env call t = (t ++ [⟨call, r⟩], r.err.map GoError.plain) := ⟨_, rfl⟩

theorem releasesOk_detach (es : List Event) (loop : Str) (r : Response)
    (h : releasesOk es) (hin : ⟨.Run "losetup".toList ["-d".toList, loop], r⟩ ∈ es) :
    r.err = none :=
  h _ hin (by simp [Call.isRelease])

theorem releasesOk_unmount (es : List Event) (target : Str) (r : Response)
    (h : releasesOk es) (hin : ⟨.Unmount target, r⟩ ∈ es) : r.err = none :=
  h _ hin rfl

theorem ImageMounting_failed_Balanced (merge : Bool) (img img1 : Image) (opts : List Str)
    (es : List Event) (err : GoError) (h : ImageMounting img opts es img1 (some err))
    (hr : releasesOk es) : Balanced merge es := by
  cases h with
  | mkdir r msg h1 => exact Neutral_Balanced _ _ (Neutral_inert _ _ (by simp [Call.isInert]))
  | losetup r1 r2 msg h1 h2 =>
    intro tbl loops
    simp only [List.foldl_cons, List.foldl_nil]
    rw [mountStep_other, mountStep_other, loopStep_failed _ _ msg h2, loopStep_other] <;>
      first
        | exact ⟨List.Sublist.refl _, List.Sublist.refl _⟩
        | (intros; simp)
  | mount r1 r2 r3 r4 msg h1 h2 h3 =>
    have h4 : r4.err = none :=
      releasesOk_detach _ (strings.TrimSpace r2.out) r4 hr (by simp)
    intro tbl loops
    simp only [List.foldl_cons, List.foldl_nil]
    constructor
    · rw [mountStep_other, mountStep_failed _ _ _ msg h3, mountStep_other, mountStep_other]
        <;> first
          | exact List.Sublist.refl _
          | (intros; simp)
    · rw [loopStep_detach _ _ _ h4, loopStep_other, loopStep_setup _ _ _ h2, loopStep_other]
        <;> first
          | exact filter_ne_sublist _ _
          | (intros; simp)

theorem image_roundtrip_Balanced (merge : Bool) (img img1 : Image) (opts : List Str)
    (es mid : List Event) (h : ImageMounting img opts es img1 none)
    (hopts : "remount".toList ∉ opts) (hmid : Neutral merge mid) (r1 r2 r3 : Response)
    (h2 : r2.err = none) (h3 : r3.err = none) :
    Balanced merge (es ++ mid ++
      [⟨.IsLikelyNotMountPoint img1.MountPoint, r1⟩, ⟨.Unmount img1.MountPoint, r2⟩,
       ⟨.Run "losetup".toList ["-d".toList, img1.LoopDevice], r3⟩]) := by
  intro tbl loops
  obtain ⟨loop, hi, htbl, hloops⟩ := ImageMounting_mounted merge img img1 opts es h hopts tbl loops
  have hm1 := fun tbl => (hmid tbl []).1
  have hm2 := fun loops => (hmid [] loops).2
  rw [List.foldl_append, List.foldl_append, List.foldl_append, List.foldl_append, htbl, hloops,
    hm1, hm2]
  simp only [List.foldl_cons, List.foldl_nil]
  have hmp : img1.MountPoint = img.MountPoint := by rw [hi]
  have hld : img1.LoopDevice = loop := by rw [hi]
  constructor
  · rw [mountStep_other, mountStep_unmount_ok _ _ _ _ h2, mountStep_other, hmp,
      List.filter_append]
    · simp only [ne_eq, not_true_eq_false, decide_False, Bool.false_eq_true,
        not_false_eq_true, List.filter_cons_of_neg, List.filter_nil, List.append_nil]
      exact List.filter_sublist _
    all_goals (intros; simp)
  · rw [loopStep_detach _ _ _ h3, loopStep_other, loopStep_other, hld]
    · exact filter_ne_sublist _ _
    all_goals (intros; simp)

end elemental

namespace elemental

theorem unmount_after_mount (merge : Bool) (env : Env) (hc : Env.consistent merge env)
    (img img1 : Image) (opts : List Str) (es mid : List Event) (t : Trace)
    (hrel : ImageMounting img opts es img1 none) (hopts : "remount".toList ∉ opts)
    (hmid : Neutral merge mid) :
    ∃ es3 img2 err,
      UnmountFileSystemImage env img1 (t ++ es ++ mid) = (t ++ es ++ mid ++ es3, img2, err) ∧
      (releasesOk es3 → Balanced merge (es ++ mid ++ es3)) ∧
      (err = none → img2.LoopDevice = []) := by
  obtain ⟨es3, img2, err, h, hrel3, hhead⟩ := UnmountFileSystemImage_run env img1 (t ++ es ++ mid)
  obtain ⟨loop, hi, htbl, -⟩ :=
    ImageMounting_mounted merge img img1 opts es hrel hopts (mountTable merge t) []
  have hin : ∃ m ∈ mountTable merge (t ++ es ++ mid), m.Path = img1.MountPoint := by
    rw [mountTable_append, mountTable_append, htbl, (hmid _ []).1]
    exact ⟨_, List.mem_append_right _ (List.mem_singleton.2 rfl), by rw [hi]⟩
  obtain ⟨r1, r2, rest, hes, hok, hfail⟩ :=
    ImageUnmounting_seen merge env hc img1 img2 (t ++ es ++ mid) es3 err hrel3 hhead hin
  refine ⟨es3, img2, err, h, fun hr => ?_, fun he => ?_⟩
  · have h2 : r2.err = none := releasesOk_unmount es3 img1.MountPoint r2 hr (by rw [hes]; simp)
    obtain ⟨-, r3, hrest, -⟩ := hok h2
    have h3 : r3.err = none :=
      releasesOk_detach es3 img1.LoopDevice r3 hr (by rw [hes, hrest]; simp)
    rw [hes, hrest]
    exact image_roundtrip_Balanced merge img img1 opts es mid hrel hopts hmid r1 r2 r3 h2 h3
  · cases hr : r2.err with
    | none => rw [(hok hr).1]
    | some msg =>
      rw [(hfail msg hr).2.2] at he
      cases he

theorem DumpSource_run (merge : Bool) (env : Env) (hc : Env.consistent merge env)
    (c : Config) (cnst : Cnst) (target : Str) (imgSrc : ImageSource) (t : Trace) :
    ∃ es err, DumpSource env c cnst target imgSrc t = (t ++ es, err) ∧
      (releasesOk es → Balanced merge es) := by
  unfold DumpSource
  simp only [utils.MkdirAll, utils.CosignVerify, ImageExtractor.ExtractImage, utils.SyncData]
  obtain ⟨r1, hr1⟩ := performErr_ex env (.MkdirAll target) t
  simp only [hr1]
  have hn1 : Neutral merge [(⟨.MkdirAll target, r1⟩ : Event)] :=
    Neutral_inert _ _ (by simp [Call.isInert])
  rcases h1 : r1.err with _ | msg
  · simp only [Option.map]
    by_cases hI : imgSrc.IsImage = true
    · simp only [hI, if_true]
      by_cases hC : c.Cosign = true
      · simp only [hC, if_true]
        obtain ⟨r2, hr2⟩ := performErr_ex env
          (.CosignVerify imgSrc.Value c.CosignPubKey c.Debug) (t ++ [⟨.MkdirAll target, r1⟩])
        simp only [hr2]
        rcases h2 : r2.err with _ | msg
        · simp only [Option.map]
          obtain ⟨r3, hr3⟩ := performErr_ex env
            (.ExtractImage imgSrc.Value target c.Platform c.LocalImage)
            (t ++ [⟨.MkdirAll target, r1⟩] ++
              [⟨.CosignVerify imgSrc.Value c.CosignPubKey c.Debug, r2⟩])
          simp only [hr3]
          rcases h3 : r3.err with _ | msg <;>
            exact ⟨_, _, by simp only [List.append_assoc, Option.map]; rfl, fun _ =>
              Neutral_Balanced _ _ (Neutral_inert _ _ (by simp [Call.isInert]))⟩
        · exact ⟨_, _, by simp only [List.append_assoc, Option.map]; rfl, fun _ =>
            Neutral_Balanced _ _ (Neutral_inert _ _ (by simp [Call.isInert]))⟩
      · simp only [hC, Bool.false_eq_true, if_false]
        obtain ⟨r3, hr3⟩ := performErr_ex env
          (.ExtractImage imgSrc.Value target c.Platform c.LocalImage)
          (t ++ [⟨.MkdirAll target, r1⟩])
        simp only [hr3]
        rcases h3 : r3.err with _ | msg <;>
          exact ⟨_, _, by simp only [List.append_assoc, Option.map]; rfl, fun _ =>
            Neutral_Balanced _ _ (Neutral_inert _ _ (by simp [Call.isInert]))⟩
    · simp only [hI, Bool.false_eq_true, if_false]
      by_cases hD : imgSrc.IsDir = true
      · simp only [hD, if_true]
        obtain ⟨r2, hr2⟩ := performErr_ex env
          (.SyncData imgSrc.Value target DumpSource.excludes) (t ++ [⟨.MkdirAll target, r1⟩])
        simp only [hr2]
        rcases h2 : r2.err with _ | msg <;>
          exact ⟨_, _, by simp only [List.append_assoc, Option.map]; rfl, fun _ =>
            Neutral_Balanced _ _ (Neutral_inert _ _ (by simp [Call.isInert]))⟩
      · simp only [hD, Bool.false_eq_true, if_false]
        by_cases hF : imgSrc.IsFile = true
        · simp only [hF, if_true]
          obtain ⟨r2, hr2⟩ := performErr_ex env (.MkdirAll cnst.ImgSrcDir)
            (t ++ [⟨.MkdirAll target, r1⟩])
          simp only [hr2]
          have hn2 : Neutral merge
              [(⟨.MkdirAll target, r1⟩ : Event), ⟨.MkdirAll cnst.ImgSrcDir, r2⟩] :=
            Neutral_inert _ _ (by simp [Call.isInert])
          rcases h2 : r2.err with _ | msg
          · simp only [Option.map]
            obtain ⟨es, img1, err, hm, hrel⟩ := MountFileSystemImage_run env
              { File := imgSrc.Value, Label := [], FS := [], Size := 0,
                MountPoint := cnst.ImgSrcDir, Source := .empty, LoopDevice := [] }
              ["auto".toList, "ro".toList]
              (t ++ [⟨.MkdirAll target, r1⟩] ++ [⟨.MkdirAll cnst.ImgSrcDir, r2⟩])
            simp only [hm]
            cases err with
            | some err =>
              refine ⟨[⟨.MkdirAll target, r1⟩, ⟨.MkdirAll cnst.ImgSrcDir, r2⟩] ++ es, _,
                by simp only [List.append_assoc]; rfl, fun hr => ?_⟩
              exact Balanced_append _ _ _ (Neutral_Balanced _ _ hn2)
                (ImageMounting_failed_Balanced merge _ _ _ _ err hrel
                  ((releasesOk_append _ _).1 hr).2)
            | none =>
              simp only []
              obtain ⟨r3, hr3⟩ := performErr_ex env
                (.SyncData cnst.ImgSrcDir target DumpSource.excludes)
                (t ++ [⟨.MkdirAll target, r1⟩] ++ [⟨.MkdirAll cnst.ImgSrcDir, r2⟩] ++ es)
              simp only [hr3]
              obtain ⟨es3, img2, err3, hu, hbal, -⟩ := unmount_after_mount merge env hc _ img1
                ["auto".toList, "ro".toList] es
                [⟨.SyncData cnst.ImgSrcDir target DumpSource.excludes, r3⟩]
                (t ++ [⟨.MkdirAll target, r1⟩] ++ [⟨.MkdirAll cnst.ImgSrcDir, r2⟩]) hrel
                (by decide) (Neutral_inert _ _ (by simp [Call.isInert]))
              have hres : ∀ e : Option GoError,
                  ((UnmountFileSystemImage env img1
                    (t ++ [⟨.MkdirAll target, r1⟩] ++ [⟨.MkdirAll cnst.ImgSrcDir, r2⟩] ++ es ++
                      [⟨.SyncData cnst.ImgSrcDir target DumpSource.excludes, r3⟩])).1, e) =
                  (t ++ ([⟨.MkdirAll target, r1⟩, ⟨.MkdirAll cnst.ImgSrcDir, r2⟩] ++
                    (es ++ [⟨.SyncData cnst.ImgSrcDir target DumpSource.excludes, r3⟩] ++
                      es3)), e) := by
                intro e
                rw [hu]
                simp only [List.append_assoc, List.cons_append, List.nil_append]
              have hfin : ∀ hr : releasesOk
                  ([⟨.MkdirAll target, r1⟩, ⟨.MkdirAll cnst.ImgSrcDir, r2⟩] ++
                    (es ++ [⟨.SyncData cnst.ImgSrcDir target DumpSource.excludes, r3⟩] ++
                      es3)), Balanced merge
                  ([⟨.MkdirAll target, r1⟩, ⟨.MkdirAll cnst.ImgSrcDir, r2⟩] ++
                    (es ++ [⟨.SyncData cnst.ImgSrcDir target DumpSource.excludes, r3⟩] ++
                      es3)) := fun hr =>
                Balanced_append _ _ _ (Neutral_Balanced _ _ hn2)
                  (hbal ((releasesOk_append _ _).1 ((releasesOk_append _ _).1 hr).2).2)
              rcases h3 : r3.err with _ | msg
              · simp only [Option.map]
                exact ⟨_, _, hres _, hfin⟩
              · simp only [Option.map]
                exact ⟨_, _, hres _, hfin⟩
          · exact ⟨_, _, by simp only [List.append_assoc, Option.map]; rfl, fun _ =>
              Neutral_Balanced _ _ (Neutral_inert _ _ (by simp [Call.isInert]))⟩
        · simp only [hF, Bool.false_eq_true, if_false]
          exact ⟨_, _, rfl, fun _ => Neutral_Balanced _ _ hn1⟩
  · exact ⟨_, _, rfl, fun _ => Neutral_Balanced _ _ hn1⟩

end elemental

namespace elemental

theorem CreateFileSystemImage_size_run (env : Env) (cnst : Cnst) (img : Image)
    (rootDir : Str) (t : Trace) :
    ∃ es img1 err, CreateFileSystemImage.size env cnst img rootDir t = (t ++ es, img1, err) ∧
      (∀ ev ∈ es, ev.call.isInert = true) ∧
      img1.MountPoint = img.MountPoint ∧ img1.LoopDevice = img.LoopDevice ∧
      img1.File = img.File ∧ img1.FS = img.FS := by
  unfold CreateFileSystemImage.size
  by_cases hs : img.Size = 0 ∧ rootDir ≠ []
  · rw [if_pos hs]
    simp only [utils.DirSizeMB]
    obtain ⟨r2, hr2⟩ := perform_ex env (.DirSizeMB rootDir) t
    simp only [hr2]
    rcases h2 : r2.err with _ | msg
    · refine ⟨_, _, _, rfl, ?_⟩
      exact ⟨by simp [Call.isInert], rfl, rfl, rfl, rfl⟩
    · refine ⟨_, _, _, rfl, ?_⟩
      exact ⟨by simp [Call.isInert], rfl, rfl, rfl, rfl⟩
  · rw [if_neg hs]
    exact ⟨[], img, none, by simp, by simp, rfl, rfl, rfl, rfl⟩

theorem CreateFileSystemImage_format_run (env : Env) (img : Image) (rootDir : Str)
    (preload : Bool) (t : Trace) :
    ∃ es err, CreateFileSystemImage.format env img rootDir preload t = (t ++ es, img, err) ∧
      (∀ ev ∈ es, ev.call.isInert = true) := by
  unfold CreateFileSystemImage.format
  simp only [utils.CreateRAWFile, partitioner.MkfsApply, Fs.RemoveAll, performErr]
  obtain ⟨r3, hr3⟩ := perform_ex env (.CreateRAWFile img.File img.Size) t
  simp only [hr3]
  rcases h3 : r3.err with _ | msg
  · simp only [Option.map_none']
    split
    · exact ⟨_, _, rfl, by simp [Call.isInert]⟩
    · generalize (if (preload && regexp.MatchExt24 img.FS) = true
        then ["-d".toList, rootDir] else []) = extraOpts
      obtain ⟨r4, hr4⟩ := perform_ex env (.MkfsApply img.File img.FS img.Label extraOpts)
        (t ++ [⟨.CreateRAWFile img.File img.Size, r3⟩])
      simp only [hr4]
      rcases h4 : r4.err with _ | msg
      · exact ⟨_, _, by simp only [List.append_assoc, Option.map_none']; rfl,
          by simp [Call.isInert]⟩
      · obtain ⟨r5, hr5⟩ := perform_ex env (.RemoveAll img.File)
          (t ++ [⟨.CreateRAWFile img.File img.Size, r3⟩] ++
            [⟨.MkfsApply img.File img.FS img.Label extraOpts, r4⟩])
        simp only [hr5, Option.map_some']
        exact ⟨_, _, by simp only [List.append_assoc]; rfl, by simp [Call.isInert]⟩
  · exact ⟨_, _, rfl, by simp [Call.isInert]⟩

theorem CreateFileSystemImage_run (env : Env) (cnst : Cnst) (img : Image) (rootDir : Str)
    (preload : Bool) (t : Trace) :
    ∃ es img1 err, CreateFileSystemImage env cnst img rootDir preload t = (t ++ es, img1, err) ∧
      (∀ ev ∈ es, ev.call.isInert = true) ∧
      img1.MountPoint = img.MountPoint ∧ img1.LoopDevice = img.LoopDevice ∧
      img1.File = img.File ∧ img1.FS = img.FS := by
  unfold CreateFileSystemImage
  simp only [utils.MkdirAll]
  obtain ⟨r1, hr1⟩ := performErr_ex env (.MkdirAll (filepath.Dir img.File)) t
  simp only [hr1]
  rcases h1 : r1.err with _ | msg
  · simp only [Option.map_none']
    obtain ⟨es, img1, err, hsz, hin, hm, hl, hf, hfs⟩ := CreateFileSystemImage_size_run env cnst
      img rootDir (t ++ [⟨.MkdirAll (filepath.Dir img.File), r1⟩])
    simp only [hsz]
    cases err with
    | some err =>
      refine ⟨[⟨.MkdirAll (filepath.Dir img.File), r1⟩] ++ es, _, _,
        by simp only [List.append_assoc]; rfl, ?_, hm, hl, hf, hfs⟩
      intro ev hev
      rcases List.mem_append.1 hev with h | h
      · rw [List.mem_singleton.1 h]; rfl
      · exact hin ev h
    | none =>
      simp only []
      obtain ⟨es2, err2, hfmt, hin2⟩ := CreateFileSystemImage_format_run env img1 rootDir
        preload (t ++ [⟨.MkdirAll (filepath.Dir img.File), r1⟩] ++ es)
      rw [hfmt]
      refine ⟨[⟨.MkdirAll (filepath.Dir img.File), r1⟩] ++ es ++ es2, _, _,
        by simp only [List.append_assoc]; rfl, ?_, hm, hl, hf, hfs⟩
      intro ev hev
      rcases List.mem_append.1 hev with h | h
      · rcases List.mem_append.1 h with h | h
        · rw [List.mem_singleton.1 h]; rfl
        · exact hin ev h
      · exact hin2 ev h
  · refine ⟨_, _, _, rfl, ?_⟩
    exact ⟨by simp [Call.isInert], rfl, rfl, rfl, rfl⟩

end elemental

namespace elemental

theorem unmounted_clear (merge : Bool) (env : Env) (hc : Env.consistent merge env)
    (img img1 img2 : Image) (opts : List Str) (es mid es3 : List Event) (t : Trace)
    (hrel : ImageMounting img opts es img1 none) (hopts : "remount".toList ∉ opts)
    (hmid : Neutral merge mid)
    (hu : UnmountFileSystemImage env img1 (t ++ es ++ mid) = (t ++ es ++ mid ++ es3, img2, none))
    (tbl : List MountPoint) :
    ∀ m ∈ (es ++ mid ++ es3).foldl (mountStep merge) tbl, m.Path ≠ img.MountPoint := by
  obtain ⟨es4, img4, err4, h, hrel3, hhead⟩ := UnmountFileSystemImage_run env img1 (t ++ es ++ mid)
  rw [hu] at h
  simp only [Prod.mk.injEq, List.append_cancel_left_eq] at h
  obtain ⟨rfl, rfl, rfl⟩ := h
  obtain ⟨loop, hi, htbl0, -⟩ :=
    ImageMounting_mounted merge img img1 opts es hrel hopts (mountTable merge t) []
  obtain ⟨loop2, -, htbl, -⟩ := ImageMounting_mounted merge img img1 opts es hrel hopts tbl []
  have hmp : img1.MountPoint = img.MountPoint := by rw [hi]
  have hin : ∃ m ∈ mountTable merge (t ++ es ++ mid), m.Path = img1.MountPoint := by
    rw [mountTable_append, mountTable_append, htbl0, (hmid _ []).1]
    exact ⟨_, List.mem_append_right _ (List.mem_singleton.2 rfl), by rw [hi]⟩
  obtain ⟨r1, r2, rest, hes, hok, hfail⟩ :=
    ImageUnmounting_seen merge env hc img1 img2 (t ++ es ++ mid) es3 none hrel3 hhead hin
  have h2 : r2.err = none := by
    cases hr : r2.err with
    | none => rfl
    | some msg => exact absurd (hfail msg hr).2.2 (by simp)
  obtain ⟨-, r3, hrest, -⟩ := hok h2
  rw [hes, hrest, List.foldl_append, List.foldl_append, htbl, (hmid _ []).1]
  simp only [List.foldl_cons, List.foldl_nil]
  rw [mountStep_other, mountStep_unmount_ok _ _ _ _ h2, mountStep_other, hmp]
  · intro m hm
    exact of_decide_eq_true (List.mem_filter.1 hm).2
  all_goals (intros; simp)

theorem CreateImageFromTree_nil (env : Env) (c : Config) (cnst : Cnst) (img : Image)
    (rootDir : Str) (preload : Bool) (t : Trace) :
    CreateImageFromTree env c cnst img rootDir preload [] t =
      CreateImageFromTree.unmount env
        (CreateImageFromTree.body env c cnst img rootDir preload t) := by
  unfold CreateImageFromTree
  rcases CreateImageFromTree.unmount env
    (CreateImageFromTree.body env c cnst img rootDir preload t) with ⟨t1, img1, err⟩
  rfl

end elemental

namespace elemental

theorem inert_append (es1 es2 : List Event) (h1 : ∀ ev ∈ es1, ev.call.isInert = true)
    (h2 : ∀ ev ∈ es2, ev.call.isInert = true) :
    ∀ ev ∈ es1 ++ es2, ev.call.isInert = true := by
  intro ev hev
  rcases List.mem_append.1 hev with h | h
  · exact h1 ev h
  · exact h2 ev h

theorem CreateImageFromTree_run (merge : Bool) (env : Env) (hc : Env.consistent merge env)
    (c : Config) (cnst : Cnst) (img : Image) (rootDir : Str) (preload : Bool) (t : Trace) :
    ∃ es img1 err,
      CreateImageFromTree env c cnst img rootDir preload [] t = (t ++ es, img1, err) ∧
      (releasesOk es → Balanced merge es) ∧
      (err = none →
        img1.LoopDevice =
          (if img.FS = cnst.SquashFs ∨ preload = true then img.LoopDevice else []) ∧
        (img.FS ≠ cnst.SquashFs → preload = false →
          ∀ tbl, ∀ m ∈ es.foldl (mountStep merge) tbl, m.Path ≠ img.MountPoint)) := by
  rw [CreateImageFromTree_nil]
  unfold CreateImageFromTree.body
  by_cases hsq : img.FS = cnst.SquashFs
  · rw [if_pos hsq]
    simp only [utils.MkdirAll, utils.CreateSquashFS]
    obtain ⟨r1, hr1⟩ := performErr_ex env (.MkdirAll (filepath.Dir img.File)) t
    simp only [hr1]
    rcases h1 : r1.err with _ | msg
    · simp only [Option.map_none']
      obtain ⟨r2, hr2⟩ := performErr_ex env
        (.CreateSquashFS rootDir img.File
          (cnst.DefaultSquashfsOptions ++ c.SquashFsCompressionConfig))
        (t ++ [⟨.MkdirAll (filepath.Dir img.File), r1⟩])
      simp only [hr2]
      rcases h2 : r2.err with _ | msg
      · refine ⟨_, _, _, by
          simp only [Option.map_none', CreateImageFromTree.unmount, List.append_assoc]; rfl,
          fun _ => Neutral_Balanced _ _ (Neutral_inert _ _ (by simp [Call.isInert])),
          fun _ => ⟨by simp [hsq], fun h => absurd hsq h⟩⟩
      · refine ⟨_, _, _, by
          simp only [Option.map_some', CreateImageFromTree.unmount, List.append_assoc]; rfl,
          fun _ => Neutral_Balanced _ _ (Neutral_inert _ _ (by simp [Call.isInert])),
          fun h => by cases h⟩
    · refine ⟨_, _, _, by
        simp only [Option.map_some', CreateImageFromTree.unmount]; rfl,
        fun _ => Neutral_Balanced _ _ (Neutral_inert _ _ (by simp [Call.isInert])),
        fun h => by cases h⟩
  · rw [if_neg hsq]
    obtain ⟨es1, img1, err1, h1, hin1, hm1, hl1, -, -⟩ :=
      CreateFileSystemImage_run env cnst img rootDir preload t
    simp only [h1]
    have hn1 : Neutral merge es1 := Neutral_inert merge es1 hin1
    cases err1 with
    | some err1 =>
      exact ⟨es1, img1, some err1, by simp only [CreateImageFromTree.unmount],
        fun _ => Neutral_Balanced _ _ hn1, fun h => by cases h⟩
    | none =>
      simp only []
      cases preload with
      | true =>
        refine ⟨es1, img1, none, by
          simp only [Bool.not_true, Bool.false_eq_true, if_false,
            CreateImageFromTree.unmount],
          fun _ => Neutral_Balanced _ _ hn1, fun _ => ⟨by simp [hl1], fun _ h => by cases h⟩⟩
      | false =>
        simp only [Bool.not_false, if_true]
        obtain ⟨es2, img2, err2, h2, hrel2⟩ :=
          MountFileSystemImage_run env img1 ["rw".toList] (t ++ es1)
        simp only [h2]
        cases err2 with
        | some err2 =>
          refine ⟨es1 ++ es2, img2, some err2, by
            simp only [CreateImageFromTree.unmount, List.append_assoc],
            fun hr => Balanced_append _ _ _ (Neutral_Balanced _ _ hn1)
              (ImageMounting_failed_Balanced merge _ _ _ _ err2 hrel2
                ((releasesOk_append _ _).1 hr).2),
            fun h => by cases h⟩
        | none =>
          simp only [utils.SyncData]
          obtain ⟨r3, hr3⟩ := performErr_ex env (.SyncData rootDir img2.MountPoint [])
            (t ++ es1 ++ es2)
          simp only [hr3]
          have hn3 : Neutral merge [(⟨.SyncData rootDir img2.MountPoint [], r3⟩ : Event)] :=
            Neutral_inert _ _ (by simp [Call.isInert])
          obtain ⟨es3, img3, err3, hu, hbal, hclear⟩ := unmount_after_mount merge env hc img1
            img2 ["rw".toList] es2 [⟨.SyncData rootDir img2.MountPoint [], r3⟩] (t ++ es1)
            hrel2 (by decide) hn3
          have htrace : t ++ es1 ++ es2 ++ [⟨.SyncData rootDir img2.MountPoint [], r3⟩] ++ es3 =
              t ++ (es1 ++ (es2 ++ [⟨.SyncData rootDir img2.MountPoint [], r3⟩] ++ es3)) := by
            simp only [List.append_assoc]
          have hb : releasesOk
              (es1 ++ (es2 ++ [⟨.SyncData rootDir img2.MountPoint [], r3⟩] ++ es3)) →
              Balanced merge
                (es1 ++ (es2 ++ [⟨.SyncData rootDir img2.MountPoint [], r3⟩] ++ es3)) :=
            fun hr => Balanced_append _ _ _ (Neutral_Balanced _ _ hn1)
              (hbal ((releasesOk_append _ _).1 ((releasesOk_append _ _).1 hr).2).2)
          rcases h3 : r3.err with _ | msg
          · simp only [Option.map_none', CreateImageFromTree.unmount, hu]
            cases err3 with
            | some err3 =>
              exact ⟨_, img3, some err3, by simp only [htrace], hb, fun h => by cases h⟩
            | none =>
              refine ⟨_, img3, none, by simp only [htrace], hb, fun _ => ⟨?_, ?_⟩⟩
              · rw [hclear rfl, if_neg]
                rintro (h | h)
                · exact hsq h
                · cases h
              · intro _ _ tbl m hm
                rw [List.foldl_append, (hn1 tbl []).1] at hm
                have := unmounted_clear merge env hc img1 img2 img3 ["rw".toList] es2
                  [⟨.SyncData rootDir img2.MountPoint [], r3⟩] es3 (t ++ es1) hrel2
                  (by decide) hn3 hu tbl m hm
                rw [hm1] at this
                exact this
          · simp only [Option.map_some', CreateImageFromTree.unmount, hu]
            cases err3 with
            | some err3 =>
              exact ⟨_, img3, some (.plain msg), by simp only [htrace], hb, fun h => by cases h⟩
            | none =>
              exact ⟨_, img3, some (.plain msg), by simp only [htrace], hb, fun h => by cases h⟩

end elemental

namespace elemental

theorem cleaner_run (env : Env) (root tmp : Str) (t : Trace) :
    ∃ r1 es2 err,
      DeployImgTree.cleaner env root tmp t = (t ++ ⟨.Unmount root, r1⟩ :: es2, err) ∧
      (∀ ev ∈ es2, ev.call.isInert = true) ∧
      (err = none → ∃ r2 r3, es2 = [⟨.RemoveAll root, r2⟩, ⟨.RemoveAll tmp, r3⟩] ∧
        r2.err = none ∧ r3.err = none) := by
  unfold DeployImgTree.cleaner
  simp only [Mounter.Unmount, Fs.RemoveAll]
  obtain ⟨r1, hr1⟩ := performErr_ex env (.Unmount root) t
  simp only [hr1]
  obtain ⟨r2, hr2⟩ := performErr_ex env (.RemoveAll root) (t ++ [⟨.Unmount root, r1⟩])
  simp only [hr2]
  rcases h2 : r2.err with _ | msg
  · simp only [Option.map_none']
    obtain ⟨r3, hr3⟩ := performErr_ex env (.RemoveAll tmp)
      (t ++ [⟨.Unmount root, r1⟩] ++ [⟨.RemoveAll root, r2⟩])
    rw [hr3]
    refine ⟨r1, [⟨.RemoveAll root, r2⟩, ⟨.RemoveAll tmp, r3⟩], _, by
      simp only [List.append_assoc]; rfl, by simp [Call.isInert], fun h => ?_⟩
    exact ⟨r2, r3, rfl, h2, (map_plain_eq_none _).1 h⟩
  · simp only [Option.map_some']
    exact ⟨r1, [⟨.RemoveAll root, r2⟩], _, by simp only [List.append_assoc]; rfl,
      by simp [Call.isInert], fun h => by cases h⟩

theorem bind_closed (merge : Bool) (tmp root : Str) (rm ru : Response) (mid es2 : List Event)
    (hm : rm.err = none) (hu : ru.err = none) (hmid : Balanced merge mid)
    (h2 : ∀ ev ∈ es2, ev.call.isInert = true) :
    Balanced merge
      ([⟨.Mount tmp root "bind".toList ["bind".toList], rm⟩] ++ mid ++
        ⟨.Unmount root, ru⟩ :: es2) := by
  intro tbl loops
  have hn2 := Neutral_inert merge es2 h2
  have hm1 : ∀ tbl, es2.foldl (mountStep merge) tbl = tbl := fun tbl => (hn2 tbl []).1
  have hm2 : ∀ loops, es2.foldl loopStep loops = loops := fun loops => (hn2 [] loops).2
  simp only [List.foldl_append, List.foldl_cons, List.foldl_nil, hm1, hm2]
  constructor
  · rw [mountStep_unmount_ok _ _ _ _ hu, mountStep_mount_ok _ _ _ _ _ _ _ hm (by decide)]
    refine (((hmid _ []).1).filter _).trans ?_
    rw [List.filter_append]
    simp only [ne_eq, not_true_eq_false, decide_False, Bool.false_eq_true,
      not_false_eq_true, List.filter_cons_of_neg, List.filter_nil, List.append_nil]
    exact List.filter_sublist _
  · rw [loopStep_other, loopStep_other]
    · exact (hmid [] _).2
    all_goals (intros; simp)

theorem CreateImageFromTree_split (env : Env) (c : Config) (cnst : Cnst) (img : Image)
    (rootDir : Str) (preload : Bool) (cleaners : List Cleaner) (t : Trace) :
    CreateImageFromTree env c cnst img rootDir preload cleaners t =
      ((invokeAll cleaners (CreateImageFromTree env c cnst img rootDir preload [] t).1).1,
       (CreateImageFromTree env c cnst img rootDir preload [] t).2.1,
       firstError ((CreateImageFromTree env c cnst img rootDir preload [] t).2.2 ::
         (invokeAll cleaners
           (CreateImageFromTree env c cnst img rootDir preload [] t).1).2)) := by
  unfold CreateImageFromTree
  rcases CreateImageFromTree.unmount env
    (CreateImageFromTree.body env c cnst img rootDir preload t) with ⟨t1, img1, err⟩
  simp only [cleanup_eq_invokeAll, invokeAll]
  cases err <;> rfl

end elemental

namespace elemental

theorem DeployImgTree_run (merge : Bool) (env : Env) (hc : Env.consistent merge env)
    (c : Config) (cnst : Cnst) (img : Image) (root : Str) (t : Trace) :
    ∃ es res, DeployImgTree env c cnst img root t = (t ++ es, res) ∧
      (∀ err, res = .error err → releasesOk es → Balanced merge es) ∧
      (∀ cleaner, res = .ok cleaner →
        cleaner = DeployImgTree.cleaner env root
          (strings.TrimSuffix img.File (filepath.Ext img.File) ++ ".imgTree".toList) ∧
        ∃ r1 r2 rm mid,
          es = [⟨.MkdirAll (strings.TrimSuffix img.File (filepath.Ext img.File) ++
                  ".imgTree".toList), r1⟩, ⟨.MkdirAll root, r2⟩] ++
            ([⟨.Mount (strings.TrimSuffix img.File (filepath.Ext img.File) ++
                  ".imgTree".toList) root "bind".toList ["bind".toList], rm⟩] ++ mid) ∧
          rm.err = none ∧ (releasesOk mid → Balanced merge mid)) := by
  unfold DeployImgTree
  generalize strings.TrimSuffix img.File (filepath.Ext img.File) ++ ".imgTree".toList = tmp
  simp only [utils.MkdirAll, Mounter.Mount, Fs.RemoveAll, utils.CreateDirStructure]
  obtain ⟨r1, hr1⟩ := performErr_ex env (.MkdirAll tmp) t
  simp only [hr1]
  rcases h1 : r1.err with _ | msg
  · simp only [Option.map_none']
    obtain ⟨r2, hr2⟩ := performErr_ex env (.MkdirAll root) (t ++ [⟨.MkdirAll tmp, r1⟩])
    simp only [hr2]
    have hn2 : Neutral merge [(⟨.MkdirAll tmp, r1⟩ : Event), ⟨.MkdirAll root, r2⟩] :=
      Neutral_inert _ _ (by simp [Call.isInert])
    rcases h2 : r2.err with _ | msg
    · simp only [Option.map_none']
      obtain ⟨rm, hrm⟩ := performErr_ex env (.Mount tmp root "bind".toList ["bind".toList])
        (t ++ [⟨.MkdirAll tmp, r1⟩] ++ [⟨.MkdirAll root, r2⟩])
      simp only [hrm]
      rcases hm : rm.err with _ | msg
      · simp only [Option.map_none']
        obtain ⟨esd, errd, hd, hbd⟩ := DumpSource_run merge env hc c cnst root img.Source
          (t ++ [⟨.MkdirAll tmp, r1⟩] ++ [⟨.MkdirAll root, r2⟩] ++
            [⟨.Mount tmp root "bind".toList ["bind".toList], rm⟩])
        simp only [hd]
        cases errd with
        | some errd =>
          simp only []
          obtain ⟨ru, es2, cerr, hcl, hin2, -⟩ := cleaner_run env root tmp
            (t ++ [⟨.MkdirAll tmp, r1⟩] ++ [⟨.MkdirAll root, r2⟩] ++
              [⟨.Mount tmp root "bind".toList ["bind".toList], rm⟩] ++ esd)
          simp only [hcl]
          refine ⟨[⟨.MkdirAll tmp, r1⟩, ⟨.MkdirAll root, r2⟩] ++
            ([⟨.Mount tmp root "bind".toList ["bind".toList], rm⟩] ++ esd ++
              ⟨.Unmount root, ru⟩ :: es2), _, by
            simp only [List.append_assoc, List.cons_append, List.nil_append]; rfl,
            fun err _ hr => ?_, fun cl h => by cases h⟩
          have hr2 := ((releasesOk_append _ _).1 hr).2
          have hu : ru.err = none := releasesOk_unmount _ root ru hr2 (by simp)
          exact Balanced_append _ _ _ (Neutral_Balanced _ _ hn2)
            (bind_closed merge tmp root rm ru esd es2 hm hu
              (hbd fun ev hev => hr2 ev (by simp [hev])) hin2)
        | none =>
          simp only []
          obtain ⟨r4, hr4⟩ := performErr_ex env (.CreateDirStructure root)
            (t ++ [⟨.MkdirAll tmp, r1⟩] ++ [⟨.MkdirAll root, r2⟩] ++
              [⟨.Mount tmp root "bind".toList ["bind".toList], rm⟩] ++ esd)
          simp only [hr4]
          have hb4 : releasesOk (esd ++ [⟨.CreateDirStructure root, r4⟩]) →
              Balanced merge (esd ++ [⟨.CreateDirStructure root, r4⟩]) := fun hr =>
            Balanced_append _ _ _ (hbd ((releasesOk_append _ _).1 hr).1)
              (Neutral_Balanced _ _ (Neutral_inert _ _ (by simp [Call.isInert])))
          rcases h4 : r4.err with _ | msg
          · simp only [Option.map_none']
            refine ⟨[⟨.MkdirAll tmp, r1⟩, ⟨.MkdirAll root, r2⟩] ++
              ([⟨.Mount tmp root "bind".toList ["bind".toList], rm⟩] ++
                (esd ++ [⟨.CreateDirStructure root, r4⟩])), _, by
              simp only [List.append_assoc, List.cons_append, List.nil_append]; rfl,
              fun err h => (by cases h), fun cl h => ?_⟩
            cases h
            exact ⟨rfl, r1, r2, rm, _, rfl, hm, hb4⟩
          · simp only [Option.map_some']
            obtain ⟨ru, es2, cerr, hcl, hin2, -⟩ := cleaner_run env root tmp
              (t ++ [⟨.MkdirAll tmp, r1⟩] ++ [⟨.MkdirAll root, r2⟩] ++
                [⟨.Mount tmp root "bind".toList ["bind".toList], rm⟩] ++ esd ++
                [⟨.CreateDirStructure root, r4⟩])
            simp only [hcl]
            refine ⟨[⟨.MkdirAll tmp, r1⟩, ⟨.MkdirAll root, r2⟩] ++
              ([⟨.Mount tmp root "bind".toList ["bind".toList], rm⟩] ++
                (esd ++ [⟨.CreateDirStructure root, r4⟩]) ++
                ⟨.Unmount root, ru⟩ :: es2), _, by
              simp only [List.append_assoc, List.cons_append, List.nil_append]; rfl,
              fun err _ hr => ?_, fun cl h => by cases h⟩
            have hr2 := ((releasesOk_append _ _).1 hr).2
            have hu : ru.err = none := releasesOk_unmount _ root ru hr2 (by simp)
            exact Balanced_append _ _ _ (Neutral_Balanced _ _ hn2)
              (bind_closed merge tmp root rm ru _ es2 hm hu
                (hb4 fun ev hev => hr2 ev (by
                  simp only [List.mem_append, List.mem_cons, List.mem_singleton] at hev ⊢
                  tauto)) hin2)
      · simp only [Option.map_some']
        obtain ⟨r4, hr4⟩ := performErr_ex env (.RemoveAll tmp)
          (t ++ [⟨.MkdirAll tmp, r1⟩] ++ [⟨.MkdirAll root, r2⟩] ++
            [⟨.Mount tmp root "bind".toList ["bind".toList], rm⟩])
        simp only [hr4]
        obtain ⟨r5, hr5⟩ := performErr_ex env (.RemoveAll root)
          (t ++ [⟨.MkdirAll tmp, r1⟩] ++ [⟨.MkdirAll root, r2⟩] ++
            [⟨.Mount tmp root "bind".toList ["bind".toList], rm⟩] ++ [⟨.RemoveAll tmp, r4⟩])
        simp only [hr5]
        refine ⟨[⟨.MkdirAll tmp, r1⟩, ⟨.MkdirAll root, r2⟩,
          ⟨.Mount tmp root "bind".toList ["bind".toList], rm⟩, ⟨.RemoveAll tmp, r4⟩,
          ⟨.RemoveAll root, r5⟩], _, by
          simp only [List.append_assoc, List.cons_append, List.nil_append]; rfl,
          fun err _ _ => ?_, fun cl h => by cases h⟩
        intro tbl loops
        simp only [List.foldl_cons, List.foldl_nil]
        constructor
        · rw [mountStep_other, mountStep_other, mountStep_failed _ _ _ msg hm, mountStep_other,
            mountStep_other]
          all_goals (intros; simp)
        · rw [loopStep_other, loopStep_other, loopStep_other, loopStep_other, loopStep_other]
          all_goals (intros; simp)
    · simp only [Option.map_some']
      obtain ⟨r4, hr4⟩ := performErr_ex env (.RemoveAll tmp)
        (t ++ [⟨.MkdirAll tmp, r1⟩] ++ [⟨.MkdirAll root, r2⟩])
      simp only [hr4]
      exact ⟨[⟨.MkdirAll tmp, r1⟩, ⟨.MkdirAll root, r2⟩, ⟨.RemoveAll tmp, r4⟩], _, by
          simp only [List.append_assoc, List.cons_append, List.nil_append]; rfl,
        fun err _ _ => Neutral_Balanced _ _ (Neutral_inert _ _ (by simp [Call.isInert])),
        fun cl h => by cases h⟩
  · simp only [Option.map_some']
    exact ⟨[⟨.MkdirAll tmp, r1⟩], _, rfl,
      fun err _ _ => Neutral_Balanced _ _ (Neutral_inert _ _ (by simp [Call.isInert])),
      fun cl h => by cases h⟩

end elemental

namespace elemental

theorem Balanced_tables (merge : Bool) (t : Trace) (es : List Event)
    (h : Balanced merge es) :
    (mountTable merge (t ++ es)).Sublist (mountTable merge t) ∧
    (openLoops (t ++ es)).Sublist (openLoops t) := by
  rw [mountTable_append, openLoops_append]
  exact h _ _

theorem firstError_pair (a b : Option GoError) (h : firstError [a, b] = none) :
    a = none ∧ b = none := by
  have := (firstError_eq_none [a, b]).1 h
  exact ⟨this a (by simp), this b (by simp)⟩

theorem DeployImage_run (merge : Bool) (env : Env) (hc : Env.consistent merge env)
    (c : Config) (cnst : Cnst) (img : Image) (t : Trace) :
    ∃ es img1 err, DeployImage env c cnst img t = (t ++ es, img1, err) ∧
      (releasesOk es → Balanced merge es) ∧
      (err = none →
        img1.LoopDevice = (if img.FS = cnst.SquashFs then img.LoopDevice else []) ∧
        ∃ pre r1 r2 r3,
          es = pre ++ [⟨.Unmount cnst.WorkingImgDir, r1⟩, ⟨.RemoveAll cnst.WorkingImgDir, r2⟩,
            ⟨.RemoveAll (strings.TrimSuffix img.File (filepath.Ext img.File) ++
              ".imgTree".toList), r3⟩] ∧
          r2.err = none ∧ r3.err = none ∧
          (img.FS ≠ cnst.SquashFs →
            ∀ m ∈ pre.foldl (mountStep merge) (mountTable merge t),
              m.Path ≠ img.MountPoint)) := by
  unfold DeployImage
  obtain ⟨est, res, ht, herr, hok⟩ := DeployImgTree_run merge env hc c cnst img
    cnst.WorkingImgDir t
  rw [ht]
  generalize strings.TrimSuffix img.File (filepath.Ext img.File) ++ ".imgTree".toList = tmp
    at hok ⊢
  cases res with
  | error e =>
    exact ⟨est, img, some e, rfl, herr e rfl, fun h => by cases h⟩
  | ok cleaner =>
    obtain ⟨hcl, r1, r2, rm, mid, hest, hrm, hmid⟩ := hok cleaner rfl
    simp only []
    rw [CreateImageFromTree_split]
    obtain ⟨esc, img1, errc, hcr, hbc, hsucc⟩ := CreateImageFromTree_run merge env hc c cnst img
      cnst.WorkingImgDir false (t ++ est)
    rw [hcr, hcl]
    simp only [invokeAll]
    obtain ⟨ru, es2, cerr, hrun, hin2, hdone⟩ := cleaner_run env cnst.WorkingImgDir tmp
      (t ++ est ++ esc)
    rw [hrun]
    simp only []
    have hn2 : Neutral merge
        [(⟨.MkdirAll tmp, r1⟩ : Event), ⟨.MkdirAll cnst.WorkingImgDir, r2⟩] :=
      Neutral_inert _ _ (by simp [Call.isInert])
    have hbal : releasesOk (est ++ esc ++ ⟨.Unmount cnst.WorkingImgDir, ru⟩ :: es2) →
        Balanced merge (est ++ esc ++ ⟨.Unmount cnst.WorkingImgDir, ru⟩ :: es2) := by
      intro hr
      have hu : ru.err = none := releasesOk_unmount _ cnst.WorkingImgDir ru hr (by simp)
      have hrm2 : releasesOk mid := fun ev hev => hr ev (by rw [hest]; simp [hev])
      have hrc : releasesOk esc := fun ev hev => hr ev (by simp [hev])
      have := Balanced_append _ _ _ (Neutral_Balanced _ _ hn2)
        (bind_closed merge tmp cnst.WorkingImgDir rm ru (mid ++ esc) es2 hrm hu
          (Balanced_append _ _ _ (hmid hrm2) (hbc hrc)) hin2)
      rw [hest]
      simp only [List.append_assoc, List.cons_append, List.nil_append] at this ⊢
      exact this
    have hres : ∀ e : Option GoError,
        (match ((t ++ est ++ esc ++ ⟨.Unmount cnst.WorkingImgDir, ru⟩ :: es2, img1, e) :
            Trace × Image × Option GoError) with
          | (t, img, some err) => (t, img, some err)
          | (t, img, none) => (t, img, none)) =
        (t ++ (est ++ esc ++ ⟨.Unmount cnst.WorkingImgDir, ru⟩ :: es2), img1, e) := by
      intro e
      cases e <;> simp only [List.append_assoc]
    refine ⟨est ++ esc ++ ⟨.Unmount cnst.WorkingImgDir, ru⟩ :: es2, img1,
      firstError [errc, cerr], ?_, hbal,
      fun he => ?_⟩
    · exact hres _
    · obtain ⟨he1, he2⟩ := firstError_pair _ _ he
      obtain ⟨r3, r4, hes2, h3, h4⟩ := hdone he2
      obtain ⟨hld, hclear⟩ := hsucc he1
      refine ⟨by simpa using hld, est ++ esc, ru, r3, r4, by rw [hes2], h3, h4,
        fun hsq m hm => ?_⟩
      rw [List.foldl_append, ← mountTable_append] at hm
      exact hclear hsq rfl _ m hm

end elemental

namespace elemental

theorem cleaner_events_table (merge : Bool) (root tmp : Str) (r1 r2 r3 : Response)
    (tbl : List MountPoint) :
    ([⟨.Unmount root, r1⟩, ⟨.RemoveAll root, r2⟩, ⟨.RemoveAll tmp, r3⟩] : List Event).foldl
        (mountStep merge) tbl =
      if r1.err = none then tbl.filter fun m => decide (m.Path ≠ root) else tbl := by
  simp only [List.foldl_cons, List.foldl_nil]
  rw [mountStep_other, mountStep_other]
  · cases h : r1.err with
    | none => rw [mountStep_unmount_ok _ _ _ _ h, if_pos rfl]
    | some msg => rw [mountStep_failed _ _ _ msg h, if_neg (by simp)]
  all_goals (intros; simp)

/-- C16: with a mounter that answers from the mount table, `DeployImage` leaves
no mount and no loop device behind that was not there before, on success and on
failure, provided every unmount and every `losetup -d` among its calls
succeeded. When it returns nil the cleaner has run last: the two temporary
trees were removed without error after the unmount of the working root, and the
working root has no entry in the mount table provided that unmount succeeded,
the result of which the cleaner drops. When it returns nil for an image whose
filesystem is not squashfs, the image has no entry in the mount table and
`img.LoopDevice` is empty; a squashfs image is never mounted and keeps its
`LoopDevice`. The same proviso gives the absence of leaks after a failure of
`DeployImgTree` and after every call of `CreateImageFromTree` without
cleaners. -/
theorem DeployImage_releases (merge : Bool) (env : Env) (c : Config) (cnst : Cnst)
    (img : Image) (t : Trace) (hc : Env.consistent merge env) :
    (∃ es, (DeployImage env c cnst img t).1 = t ++ es ∧
      (releasesOk es →
        (mountTable merge (DeployImage env c cnst img t).1).Sublist (mountTable merge t) ∧
        (openLoops (DeployImage env c cnst img t).1).Sublist (openLoops t)) ∧
      ((DeployImage env c cnst img t).2.2 = none →
        (DeployImage env c cnst img t).2.1.LoopDevice =
          (if img.FS = cnst.SquashFs then img.LoopDevice else []) ∧
        (img.FS ≠ cnst.SquashFs →
          ∀ m ∈ mountTable merge (DeployImage env c cnst img t).1,
            m.Path ≠ img.MountPoint) ∧
        ∃ pre r1 r2 r3,
          es = pre ++ [⟨.Unmount cnst.WorkingImgDir, r1⟩,
            ⟨.RemoveAll cnst.WorkingImgDir, r2⟩,
            ⟨.RemoveAll (strings.TrimSuffix img.File (filepath.Ext img.File) ++
              ".imgTree".toList), r3⟩] ∧
          r2.err = none ∧ r3.err = none ∧
          (r1.err = none →
            ∀ m ∈ mountTable merge (DeployImage env c cnst img t).1,
              m.Path ≠ cnst.WorkingImgDir))) ∧
    (∀ root, ∃ es, (DeployImgTree env c cnst img root t).1 = t ++ es ∧
      (errorOf (DeployImgTree env c cnst img root t).2 ≠ none → releasesOk es →
        (mountTable merge (DeployImgTree env c cnst img root t).1).Sublist
          (mountTable merge t) ∧
        (openLoops (DeployImgTree env c cnst img root t).1).Sublist (openLoops t))) ∧
    (∀ rootDir preload,
      ∃ es, (CreateImageFromTree env c cnst img rootDir preload [] t).1 = t ++ es ∧
      (releasesOk es →
        (mountTable merge
          (CreateImageFromTree env c cnst img rootDir preload [] t).1).Sublist
          (mountTable merge t) ∧
        (openLoops (CreateImageFromTree env c cnst img rootDir preload [] t).1).Sublist
          (openLoops t))) := by
  refine ⟨?_, fun root => ?_, fun rootDir preload => ?_⟩
  · obtain ⟨es, img1, err, h, hbal, hsucc⟩ := DeployImage_run merge env hc c cnst img t
    rw [h]
    refine ⟨es, rfl, fun hr => Balanced_tables merge t es (hbal hr), fun he => ?_⟩
    obtain ⟨hld, pre, r1, r2, r3, hes, h2, h3, hclear⟩ := hsucc he
    have htab : mountTable merge (t ++ es) =
        if r1.err = none then
          (pre.foldl (mountStep merge) (mountTable merge t)).filter
            fun m => decide (m.Path ≠ cnst.WorkingImgDir)
        else pre.foldl (mountStep merge) (mountTable merge t) := by
      rw [hes, mountTable_append, List.foldl_append, cleaner_events_table]
    refine ⟨hld, fun hsq m hm => ?_, pre, r1, r2, r3, hes, h2, h3, fun h1 m hm => ?_⟩
    · simp only [htab] at hm
      split at hm
      · exact hclear hsq m (List.mem_filter.1 hm).1
      · exact hclear hsq m hm
    · simp only [htab, if_pos h1] at hm
      exact of_decide_eq_true (List.mem_filter.1 hm).2
  · obtain ⟨es, res, h, herr, -⟩ := DeployImgTree_run merge env hc c cnst img root t
    rw [h]
    refine ⟨es, rfl, fun he hr => ?_⟩
    cases res with
    | error e => exact Balanced_tables merge t es (herr e rfl hr)
    | ok cl => exact absurd rfl he
  · obtain ⟨es, img1, err, h, hbal, -⟩ :=
      CreateImageFromTree_run merge env hc c cnst img rootDir preload t
    rw [h]
    exact ⟨es, rfl, fun hr => Balanced_tables merge t es (hbal hr)⟩

set_option maxRecDepth 100000 in
/-- C16 does not hold as stated: with a mounter whose unmounts fail while
every other call succeeds, deploying a squashfs image returns nil, the error
of the unmount of the working root being dropped by the cleaner, and the bind
mount of the working root is still in the mount table. -/
theorem DeployImage_success_root_mounted :
    Env.consistent false (Env.fake false unmountFails) ∧
    (DeployImage (Env.fake false unmountFails) sampleConfig sampleCnst
      (sampleImage "squashfs".toList) []).2.2 = none ∧
    mountTable false (DeployImage (Env.fake false unmountFails) sampleConfig sampleCnst
      (sampleImage "squashfs".toList) []).1 =
      [⟨"/s/a.imgTree".toList, "/run/work".toList, "bind".toList, ["bind".toList]⟩] :=
  ⟨fake_consistent false unmountFails, by decide, by decide⟩

set_option maxRecDepth 100000 in
/-- C16, at a concrete input: deploying the sample ext4 image with a mounter
that never fails leaves the mount table and the loop devices empty and
`LoopDevice` empty. -/
theorem DeployImage_releases_witness :
    Env.consistent false (Env.fake false noFailure) ∧
    (DeployImage (Env.fake false noFailure) sampleConfig sampleCnst
      (sampleImage "ext4".toList) []).2.2 = none ∧
    mountTable false (DeployImage (Env.fake false noFailure) sampleConfig sampleCnst
      (sampleImage "ext4".toList) []).1 = [] ∧
    openLoops (DeployImage (Env.fake false noFailure) sampleConfig sampleCnst
      (sampleImage "ext4".toList) []).1 = [] ∧
    (DeployImage (Env.fake false noFailure) sampleConfig sampleCnst
      (sampleImage "ext4".toList) []).2.1.LoopDevice =
      (if (sampleImage "ext4".toList).FS = sampleCnst.SquashFs
        then (sampleImage "ext4".toList).LoopDevice else []) :=
  ⟨fake_consistent false noFailure, by decide, by decide, by decide,
    (((DeployImage_releases false (Env.fake false noFailure) sampleConfig sampleCnst
      (sampleImage "ext4".toList) [] (fake_consistent false noFailure)).1.choose_spec).2.2
        (by decide)).1⟩

end elemental

namespace elemental

theorem unmountFailure_ne_nil (part : Partition) : unmountFailure part ≠ [] := by
  simp [unmountFailure]

theorem UnmountPartitions_loop_attempts (env : Env) (parts : List Partition) (t : Trace)
    (errMsg : Str) (failure : Bool) :
    ∃ atts : List (List Event × Str),
      List.Forall₂ (fun part a => UnmountAttempt part a.1 a.2) parts atts ∧
      UnmountPartitions.loop env parts (t, errMsg, failure) =
        (t ++ attemptEvents atts, errMsg ++ (atts.map fun a => a.2).flatten,
          failure || decide ((atts.map fun a => a.2).flatten ≠ [])) := by
  induction parts generalizing t errMsg failure with
  | nil => exact ⟨[], .nil, by simp [UnmountPartitions.loop, attemptEvents]⟩
  | cons part parts ih =>
    unfold UnmountPartitions.loop
    by_cases hmp : part.MountPoint = []
    · rw [if_neg (not_not.2 hmp)]
      obtain ⟨atts, hall, h⟩ := ih t errMsg failure
      exact ⟨([], []) :: atts, .cons (.passed hmp) hall, by
        rw [h]; simp [attemptEvents]⟩
    · rw [if_pos hmp]
      obtain ⟨es, err, hu, hrel, -⟩ := UnmountPartition_run env part t
      rw [hu]
      cases err with
      | none =>
        obtain ⟨atts, hall, h⟩ := ih (t ++ es) errMsg failure
        exact ⟨(es, []) :: atts, .cons (.released es hmp hrel) hall, by
          simp only []; rw [h]; simp [attemptEvents]⟩
      | some err =>
        obtain ⟨atts, hall, h⟩ := ih (t ++ es)
          (errMsg ++ ("Failed to unmount ".toList ++ part.MountPoint ++ "\n".toList)) true
        exact ⟨(es, unmountFailure part) :: atts, .cons (.failed es err hmp hrel) hall, by
          simp only []
          rw [h]
          simp [attemptEvents, unmountFailure]⟩

theorem UnmountPartitions_run (env : Env) (parts : List Partition) (t : Trace) :
    ∃ atts : List (List Event × Str),
      List.Forall₂ (fun part a => UnmountAttempt part a.1 a.2) parts atts ∧
      UnmountPartitions env parts t =
        (t ++ attemptEvents atts,
          if (atts.map fun a => a.2).flatten = [] then none
          else some (.plain (atts.map fun a => a.2).flatten)) := by
  obtain ⟨atts, hall, h⟩ := UnmountPartitions_loop_attempts env parts t [] false
  refine ⟨atts, hall, ?_⟩
  unfold UnmountPartitions
  rw [h]
  by_cases hm : (atts.map fun a => a.2).flatten = []
  · simp [hm]
  · simp [hm]

/-- C22: the calls of `UnmountPartitions` are, in list order, those of one
attempt per partition, whatever the earlier attempts returned. A partition with
an empty mountpoint is passed over without any call. For every other partition
`UnmountPartition` runs: it asks whether the mountpoint is mounted and, when it
is, unmounts it. The message is the concatenation, in list order, of one line
`Failed to unmount <mountpoint>` followed by a newline for every partition
whose unmount failed; the result is nil when there is no such line and
otherwise a single error with that message. -/
theorem UnmountPartitions_attempts (env : Env) (parts : List Partition) (t : Trace) :
    ∃ atts : List (List Event × Str),
      List.Forall₂ (fun part a => UnmountAttempt part a.1 a.2) parts atts ∧
      (UnmountPartitions env parts t).1 = t ++ attemptEvents atts ∧
      (UnmountPartitions env parts t).2 =
        (if (atts.map fun a => a.2).flatten = [] then none
          else some (.plain (atts.map fun a => a.2).flatten)) ∧
      ((UnmountPartitions env parts t).2 = none ↔ ∀ a ∈ atts, a.2 = []) := by
  obtain ⟨atts, hall, h⟩ := UnmountPartitions_run env parts t
  refine ⟨atts, hall, by rw [h], by rw [h], ?_⟩
  rw [h]
  by_cases hm : (atts.map fun a => a.2).flatten = []
  · simp only [hm, if_true, true_iff]
    intro a ha
    have := List.flatten_eq_nil_iff.1 hm a.2 (List.mem_map_of_mem _ ha)
    exact this
  · simp only [hm, if_false, reduceCtorEq, false_iff]
    intro hall2
    apply hm
    rw [List.flatten_eq_nil_iff]
    intro l hl
    obtain ⟨a, ha, rfl⟩ := List.mem_map.1 hl
    exact hall2 a ha

end elemental

namespace elemental

theorem MountPartitions_loop_run (env : Env) (parts done : List Partition) (t : Trace) :
    (∃ atts : List (List Event × Partition),
      List.Forall₂ (fun part a => MountAttempt part a.1 a.2) parts atts ∧
      MountPartitions.loop env done parts t =
        (t ++ attemptEvents atts, done ++ atts.map (fun a => a.2), none)) ∨
    (∃ (pre post : List Partition) (part part1 : Partition)
        (atts : List (List Event × Partition)) (es : List Event) (err : GoError),
      parts = pre ++ part :: post ∧
      List.Forall₂ (fun part a => MountAttempt part a.1 a.2) pre atts ∧
      part.MountPoint ≠ [] ∧
      PartitionMounting part ["rw".toList] es part1 (some err) ∧
      MountPartitions.loop env done parts t =
        ((UnmountPartitions env (done ++ atts.map (fun a => a.2) ++ part1 :: post)
            (t ++ attemptEvents atts ++ es)).1,
          done ++ atts.map (fun a => a.2) ++ part1 :: post, some err)) := by
  induction parts generalizing done t with
  | nil =>
    exact .inl ⟨[], .nil, by simp [MountPartitions.loop, attemptEvents]⟩
  | cons part parts ih =>
    unfold MountPartitions.loop
    by_cases hmp : part.MountPoint = []
    · rw [if_neg (not_not.2 hmp)]
      rcases ih (done ++ [part]) t with ⟨atts, hall, h⟩ |
        ⟨pre, post, p, p1, atts, es, err, hparts, hall, hp, hrel, h⟩
      · exact .inl ⟨([], part) :: atts, .cons (.passed hmp) hall, by
          rw [h]; simp [attemptEvents]⟩
      · exact .inr ⟨part :: pre, post, p, p1, ([], part) :: atts, es, err, by rw [hparts]; rfl,
          .cons (.passed hmp) hall, hp, hrel, by rw [h]; simp [attemptEvents]⟩
    · rw [if_pos hmp]
      obtain ⟨es, part1, err, hm, hrel⟩ := MountPartition_run env part ["rw".toList] t
      rw [hm]
      cases err with
      | some err =>
        exact .inr ⟨[], parts, part, part1, [], es, err, rfl, .nil, hmp, hrel, by
          simp [attemptEvents]⟩
      | none =>
        simp only []
        rcases ih (done ++ [part1]) (t ++ es) with ⟨atts, hall, h⟩ |
          ⟨pre, post, p, p1, atts, es2, err, hparts, hall, hp, hrel2, h⟩
        · exact .inl ⟨(es, part1) :: atts, .cons (.mounted es part1 hmp hrel) hall, by
            rw [h]; simp [attemptEvents]⟩
        · exact .inr ⟨part :: pre, post, p, p1, (es, part1) :: atts, es2, err,
            by rw [hparts]; rfl, .cons (.mounted es part1 hmp hrel) hall, hp, hrel2, by
              rw [h]; simp [attemptEvents]⟩

/-- C21: `MountPartitions` goes one of two ways. Either every partition is
visited in list order, a partition with an empty mountpoint being passed over
without any call and every other one mounted by `MountPartition` with the
single option `rw`, and nil is returned. Or the partitions before some
partition `part` with a non-empty mountpoint are visited in that way,
`MountPartition` fails for `part`, and then the only further calls are those of
`UnmountPartitions` on the whole list, one attempt per partition in list order,
so no later partition is mounted; the error returned is the one of the failed
mount, whatever the unmounts returned. -/
theorem MountPartitions_fail_fast (env : Env) (parts : List Partition) (t : Trace) :
    (∃ atts : List (List Event × Partition),
      List.Forall₂ (fun part a => MountAttempt part a.1 a.2) parts atts ∧
      MountPartitions env parts t = (t ++ attemptEvents atts, atts.map (fun a => a.2), none)) ∨
    (∃ (pre post : List Partition) (part part1 : Partition)
        (atts : List (List Event × Partition)) (es : List Event) (err : GoError)
        (released : List (List Event × Str)),
      parts = pre ++ part :: post ∧
      List.Forall₂ (fun part a => MountAttempt part a.1 a.2) pre atts ∧
      part.MountPoint ≠ [] ∧
      PartitionMounting part ["rw".toList] es part1 (some err) ∧
      List.Forall₂ (fun part a => UnmountAttempt part a.1 a.2)
        (atts.map (fun a => a.2) ++ part1 :: post) released ∧
      MountPartitions env parts t =
        (t ++ attemptEvents atts ++ es ++ attemptEvents released,
          atts.map (fun a => a.2) ++ part1 :: post, some err)) := by
  unfold MountPartitions
  rcases MountPartitions_loop_run env parts [] t with ⟨atts, hall, h⟩ |
    ⟨pre, post, p, p1, atts, es, err, hparts, hall, hp, hrel, h⟩
  · exact .inl ⟨atts, hall, by rw [h]; simp⟩
  · obtain ⟨released, hrl, hu⟩ := UnmountPartitions_run env
      ([] ++ atts.map (fun a => a.2) ++ p1 :: post) (t ++ attemptEvents atts ++ es)
    refine .inr ⟨pre, post, p, p1, atts, es, err, released, hparts, hall, hp, hrel, ?_, ?_⟩
    · simpa using hrl
    · rw [h, hu]
      simp

end elemental

namespace elemental

theorem CreateFileSystemImage_size_cases (env : Env) (cnst : Cnst) (img : Image)
    (rootDir : Str) (t : Trace) :
    ∃ es img1 err, CreateFileSystemImage.size env cnst img rootDir t = (t ++ es, img1, err) ∧
      ImageSizing cnst img rootDir es img1 err := by
  unfold CreateFileSystemImage.size
  by_cases hs : img.Size = 0 ∧ rootDir ≠ []
  · rw [if_pos hs]
    simp only [utils.DirSizeMB]
    obtain ⟨r2, hr2⟩ := perform_ex env (.DirSizeMB rootDir) t
    simp only [hr2]
    rcases h2 : r2.err with _ | msg
    · exact ⟨_, _, _, rfl, .sized r2 hs.1 hs.2 h2⟩
    · exact ⟨_, _, _, rfl, .failed r2 msg hs.1 hs.2 h2⟩
  · rw [if_neg hs]
    exact ⟨[], img, none, by simp, .kept hs⟩

theorem CreateFileSystemImage_format_cases (env : Env) (img : Image) (rootDir : Str)
    (preload : Bool) (t : Trace) :
    ∃ es err, CreateFileSystemImage.format env img rootDir preload t = (t ++ es, img, err) ∧
      ImageFormatting img rootDir preload es err := by
  unfold CreateFileSystemImage.format
  simp only [utils.CreateRAWFile, partitioner.MkfsApply, Fs.RemoveAll, performErr]
  obtain ⟨r3, hr3⟩ := perform_ex env (.CreateRAWFile img.File img.Size) t
  simp only [hr3]
  rcases h3 : r3.err with _ | msg
  · simp only [Option.map_none']
    by_cases hu : (preload && !regexp.MatchExt24 img.FS) = true
    · rw [if_pos hu]
      simp only [Bool.and_eq_true, Bool.not_eq_true'] at hu
      exact ⟨_, _, rfl, .unsupported r3 h3 hu.1 hu.2⟩
    · rw [if_neg hu]
      have hext : preload = true → regexp.MatchExt24 img.FS = true := by
        intro hp
        cases hm : regexp.MatchExt24 img.FS with
        | true => rfl
        | false => exact absurd (by simp [hp, hm]) hu
      have hopts : (if (preload && regexp.MatchExt24 img.FS) = true
          then ["-d".toList, rootDir] else []) =
          (if preload = true then ["-d".toList, rootDir] else []) := by
        cases preload with
        | false => rfl
        | true => simp [hext rfl]
      rw [hopts]
      obtain ⟨r4, hr4⟩ := perform_ex env
        (.MkfsApply img.File img.FS img.Label
          (if preload = true then ["-d".toList, rootDir] else []))
        (t ++ [⟨.CreateRAWFile img.File img.Size, r3⟩])
      simp only [hr4]
      rcases h4 : r4.err with _ | msg
      · exact ⟨_, _, by simp only [List.append_assoc, Option.map_none']; rfl,
          .formatted r3 r4 h3 hext h4⟩
      · obtain ⟨r5, hr5⟩ := perform_ex env (.RemoveAll img.File)
          (t ++ [⟨.CreateRAWFile img.File img.Size, r3⟩] ++
            [⟨.MkfsApply img.File img.FS img.Label
              (if preload = true then ["-d".toList, rootDir] else []), r4⟩])
        simp only [hr5, Option.map_some']
        exact ⟨_, _, by simp only [List.append_assoc]; rfl,
          .mkfsFailed r3 r4 r5 msg h3 hext h4⟩
  · exact ⟨_, _, rfl, .rawFailed r3 msg h3⟩

theorem CreateFileSystemImage_cases (env : Env) (cnst : Cnst) (img : Image) (rootDir : Str)
    (preload : Bool) (t : Trace) :
    ∃ es img1 err, CreateFileSystemImage env cnst img rootDir preload t = (t ++ es, img1, err) ∧
      ImageCreating cnst img rootDir preload es img1 err := by
  unfold CreateFileSystemImage
  simp only [utils.MkdirAll]
  obtain ⟨r1, hr1⟩ := performErr_ex env (.MkdirAll (filepath.Dir img.File)) t
  simp only [hr1]
  rcases h1 : r1.err with _ | msg
  · simp only [Option.map_none']
    obtain ⟨es, img1, err, hsz, hrel⟩ := CreateFileSystemImage_size_cases env cnst
      img rootDir (t ++ [⟨.MkdirAll (filepath.Dir img.File), r1⟩])
    simp only [hsz]
    cases err with
    | some err =>
      have himg : img1 = img := by
        cases hrel with
        | failed r msg _ _ _ => rfl
      subst himg
      exact ⟨_, _, _, by simp only [List.append_assoc]; rfl, .unsized r1 es err h1 hrel⟩
    | none =>
      simp only []
      obtain ⟨es2, err2, hfmt, hrel2⟩ := CreateFileSystemImage_format_cases env img1 rootDir
        preload (t ++ [⟨.MkdirAll (filepath.Dir img.File), r1⟩] ++ es)
      rw [hfmt]
      exact ⟨_, _, _, by simp only [List.append_assoc]; rfl,
        .sized r1 es es2 img1 err2 h1 hrel hrel2⟩
  · exact ⟨_, _, _, rfl, .mkdir r1 msg h1⟩

end elemental

namespace elemental

set_option maxRecDepth 100000 in
/-- C23, the code at filesystem strings that are not `ext2`, `ext3` or `ext4`
but contain one of them: with `preload` the image is formatted with
`-d <rootDir>` and no error is returned, for `ext4dev` and for `next3` alike,
because the test is whether the pattern ``ext[2-4]`` occurs anywhere in the
string. In general, once the raw file has been created, `mkfs` runs with
`-d <rootDir>` exactly when `preload` is set and the pattern occurs in the
filesystem string, runs without extra option when `preload` is not set, and
does not run when `preload` is set and the pattern does not occur. -/
theorem CreateFileSystemImage_preload_substring :
    CreateFileSystemImage (Env.fake false noFailure) sampleCnst (sampleImage "ext4dev".toList)
        "/tree".toList true [] =
      ([⟨.MkdirAll "/s".toList, ⟨none, [], 32, false⟩⟩,
        ⟨.CreateRAWFile "/s/a.img".toList 32, ⟨none, [], 32, false⟩⟩,
        ⟨.MkfsApply "/s/a.img".toList "ext4dev".toList "COS_ACTIVE".toList
          ["-d".toList, "/tree".toList], ⟨none, [], 32, false⟩⟩],
       sampleImage "ext4dev".toList, none) ∧
    (CreateFileSystemImage (Env.fake false noFailure) sampleCnst (sampleImage "next3".toList)
        "/tree".toList true []).2.2 = none ∧
    (∀ (env : Env) (img : Image) (rootDir : Str) (preload : Bool) (t : Trace),
      ∃ es err, CreateFileSystemImage.format env img rootDir preload t = (t ++ es, img, err) ∧
        ImageFormatting img rootDir preload es err ∧
        ((∃ r opts, ⟨.MkfsApply img.File img.FS img.Label opts, r⟩ ∈ es ∧
            opts = ["-d".toList, rootDir]) →
          preload = true ∧ regexp.MatchExt24 img.FS = true) ∧
        (preload = true → regexp.MatchExt24 img.FS = false →
          ∀ ev ∈ es, ∀ opts, ev.call ≠ .MkfsApply img.File img.FS img.Label opts)) := by
  refine ⟨by decide, by decide, ?_⟩
  intro env img rootDir preload t
  obtain ⟨es, err, h, hrel⟩ := CreateFileSystemImage_format_cases env img rootDir preload t
  refine ⟨es, err, h, hrel, ?_, ?_⟩
  · rintro ⟨r, opts, hin, hopts⟩
    subst hopts
    cases hrel with
    | rawFailed r1 msg h1 => simp at hin
    | unsupported r1 h1 hp hm => simp at hin
    | mkfsFailed r1 r2 r3 msg h1 hext h2 =>
      cases preload with
      | true => exact ⟨rfl, hext rfl⟩
      | false => simp at hin
    | formatted r1 r2 h1 hext h2 =>
      cases preload with
      | true => exact ⟨rfl, hext rfl⟩
      | false => simp at hin
  · intro hp hm ev hev opts hcall
    cases hrel with
    | rawFailed r1 msg h1 =>
      rw [List.mem_singleton.1 hev] at hcall
      cases hcall
    | unsupported r1 h1 _ _ =>
      rw [List.mem_singleton.1 hev] at hcall
      cases hcall
    | mkfsFailed r1 r2 r3 msg h1 hext h2 =>
      rw [hext hp] at hm
      cases hm
    | formatted r1 r2 h1 hext h2 =>
      rw [hext hp] at hm
      cases hm

end elemental

namespace elemental

theorem ImageSizing_fields (cnst : Cnst) (img img1 : Image) (rootDir : Str)
    (es : List Event) (err : Option GoError) (h : ImageSizing cnst img rootDir es img1 err) :
    img1.File = img.File ∧ img1.FS = img.FS ∧ img1.Label = img.Label ∧
    (∀ ev ∈ es, ∃ r, ev = ⟨.DirSizeMB rootDir, r⟩) := by
  cases h with
  | kept _ => exact ⟨rfl, rfl, rfl, by simp⟩
  | failed r msg _ _ _ => exact ⟨rfl, rfl, rfl, by simp⟩
  | sized r _ _ _ => exact ⟨rfl, rfl, rfl, by simp⟩

/-- C30: `CreateFileSystemImage` creates the directory of the file, sizes the
image, creates the raw file and only then looks at `preload` and the
filesystem. When `preload` is set and the pattern ``ext[2-4]`` does not occur
in the filesystem string, the call fails without ever removing a file; if the
raw file was created, that creation is its last call, the size of the file is
the size the sizing step left in the image, and the error is
`unexpected filesystem: <fs>`. When `mkfs` fails, the last call is the removal
of `img.File` and the error is the one of `mkfs`. -/
theorem CreateFileSystemImage_not_atomic (env : Env) (cnst : Cnst) (img : Image)
    (rootDir : Str) (preload : Bool) (t : Trace) :
    ∃ es img1 err,
      CreateFileSystemImage env cnst img rootDir preload t = (t ++ es, img1, err) ∧
      ImageCreating cnst img rootDir preload es img1 err ∧
      img1.File = img.File ∧ img1.FS = img.FS ∧
      (preload = true → regexp.MatchExt24 img.FS = false →
        err ≠ none ∧ (∀ ev ∈ es, ∀ file, ev.call ≠ .RemoveAll file) ∧
        ∀ r size, (⟨.CreateRAWFile img.File size, r⟩ : Event) ∈ es → r.err = none →
          size = img1.Size ∧
          es.getLast? = some ⟨.CreateRAWFile img.File size, r⟩ ∧
          err = some (.plain ("unexpected filesystem: ".toList ++ img.FS))) ∧
      (∀ r opts msg, (⟨.MkfsApply img.File img.FS img.Label opts, r⟩ : Event) ∈ es →
        r.err = some msg →
        err = some (.plain msg) ∧ ∃ r3, es.getLast? = some ⟨.RemoveAll img.File, r3⟩) := by
  obtain ⟨es, img1, err, h, hrel⟩ := CreateFileSystemImage_cases env cnst img rootDir preload t
  refine ⟨es, img1, err, h, hrel, ?_⟩
  cases hrel with
  | mkdir r msg h1 =>
    refine ⟨rfl, rfl, fun _ _ => ⟨by simp, by simp, by simp⟩, by simp⟩
  | unsized r es1 e h1 hs =>
    obtain ⟨-, -, -, hev⟩ := ImageSizing_fields cnst img img rootDir es1 _ hs
    refine ⟨rfl, rfl, fun _ _ => ⟨by simp, ?_, ?_⟩, ?_⟩
    · intro ev hin file hcall
      rcases List.mem_cons.1 hin with rfl | hin
      · cases hcall
      · obtain ⟨r2, rfl⟩ := hev ev hin
        cases hcall
    · intro r2 size hin
      rcases List.mem_cons.1 hin with hin | hin
      · cases hin
      · obtain ⟨r3, h3⟩ := hev _ hin
        cases h3
    · intro r2 opts msg hin
      rcases List.mem_cons.1 hin with hin | hin
      · cases hin
      · obtain ⟨r3, h3⟩ := hev _ hin
        cases h3
  | sized r es1 es2 _ _ h1 hs hf =>
    obtain ⟨hfile, hfs, hlabel, hev⟩ := ImageSizing_fields cnst img img1 rootDir es1 _ hs
    have hnot1 : ∀ ev ∈ es1, (∀ file, ev.call ≠ .RemoveAll file) ∧
        (∀ file size, ev.call ≠ .CreateRAWFile file size) ∧
        (∀ a b c d, ev.call ≠ .MkfsApply a b c d) := by
      intro ev hin
      obtain ⟨r2, rfl⟩ := hev ev hin
      exact ⟨fun _ h => (by cases h), fun _ _ h => (by cases h), fun _ _ _ _ h => (by cases h)⟩
    have hlast : ∀ (e0 e : Event) (l : List Event),
        (e0 :: (es1 ++ (l ++ [e]))).getLast? = some e := by
      intro e0 e l
      rw [show e0 :: (es1 ++ (l ++ [e])) = (e0 :: (es1 ++ l)) ++ [e] by simp]
      exact List.getLast?_concat _
    refine ⟨hfile, hfs, fun hp hm => ?_, fun r2 opts msg hin hr2 => ?_⟩
    · rw [← hfs] at hm
      cases hf with
      | rawFailed r1 msg hr1 =>
        refine ⟨by simp, ?_, ?_⟩
        · intro ev hin file hcall
          rcases List.mem_cons.1 hin with rfl | hin
          · cases hcall
          · rcases List.mem_append.1 hin with hin | hin
            · exact (hnot1 ev hin).1 file hcall
            · rw [List.mem_singleton.1 hin] at hcall
              cases hcall
        · intro r2 size hin hr2
          rcases List.mem_cons.1 hin with hin | hin
          · cases hin
          · rcases List.mem_append.1 hin with hin | hin
            · exact absurd rfl ((hnot1 _ hin).2.1 img.File size)
            · rw [List.mem_singleton] at hin
              simp only [Event.mk.injEq, Call.CreateRAWFile.injEq] at hin
              obtain ⟨-, rfl⟩ := hin
              rw [hr1] at hr2
              cases hr2
      | unsupported r1 hr1 _ _ =>
        refine ⟨by simp, ?_, ?_⟩
        · intro ev hin file hcall
          rcases List.mem_cons.1 hin with rfl | hin
          · cases hcall
          · rcases List.mem_append.1 hin with hin | hin
            · exact (hnot1 ev hin).1 file hcall
            · rw [List.mem_singleton.1 hin] at hcall
              cases hcall
        · intro r2 size hin hr2
          rcases List.mem_cons.1 hin with hin | hin
          · cases hin
          · rcases List.mem_append.1 hin with hin | hin
            · exact absurd rfl ((hnot1 _ hin).2.1 img.File size)
            · rw [List.mem_singleton] at hin
              simp only [Event.mk.injEq, Call.CreateRAWFile.injEq] at hin
              obtain ⟨⟨-, rfl⟩, rfl⟩ := hin
              exact ⟨rfl, by rw [← hfile]; exact hlast _ _ [], by rw [hfs]⟩
      | mkfsFailed r1 r2 r3 msg hr1 hext hr2 =>
        rw [hext hp] at hm
        cases hm
      | formatted r1 r2 hr1 hext hr2 =>
        rw [hext hp] at hm
        cases hm
    · rcases List.mem_cons.1 hin with hin | hin
      · cases hin
      · rcases List.mem_append.1 hin with hin | hin
        · exact absurd rfl ((hnot1 _ hin).2.2 _ _ _ _)
        · cases hf with
          | rawFailed r1 msg1 hr1 =>
            rw [List.mem_singleton] at hin
            simp at hin
          | unsupported r1 hr1 _ _ =>
            rw [List.mem_singleton] at hin
            simp at hin
          | mkfsFailed r1 r3 r4 msg1 hr1 hext hr3 =>
            simp only [List.mem_cons, List.mem_singleton, List.not_mem_nil, or_false,
              Event.mk.injEq, reduceCtorEq, false_and, false_or] at hin
            obtain ⟨-, rfl⟩ := hin
            rw [hr3] at hr2
            cases hr2
            exact ⟨rfl, r4, by rw [← hfile]; exact hlast _ _ [_, _]⟩
          | formatted r1 r3 hr1 hext hr3 =>
            simp only [List.mem_cons, List.mem_singleton, List.not_mem_nil, or_false,
              Event.mk.injEq, reduceCtorEq, false_and, false_or] at hin
            obtain ⟨-, rfl⟩ := hin
            rw [hr3] at hr2
            cases hr2

end elemental

namespace elemental

set_option maxRecDepth 100000 in
/-- The two failure paths of C30 at concrete inputs: an `xfs` image with
`preload` leaves the created raw file behind, a failing `mkfs` is followed by
the removal of the file. -/
theorem CreateFileSystemImage_failure_examples :
    CreateFileSystemImage (Env.fake false noFailure) sampleCnst (sampleImage "xfs".toList)
        "/tree".toList true [] =
      ([⟨.MkdirAll "/s".toList, ⟨none, [], 32, false⟩⟩,
        ⟨.CreateRAWFile "/s/a.img".toList 32, ⟨none, [], 32, false⟩⟩],
       sampleImage "xfs".toList, some (.plain "unexpected filesystem: xfs".toList)) ∧
    CreateFileSystemImage (Env.fake false mkfsFails) sampleCnst (sampleImage "ext4".toList)
        "/tree".toList false [] =
      ([⟨.MkdirAll "/s".toList, ⟨none, [], 32, false⟩⟩,
        ⟨.CreateRAWFile "/s/a.img".toList 32, ⟨none, [], 32, false⟩⟩,
        ⟨.MkfsApply "/s/a.img".toList "ext4".toList "COS_ACTIVE".toList [],
          ⟨some "failed".toList, [], 32, false⟩⟩,
        ⟨.RemoveAll "/s/a.img".toList, ⟨none, [], 32, false⟩⟩],
       sampleImage "ext4".toList, some (.plain "failed".toList)) := by
  decide

end elemental

namespace elemental

theorem unmount_after_mount_calls (merge : Bool) (env : Env) (hc : Env.consistent merge env)
    (img img1 : Image) (opts : List Str) (es mid : List Event) (t : Trace)
    (hrel : ImageMounting img opts es img1 none) (hopts : "remount".toList ∉ opts)
    (hmid : Neutral merge mid) :
    ∃ es3 img2 err,
      UnmountFileSystemImage env img1 (t ++ es ++ mid) = (t ++ es ++ mid ++ es3, img2, err) ∧
      ImageUnmounting img1 es3 img2 err ∧
      ∃ r, (⟨.Unmount img.MountPoint, r⟩ : Event) ∈ es3 := by
  obtain ⟨es3, img2, err, h, hrel3, hhead⟩ := UnmountFileSystemImage_run env img1 (t ++ es ++ mid)
  obtain ⟨loop, hi, htbl, -⟩ :=
    ImageMounting_mounted merge img img1 opts es hrel hopts (mountTable merge t) []
  have hin : ∃ m ∈ mountTable merge (t ++ es ++ mid), m.Path = img1.MountPoint := by
    rw [mountTable_append, mountTable_append, htbl, (hmid _ []).1]
    exact ⟨_, List.mem_append_right _ (List.mem_singleton.2 rfl), by rw [hi]⟩
  obtain ⟨r1, r2, rest, hes, -, -⟩ :=
    ImageUnmounting_seen merge env hc img1 img2 (t ++ es ++ mid) es3 err hrel3 hhead hin
  have hmp : img1.MountPoint = img.MountPoint := by rw [hi]
  exact ⟨es3, img2, err, h, hrel3, r2, by rw [hes, hmp]; simp⟩

theorem ImageMounting_failed_no_mount (img img1 : Image) (opts : List Str)
    (es : List Event) (err : GoError) (h : ImageMounting img opts es img1 (some err))
    (source target fstype : Str) (options : List Str) (r : Response)
    (hin : (⟨.Mount source target fstype options, r⟩ : Event) ∈ es) : r.err ≠ none := by
  cases h with
  | mkdir r1 msg h1 => simp at hin
  | losetup r1 r2 msg h1 h2 => simp at hin
  | mount r1 r2 r3 r4 msg h1 h2 h3 =>
    simp only [List.mem_cons, List.mem_singleton, List.not_mem_nil, or_false,
      Event.mk.injEq, reduceCtorEq, false_and, false_or] at hin
    rw [hin.2, h3]
    simp

theorem DumpSource_cases (merge : Bool) (env : Env) (c : Config) (cnst : Cnst) (target : Str)
    (imgSrc : ImageSource) (t : Trace) :
    ∃ es err, DumpSource env c cnst target imgSrc t = (t ++ es, err) ∧
      SourceDumping c cnst target imgSrc es err ∧
      (Env.consistent merge env →
        ∀ source target1 fstype options r,
          (⟨.Mount source target1 fstype options, r⟩ : Event) ∈ es → r.err = none →
          ∃ r2, (⟨.Unmount cnst.ImgSrcDir, r2⟩ : Event) ∈ es) := by
  unfold DumpSource
  simp only [utils.MkdirAll, utils.CosignVerify, ImageExtractor.ExtractImage, utils.SyncData]
  obtain ⟨r1, hr1⟩ := performErr_ex env (.MkdirAll target) t
  simp only [hr1]
  rcases h1 : r1.err with _ | msg
  · simp only [Option.map_none']
    cases imgSrc with
    | docker ref =>
      simp only [ImageSource.IsImage, if_true, ImageSource.Value]
      by_cases hC : c.Cosign = true
      · simp only [hC, if_true]
        obtain ⟨r2, hr2⟩ := performErr_ex env (.CosignVerify ref c.CosignPubKey c.Debug)
          (t ++ [⟨.MkdirAll target, r1⟩])
        simp only [hr2]
        rcases h2 : r2.err with _ | msg
        · simp only [Option.map_none']
          obtain ⟨r3, hr3⟩ := performErr_ex env
            (.ExtractImage ref target c.Platform c.LocalImage)
            (t ++ [⟨.MkdirAll target, r1⟩] ++
              [⟨.CosignVerify ref c.CosignPubKey c.Debug, r2⟩])
          simp only [hr3]
          have key := @SourceDumping.verified c cnst target ref r1 r2 r3 h1 hC h2
          rcases h3 : r3.err with _ | msg
          · rw [h3] at key
            exact ⟨_, _, by simp only [List.append_assoc, Option.map_none']; rfl, key, fun _ _ _ _ _ _ hin _ => by simp at hin⟩
          · rw [h3] at key
            exact ⟨_, _, by simp only [List.append_assoc, Option.map_some']; rfl, key, fun _ _ _ _ _ _ hin _ => by simp at hin⟩
        · exact ⟨_, _, by simp only [List.append_assoc, Option.map_some']; rfl,
            .unverified ref r1 r2 msg h1 hC h2, fun _ _ _ _ _ _ hin _ => by simp at hin⟩
      · have hC2 : c.Cosign = false := by
          cases h : c.Cosign with
          | false => rfl
          | true => exact absurd h hC
        simp only [hC2, Bool.false_eq_true, if_false]
        obtain ⟨r3, hr3⟩ := performErr_ex env
          (.ExtractImage ref target c.Platform c.LocalImage) (t ++ [⟨.MkdirAll target, r1⟩])
        simp only [hr3]
        have key := @SourceDumping.extracted c cnst target ref r1 r3 h1 hC2
        rcases h3 : r3.err with _ | msg
        · rw [h3] at key
          exact ⟨_, _, by simp only [List.append_assoc, Option.map_none']; rfl, key, fun _ _ _ _ _ _ hin _ => by simp at hin⟩
        · rw [h3] at key
          exact ⟨_, _, by simp only [List.append_assoc, Option.map_some']; rfl, key, fun _ _ _ _ _ _ hin _ => by simp at hin⟩
    | directory path =>
      simp only [ImageSource.IsImage, ImageSource.IsDir, Bool.false_eq_true, if_false, if_true,
        ImageSource.Value]
      obtain ⟨r2, hr2⟩ := performErr_ex env (.SyncData path target DumpSource.excludes)
        (t ++ [⟨.MkdirAll target, r1⟩])
      simp only [hr2]
      have key := @SourceDumping.synced c cnst target path r1 r2 h1
      rcases h2 : r2.err with _ | msg
      · rw [h2] at key
        exact ⟨_, _, by simp only [List.append_assoc, Option.map_none']; rfl, key, fun _ _ _ _ _ _ hin _ => by simp at hin⟩
      · rw [h2] at key
        exact ⟨_, _, by simp only [List.append_assoc, Option.map_some']; rfl, key, fun _ _ _ _ _ _ hin _ => by simp at hin⟩
    | file path =>
      simp only [ImageSource.IsImage, ImageSource.IsDir, ImageSource.IsFile,
        Bool.false_eq_true, if_false, if_true, ImageSource.Value]
      obtain ⟨r2, hr2⟩ := performErr_ex env (.MkdirAll cnst.ImgSrcDir)
        (t ++ [⟨.MkdirAll target, r1⟩])
      simp only [hr2]
      rcases h2 : r2.err with _ | msg
      · simp only [Option.map_none']
        obtain ⟨es, img1, err, hm, hrel⟩ := MountFileSystemImage_run env
          (DumpSource.image cnst (.file path)) ["auto".toList, "ro".toList]
          (t ++ [⟨.MkdirAll target, r1⟩] ++ [⟨.MkdirAll cnst.ImgSrcDir, r2⟩])
        have hm2 : MountFileSystemImage env
            { File := path, Label := [], FS := [], Size := 0, MountPoint := cnst.ImgSrcDir,
              Source := .empty, LoopDevice := [] } ["auto".toList, "ro".toList]
            (t ++ [⟨.MkdirAll target, r1⟩] ++ [⟨.MkdirAll cnst.ImgSrcDir, r2⟩]) =
            (t ++ [⟨.MkdirAll target, r1⟩] ++ [⟨.MkdirAll cnst.ImgSrcDir, r2⟩] ++ es, img1,
              err) := hm
        simp only [hm2]
        cases err with
        | some err =>
          refine ⟨_, _, by simp only [List.append_assoc]; rfl,
            .mountFailed path r1 r2 es img1 err h1 h2 hrel, fun _ source tg fstype options r hin hr => ?_⟩
          rcases List.mem_append.1 hin with hin | hin
          · simp at hin
          · exact absurd hr (ImageMounting_failed_no_mount _ _ _ _ err hrel _ _ _ _ r hin)
        | none =>
          simp only []
          obtain ⟨r3, hr3⟩ := performErr_ex env
            (.SyncData cnst.ImgSrcDir target DumpSource.excludes)
            (t ++ [⟨.MkdirAll target, r1⟩] ++ [⟨.MkdirAll cnst.ImgSrcDir, r2⟩] ++ es)
          simp only [hr3]
          obtain ⟨es2, img2, err2, hu, hrelu, -⟩ := UnmountFileSystemImage_run env img1
            (t ++ [⟨.MkdirAll target, r1⟩] ++ [⟨.MkdirAll cnst.ImgSrcDir, r2⟩] ++ es ++
              [⟨.SyncData cnst.ImgSrcDir target DumpSource.excludes, r3⟩])
          have key := @SourceDumping.copied c cnst target path r1 r2 r3 es es2
            img1 img2 err2 h1 h2 hrel hrelu
          have hun : Env.consistent merge env →
              ∀ source target1 fstype options r,
                (⟨.Mount source target1 fstype options, r⟩ : Event) ∈
                  [⟨.MkdirAll target, r1⟩, ⟨.MkdirAll cnst.ImgSrcDir, r2⟩] ++ es ++
                    [⟨.SyncData cnst.ImgSrcDir target DumpSource.excludes, r3⟩] ++ es2 →
                r.err = none →
                ∃ ru, (⟨.Unmount cnst.ImgSrcDir, ru⟩ : Event) ∈
                  [⟨.MkdirAll target, r1⟩, ⟨.MkdirAll cnst.ImgSrcDir, r2⟩] ++ es ++
                    [⟨.SyncData cnst.ImgSrcDir target DumpSource.excludes, r3⟩] ++ es2 := by
            intro hc _ _ _ _ _ _ _
            obtain ⟨es3, img3, err3, hu3, -, ru, hru⟩ := unmount_after_mount_calls merge env hc
              (DumpSource.image cnst (.file path)) img1 ["auto".toList, "ro".toList] es
              [⟨.SyncData cnst.ImgSrcDir target DumpSource.excludes, r3⟩]
              (t ++ [⟨.MkdirAll target, r1⟩] ++ [⟨.MkdirAll cnst.ImgSrcDir, r2⟩]) hrel
              (by decide) (Neutral_inert _ _ (by simp [Call.isInert]))
            rw [hu] at hu3
            simp only [Prod.mk.injEq, List.append_cancel_left_eq] at hu3
            obtain ⟨rfl, -, -⟩ := hu3
            exact ⟨ru, List.mem_append_right _ hru⟩
          rcases h3 : r3.err with _ | msg
          · rw [h3] at key
            simp only [Option.map_none', hu]
            exact ⟨_, _, by simp only [List.append_assoc]; rfl, key, hun⟩
          · rw [h3] at key
            simp only [Option.map_some', hu]
            exact ⟨_, _, by simp only [List.append_assoc]; rfl, key, hun⟩
      · exact ⟨_, _, by simp only [List.append_assoc, Option.map_some']; rfl,
          .staging path r1 r2 msg h1 h2, fun _ _ _ _ _ _ hin _ => by simp at hin⟩
    | empty =>
      simp only [ImageSource.IsImage, ImageSource.IsDir, ImageSource.IsFile,
        Bool.false_eq_true, if_false]
      exact ⟨_, _, rfl, .unknown r1 h1, fun _ _ _ _ _ _ hin _ => by simp at hin⟩
  · exact ⟨_, _, rfl, .mkdir imgSrc r1 msg h1, fun _ _ _ _ _ _ hin _ => by simp at hin⟩

end elemental

namespace elemental

theorem ImageMounting_calls (img img1 : Image) (opts : List Str) (es : List Event)
    (err : Option GoError) (h : ImageMounting img opts es img1 err) :
    ∀ ev ∈ es, (∀ a b c d, ev.call ≠ .ExtractImage a b c d) ∧
      (∀ a b c, ev.call ≠ .SyncData a b c) := by
  intro ev hev
  cases h <;>
    · simp only [List.mem_cons, List.mem_singleton, List.not_mem_nil, or_false] at hev
      rcases hev with rfl | rfl | rfl | rfl <;> exact ⟨fun _ _ _ _ h => (by cases h),
        fun _ _ _ h => (by cases h)⟩

theorem ImageUnmounting_calls (img img1 : Image) (es : List Event)
    (err : Option GoError) (h : ImageUnmounting img es img1 err) :
    ∀ ev ∈ es, (∀ a b c d, ev.call ≠ .ExtractImage a b c d) ∧
      (∀ a b c, ev.call ≠ .SyncData a b c) := by
  intro ev hev
  cases h <;>
    · simp only [List.mem_cons, List.mem_singleton, List.not_mem_nil, or_false] at hev
      rcases hev with rfl | rfl | rfl <;> exact ⟨fun _ _ _ _ h => (by cases h),
        fun _ _ _ h => (by cases h)⟩

end elemental

namespace elemental

/-- C24: `DumpSource` first creates the target directory and then acts by the
type of the source. For a directory source its only further call is one sync
from the source path to the target with the excludes `/mnt`, `/proc`, `/sys`,
`/dev`, `/tmp`, `/host`, `/run`. For a docker source it runs the Cosign
verification when that is enabled, stops with its error when it fails, and
otherwise calls the extractor; it never syncs. For a file source it creates
the staging directory, mounts the file there read-only, syncs the staging
directory into the target with the same excludes and then runs
`UnmountFileSystemImage`, whether the sync failed or not; with a mounter that
answers from the mount table that call unmounts the staging directory. For the
empty source it returns `unknown image source type` after the creation of the
target. The extractor is called for docker sources only and a sync is run for
directory and file sources only. -/
theorem DumpSource_dispatch (merge : Bool) (env : Env) (c : Config) (cnst : Cnst)
    (target : Str) (imgSrc : ImageSource) (t : Trace) :
    ∃ es err, DumpSource env c cnst target imgSrc t = (t ++ es, err) ∧
      SourceDumping c cnst target imgSrc es err ∧
      (∀ ev ∈ es, ∀ a b x d, ev.call = .ExtractImage a b x d →
        imgSrc = .docker a ∧ b = target) ∧
      (∀ ev ∈ es, ∀ a b x, ev.call = .SyncData a b x →
        b = target ∧ x = DumpSource.excludes ∧
        (imgSrc = .directory a ∨ (∃ path, imgSrc = .file path) ∧ a = cnst.ImgSrcDir)) ∧
      (Env.consistent merge env →
        ∀ source target1 fstype options r,
          (⟨.Mount source target1 fstype options, r⟩ : Event) ∈ es → r.err = none →
          ∃ r2, (⟨.Unmount cnst.ImgSrcDir, r2⟩ : Event) ∈ es) := by
  obtain ⟨es, err, h, hrel, hun⟩ := DumpSource_cases merge env c cnst target imgSrc t
  refine ⟨es, err, h, hrel, ?_, ?_, hun⟩
  · intro ev hev a b x d hcall
    cases hrel with
    | mkdir _ r msg h1 => simp at hev; rw [hev] at hcall; cases hcall
    | unverified ref r1 r2 msg h1 hC h2 =>
      simp at hev
      rcases hev with rfl | rfl <;> cases hcall
    | verified ref r1 r2 r3 h1 hC h2 =>
      simp at hev
      rcases hev with rfl | rfl | rfl <;> cases hcall
      exact ⟨rfl, rfl⟩
    | extracted ref r1 r3 h1 hC =>
      simp at hev
      rcases hev with rfl | rfl <;> cases hcall
      exact ⟨rfl, rfl⟩
    | synced path r1 r2 h1 =>
      simp at hev
      rcases hev with rfl | rfl <;> cases hcall
    | staging path r1 r2 msg h1 h2 =>
      simp at hev
      rcases hev with rfl | rfl <;> cases hcall
    | mountFailed path r1 r2 es1 img1 e h1 h2 hm =>
      rcases List.mem_append.1 hev with hev | hev
      · simp at hev
        rcases hev with rfl | rfl <;> cases hcall
      · exact absurd hcall ((ImageMounting_calls _ _ _ _ _ hm ev hev).1 a b x d)
    | copied path r1 r2 r3 es1 es2 img1 img2 e h1 h2 hm hu =>
      rcases List.mem_append.1 hev with hev | hev
      · rcases List.mem_append.1 hev with hev | hev
        · rcases List.mem_append.1 hev with hev | hev
          · simp at hev
            rcases hev with rfl | rfl <;> cases hcall
          · exact absurd hcall ((ImageMounting_calls _ _ _ _ _ hm ev hev).1 a b x d)
        · simp at hev
          rw [hev] at hcall
          cases hcall
      · exact absurd hcall ((ImageUnmounting_calls _ _ _ _ hu ev hev).1 a b x d)
    | unknown r1 h1 => simp at hev; rw [hev] at hcall; cases hcall
  · intro ev hev a b x hcall
    cases hrel with
    | mkdir _ r msg h1 => simp at hev; rw [hev] at hcall; cases hcall
    | unverified ref r1 r2 msg h1 hC h2 =>
      simp at hev
      rcases hev with rfl | rfl <;> cases hcall
    | verified ref r1 r2 r3 h1 hC h2 =>
      simp at hev
      rcases hev with rfl | rfl | rfl <;> cases hcall
    | extracted ref r1 r3 h1 hC =>
      simp at hev
      rcases hev with rfl | rfl <;> cases hcall
    | synced path r1 r2 h1 =>
      simp at hev
      rcases hev with rfl | rfl <;> cases hcall
      exact ⟨rfl, rfl, .inl rfl⟩
    | staging path r1 r2 msg h1 h2 =>
      simp at hev
      rcases hev with rfl | rfl <;> cases hcall
    | mountFailed path r1 r2 es1 img1 e h1 h2 hm =>
      rcases List.mem_append.1 hev with hev | hev
      · simp at hev
        rcases hev with rfl | rfl <;> cases hcall
      · exact absurd hcall ((ImageMounting_calls _ _ _ _ _ hm ev hev).2 a b x)
    | copied path r1 r2 r3 es1 es2 img1 img2 e h1 h2 hm hu =>
      rcases List.mem_append.1 hev with hev | hev
      · rcases List.mem_append.1 hev with hev | hev
        · rcases List.mem_append.1 hev with hev | hev
          · simp at hev
            rcases hev with rfl | rfl <;> cases hcall
          · exact absurd hcall ((ImageMounting_calls _ _ _ _ _ hm ev hev).2 a b x)
        · simp at hev
          rw [hev] at hcall
          cases hcall
          exact ⟨rfl, rfl, .inr ⟨⟨path, rfl⟩, rfl⟩⟩
      · exact absurd hcall ((ImageUnmounting_calls _ _ _ _ hu ev hev).2 a b x)
    | unknown r1 h1 => simp at hev; rw [hev] at hcall; cases hcall

set_option maxRecDepth 100000 in
/-- C24, at a concrete input: a file source is mounted at the staging
directory, synced into the target and unmounted again. -/
theorem DumpSource_dispatch_witness :
    (DumpSource (Env.fake false noFailure) sampleConfig sampleCnst "/dest".toList
        (.file "/source.img".toList) []).1.map (fun ev => ev.call) =
      [.MkdirAll "/dest".toList, .MkdirAll "/run/src".toList, .MkdirAll "/run/src".toList,
       .Run "losetup".toList ["--show".toList, "-f".toList, "/source.img".toList],
       .Mount "/dev/loop0".toList "/run/src".toList "auto".toList
         ["auto".toList, "ro".toList],
       .SyncData "/run/src".toList "/dest".toList DumpSource.excludes,
       .IsLikelyNotMountPoint "/run/src".toList, .Unmount "/run/src".toList,
       .Run "losetup".toList ["-d".toList, "/dev/loop0".toList]] ∧
    ∃ es err, DumpSource (Env.fake false noFailure) sampleConfig sampleCnst "/dest".toList
        (.file "/source.img".toList) [] = ([] ++ es, err) ∧
      SourceDumping sampleConfig sampleCnst "/dest".toList (.file "/source.img".toList) es err :=
  ⟨by decide,
    (DumpSource_dispatch false (Env.fake false noFailure) sampleConfig sampleCnst
      "/dest".toList (.file "/source.img".toList) []).elim
      fun es h => h.elim fun err h => ⟨es, err, h.1, h.2.1⟩⟩

end elemental

theorem splitOn_append_last (a b : Str) (hb : '/' ∉ b) :
    (a ++ '/' :: b).splitOn '/' = a.splitOn '/' ++ [b] := by
  have ha : ['/'].intercalate (a.splitOn '/') = a := List.intercalate_splitOn a '/'
  have hne : a.splitOn '/' ≠ [] := List.splitOnP_ne_nil _ _
  have hcat : a ++ '/' :: b = ['/'].intercalate (a.splitOn '/' ++ [b]) := by
    rw [intercalate_append _ _ _ hne (by simp), ha]
    simp [List.intercalate]
  rw [hcat]
  apply List.splitOn_intercalate
  · intro l hl
    rcases List.mem_append.1 hl with h | h
    · exact splitOn_no_sep '/' a l h
    · rw [List.mem_singleton.1 h]
      exact hb
  · simp

/-- Appending a plain element to a path whose cleaned form keeps at least one
element appends it to the cleaned form. -/
theorem Clean_append_plain (x e : Str) (hx : x ≠ [])
    (hkeep : (x.splitOn '/').foldl (filepath.Clean.step (x.head? = some '/')) [] ≠ [])
    (he : plainElem e) (hs : '/' ∉ e) :
    filepath.Clean (x ++ '/' :: e) = filepath.Clean x ++ '/' :: e := by
  have hhead : (x ++ '/' :: e).head? = x.head? := by
    cases x with
    | nil => exact absurd rfl hx
    | cons c cs => rfl
  unfold filepath.Clean
  simp only [hx, List.append_eq_nil, false_and, if_false, hhead, splitOn_append_last x e hs,
    List.foldl_append, List.foldl_cons, List.foldl_nil]
  rw [Clean_step_plain _ _ e he]
  generalize (x.splitOn '/').foldl (filepath.Clean.step (x.head? = some '/')) [] = out at hkeep
  have hrev : out.reverse ≠ [] := by simpa using hkeep
  have hi : ['/'].intercalate ((e :: out).reverse) =
      ['/'].intercalate out.reverse ++ '/' :: e := by
    rw [List.reverse_cons, intercalate_append _ _ _ hrev (by simp)]
    simp [List.intercalate]
  by_cases hr : x.head? = some '/'
  · simp only [hr, decide_True, if_true, hi, List.cons_append]
  · simp only [hr, decide_False, Bool.false_eq_true, if_false, hi, hrev,
      List.reverse_eq_nil_iff, List.cons_ne_nil]

/-- Joining a plain third element is appending it to the join of the first two
when the second is a plain element. -/
theorem Join_state_dir (mp sd pn : Str) (hsd : plainElem sd ∧ '/' ∉ sd)
    (hpn : plainElem pn ∧ '/' ∉ pn) :
    filepath.Join [mp, sd, pn] = filepath.Join [mp, sd] ++ '/' :: pn := by
  have hsd0 : sd ≠ [] := hsd.1.1
  cases mp with
  | nil =>
    have h1 : filepath.Join [[], sd, pn] = filepath.Clean (sd ++ '/' :: pn) := by
      cases sd with
      | nil => exact absurd rfl hsd0
      | cons c cs => simp [filepath.Join, List.dropWhile, List.intercalate, List.intersperse]
    have h2 : filepath.Join [[], sd] = filepath.Clean sd := by
      cases sd with
      | nil => exact absurd rfl hsd0
      | cons c cs => simp [filepath.Join, List.dropWhile, List.intercalate, List.intersperse]
    rw [h1, h2]
    apply Clean_append_plain sd pn hsd0 _ hpn.1 hpn.2
    rw [splitOn_eq_single '/' sd hsd.2]
    simp [Clean_step_plain _ _ sd hsd.1]
  | cons c cs =>
    have h1 : filepath.Join [c :: cs, sd, pn] =
        filepath.Clean ((c :: cs ++ '/' :: sd) ++ '/' :: pn) := by
      simp [filepath.Join, List.dropWhile, List.intercalate, List.intersperse]
    have h2 : filepath.Join [c :: cs, sd] = filepath.Clean (c :: cs ++ '/' :: sd) := by
      simp [filepath.Join, List.dropWhile, List.intercalate, List.intersperse]
    rw [h1, h2]
    apply Clean_append_plain _ pn (by simp) _ hpn.1 hpn.2
    rw [splitOn_append_last _ sd hsd.2, List.foldl_append]
    simp [Clean_step_plain _ _ sd hsd.1]
theorem mangle_no_slash (path : Str) : '/' ∉ mangle path := by
  have h : ∀ l : Str, '/' ∉ l.map fun c => if c = '/' then '-' else c := by
    intro l hm
    obtain ⟨c, -, hc⟩ := List.mem_map.1 hm
    by_cases h : c = '/'
    · simp [h] at hc
    · simp [h] at hc
  unfold mangle
  split
  · exact h _
  · exact h _

theorem bindName_plain (path : Str) :
    plainElem (mangle path ++ ".bind".toList) ∧ '/' ∉ mangle path ++ ".bind".toList := by
  have hlen : (mangle path ++ ".bind".toList).length = (mangle path).length + 5 := by
    simp
  refine ⟨⟨?_, ?_, ?_⟩, ?_⟩
  · intro h
    rw [h] at hlen
    simp at hlen
  · intro h
    rw [h] at hlen
    simp at hlen
  · intro h
    rw [h] at hlen
    simp at hlen
  · intro h
    rcases List.mem_append.1 h with h | h
    · exact mangle_no_slash path h
    · revert h
      decide

theorem PathsRun_mountCalls {Q : Str → List Event → Option GoError → Prop} {f : Str → Call}
    (hQ : ∀ P es, Q P es none → mountCalls es = [f P])
    {paths : List Str} {es : List Event} {r : Option GoError}
    (h : PathsRun Q paths es r) (hr : r = none) : mountCalls es = paths.map f := by
  induction h with
  | done => rfl
  | failed path rest es err h => cases hr
  | next path rest es es' r h _ ih =>
    rw [mountCalls_append, hQ _ _ h, ih hr]
    rfl

theorem filter_single_find? (vols : List VolumeMount) (V : VolumeMount)
    (h : (vols.filter fun v => v.Persistent) = [V]) :
    vols.find? (fun v => v.Persistent) = some V ∧
      (vols.filter fun v => v.Persistent).getLast? = some V := by
  refine ⟨?_, by rw [h]; rfl⟩
  induction vols with
  | nil => simp at h
  | cons v vs ih =>
    by_cases hv : v.Persistent = true
    · simp only [List.filter_cons, hv, if_true, List.cons.injEq] at h
      obtain ⟨rfl, -⟩ := h
      simp [List.find?_cons, hv]
    · simp only [List.filter_cons, hv, if_false, Bool.false_eq_true] at h
      simp only [List.find?_cons, hv]
      exact ih h
/-- C27: with the persistent state dir a plain path element and the mode
constants `overlay` and `bind`, `WriteFstab` writes the persistent entries
after the workspace, volume and ephemeral entries, and these entries match the
mounts of `MountPersistent`.  With no volume marked persistent there is no
persistent entry and `MountPersistent` makes no call.  With exactly one volume
`V` marked persistent and `W` the join of its mountpoint with the state dir:
in overlay mode the entry of each path `P` carries
`upperdir=W/<mangle P>.overlay/upper` and `workdir=W/<mangle P>.overlay/work`,
`MountPersistent` runs fail-fast over the paths, and when it succeeds its mount
calls are one overlay mount per path, in order, with these same two
directories in its options; in bind mode the entry of `P` has the source
`W/<mangle P>.bind`, and when `MountPersistent` succeeds its mount calls are
one bind mount per path, in order, with this same source.  So after a
successful `MountPersistent` the paths with an entry are the paths with a
mount. -/
theorem MountPersistent_workspace_matches_fstab (k : Constants) (env : Env) (spec : MountSpec)
    (data : Str) (t t' : Trace)
    (hsd : plainElem k.PersistentStateDir ∧ '/' ∉ k.PersistentStateDir)
    (ho : k.OverlayMode = "overlay".toList) (hb : k.BindMode = "bind".toList)
    (hw : spec.WriteFstab = true) :
    (∃ ok : Bool, (WriteFstab k env spec data t').1 =
      t' ++ [⟨.WriteFile (filepath.Join [spec.Sysroot, "/etc/fstab".toList])
        (data ++ fstabText (tmpfsEntry k spec :: (spec.Volumes.map volumeEntry ++
          (spec.Ephemeral.Paths.map (overlayEntry k.OverlayDir k.OverlayDir) ++
            persistentEntries k spec)))), ok⟩]) ∧
    ((spec.Volumes.filter fun v => v.Persistent) = [] →
      persistentEntries k spec = [] ∧
      MountPersistent k env spec.Sysroot spec.Persistent spec.Volumes t = (t, none)) ∧
    (∀ V : VolumeMount, (spec.Volumes.filter fun v => v.Persistent) = [V] →
      (spec.Persistent.Mode = "overlay".toList →
        persistentEntries k spec = spec.Persistent.Paths.map (fun P =>
          { source := "overlay".toList, target := P, fstype := "overlay".toList,
            options := "defaults,lowerdir=".toList ++ P ++
              ",upperdir=".toList ++ filepath.Join [V.Mountpoint, k.PersistentStateDir] ++
                "/".toList ++ mangle P ++ ".overlay/upper".toList ++
              ",workdir=".toList ++ filepath.Join [V.Mountpoint, k.PersistentStateDir] ++
                "/".toList ++ mangle P ++ ".overlay/work".toList ++
              ",x-systemd.requires-mounts-for=".toList ++ k.PersistentDir }) ∧
        ∃ es, (MountPersistent k env spec.Sysroot spec.Persistent spec.Volumes t).1 = t ++ es ∧
          PathsRun
            (OverlayAttempt spec.Sysroot (filepath.Join [V.Mountpoint, k.PersistentStateDir]))
            spec.Persistent.Paths es
            (MountPersistent k env spec.Sysroot spec.Persistent spec.Volumes t).2 ∧
          ((MountPersistent k env spec.Sysroot spec.Persistent spec.Volumes t).2 = none →
            mountCalls es = spec.Persistent.Paths.map (fun P =>
              Call.Mount "overlay".toList (filepath.Join [spec.Sysroot, P]) "overlay".toList
                ["defaults".toList,
                 "lowerdir=".toList ++ filepath.Join [spec.Sysroot, P],
                 "upperdir=".toList ++
                   (filepath.Join [V.Mountpoint, k.PersistentStateDir] ++
                     "/".toList ++ mangle P ++ ".overlay/upper".toList),
                 "workdir=".toList ++
                   (filepath.Join [V.Mountpoint, k.PersistentStateDir] ++
                     "/".toList ++ mangle P ++ ".overlay/work".toList)]))) ∧
      (spec.Persistent.Mode = "bind".toList →
        persistentEntries k spec = spec.Persistent.Paths.map (fun P =>
          { source := filepath.Join [V.Mountpoint, k.PersistentStateDir] ++
              "/".toList ++ mangle P ++ ".bind".toList,
            target := P, fstype := "none".toList, options := "defaults,bind".toList }) ∧
        ∃ es, (MountPersistent k env spec.Sysroot spec.Persistent spec.Volumes t).1 = t ++ es ∧
          PathsRun
            (BindAttempt spec.Sysroot (filepath.Join [V.Mountpoint, k.PersistentStateDir]))
            spec.Persistent.Paths es
            (MountPersistent k env spec.Sysroot spec.Persistent spec.Volumes t).2 ∧
          ((MountPersistent k env spec.Sysroot spec.Persistent spec.Volumes t).2 = none →
            mountCalls es = spec.Persistent.Paths.map (fun P =>
              Call.Mount
                (filepath.Join [V.Mountpoint, k.PersistentStateDir] ++
                  "/".toList ++ mangle P ++ ".bind".toList)
                (filepath.Join [spec.Sysroot, P]) "none".toList
                ["defaults".toList, "bind".toList])))) := by
  refine ⟨?_, ?_, ?_⟩
  · obtain ⟨ok, h, -⟩ := WriteFstab_build_write k env spec data t' hw
    exact ⟨ok, h⟩
  · intro hnone
    refine ⟨?_, ?_⟩
    · unfold persistentEntries
      rw [hnone]
      rfl
    · have hf : spec.Volumes.find? (fun v => v.Persistent) = none := by
        rw [find?_eq_none_iff_getLast?, hnone]
        rfl
      unfold MountPersistent
      rw [hf]
  · intro V hV
    obtain ⟨hfind, hlast⟩ := filter_single_find? spec.Volumes V hV
    refine ⟨?_, ?_⟩
    · intro hmode
      have hnb : spec.Persistent.Mode ≠ "bind".toList := by
        rw [hmode]
        decide
      refine ⟨?_, ?_⟩
      · unfold persistentEntries
        rw [hlast]
        simp only [ho, hmode, if_true]
        apply List.map_congr_left
        intro P _
        simp [overlayEntry]
      · obtain ⟨es, h1, h2⟩ := MountPersistent_run k env spec.Sysroot spec.Persistent
          spec.Volumes t
        refine ⟨es, h1, ?_⟩
        rcases h2 with ⟨hn, -⟩ | ⟨_, -, hm, -⟩ | ⟨vol, hv, -, hrun⟩
        · rw [hfind] at hn
          cases hn
        · exact absurd hm hnb
        · rw [hfind] at hv
          cases hv
          refine ⟨hrun, fun hok => ?_⟩
          refine PathsRun_mountCalls (fun P es hq => ?_) hrun hok
          exact ((OverlayAttempt_mountCalls hq).1 rfl).1
    · intro hmode
      have hno : spec.Persistent.Mode ≠ k.OverlayMode := by
        rw [hmode, ho]
        decide
      refine ⟨?_, ?_⟩
      · unfold persistentEntries
        rw [hlast]
        simp only []
        rw [if_neg hno, if_pos (hmode.trans hb.symm)]
        apply List.map_congr_left
        intro P _
        unfold bindEntry
        rw [Join_state_dir V.Mountpoint k.PersistentStateDir _ hsd (bindName_plain P)]
        simp
      · obtain ⟨es, h1, h2⟩ := MountPersistent_run k env spec.Sysroot spec.Persistent
          spec.Volumes t
        refine ⟨es, h1, ?_⟩
        rcases h2 with ⟨hn, -⟩ | ⟨vol, hv, -, hrun⟩ | ⟨_, -, hm, -⟩
        · rw [hfind] at hn
          cases hn
        · rw [hfind] at hv
          cases hv
          refine ⟨hrun, fun hok => ?_⟩
          refine PathsRun_mountCalls (fun P es hq => ?_) hrun hok
          cases hq
          simp [mountCalls, bindMount]
        · exact absurd hmode hm
/-- Witness of C27: bind mode, the persistent volume at `/usr/local`, the path
`/etc`, every call succeeding: the bind mount and the fstab entry both use
`/usr/local/.state/etc.bind`. -/
theorem MountPersistent_workspace_matches_fstab_witness :
    (plainElem elementalConstants.PersistentStateDir ∧
      '/' ∉ elementalConstants.PersistentStateDir) ∧
    MountPersistent elementalConstants (Env.succeed []) "/sysroot".toList
        (persistentAtUsrLocal "bind".toList).Persistent
        (persistentAtUsrLocal "bind".toList).Volumes [] =
      ([⟨.MkdirAll "/sysroot/etc".toList, true⟩,
        ⟨.MkdirAll "/usr/local/.state/etc.bind".toList, true⟩,
        ⟨.SyncData "/sysroot/etc".toList "/usr/local/.state/etc.bind".toList, true⟩,
        ⟨.Mount "/usr/local/.state/etc.bind".toList "/sysroot/etc".toList "none".toList
          ["defaults".toList, "bind".toList], true⟩],
       none) ∧
    persistentEntries elementalConstants (persistentAtUsrLocal "bind".toList) =
      [{ source := "/usr/local/.state/etc.bind".toList, target := "/etc".toList,
         fstype := "none".toList, options := "defaults,bind".toList }] ∧
    persistentEntries elementalConstants (persistentAtUsrLocal "bind".toList) =
      (persistentAtUsrLocal "bind".toList).Persistent.Paths.map (fun P =>
        { source := filepath.Join ["/usr/local".toList,
              elementalConstants.PersistentStateDir] ++
            "/".toList ++ mangle P ++ ".bind".toList,
          target := P, fstype := "none".toList, options := "defaults,bind".toList }) :=
  ⟨by decide, by decide, by decide,
    (((MountPersistent_workspace_matches_fstab elementalConstants (Env.succeed [])
      (persistentAtUsrLocal "bind".toList) [] [] [] (by decide) rfl rfl rfl).2.2
      { Mountpoint := "/usr/local".toList, Device := "LABEL=COS_PERSISTENT".toList,
        Options := [], Persistent := true } (by decide)).2 (by decide)).1⟩

/-- A successful `MountEphemeral` of a block workspace: the overlay directory
is created, the configured device is mounted on it with the block filesystem
type and `defaults`, then the paths are mounted. -/
theorem MountEphemeral_block_run (k : Constants) (env : Env) (sysroot : Str)
    (overlay : EphemeralMounts) (t : Trace) (hty : overlay.Type_ = k.Block)
    (hbt : k.Block ≠ k.Tmpfs) (hok : (MountEphemeral k env sysroot overlay t).2 = none) :
    ∃ es, (MountEphemeral k env sysroot overlay t).1 =
        t ++ ⟨.MkdirAll k.OverlayDir, true⟩ ::
          ⟨.Mount overlay.Device k.OverlayDir k.Autofs ["defaults".toList], true⟩ :: es ∧
      PathsRun (OverlayAttempt sysroot k.OverlayDir) overlay.Paths es none := by
  unfold MountEphemeral at hok ⊢
  have hnt : ¬ overlay.Type_ = k.Tmpfs := by
    rw [hty]
    exact hbt
  rcases MkdirAll_cases env k.OverlayDir t with ⟨_, h⟩ | ⟨m, _, h⟩
  · rw [h] at hok ⊢
    simp only [if_neg hnt, if_pos hty] at hok ⊢
    rcases Mount_cases env overlay.Device k.OverlayDir k.Autofs ["defaults".toList]
      (t ++ [⟨.MkdirAll k.OverlayDir, true⟩]) with ⟨_, h2⟩ | ⟨m2, _, h2⟩
    · rw [h2] at hok ⊢
      simp only at hok ⊢
      obtain ⟨es, g1, g2⟩ := mountPaths_run MountOverlayPath env sysroot k.OverlayDir
        (OverlayAttempt sysroot k.OverlayDir)
        (fun path t => MountOverlayPath_attempt env sysroot k.OverlayDir path t)
        overlay.Paths (t ++ [⟨.MkdirAll k.OverlayDir, true⟩] ++
          [⟨.Mount overlay.Device k.OverlayDir k.Autofs ["defaults".toList], true⟩])
      rw [hok] at g2
      refine ⟨es, ?_, g2⟩
      rw [g1]
      simp
    · rw [h2] at hok
      simp at hok
  · rw [h] at hok
    simp at hok
/-- C28: `WriteFstab` writes, right after the initial block, the workspace
line `tmpfs\t<overlay_dir>\ttmpfs\tdefaults,size=<size>\t0\t0` for every
specification, whatever the ephemeral type.  For the ephemeral type block
(with the block filesystem type `autofs`), a successful `RunMount` with
`write_fstab` true created the overlay dir and mounted on it the configured
device with type `autofs` and the option `defaults`, and then wrote the file
with that workspace line: the type of the line, `tmpfs`, is not the mounted
type, and its source, `tmpfs`, is not the mounted source unless the configured
device is the string `tmpfs`. -/
theorem RunMount_block_workspace_line (k : Constants) (env : Env) (spec : MountSpec)
    (t : Trace) (hw : spec.WriteFstab = true) (hty : spec.Ephemeral.Type_ = k.Block)
    (hbt : k.Block ≠ k.Tmpfs) (ha : k.Autofs = "autofs".toList)
    (hok : (RunMount k env spec t).2 = none) :
    (∀ (spec' : MountSpec) (data : Str) (t' : Trace), spec'.WriteFstab = true →
      ∃ (ok : Bool) (rest : Str), (WriteFstab k env spec' data t').1 =
        t' ++ [⟨.WriteFile (filepath.Join [spec'.Sysroot, "/etc/fstab".toList])
          (data ++ ("tmpfs\t".toList ++ k.OverlayDir ++ "\ttmpfs\tdefaults,size=".toList ++
            spec'.Ephemeral.Size ++ "\t0\t0\n".toList) ++ rest), ok⟩]) ∧
    (∃ (initial rest : Str) (pre post : List Event),
      (InitialFstabData k env spec.Sysroot t).2 = .ok initial ∧
      (RunMount k env spec t).1 = t ++ pre ++
        [⟨.MkdirAll k.OverlayDir, true⟩,
         ⟨.Mount spec.Ephemeral.Device k.OverlayDir "autofs".toList ["defaults".toList],
           true⟩] ++ post ++
        [⟨.WriteFile (filepath.Join [spec.Sysroot, "/etc/fstab".toList])
          (initial ++ ("tmpfs\t".toList ++ k.OverlayDir ++ "\ttmpfs\tdefaults,size=".toList ++
            spec.Ephemeral.Size ++ "\t0\t0\n".toList) ++ rest), true⟩]) ∧
    (tmpfsEntry k spec).fstype ≠ k.Autofs ∧
    (spec.Ephemeral.Device ≠ "tmpfs".toList →
      (tmpfsEntry k spec).source ≠ spec.Ephemeral.Device) := by
  have hline : ∀ (spec' : MountSpec) (data : Str),
      data ++ fstabText (fstabEntries k spec') =
        data ++ ("tmpfs\t".toList ++ k.OverlayDir ++ "\ttmpfs\tdefaults,size=".toList ++
          spec'.Ephemeral.Size ++ "\t0\t0\n".toList) ++
        fstabText (spec'.Volumes.map volumeEntry ++
          (spec'.Ephemeral.Paths.map (overlayEntry k.OverlayDir k.OverlayDir) ++
            persistentEntries k spec')) := by
    intro spec' data
    simp [fstabEntries, fstabText, FstabEntry.line, tmpfsEntry]
  refine ⟨?_, ?_, ?_, ?_⟩
  · intro spec' data t' hw'
    obtain ⟨ok, h, -⟩ := WriteFstab_build_write k env spec' data t' hw'
    exact ⟨ok, _, by rw [h, hline]⟩
  · obtain ⟨initial, e0, e1, e2, e3, hI, -, hE, -, hR⟩ :=
      RunMount_success_stages k env spec t hw hok
    obtain ⟨es, hE1, -⟩ := MountEphemeral_block_run k env spec.Sysroot spec.Ephemeral
      (t ++ e0 ++ e1) hty hbt (by rw [hE])
    rw [hE] at hE1
    simp only at hE1
    have he2 : e2 = ⟨.MkdirAll k.OverlayDir, true⟩ ::
        ⟨.Mount spec.Ephemeral.Device k.OverlayDir k.Autofs ["defaults".toList], true⟩ :: es :=
      List.append_cancel_left hE1
    obtain ⟨ok, hW, hWok⟩ := WriteFstab_build_write k env spec initial
      (t ++ e0 ++ e1 ++ e2 ++ e3) hw
    rw [← hR] at hW hWok
    have hok' : ok = true := hWok.2 hok
    subst hok'
    refine ⟨initial, fstabText (spec.Volumes.map volumeEntry ++
      (spec.Ephemeral.Paths.map (overlayEntry k.OverlayDir k.OverlayDir) ++
        persistentEntries k spec)), e0 ++ e1, es ++ e3, by rw [hI], ?_⟩
    rw [hW, hline, he2, ha]
    simp
  · rw [ha]
    show "tmpfs".toList ≠ "autofs".toList
    decide
  · intro h heq
    exact h heq.symm
/-- Witness of C28: a block workspace on `/dev/vda3`, every call succeeding:
the device is mounted on the overlay dir with type `autofs`, and the file
written carries the `tmpfs` workspace line. -/
theorem RunMount_block_workspace_line_witness :
    RunMount elementalConstants (Env.succeed []) blockSpec [] =
      ([⟨.Run "findmnt".toList
          ["-Rrfno".toList, "SOURCE,TARGET,FSTYPE,OPTIONS".toList, "/".toList], true⟩,
        ⟨.MkdirAll "/run/elemental/overlay".toList, true⟩,
        ⟨.Mount "/dev/vda3".toList "/run/elemental/overlay".toList "autofs".toList
          ["defaults".toList], true⟩,
        ⟨.WriteFile "/sysroot/etc/fstab".toList
          "tmpfs\t/run/elemental/overlay\ttmpfs\tdefaults,size=25%\t0\t0\n".toList, true⟩],
       none) ∧
    (tmpfsEntry elementalConstants blockSpec).fstype ≠ elementalConstants.Autofs ∧
    (blockSpec.Ephemeral.Device ≠ "tmpfs".toList →
      (tmpfsEntry elementalConstants blockSpec).source ≠ blockSpec.Ephemeral.Device) :=
  ⟨by decide,
    (RunMount_block_workspace_line elementalConstants (Env.succeed []) blockSpec []
      rfl rfl (by decide) rfl (by decide)).2.2⟩

/-- C29: the workspace name is not injective in the path.  The distinct paths
`/a/b` and `/a-b` have the same mangle `a-b`; for every sysroot and workspace
root, with every call succeeding, `MountOverlayPath` creates and mounts with
the same upper directory `<root>/a-b.overlay/upper` and the same work
directory `<root>/a-b.overlay/work` for both paths, and `MountBindPath` creates,
seeds and mounts the same state directory `<root>/a-b.bind` for both. -/
theorem mangle_not_injective :
    "/a/b".toList ≠ "/a-b".toList ∧
    mangle "/a/b".toList = mangle "/a-b".toList ∧
    ∀ (sysroot root : Str) (t : Trace),
      (∀ P ∈ ["/a/b".toList, "/a-b".toList],
        MountOverlayPath (Env.succeed []) sysroot root P t =
          (t ++ [⟨.MkdirAll (filepath.Join [sysroot, P]), true⟩,
            ⟨.MkdirAll (root ++ "/a-b.overlay/upper".toList), true⟩,
            ⟨.MkdirAll (root ++ "/a-b.overlay/work".toList), true⟩,
            ⟨.Mount "overlay".toList (filepath.Join [sysroot, P]) "overlay".toList
              ["defaults".toList,
               "lowerdir=".toList ++ filepath.Join [sysroot, P],
               "upperdir=".toList ++ (root ++ "/a-b.overlay/upper".toList),
               "workdir=".toList ++ (root ++ "/a-b.overlay/work".toList)], true⟩],
           none)) ∧
      (∀ P ∈ ["/a/b".toList, "/a-b".toList],
        MountBindPath (Env.succeed []) sysroot root P t =
          (t ++ [⟨.MkdirAll (filepath.Join [sysroot, P]), true⟩,
            ⟨.MkdirAll (root ++ "/a-b.bind".toList), true⟩,
            ⟨.SyncData (filepath.Join [sysroot, P]) (root ++ "/a-b.bind".toList), true⟩,
            ⟨.Mount (root ++ "/a-b.bind".toList) (filepath.Join [sysroot, P]) "none".toList
              ["defaults".toList, "bind".toList], true⟩],
           none)) := by
  refine ⟨by decide, by decide, fun sysroot root t => ⟨?_, ?_⟩⟩
  · intro P hP
    simp only [List.mem_cons, List.mem_singleton, List.not_mem_nil, or_false] at hP
    rcases hP with rfl | rfl
    · simp [MountOverlayPath, utils.MkdirAll, Mounter.Mount, Env.succeed, overlaySuffix]
      decide
    · simp [MountOverlayPath, utils.MkdirAll, Mounter.Mount, Env.succeed, overlaySuffix]
      decide
  · intro P hP
    simp only [List.mem_cons, List.mem_singleton, List.not_mem_nil, or_false] at hP
    rcases hP with rfl | rfl
    · simp [MountBindPath, utils.MkdirAll, utils.SyncData, Mounter.Mount, Env.succeed]
      decide
    · simp [MountBindPath, utils.MkdirAll, utils.SyncData, Mounter.Mount, Env.succeed]
      decide

namespace snapshotter

/-- Retention deletes a prefix of the list: every deleted candidate was met
while the count was above the bound and was not the active id, and retention
stops once the count is within the bound or the candidate is the active id. -/
theorem retention_drop (maxSnaps : Nat) (active : Option Nat) (ids : List Nat) :
    ∃ n, n ≤ ids.length ∧ retention maxSnaps active ids = ids.drop n ∧
      (∀ i, i < n → maxSnaps < (ids.drop i).length ∧ (ids.drop i).head? ≠ active) ∧
      ((ids.drop n).length ≤ maxSnaps ∨
        (ids.drop n).head? = active ∧ (ids.drop n).head? ≠ none) := by
  induction ids with
  | nil => exact ⟨0, by simp, by simp [retention], by simp, Or.inl (by simp)⟩
  | cons id rest ih =>
    unfold retention
    by_cases h1 : (id :: rest).length ≤ maxSnaps
    · rw [if_pos h1]
      exact ⟨0, by simp, by simp, by simp, Or.inl (by simpa using h1)⟩
    · rw [if_neg h1]
      by_cases h2 : active = some id
      · rw [if_pos h2]
        exact ⟨0, by simp, by simp, by simp, Or.inr (by simp [h2])⟩
      · rw [if_neg h2]
        obtain ⟨n, hn, hr, hdel, hstop⟩ := ih
        refine ⟨n + 1, by simpa using hn, by simpa using hr, ?_, by simpa using hstop⟩
        intro i hi
        cases i with
        | zero =>
          refine ⟨by simpa using Nat.lt_of_not_le h1, ?_⟩
          intro heq
          exact h2 (by simpa using heq.symm)
        | succ j => simpa using hdel j (by omega)

theorem mem_take_head_drop (l : List Nat) (n x : Nat) (h : x ∈ l.take n) :
    ∃ i, i < n ∧ (l.drop i).head? = some x := by
  induction l generalizing n with
  | nil => simp at h
  | cons a as ih =>
    cases n with
    | zero => simp at h
    | succ m =>
      rw [List.take_succ_cons, List.mem_cons] at h
      rcases h with rfl | h
      · exact ⟨0, by omega, rfl⟩
      · obtain ⟨i, hi, hd⟩ := ih m h
        exact ⟨i + 1, by omega, by simpa using hd⟩

/-- C25: a `close_transaction` of a snapshot in progress rewrites `active` to
the new id and runs retention with the id that was active before.  Retention
deletes the first `n` ids of the ascending list and keeps the rest: each
deleted candidate was met while the count was still above `max_snaps` and was
not the active id; it stops when the count is `max_snaps` or less or the next
candidate is the active id; an active id among the snapshots is never
deleted; and on an ascending list every deleted id is below every kept one.
With `max_snaps` 4, the snapshots 1 to 5 and the new snapshot 6, the ids left
are 3, 4, 5, 6 when 5 is active and 2, 3, 4, 5, 6 when 2 is active. -/
theorem CloseTransaction_retention (l : LoopDevice) (snap : Snapshot)
    (hp : snap.InProgress = true) :
    (CloseTransaction l snap).active = some snap.ID ∧
    (∃ n, n ≤ (GetSnapshots l).length ∧
      GetSnapshots (CloseTransaction l snap) = (GetSnapshots l).drop n ∧
      (∀ i, i < n → l.maxSnaps < ((GetSnapshots l).drop i).length ∧
        ((GetSnapshots l).drop i).head? ≠ l.active) ∧
      (((GetSnapshots l).drop n).length ≤ l.maxSnaps ∨
        ((GetSnapshots l).drop n).head? = l.active ∧
          ((GetSnapshots l).drop n).head? ≠ none) ∧
      (List.Pairwise (fun a b => a < b) (GetSnapshots l) →
        ∀ x ∈ (GetSnapshots l).take n, ∀ y ∈ GetSnapshots (CloseTransaction l snap),
          x < y)) ∧
    (∀ a, l.active = some a → a ∈ GetSnapshots l →
      a ∈ GetSnapshots (CloseTransaction l snap)) ∧
    (∀ a ∈ [5, 2], StartTransaction (sixth a) =
      .ok ({ sixth a with ids := [1, 2, 3, 4, 5, 6] },
        { ID := 6, InProgress := true,
          Path := "/some/root/.snapshots/6/snapshot.img".toList })) ∧
    GetSnapshots (CloseTransaction { sixth 5 with ids := [1, 2, 3, 4, 5, 6] }
      { ID := 6, InProgress := true,
        Path := "/some/root/.snapshots/6/snapshot.img".toList }) = [3, 4, 5, 6] ∧
    GetSnapshots (CloseTransaction { sixth 2 with ids := [1, 2, 3, 4, 5, 6] }
      { ID := 6, InProgress := true,
        Path := "/some/root/.snapshots/6/snapshot.img".toList }) = [2, 3, 4, 5, 6] := by
  have hids : GetSnapshots (CloseTransaction l snap) =
      retention l.maxSnaps l.active (GetSnapshots l) := by
    simp [CloseTransaction, GetSnapshots, hp]
  obtain ⟨n, hn, hr, hdel, hstop⟩ := retention_drop l.maxSnaps l.active (GetSnapshots l)
  refine ⟨by simp [CloseTransaction, hp], ⟨n, hn, by rw [hids, hr], hdel, hstop, ?_⟩, ?_,
    by decide, by decide, by decide⟩
  · intro hs x hx y hy
    rw [hids, hr] at hy
    have hsplit := List.take_append_drop n (GetSnapshots l)
    rw [← hsplit] at hs
    exact (List.pairwise_append.1 hs).2.2 x hx y hy
  · intro a ha hmem
    rw [hids, hr]
    rw [← List.take_append_drop n (GetSnapshots l)] at hmem
    rcases List.mem_append.1 hmem with h | h
    · obtain ⟨i, hi, hd⟩ := mem_take_head_drop _ _ _ h
      exact absurd (hd.trans ha.symm) (hdel i hi).2
    · exact h

/-- Witness of C25: the close of snapshot 6 over the snapshots 1 to 5 with 5
active leaves the ids 3, 4, 5, 6 and makes 6 active. -/
theorem CloseTransaction_retention_witness :
    GetSnapshots (CloseTransaction { sixth 5 with ids := [1, 2, 3, 4, 5, 6] }
      { ID := 6, InProgress := true,
        Path := "/some/root/.snapshots/6/snapshot.img".toList }) = [3, 4, 5, 6] ∧
    (CloseTransaction { sixth 5 with ids := [1, 2, 3, 4, 5, 6] }
      { ID := 6, InProgress := true,
        Path := "/some/root/.snapshots/6/snapshot.img".toList }).active = some 6 :=
  ⟨by decide,
    (CloseTransaction_retention { sixth 5 with ids := [1, 2, 3, 4, 5, 6] }
      { ID := 6, InProgress := true,
        Path := "/some/root/.snapshots/6/snapshot.img".toList } rfl).1⟩

end snapshotter

namespace snapshotter

theorem le_foldr_max (ids : List Nat) : ∀ x ∈ ids, x ≤ ids.foldr max 0 := by
  induction ids with
  | nil => simp
  | cons a as ih =>
    intro x hx
    simp only [List.foldr_cons]
    rcases List.mem_cons.1 hx with rfl | hx
    · exact Nat.le_max_left _ _
    · exact Nat.le_trans (ih x hx) (Nat.le_max_right _ _)

theorem foldr_max_mem (ids : List Nat) (h : ids ≠ []) : ids.foldr max 0 ∈ ids := by
  induction ids with
  | nil => exact absurd rfl h
  | cons a as ih =>
    simp only [List.foldr_cons]
    by_cases has : as = []
    · subst has
      simp
    · rcases Nat.le_total a (as.foldr max 0) with hle | hle
      · rw [Nat.max_eq_right hle]
        exact List.mem_cons_of_mem _ (ih has)
      · rw [Nat.max_eq_left hle]
        exact List.mem_cons_self _ _

/-- The id `start_transaction` allocates: 1 without snapshots, otherwise one
more than the greatest id. -/
theorem nextID_spec (ids : List Nat) :
    (ids = [] → nextID ids = 1) ∧
    (ids ≠ [] → ∃ m ∈ ids, (∀ x ∈ ids, x ≤ m) ∧ nextID ids = m + 1) := by
  refine ⟨fun h => by simp [nextID, h], fun h => ?_⟩
  exact ⟨_, foldr_max_mem ids h, le_foldr_max ids, by simp [nextID, h]⟩

theorem StartTransaction_cases (l : LoopDevice) :
    (activeBroken l = true ∧ ∃ e, StartTransaction l = .error e) ∨
    (activeBroken l = false ∧
      StartTransaction l = .ok ({ l with ids := l.ids ++ [nextID l.ids] },
        { ID := nextID l.ids, InProgress := true,
          Path := l.rootDir ++ "/.snapshots/".toList ++ (Nat.repr (nextID l.ids)).toList ++
            "/snapshot.img".toList })) := by
  unfold StartTransaction
  cases h : activeBroken l
  · exact Or.inr ⟨rfl, by simp⟩
  · exact Or.inl ⟨rfl, _, rfl⟩

theorem Inv_nextID (r : Run) (h : r.Inv) (hb : activeBroken r.l = false) :
    ∀ x ∈ r.seen, x < nextID r.l.ids := by
  obtain ⟨-, -, h3, h4⟩ := h
  intro x hx
  by_cases he : r.l.ids = []
  · rcases h4 he with hs | hbr
    · rw [hs] at hx
      simp at hx
    · rw [hb] at hbr
      cases hbr
  · obtain ⟨y, hy, hxy⟩ := h3 he x hx
    have := le_foldr_max r.l.ids y hy
    simp only [nextID, he, if_false]
    omega

theorem retention_suffix (maxSnaps : Nat) (active : Option Nat) (ids : List Nat) :
    retention maxSnaps active ids <:+ ids := by
  obtain ⟨n, -, hr, -⟩ := retention_drop maxSnaps active ids
  rw [hr]
  exact List.drop_suffix n ids

theorem Inv_step (r : Run) (op : Op) (h : r.Inv) (hc : op.commits) : (r.step op).Inv := by
  cases op with
  | start =>
    unfold Run.step
    rcases StartTransaction_cases r.l with ⟨-, e, he⟩ | ⟨hb, hs⟩
    · rw [he]
      exact h
    · rw [hs]
      have hlt := Inv_nextID r h hb
      obtain ⟨h1, h2, h3, h4⟩ := h
      refine ⟨?_, ?_, ?_, ?_⟩
      · simp only [List.pairwise_append, h1, List.pairwise_cons, List.Pairwise.nil,
          List.mem_singleton, true_and]
        refine ⟨by simp, ?_⟩
        intro x hx y hy
        rw [hy]
        exact hlt x hx
      · exact List.Sublist.append h2 (List.Sublist.refl _)
      · intro _ x hx
        refine ⟨nextID r.l.ids, by simp, ?_⟩
        rcases List.mem_append.1 hx with hx | hx
        · exact Nat.le_of_lt (hlt x hx)
        · rw [List.mem_singleton.1 hx]
      · intro he
        simp at he
  | close snap =>
    have hp : snap.InProgress = true := hc
    obtain ⟨h1, h2, h3, h4⟩ := h
    have hsuf := retention_suffix r.l.maxSnaps r.l.active r.l.ids
    have hids : (CloseTransaction r.l snap).ids =
        retention r.l.maxSnaps r.l.active r.l.ids := by
      simp [CloseTransaction, hp]
    have hact : (CloseTransaction r.l snap).active = some snap.ID := by
      simp [CloseTransaction, hp]
    have hsorted : List.Pairwise (fun a b => a < b) r.l.ids := h1.sublist h2
    refine ⟨h1, ?_, ?_, ?_⟩
    · show List.Sublist (CloseTransaction r.l snap).ids r.seen
      rw [hids]
      exact hsuf.sublist.trans h2
    · show (CloseTransaction r.l snap).ids ≠ [] → ∀ x ∈ r.seen,
        ∃ y ∈ (CloseTransaction r.l snap).ids, x ≤ y
      rw [hids]
      intro hne x hx
      obtain ⟨pre, hpre⟩ := hsuf
      have hne0 : r.l.ids ≠ [] := by
        intro h0
        rw [h0] at hne
        exact hne rfl
      obtain ⟨y, hy, hxy⟩ := h3 hne0 x hx
      rw [← hpre] at hy hsorted
      rcases List.mem_append.1 hy with hy | hy
      · obtain ⟨z, hz⟩ := List.exists_mem_of_ne_nil _ hne
        exact ⟨z, hz, Nat.le_trans hxy
          (Nat.le_of_lt ((List.pairwise_append.1 hsorted).2.2 y hy z hz))⟩
      · exact ⟨y, hy, hxy⟩
    · show (CloseTransaction r.l snap).ids = [] →
        r.seen = [] ∨ activeBroken (CloseTransaction r.l snap) = true
      intro he
      right
      unfold activeBroken
      rw [hact, he]
      rfl

theorem Inv_init (l : LoopDevice) (h : List.Pairwise (fun a b => a < b) l.ids) :
    Run.Inv { l := l, seen := l.ids } :=
  ⟨h, List.Sublist.refl _, fun _ x hx => ⟨x, hx, Nat.le_refl x⟩, fun he => Or.inl he⟩

theorem Inv_foldl (ops : List Op) (r : Run) (h : r.Inv) (hc : ∀ op ∈ ops, op.commits) :
    (ops.foldl Run.step r).Inv := by
  induction ops generalizing r with
  | nil => exact h
  | cons op ops ih =>
    exact ih _ (Inv_step r op h (hc op (List.mem_cons_self _ _)))
      (fun o ho => hc o (List.mem_cons_of_mem _ ho))

theorem run_append (l : LoopDevice) (ops more : List Op) :
    run l (ops ++ more) = more.foldl Run.step (run l ops) := by
  simp [run, List.foldl_append]

theorem step_seen_grows (r : Run) (op : Op) : r.seen <+: (r.step op).seen := by
  cases op with
  | start =>
    unfold Run.step
    rcases StartTransaction_cases r.l with ⟨-, e, he⟩ | ⟨-, hs⟩
    · rw [he]
    · rw [hs]
      exact List.prefix_append _ _
  | close snap => exact List.prefix_refl _

theorem foldl_seen_grows (more : List Op) (r : Run) :
    r.seen <+: (more.foldl Run.step r).seen := by
  induction more generalizing r with
  | nil => exact List.prefix_refl _
  | cons op ops ih => exact (step_seen_grows r op).trans (ih _)

theorem step_absent (r : Run) (op : Op) (h : r.Inv) (hc : op.commits) (x : Nat)
    (hx : x ∈ r.seen) (hn : x ∉ r.l.ids) : x ∉ (r.step op).l.ids := by
  cases op with
  | start =>
    unfold Run.step
    rcases StartTransaction_cases r.l with ⟨-, e, he⟩ | ⟨hb, hs⟩
    · rw [he]
      exact hn
    · rw [hs]
      intro hmem
      rcases List.mem_append.1 hmem with hm | hm
      · exact hn hm
      · have := Inv_nextID r h hb x hx
        rw [List.mem_singleton.1 hm] at this
        exact Nat.lt_irrefl _ this
  | close snap =>
    have hp : snap.InProgress = true := hc
    intro hmem
    have hids : (CloseTransaction r.l snap).ids =
        retention r.l.maxSnaps r.l.active r.l.ids := by
      simp [CloseTransaction, hp]
    have hmem' : x ∈ (CloseTransaction r.l snap).ids := hmem
    rw [hids] at hmem'
    exact hn ((retention_suffix _ _ _).subset hmem')

theorem foldl_absent (more : List Op) (r : Run) (h : r.Inv)
    (hc : ∀ op ∈ more, op.commits) (x : Nat) (hx : x ∈ r.seen) (hn : x ∉ r.l.ids) :
    x ∉ (more.foldl Run.step r).l.ids := by
  induction more generalizing r with
  | nil => exact hn
  | cons op ops ih =>
    have hop := hc op (List.mem_cons_self _ _)
    exact ih _ (Inv_step r op h hop) (fun o ho => hc o (List.mem_cons_of_mem _ ho))
      ((step_seen_grows r op).subset hx) (step_absent r op h hop x hx hn)

/-- C26 as stated fails: over the snapshots 1 to 5, `start_transaction`
assigns the id 6; a `close_transaction` of that snapshot marked not in
progress drops it, leaving the snapshots 1 to 5; the next `start_transaction`
assigns the id 6 again, which is not greater than every id that existed
before. -/
theorem StartTransaction_reuses_dropped_id :
    StartTransaction (sixth 5) =
      .ok ({ sixth 5 with ids := [1, 2, 3, 4, 5, 6] },
        { ID := 6, InProgress := true,
          Path := "/some/root/.snapshots/6/snapshot.img".toList }) ∧
    GetSnapshots (CloseTransaction { sixth 5 with ids := [1, 2, 3, 4, 5, 6] }
      { ID := 6, InProgress := false,
        Path := "/some/root/.snapshots/6/snapshot.img".toList }) = [1, 2, 3, 4, 5] ∧
    StartTransaction (CloseTransaction { sixth 5 with ids := [1, 2, 3, 4, 5, 6] }
      { ID := 6, InProgress := false,
        Path := "/some/root/.snapshots/6/snapshot.img".toList }) =
      .ok ({ sixth 5 with ids := [1, 2, 3, 4, 5, 6] },
        { ID := 6, InProgress := true,
          Path := "/some/root/.snapshots/6/snapshot.img".toList }) ∧
    (run (sixth 5)
      [.start,
       .close { ID := 6, InProgress := false,
                Path := "/some/root/.snapshots/6/snapshot.img".toList },
       .start]).seen = [1, 2, 3, 4, 5, 6, 6] ∧
    ¬ List.Pairwise (fun a b => a < b) (run (sixth 5)
      [.start,
       .close { ID := 6, InProgress := false,
                Path := "/some/root/.snapshots/6/snapshot.img".toList },
       .start]).seen := by
  decide

/-- C26 (amended): `start_transaction` on a snapshotter whose `active` link
is not broken assigns the id 1 when no snapshot exists and otherwise one more
than the greatest existing id, creates that snapshot, marks it in progress and
sets its path to `<root>/.snapshots/<id>/snapshot.img`.  For every sequence of
`start_transaction` operations and `close_transaction` operations on snapshots
in progress, from ascending ids: the ids that have existed so far, in order of
appearance, are strictly ascending, so no id is assigned twice; the current
ids are among them; the id a next `start_transaction` assigns is greater than
every id that has existed so far; the ids seen are kept when the sequence
goes on; and an id that existed and is gone (removed by retention) is in no
later list of snapshots. -/
theorem StartTransaction_ids_increase (l : LoopDevice) (ops : List Op)
    (hs : List.Pairwise (fun a b => a < b) (GetSnapshots l))
    (hc : ∀ op ∈ ops, op.commits) :
    (∀ l0 : LoopDevice, activeBroken l0 = false →
      StartTransaction l0 = .ok ({ l0 with ids := l0.ids ++ [nextID l0.ids] },
        { ID := nextID l0.ids, InProgress := true,
          Path := l0.rootDir ++ "/.snapshots/".toList ++ (Nat.repr (nextID l0.ids)).toList ++
            "/snapshot.img".toList }) ∧
      (GetSnapshots l0 = [] → nextID l0.ids = 1) ∧
      (GetSnapshots l0 ≠ [] →
        ∃ m ∈ GetSnapshots l0, (∀ x ∈ GetSnapshots l0, x ≤ m) ∧ nextID l0.ids = m + 1)) ∧
    List.Pairwise (fun a b => a < b) (run l ops).seen ∧
    List.Sublist (GetSnapshots (run l ops).l) (run l ops).seen ∧
    (∀ (l' : LoopDevice) (snap : Snapshot),
      StartTransaction (run l ops).l = .ok (l', snap) →
        (∀ x ∈ (run l ops).seen, x < snap.ID) ∧
        (run l (ops ++ [.start])).seen = (run l ops).seen ++ [snap.ID] ∧
        GetSnapshots (run l (ops ++ [.start])).l = GetSnapshots (run l ops).l ++ [snap.ID]) ∧
    (∀ more : List Op, (run l ops).seen <+: (run l (ops ++ more)).seen) ∧
    (∀ (more : List Op) (x : Nat), (∀ op ∈ more, op.commits) →
      x ∈ (run l ops).seen → x ∉ GetSnapshots (run l ops).l →
        x ∉ GetSnapshots (run l (ops ++ more)).l) := by
  have hinv : (run l ops).Inv := Inv_foldl ops _ (Inv_init l hs) hc
  refine ⟨?_, hinv.1, hinv.2.1, ?_, ?_, ?_⟩
  · intro l0 hb
    rcases StartTransaction_cases l0 with ⟨hb', -⟩ | ⟨-, h⟩
    · rw [hb] at hb'
      cases hb'
    · exact ⟨h, (nextID_spec l0.ids).1, (nextID_spec l0.ids).2⟩
  · intro l' snap hstart
    rcases StartTransaction_cases (run l ops).l with ⟨-, e, he⟩ | ⟨hb, h⟩
    · rw [he] at hstart
      cases hstart
    · rw [h] at hstart
      simp only [Except.ok.injEq, Prod.mk.injEq] at hstart
      obtain ⟨rfl, rfl⟩ := hstart
      refine ⟨Inv_nextID _ hinv hb, ?_, ?_⟩
      · rw [run_append]
        simp only [List.foldl_cons, List.foldl_nil, Run.step, h]
      · rw [run_append]
        simp only [List.foldl_cons, List.foldl_nil, Run.step, h, GetSnapshots]
  · intro more
    rw [run_append]
    exact foldl_seen_grows more _
  · intro more x hmore hx hn
    rw [run_append]
    exact foldl_absent more _ hinv hmore x hx hn

/-- Witness of C26: over the snapshots 1 to 5 with 5 active and `max_snaps` 4,
a start, the close of snapshot 6 and a second start: the ids seen are 1 to 7
and the snapshots left are 3, 4, 5, 6, 7. -/
theorem StartTransaction_ids_increase_witness :
    (run (sixth 5)
      [.start,
       .close { ID := 6, InProgress := true,
                Path := "/some/root/.snapshots/6/snapshot.img".toList },
       .start]) =
      { l := { rootDir := "/some/root".toList, maxSnaps := 4, ids := [3, 4, 5, 6, 7],
               active := some 6 },
        seen := [1, 2, 3, 4, 5, 6, 7] } ∧
    List.Pairwise (fun a b => a < b) (run (sixth 5)
      [.start,
       .close { ID := 6, InProgress := true,
                Path := "/some/root/.snapshots/6/snapshot.img".toList },
       .start]).seen :=
  ⟨by decide,
    (StartTransaction_ids_increase (sixth 5)
      [.start,
       .close { ID := 6, InProgress := true,
                Path := "/some/root/.snapshots/6/snapshot.img".toList },
       .start] (by decide) (by decide)).2.1⟩

end snapshotter

theorem drop_length_append (a b : Str) : (a ++ b).drop a.length = b := by
  simp

/-- C10 (amended): when `findmnt` succeeds, `InitialFstabData` runs it once and
returns, in the order of the output lines, the concatenation of what each line
contributes.  A line with the four fields SOURCE, TARGET, FSTYPE, OPTIONS
contributes one line `device\ttarget\ttype\tOPTIONS\t0\t0` with the reported
options string character for character when TARGET equals sysroot (target
`/`), when TARGET is sysroot followed by `/rest` (target `/rest`), and, for a
TARGET that does not start with the sysroot string, when TARGET is the
`/run/elemental` directory followed by `/rest` or is the running-state dir
(target verbatim).  The device is the reported SOURCE character for character
when FSTYPE is not `btrfs` and when it is `btrfs` and SOURCE holds no opening
bracket; it is `/dev/xxx` for a `btrfs` SOURCE `/dev/xxx[sub]` with no opening
bracket in `sub`.  A line whose TARGET starts neither with the sysroot string
nor with the `/run/elemental` string and is not the running-state dir
contributes nothing, and neither does a line without exactly four fields. -/
theorem InitialFstabData_lines (k : Constants) (env : Env) (sysroot : Str) (t : Trace)
    (output : Str)
    (hrun : env.Run t "findmnt".toList
      ["-Rrfno".toList, "SOURCE,TARGET,FSTYPE,OPTIONS".toList, "/".toList] = .ok output) :
    InitialFstabData k env sysroot t =
      (t ++ [⟨.Run "findmnt".toList
          ["-Rrfno".toList, "SOURCE,TARGET,FSTYPE,OPTIONS".toList, "/".toList], true⟩],
       .ok ((bufio.ScanLines (strings.TrimSpace output)).map
          (fun text =>
            ((findmnt.line text).map (InitialFstabData.line k sysroot)).getD [])).flatten) ∧
    (∀ text : Str, (strings.Fields text).length ≠ 4 →
      ((findmnt.line text).map (InitialFstabData.line k sysroot)).getD [] = []) ∧
    (∀ text source target fstype options : Str,
      strings.Fields text = [source, target, fstype, options] →
      (strings.HasPrefix target sysroot = false →
        strings.HasPrefix target k.RunElementalDir = false → target ≠ k.RunningStateDir →
        ((findmnt.line text).map (InitialFstabData.line k sysroot)).getD [] = []) ∧
      (∀ target' : Str,
        (target = sysroot ∧ target' = "/".toList) ∨
        (∃ rest, target = sysroot ++ '/' :: rest ∧ target' = '/' :: rest) ∨
        (strings.HasPrefix target sysroot = false ∧
          ((∃ rest, target = k.RunElementalDir ++ '/' :: rest) ∨
            target = k.RunningStateDir) ∧ target' = target) →
        ∃ device type : Str,
          ((findmnt.line text).map (InitialFstabData.line k sysroot)).getD [] =
            device ++ "\t".toList ++ target' ++ "\t".toList ++ type ++ "\t".toList ++
              options ++ "\t0\t0\n".toList ∧
          (fstype ≠ "btrfs".toList → device = source) ∧
          (fstype = "btrfs".toList → '[' ∉ source → device = source) ∧
          (fstype = "btrfs".toList → ∀ xxx sub : Str,
            source = "/dev/".toList ++ xxx ++ '[' :: (sub ++ [']']) → '[' ∉ sub →
            device = "/dev/".toList ++ xxx))) := by
  refine ⟨?_, ?_, ?_⟩
  · unfold InitialFstabData findmnt Runner.Run
    rw [hrun]
    simp only [InitialFstabData_loop_eq, List.nil_append, flatten_map_filterMap]
  · intro text hlen
    rw [findmnt_line_of_length_ne text hlen]
    rfl
  · intro text source target fstype options hf
    have hline := InitialFstabData_line_eq k sysroot text
    rw [hf] at hline
    simp only [initialLine] at hline
    rw [hline]
    refine ⟨?_, ?_⟩
    · intro h1 h2 h3
      have hne : target ≠ sysroot := by
        intro heq
        rw [heq] at h1
        have := HasPrefix_append sysroot []
        rw [List.append_nil, h1] at this
        cases this
      rw [if_neg hne, if_neg (by simp [h1]), if_neg (by simp [h2, h3])]
    · intro target' hcase
      obtain ⟨⟨device, hl, hd1, hd2, hd3⟩, -, -⟩ :=
        findmnt_btrfs_source text source target fstype options hf
      have hdev : recordedSource source fstype = device := by
        have h1 := findmnt_line_of_fields text source target fstype options hf
        rw [h1] at hl
        injection hl with hl
        injection hl with hl
      refine ⟨device, "auto".toList, ?_, hd1, hd2, hd3⟩
      rw [hdev]
      rcases hcase with ⟨h, rfl⟩ | ⟨rest, h, rfl⟩ | ⟨hno, h, rfl⟩
      · rw [if_pos h]
        simp [FstabEntry.line]
      · have hne : target ≠ sysroot := by
          intro heq
          have hlen := congrArg List.length heq
          rw [h] at hlen
          simp at hlen
        have hpre : strings.HasPrefix target sysroot = true := by
          rw [h]
          exact HasPrefix_append sysroot _
        rw [if_neg hne, if_pos hpre, h, drop_length_append]
        simp [FstabEntry.line]
      · have hne : target' ≠ sysroot := by
          intro heq
          rw [heq] at hno
          have := HasPrefix_append sysroot []
          rw [List.append_nil, hno] at this
          cases this
        have hyes : strings.HasPrefix target' k.RunElementalDir = true ∨
            target' = k.RunningStateDir := by
          rcases h with ⟨rest, h⟩ | h
          · left
            rw [h]
            exact HasPrefix_append _ _
          · exact Or.inr h
        rw [if_neg hne, if_neg (by simp [hno]), if_pos hyes]
        simp [FstabEntry.line]

/-- Witness of C10: a root filesystem, a mount below sysroot, an overlay
workspace below `/run/elemental` and an unrelated mount. -/
theorem InitialFstabData_lines_witness :
    InitialFstabData elementalConstants
        (Env.succeed
          "/dev/loop0 /sysroot ext2 ro,relatime\n/dev/sda3 /sysroot/oem ext4 rw\ntmpfs /run/elemental/overlay tmpfs rw,size=25%\nproc /proc proc rw\n".toList)
        "/sysroot".toList [] =
      ([⟨.Run "findmnt".toList
          ["-Rrfno".toList, "SOURCE,TARGET,FSTYPE,OPTIONS".toList, "/".toList], true⟩],
       .ok "/dev/loop0\t/\tauto\tro,relatime\t0\t0\n/dev/sda3\t/oem\tauto\trw\t0\t0\ntmpfs\t/run/elemental/overlay\tauto\trw,size=25%\t0\t0\n".toList) :=
  (InitialFstabData_lines elementalConstants (Env.succeed _) "/sysroot".toList [] _ rfl).1.trans
    (by decide)

/-- C10 as stated fails: the btrfs root filesystem that `findmnt` reports with
the source `/dev/sda2[/@/.snapshots/1/snapshot]` contributes a line whose
device is `/dev/sda2`, not the reported source character for character. -/
theorem InitialFstabData_btrfs_source_rewritten :
    strings.Fields "/dev/sda2[/@/.snapshots/1/snapshot] /sysroot btrfs ro".toList =
      ["/dev/sda2[/@/.snapshots/1/snapshot]".toList, "/sysroot".toList, "btrfs".toList,
       "ro".toList] ∧
    (InitialFstabData elementalConstants
        (Env.succeed "/dev/sda2[/@/.snapshots/1/snapshot] /sysroot btrfs ro".toList)
        "/sysroot".toList []).2 = .ok "/dev/sda2\t/\tauto\tro\t0\t0\n".toList ∧
    "/dev/sda2".toList ≠ "/dev/sda2[/@/.snapshots/1/snapshot]".toList := by
  decide

/-- The code at targets that share a string prefix with a directory without
lying below it: with sysroot `/sysroot`, the mount at `/sysroot2` contributes a
line with the target `2`, and the mount at `/run/elemental2` contributes a line
with its target verbatim.  Neither target is sysroot, a path below sysroot, a
path below `/run/elemental` or the running-state dir. -/
theorem InitialFstabData_string_prefix :
    (InitialFstabData elementalConstants (Env.succeed "/dev/sda1 /sysroot2 ext4 rw".toList)
        "/sysroot".toList []).2 = .ok "/dev/sda1\t2\tauto\trw\t0\t0\n".toList ∧
    (InitialFstabData elementalConstants
        (Env.succeed "/dev/sda1 /run/elemental2 ext4 rw".toList)
        "/sysroot".toList []).2 = .ok "/dev/sda1\t/run/elemental2\tauto\trw\t0\t0\n".toList ∧
    (∀ target ∈ ["/sysroot2".toList, "/run/elemental2".toList],
      target ≠ "/sysroot".toList ∧
      strings.HasPrefix target "/sysroot/".toList = false ∧
      strings.HasPrefix target (elementalConstants.RunElementalDir ++ "/".toList) = false ∧
      target ≠ elementalConstants.RunElementalDir ∧
      target ≠ elementalConstants.RunningStateDir) := by
  decide

end Elemental
